import Mathlib

/-!
# Row-level authorization of SELECT statements (package `db`)

A verification development of `be/internal/db`: the policy table
(`getAuthorizationColumn`), the relation model (`table_info.go`) and the AST
walker (`authorization.go`).

## How the Go program is embedded

* The PostgreSQL parse tree (`pgquery.Node`) is the inductive type `Node`; a
  nil `*Node` is `none : Option Node`.
* A function that returns `(value, error)` returns `Except Fault value`.
  `Fault.error` is a returned Go `error`; `Fault.runtimePanic` is a run-time
  panic (index out of range, nil dereference, write to a nil Go map);
  `Fault.stackOverflow` is unbounded recursion; `Fault.cycle` marks a relation
  value whose column is bound to the virtual relation that owns it, a cycle
  that a value cannot unfold.
* `*om.OrderedMap[string, V]` is an association list in insertion order with
  unique keys (`omGet`, `omSet`, `omDelete`); a nil map pointer is `none`.
* Relations are pointers (`*TableInfoV2`) in Go.  Two representations are used.
  - `TableInfoV2` is a relation as a value: the graph reachable from the
    pointer, unfolded the way `Clone` traverses it.  `authorizeAExpr` and
    `authorizeBoolExpr` start by deep-copying their input
    (`CloneUnAuthorizedTables`) and only ever write to the copy, so they are
    functions on such values.
  - `Heap` is a store of relation cells (`TableObj`) and of ordered maps,
    addressed by index.  The part of the walker that shares and updates
    relations in place (`authorizeRangeVar`, `MergeMaps`, `authorizeJoinExpr`,
    `authorizeSelectStmt`, `createVirtualTableForAlias`) runs on the heap.
-/

namespace Db

/-! ## Faults -/

/-- Ways in which a call fails to produce a result. -/
inductive Fault where
  | error (msg : String)
  | runtimePanic (msg : String)
  | stackOverflow
  | cycle
deriving DecidableEq

/-! ## Caller context (`user_info.go`) -/

/-- Go `UserInfo`. -/
structure UserInfo where
  ID : Int
  Role : String
deriving DecidableEq

/-- Go `StudentInfo`. -/
structure StudentInfo extends UserInfo where
  AdministrativeClassID : Int
  EnrolledCourseClassIDs : List Int
  EnrolledScheduleIDs : List Int
  AdvisorProfessorID : Int
  CourseInstructorIDs : List Int
deriving DecidableEq

/-- Go `ProfessorInfo`. -/
structure ProfessorInfo extends UserInfo where
  AdvisedClassIDs : List Int
  TaughtCourseClassIDs : List Int
  TaughtScheduleIDs : List Int
  AdvisedStudentIDs : List Int
  TaughtStudentIDs : List Int
deriving DecidableEq

/-- Go `AdminInfo`. -/
structure AdminInfo extends UserInfo
deriving DecidableEq

/-- The interface `UserContext` with its three implementations: the dynamic
type is the constructor, the role string is the embedded `UserInfo.Role`. -/
inductive UserContext where
  | student (s : StudentInfo)
  | professor (p : ProfessorInfo)
  | admin (a : AdminInfo)
deriving DecidableEq

/-- Go `(*UserInfo).GetRole` through the embedding. -/
def UserContext.GetRole : UserContext → String
  | .student s => s.Role
  | .professor p => p.Role
  | .admin a => a.Role

/-- Go `(*UserInfo).GetID` through the embedding. -/
def UserContext.GetID : UserContext → Int
  | .student s => s.ID
  | .professor p => p.ID
  | .admin a => a.ID

/-! ## The parse tree (`pgquery`) -/

/-- Enumeration `pgquery.BoolExprType`. -/
inductive BoolExprType where
  | BOOL_EXPR_TYPE_UNDEFINED | AND_EXPR | OR_EXPR | NOT_EXPR
deriving DecidableEq

/-- Enumeration `pgquery.A_Expr_Kind`. -/
inductive A_Expr_Kind where
  | A_EXPR_KIND_UNDEFINED | AEXPR_OP | AEXPR_OP_ANY | AEXPR_OP_ALL | AEXPR_DISTINCT
  | AEXPR_NOT_DISTINCT | AEXPR_NULLIF | AEXPR_IN | AEXPR_LIKE | AEXPR_ILIKE | AEXPR_SIMILAR
  | AEXPR_BETWEEN | AEXPR_NOT_BETWEEN | AEXPR_BETWEEN_SYM | AEXPR_NOT_BETWEEN_SYM
deriving DecidableEq

/-- Enumeration `pgquery.JoinType`. -/
inductive JoinType where
  | JOIN_TYPE_UNDEFINED | JOIN_INNER | JOIN_LEFT | JOIN_FULL | JOIN_RIGHT | JOIN_SEMI
  | JOIN_ANTI | JOIN_RIGHT_ANTI | JOIN_UNIQUE_OUTER | JOIN_UNIQUE_INNER
deriving DecidableEq

/-- Go `(JoinType).String`: the name of the enumeration value, which `%v`
prints. -/
def JoinType.String : JoinType → String
  | .JOIN_TYPE_UNDEFINED => "JOIN_TYPE_UNDEFINED"
  | .JOIN_INNER => "JOIN_INNER"
  | .JOIN_LEFT => "JOIN_LEFT"
  | .JOIN_FULL => "JOIN_FULL"
  | .JOIN_RIGHT => "JOIN_RIGHT"
  | .JOIN_SEMI => "JOIN_SEMI"
  | .JOIN_ANTI => "JOIN_ANTI"
  | .JOIN_RIGHT_ANTI => "JOIN_RIGHT_ANTI"
  | .JOIN_UNIQUE_OUTER => "JOIN_UNIQUE_OUTER"
  | .JOIN_UNIQUE_INNER => "JOIN_UNIQUE_INNER"

/-- Enumeration `pgquery.SetOperation`. -/
inductive SetOperation where
  | SET_OPERATION_UNDEFINED | SETOP_NONE | SETOP_UNION | SETOP_INTERSECT | SETOP_EXCEPT
deriving DecidableEq

/-- The value of a `pgquery.A_Const`: one of the five `val` alternatives, or
`isnull` with no value. -/
inductive A_Const where
  | ival (v : Int)
  | fval (v : String)
  | boolval (v : Bool)
  | sval (v : String)
  | bsval (v : String)
  | isnull
deriving DecidableEq

/-- Go `pgquery.Alias` over a node type: `Aliasname` and `Colnames`. -/
structure AliasOf (N : Type) where
  Aliasname : String
  Colnames : List N

mutual
/-- The node kinds of `pgquery.Node` the walker distinguishes.  `other` stands
for every node kind that has no constructor of its own (function call, NULL
test, CASE, range function, ...); `tag` only names it. -/
inductive Node : Type where
  | selectStmt (s : SelectStmt)
  | boolExpr (Boolop : BoolExprType) (Args : List Node)
  | aExpr (Kind : A_Expr_Kind) (Name : List Node) (Lexpr Rexpr : Option Node)
  | subLink (Subselect : Option Node)
  | joinExpr (Jointype : JoinType) (IsNatural : Bool) (Larg Rarg : Option Node)
      (UsingClause : List Node) (Alias : Option (AliasOf Node)) (Quals : Option Node)
  | fromExpr (Fromlist : List Node) (Quals : Option Node)
  | rangeVar (Relname : String) (Alias : Option (AliasOf Node))
  | rangeSubselect (Lateral : Bool) (Subquery : Option Node) (Alias : Option (AliasOf Node))
  | withClause (Ctes : List Node)
  | commonTableExpr (Ctename : String) (Ctequery : Option Node)
  | columnRef (Fields : List Node)
  | aConst (c : A_Const)
  | string (Sval : String)
  | integer (Ival : Int)
  | float (Fval : String)
  | aStar
  | rowExpr (Args : List Node)
  | list (Items : List Node)
  | resTarget (Name : String) (Val : Option Node)
  | other (tag : String)
/-- Go `pgquery.SelectStmt`, with the fields the walker reads.  `IntoClause`
is whether the INTO clause is present; `WithClause` is the list of CTEs when a
WITH clause is present; `TargetList` is empty exactly when the Go slice is nil. -/
inductive SelectStmt : Type where
  | mk (IntoClause : Bool) (WithClause : Option (List Node)) (Op : SetOperation)
      (Larg Rarg : Option SelectStmt) (FromClause : List Node)
      (WhereClause HavingClause : Option Node) (TargetList : List Node)
end

/-- Go `pgquery.Alias`. -/
abbrev Alias := AliasOf Node

/-- Go `(*Node).GetString_`: the string payload when the node is a `String`. -/
def Node.GetString_ : Node → Option String
  | .string s => some s
  | _ => none

/-- Go `(*Node).GetColumnRef`: the fields when the node is a `ColumnRef`. -/
def Node.GetColumnRef : Node → Option (List Node)
  | .columnRef fs => some fs
  | _ => none

/-- Go `(*Node).GetAConst`. -/
def Node.GetAConst : Node → Option A_Const
  | .aConst c => some c
  | _ => none

/-- Go `(*Node).GetRowExpr`: the arguments when the node is a `RowExpr`. -/
def Node.GetRowExpr : Node → Option (List Node)
  | .rowExpr args => some args
  | _ => none

/-- Go `(*Node).GetList`: the items when the node is a `List`. -/
def Node.GetList : Node → Option (List Node)
  | .list items => some items
  | _ => none

/-- Whether `(*Node).GetAStar` is non-nil. -/
def Node.isAStar : Node → Bool
  | .aStar => true
  | _ => false

/-- Go `getStringValueFromNode`. -/
def getStringValueFromNode : Option Node → String
  | none => ""
  | some (.string s) => s
  | some (.integer i) => toString i
  | some (.float f) => f
  | some (.columnRef fields) => ".".intercalate (fields.filterMap Node.GetString_)
  | some (.aConst _) => ""
  | some _ => ""

/-! ## Helpers (`utils.go`, `db.go`) -/

/-- Go `ContainsInt`. -/
def ContainsInt (slice : List Int) (val : Int) : Bool :=
  slice.any (fun item => item == val)

/-- Go `ContainsString`. -/
def ContainsString (slice : List String) (val : String) : Bool :=
  slice.any (fun item => item == val)

/-- Go `isPublicTable` (`db.go`). -/
def isPublicTable (tableName : String) : Bool :=
  ["faculty", "program", "course", "course_program", "course_class",
    "course_class_schedule"].any (fun table => table == tableName)

/-! ## Ordered maps (`orderedmap/v3`) -/

/-- A non-nil `*om.OrderedMap[string, V]`: the entries in insertion order. -/
abbrev OrderedMap (V : Type) := List (String × V)

/-- `Get`: the value stored under `k`, if any. -/
def omGet {V : Type} : OrderedMap V → String → Option V
  | [], _ => none
  | (k', v) :: rest, k => if k' = k then some v else omGet rest k

/-- `Set`: replace the value of an existing key in place, or append a new entry. -/
def omSet {V : Type} : OrderedMap V → String → V → OrderedMap V
  | [], k, v => [(k, v)]
  | (k', v') :: rest, k, v => if k' = k then (k', v) :: rest else (k', v') :: omSet rest k v

/-- `Delete`: remove the entry stored under `k`. -/
def omDelete {V : Type} (m : OrderedMap V) (k : String) : OrderedMap V :=
  m.filter (fun e => e.1 != k)

/-- Whether `k` is a key of the map. -/
def omHas {V : Type} (m : OrderedMap V) (k : String) : Bool :=
  m.any (fun e => e.1 == k)

/-! ## The policy table (`getAuthorizationColumn`) -/

/-- Go `AuthorizationContext`.  `Conditions` is `none` when the Go field is a
nil map; `AuthorizeColumns` is empty when the Go slice is nil. -/
structure AuthorizationContext where
  Conditions : Option (OrderedMap (List Int)) := none
  AuthorizeColumns : List String := []
  Bypass : Bool := false
deriving DecidableEq

/-- The recipe the Go code builds for one authorizing column. -/
def singleColumnContext (col : String) (values : List Int) : AuthorizationContext :=
  { AuthorizeColumns := [col], Conditions := some (omSet [] col values) }

/-- Go `getAuthorizationColumn`. -/
def getAuthorizationColumn (name : String) (userInfo : UserContext) : AuthorizationContext :=
  if userInfo.GetRole = "admin" then { Bypass := true }
  else if name = "program" ∨ name = "semester" ∨ name = "course" ∨ name = "course_program"
      ∨ name = "course_class" ∨ name = "course_class_schedule"
      ∨ name = "course_schedule_instructor" ∨ name = "faculty" then { Bypass := true }
  else if userInfo.GetRole = "student" then
    match userInfo with
    | .student studentInfo =>
      if name = "professor" then
        singleColumnContext "id" (studentInfo.CourseInstructorIDs ++ [studentInfo.AdvisorProfessorID])
      else if name = "student" then singleColumnContext "id" [studentInfo.ID]
      else if name = "administrative_class" then
        singleColumnContext "id" [studentInfo.AdministrativeClassID]
      else if name = "course_class_enrollment" then singleColumnContext "student_id" [studentInfo.ID]
      else if name = "student_course_class_schedule" then
        singleColumnContext "student_id" [studentInfo.ID]
      else if name = "student_scholarship" then singleColumnContext "student_id" [studentInfo.ID]
      else {}
    | _ => {}
  else if userInfo.GetRole = "professor" then
    match userInfo with
    | .professor professorInfo =>
      if name = "professor" then singleColumnContext "id" [professorInfo.ID]
      else if name = "administrative_class" then
        { AuthorizeColumns := ["id", "advisor_id"],
          Conditions := some (omSet (omSet [] "advisor_id" [professorInfo.ID]) "id"
            professorInfo.AdvisedClassIDs) }
      else if name = "course_class_enrollment" then
        { AuthorizeColumns := ["course_class_id", "student_id"],
          Conditions := some (omSet (omSet [] "course_class_id" professorInfo.TaughtCourseClassIDs)
            "student_id" professorInfo.AdvisedStudentIDs) }
      else if name = "student_course_class_schedule" then
        { AuthorizeColumns := ["course_class_id", "student_id"],
          Conditions := some (omSet (omSet [] "course_class_id" professorInfo.TaughtCourseClassIDs)
            "student_id" professorInfo.AdvisedStudentIDs) }
      else if name = "student" then singleColumnContext "id" professorInfo.TaughtStudentIDs
      else {}
    | _ => {}
  else {}

/-! ## Relations as values (`table_info.go`) -/

mutual
/-- A relation (`*TableInfoV2`) as a value.  `Columns` and
`UnAuthorizedTables` are `none` when the Go field is a nil map. -/
inductive TableInfoV2 : Type where
  | mk (Name : String) (Columns : Option (List (String × ColumnInfo))) (Alias : String)
      (HasStar : Bool) (UnAuthorizedTables : Option (List (String × TableInfoV2)))
      (Authorized : Bool) (IsDatabase : Bool)
/-- Go `ColumnInfo`. -/
inductive ColumnInfo : Type where
  | mk (Name : String) (SourceTable : SourceRef)
/-- The pointer `ColumnInfo.SourceTable`: nil, the relation that owns the
column (what `Clone` installs in every column of a base relation), or another
relation. -/
inductive SourceRef : Type where
  | nil
  | self
  | table (t : TableInfoV2)
end

/-- Field `Name`. -/
def TableInfoV2.Name : TableInfoV2 → String
  | .mk n _ _ _ _ _ _ => n

/-- Field `Columns`. -/
def TableInfoV2.Columns : TableInfoV2 → Option (List (String × ColumnInfo))
  | .mk _ c _ _ _ _ _ => c

/-- Field `Alias`. -/
def TableInfoV2.Alias : TableInfoV2 → String
  | .mk _ _ a _ _ _ _ => a

/-- Field `HasStar`. -/
def TableInfoV2.HasStar : TableInfoV2 → Bool
  | .mk _ _ _ h _ _ _ => h

/-- Field `UnAuthorizedTables`. -/
def TableInfoV2.UnAuthorizedTables : TableInfoV2 → Option (List (String × TableInfoV2))
  | .mk _ _ _ _ u _ _ => u

/-- Field `Authorized`. -/
def TableInfoV2.Authorized : TableInfoV2 → Bool
  | .mk _ _ _ _ _ a _ => a

/-- Field `IsDatabase`. -/
def TableInfoV2.IsDatabase : TableInfoV2 → Bool
  | .mk _ _ _ _ _ _ d => d

/-- Assignment `table.Authorized = v`. -/
def TableInfoV2.setAuthorized : TableInfoV2 → Bool → TableInfoV2
  | .mk n c a h u _ d, v => .mk n c a h u v d

/-- Assignment `table.UnAuthorizedTables = u`. -/
def TableInfoV2.setUnAuthorizedTables : TableInfoV2 → Option (List (String × TableInfoV2)) →
    TableInfoV2
  | .mk n c a h _ au d, u => .mk n c a h u au d

/-- Field `Name` of a column. -/
def ColumnInfo.Name : ColumnInfo → String
  | .mk n _ => n

/-- Field `SourceTable` of a column. -/
def ColumnInfo.SourceTable : ColumnInfo → SourceRef
  | .mk _ s => s

/-- A relation map by value: a non-nil `*om.OrderedMap[string, *TableInfoV2]`. -/
abbrev TableMap := OrderedMap TableInfoV2

mutual
/-- Go `(*TableInfoV2).Clone`.  Every column of a base relation is rebound to
the copy itself (`col.Clone(clone)`); a column of a virtual relation gets a
copy of its source relation (`col.Clone(nil)`), so a column bound to the
virtual relation that owns it never finishes. -/
def TableInfoV2.Clone : TableInfoV2 → Except Fault TableInfoV2
  | .mk name cols als hasStar unAuth authorized isDb => do
      let cols' ← cloneColumnsOpt isDb cols
      let unAuth' ← cloneTablesOpt unAuth
      pure (.mk name cols' als hasStar unAuth' authorized isDb)
/-- The loop over `t.Columns` of `Clone`, when the map is not nil. -/
def cloneColumnsOpt (isDb : Bool) : Option (List (String × ColumnInfo)) →
    Except Fault (Option (List (String × ColumnInfo)))
  | none => pure none
  | some cs => do
      let cs' ← cloneColumns isDb cs
      pure (some cs')
/-- The loop over `t.Columns` of `Clone`. -/
def cloneColumns (isDb : Bool) : List (String × ColumnInfo) →
    Except Fault (List (String × ColumnInfo))
  | [] => pure []
  | (colAlias, col) :: rest => do
      let col' ← cloneColumn isDb col
      let rest' ← cloneColumns isDb rest
      pure ((colAlias, col') :: rest')
/-- Go `(*ColumnInfo).Clone`, called with the copy for a base relation and
with nil for a virtual one. -/
def cloneColumn (isDb : Bool) : ColumnInfo → Except Fault ColumnInfo
  | .mk name src =>
      if isDb then pure (.mk name .self)
      else do
        let src' ← cloneSource src
        pure (.mk name src')
/-- The call `c.SourceTable.Clone()` inside `(*ColumnInfo).Clone`. -/
def cloneSource : SourceRef → Except Fault SourceRef
  | .nil => pure .nil
  | .self => throw .stackOverflow
  | .table t => do
      let t' ← t.Clone
      pure (.table t')
/-- The loop over `t.UnAuthorizedTables` of `Clone`, when the map is not nil. -/
def cloneTablesOpt : Option (List (String × TableInfoV2)) →
    Except Fault (Option (List (String × TableInfoV2)))
  | none => pure none
  | some ts => do
      let ts' ← cloneTables ts
      pure (some ts')
/-- The loop of `CloneUnAuthorizedTables`, and the loop over
`t.UnAuthorizedTables` of `Clone`. -/
def cloneTables : List (String × TableInfoV2) → Except Fault (List (String × TableInfoV2))
  | [] => pure []
  | (key, t) :: rest => do
      let t' ← t.Clone
      let rest' ← cloneTables rest
      pure ((key, t') :: rest')
end

/-- Go `CloneUnAuthorizedTables` (`utils.go`). -/
def CloneUnAuthorizedTables (src : Option TableMap) : Except Fault (Option TableMap) :=
  cloneTablesOpt src

/-- What `getRealColumnInfoFromAlias` returns: the column it found in a base
relation, with the relation its `SourceTable` points to. -/
structure ResolvedColumn where
  Name : String
  SourceTable : Option TableInfoV2

/-- The relation a column's `SourceTable` points to, for a column of `owner`. -/
def SourceRef.deref (owner : TableInfoV2) : SourceRef → Option TableInfoV2
  | .nil => none
  | .self => some owner
  | .table t => some t

mutual
/-- Go `(*TableInfoV2).getRealColumnInfoFromAlias`: follow the column
bindings through the virtual relations down to a base relation. -/
def TableInfoV2.getRealColumnInfoFromAlias : TableInfoV2 → String →
    Except Fault (Option ResolvedColumn)
  | .mk name cols als hasStar unAuth authorized isDb, colAlias =>
      match cols with
      | none => throw (.runtimePanic "nil map")
      | some cs =>
        if isDb then
          match omGet cs colAlias with
          | none => pure none
          | some col =>
              let owner := TableInfoV2.mk name cols als hasStar unAuth authorized isDb
              pure (some (ResolvedColumn.mk col.Name (SourceRef.deref owner col.SourceTable)))
        else resolveThroughColumns cs colAlias
/-- One turn of the loop of `getRealColumnInfoFromAlias` in a virtual
relation: `Columns.Get(colAlias)`, then on to the source relation. -/
def resolveThroughColumns : List (String × ColumnInfo) → String →
    Except Fault (Option ResolvedColumn)
  | [], _ => pure none
  | (a, .mk name src) :: rest, colAlias =>
      if a = colAlias then
        match src with
        | .nil => pure none
        | .self => throw .cycle
        | .table t => t.getRealColumnInfoFromAlias name
      else resolveThroughColumns rest colAlias
end

/-- Go `(*TableInfoV2).getRealColName`. -/
def TableInfoV2.getRealColName (t : TableInfoV2) (colAlias : String) : Except Fault String := do
  match (← t.getRealColumnInfoFromAlias colAlias) with
  | none => pure ""
  | some resolvedCol => pure resolvedCol.Name

mutual
/-- The assignment `resolvedCol.SourceTable.Authorized = true` for the column
`getRealColumnInfoFromAlias(colAlias)` resolves to: the relation value with
that one flag set. -/
def TableInfoV2.markResolvedSource : TableInfoV2 → String → TableInfoV2
  | .mk name cols als hasStar unAuth authorized isDb, colAlias =>
      match cols with
      | none => .mk name cols als hasStar unAuth authorized isDb
      | some cs =>
        if isDb then
          match omGet cs colAlias with
          | some (.mk _ .self) => .mk name cols als hasStar unAuth true isDb
          | some (.mk _ (.table _)) =>
              .mk name (some (markColumnSource cs colAlias)) als hasStar unAuth authorized isDb
          | _ => .mk name cols als hasStar unAuth authorized isDb
        else .mk name (some (markThroughColumns cs colAlias)) als hasStar unAuth authorized isDb
/-- Follow the binding of `colAlias` in a virtual relation and mark below it. -/
def markThroughColumns : List (String × ColumnInfo) → String → List (String × ColumnInfo)
  | [], _ => []
  | (a, .mk name src) :: rest, colAlias =>
      if a = colAlias then
        match src with
        | .table t => (a, .mk name (.table (t.markResolvedSource name))) :: rest
        | _ => (a, .mk name src) :: rest
      else (a, .mk name src) :: markThroughColumns rest colAlias
/-- Set the flag of the relation the column `colAlias` of a base relation is
bound to, when that is another relation. -/
def markColumnSource : List (String × ColumnInfo) → String → List (String × ColumnInfo)
  | [], _ => []
  | (a, .mk name src) :: rest, colAlias =>
      if a = colAlias then
        match src with
        | .table t => (a, .mk name (.table (t.setAuthorized true))) :: rest
        | _ => (a, .mk name src) :: rest
      else (a, .mk name src) :: markColumnSource rest colAlias
end

/-- Go `isAuthorizedExpression`.  `columnRefFields` are the fields of the
column reference; `aConst` is `none` when the Go pointer is nil (an IN item
that is not a constant).  Reading `aConst.GetIval().Ival` of a constant that
is not an integer dereferences nil. -/
def isAuthorizedExpression (columnRefFields : List Node) (aConst : Option A_Const)
    (targetTable realUnAuthTable : TableInfoV2) (userInfo : UserContext) : Except Fault Bool := do
  let (tableAliasColumnRef, columnName) :=
    match columnRefFields with
    | [f0] => (targetTable.Alias, getStringValueFromNode (some f0))
    | [f0, f1] => (getStringValueFromNode (some f0), getStringValueFromNode (some f1))
    | _ => ("", "")
  let authContext := getAuthorizationColumn realUnAuthTable.Name userInfo
  match (← targetTable.getRealColumnInfoFromAlias columnName) with
  | none => pure authContext.Bypass
  | some columnInfo =>
    if columnInfo.SourceTable.isNone then pure authContext.Bypass
    else if !(tableAliasColumnRef == targetTable.Alias)
        || !ContainsString authContext.AuthorizeColumns columnInfo.Name then
      pure authContext.Bypass
    else
      match authContext.Conditions with
      | none => throw (.runtimePanic "nil map")
      | some conditions =>
        let expectedValues := (omGet conditions columnInfo.Name).getD []
        match aConst with
        | some (.ival v) =>
          if !ContainsInt expectedValues v then pure authContext.Bypass else pure true
        | _ => throw (.runtimePanic "nil pointer dereference")

/-! ## Results and the loops of `authorizeAExpr` over a cloned map -/

/-- Go `AuthorizationResult`, with the relation map by value. -/
structure AuthorizationResult where
  Authorized : Bool
  Tables : Option TableMap
  TargetList : Option (List Node) := none

/-- The loop over `table.UnAuthorizedTables` in the virtual branch of
`authorizeAExpr`: the list `tablesToRemove`. -/
def collectTablesToRemove (columnRefFields : List Node) (aConst : Option A_Const)
    (table : TableInfoV2) (userInfo : UserContext) :
    List (String × TableInfoV2) → Except Fault (List String)
  | [] => pure []
  | (unAuthAlias, unauthorizedTable) :: rest => do
      let ok ← isAuthorizedExpression columnRefFields aConst table unauthorizedTable userInfo
      let more ← collectTablesToRemove columnRefFields aConst table userInfo rest
      pure (if ok then unAuthAlias :: more else more)

/-- The body of the loop over `resultTables` in `authorizeAExpr` (both for
`AEXPR_OP` and `AEXPR_IN`), for one relation. -/
def authorizeTableByPredicate (columnRefFields : List Node) (aConst : Option A_Const)
    (userInfo : UserContext) (table : TableInfoV2) : Except Fault TableInfoV2 :=
  if table.IsDatabase then
    if table.Authorized then pure table
    else do
      let ok ← isAuthorizedExpression columnRefFields aConst table table userInfo
      pure (if ok then table.setAuthorized true else table)
  else
    match table.UnAuthorizedTables with
    | none => throw (.runtimePanic "nil map")
    | some unAuth => do
      let tablesToRemove ← collectTablesToRemove columnRefFields aConst table userInfo unAuth
      let unAuth' := tablesToRemove.foldl omDelete unAuth
      let table' := table.setUnAuthorizedTables (some unAuth')
      pure (if unAuth'.length = 0 then table'.setAuthorized true else table')

/-- Apply a per-relation update to every relation of a map, in order. -/
def mapTables (f : TableInfoV2 → Except Fault TableInfoV2) : TableMap → Except Fault TableMap
  | [] => pure []
  | (key, table) :: rest => do
      let table' ← f table
      let rest' ← mapTables f rest
      pure ((key, table') :: rest')

/-- The loop over `resultTables` in `authorizeAExpr`. -/
def authorizeTablesByPredicate (columnRefFields : List Node) (aConst : Option A_Const)
    (userInfo : UserContext) (resultTables : TableMap) : Except Fault TableMap :=
  mapTables (authorizeTableByPredicate columnRefFields aConst userInfo) resultTables

/-- The closing loop of `authorizeAExpr` and of `authorizeBoolExpr`:
`authorized = authorized && ...` over the relations of the map, where `&&`
does not evaluate its right operand once `authorized` is false. -/
def foldAuthorized : Bool → TableMap → Except Fault Bool
  | authorized, [] => pure authorized
  | authorized, (_, table) :: rest =>
      if table.IsDatabase then foldAuthorized (authorized && table.Authorized) rest
      else if authorized then
        match table.UnAuthorizedTables with
        | none => throw (.runtimePanic "nil map")
        | some unAuth => foldAuthorized (unAuth.length = 0) rest
      else foldAuthorized false rest

/-- Go `extractColumnRefAndConst`, for non-nil operands. -/
def extractColumnRefAndConst (lexpr rexpr : Node) : Option (List Node) × Option A_Const :=
  match lexpr.GetColumnRef, rexpr.GetAConst with
  | some columnRef, some aConst => (some columnRef, some aConst)
  | _, _ =>
    match lexpr.GetAConst, rexpr.GetColumnRef with
    | some aConst, some columnRef => (some columnRef, some aConst)
    | _, _ => (none, none)

/-! ## `UpdateUnauthorizedTablesByUnion` and `...ByIntersection` -/

/-- A Go `map[string]bool`: a missing key reads as false. -/
abbrev FlagMap := List (String × Bool)

/-- A Go `map[string]map[string]bool`. -/
abbrev FlagTable := List (String × FlagMap)

/-- Read `m[a][b]`; reading a missing key, also of a nil inner map, is false. -/
def FlagTable.get (m : FlagTable) (a b : String) : Bool :=
  match omGet m a with
  | none => false
  | some inner => (omGet inner b).getD false

/-- Write `m[a][b] = v`; writing into a missing (nil) inner map panics. -/
def FlagTable.set (m : FlagTable) (a b : String) (v : Bool) : Except Fault FlagTable :=
  match omGet m a with
  | none => throw (.runtimePanic "assignment to entry in nil map")
  | some inner => pure (omSet m a (omSet inner b v))

/-- The first loop of both update functions: `m[table.Alias] = make(...)`. -/
def initFlagTable : TableMap → FlagTable → FlagTable
  | [], acc => acc
  | (_, table) :: rest, acc => initFlagTable rest (omSet acc table.Alias [])

/-- Union, inner loop over `table.UnAuthorizedTables` of a virtual relation. -/
def unionScanComponents (tableAlias : String) (curTable : TableInfoV2) :
    List (String × TableInfoV2) → FlagTable → Except Fault FlagTable
  | [], acc => pure acc
  | (unAuthAlias, _) :: rest, acc =>
      match curTable.UnAuthorizedTables with
      | none => throw (.runtimePanic "nil map")
      | some curUnAuth =>
        match omGet curUnAuth unAuthAlias with
        | none => unionScanComponents tableAlias curTable rest acc
        | some curUnauthorizedTable => do
          let acc' ← acc.set tableAlias unAuthAlias
            (acc.get tableAlias unAuthAlias || !curUnauthorizedTable.Authorized)
          unionScanComponents tableAlias curTable rest acc'

/-- Union, loop over `tablesList` for one relation of `dst`. -/
def unionScanLists (tableAlias : String) (table : TableInfoV2) :
    List (Option TableMap) → FlagTable → Except Fault FlagTable
  | [], acc => pure acc
  | none :: _, _ => throw (.runtimePanic "nil map")
  | some tables :: rest, acc =>
      match omGet tables tableAlias with
      | none => unionScanLists tableAlias table rest acc
      | some curTable =>
        if table.IsDatabase then do
          let acc' ← acc.set tableAlias tableAlias
            (acc.get tableAlias tableAlias || !curTable.Authorized)
          unionScanLists tableAlias table rest acc'
        else
          match table.UnAuthorizedTables with
          | none => throw (.runtimePanic "nil map")
          | some unAuth => do
            let acc' ← unionScanComponents tableAlias curTable unAuth acc
            unionScanLists tableAlias table rest acc'

/-- Union, second loop: over the relations of `dst`. -/
def unionScan (tablesList : List (Option TableMap)) : TableMap → FlagTable → Except Fault FlagTable
  | [], acc => pure acc
  | (tableAlias, table) :: rest, acc => do
      let acc' ← unionScanLists tableAlias table tablesList acc
      unionScan tablesList rest acc'

/-- The deletions of the last loop: remove every alias whose flag equals
`removeWhen` from the component map. -/
def deleteFlagged (removeWhen : Bool) (flags : FlagMap) (unAuth : List (String × TableInfoV2)) :
    List (String × TableInfoV2) :=
  flags.foldl (fun acc e => if e.2 = removeWhen then omDelete acc e.1 else acc) unAuth

/-- Union, last loop, for one relation of `dst`. -/
def unionApplyTable (flags : FlagTable) (table : TableInfoV2) : Except Fault TableInfoV2 :=
  if table.IsDatabase then pure (table.setAuthorized (!flags.get table.Alias table.Alias))
  else
    match table.UnAuthorizedTables with
    | none => throw (.runtimePanic "nil map")
    | some unAuth =>
      let unAuth' := deleteFlagged false ((omGet flags table.Alias).getD []) unAuth
      let table' := table.setUnAuthorizedTables (some unAuth')
      pure (if unAuth'.length = 0 then table'.setAuthorized true else table')

/-- Go `UpdateUnauthorizedTablesByUnion`: the new state of `dst`. -/
def UpdateUnauthorizedTablesByUnion (dst : Option TableMap) (tablesList : List (Option TableMap)) :
    Except Fault (Option TableMap) :=
  if tablesList.length = 0 then pure dst
  else
    match dst with
    | none => throw (.runtimePanic "nil map")
    | some d => do
      let tableUnAuth ← unionScan tablesList d (initFlagTable d [])
      let d' ← mapTables (unionApplyTable tableUnAuth) d
      pure (some d')

/-- Intersection, inner loop over `table.UnAuthorizedTables` of a virtual relation. -/
def intersectionScanComponents (tableAlias : String) (curTable : TableInfoV2) :
    List (String × TableInfoV2) → FlagTable → Except Fault FlagTable
  | [], acc => pure acc
  | (unAuthAlias, _) :: rest, acc =>
      match curTable.UnAuthorizedTables with
      | none => throw (.runtimePanic "nil map")
      | some curUnAuth =>
        match omGet curUnAuth unAuthAlias with
        | none => do
          let acc' ← acc.set tableAlias unAuthAlias true
          intersectionScanComponents tableAlias curTable rest acc'
        | some curUnauthorizedTable => do
          let acc' ← acc.set tableAlias unAuthAlias
            (acc.get tableAlias unAuthAlias || curUnauthorizedTable.Authorized)
          intersectionScanComponents tableAlias curTable rest acc'

/-- Intersection, loop over `tablesList` for one relation of `dst`. -/
def intersectionScanLists (tableAlias : String) (table : TableInfoV2) :
    List (Option TableMap) → FlagTable → Except Fault FlagTable
  | [], acc => pure acc
  | none :: _, _ => throw (.runtimePanic "nil map")
  | some tables :: rest, acc =>
      match omGet tables tableAlias with
      | none => do
        let acc' ← acc.set tableAlias tableAlias true
        intersectionScanLists tableAlias table rest acc'
      | some curTable =>
        if table.IsDatabase then do
          let acc' ← acc.set tableAlias tableAlias
            (acc.get tableAlias tableAlias || curTable.Authorized)
          intersectionScanLists tableAlias table rest acc'
        else
          match table.UnAuthorizedTables with
          | none => throw (.runtimePanic "nil map")
          | some unAuth => do
            let acc' ← intersectionScanComponents tableAlias curTable unAuth acc
            intersectionScanLists tableAlias table rest acc'

/-- Intersection, second loop: over the relations of `dst`. -/
def intersectionScan (tablesList : List (Option TableMap)) :
    TableMap → FlagTable → Except Fault FlagTable
  | [], acc => pure acc
  | (tableAlias, table) :: rest, acc => do
      let acc' ← intersectionScanLists tableAlias table tablesList acc
      intersectionScan tablesList rest acc'

/-- Intersection, last loop, for one relation of `dst`. -/
def intersectionApplyTable (flags : FlagTable) (table : TableInfoV2) : Except Fault TableInfoV2 :=
  if table.IsDatabase then pure (table.setAuthorized (flags.get table.Alias table.Alias))
  else
    match table.UnAuthorizedTables with
    | none => throw (.runtimePanic "nil map")
    | some unAuth =>
      let unAuth' := deleteFlagged true ((omGet flags table.Alias).getD []) unAuth
      let table' := table.setUnAuthorizedTables (some unAuth')
      pure (if unAuth'.length = 0 then table'.setAuthorized true else table')

/-- Go `UpdateUnauthorizedTablesByIntersection`: the new state of `dst`. -/
def UpdateUnauthorizedTablesByIntersection (dst : Option TableMap)
    (tablesList : List (Option TableMap)) : Except Fault (Option TableMap) :=
  if tablesList.length = 0 then pure dst
  else
    match dst with
    | none => throw (.runtimePanic "nil map")
    | some d => do
      let tableAuth ← intersectionScan tablesList d (initFlagTable d [])
      let d' ← mapTables (intersectionApplyTable tableAuth) d
      pure (some d')

/-! ## The heap: relations and maps as shared, updatable cells -/

/-- A `*ColumnInfo` whose `SourceTable` is the address of a relation cell. -/
structure ColumnCell where
  Name : String
  SourceTable : Option Nat

/-- The cell behind a `*TableInfoV2`: relations are referred to by address. -/
structure TableObj where
  Name : String
  Columns : Option (OrderedMap ColumnCell)
  Alias : String
  HasStar : Bool := false
  UnAuthorizedTables : Option (OrderedMap Nat)
  Authorized : Bool
  IsDatabase : Bool

/-- The zero value of `TableInfoV2`. -/
instance : Inhabited TableObj :=
  ⟨{ Name := "", Columns := none, Alias := "", UnAuthorizedTables := none, Authorized := false,
     IsDatabase := false }⟩

/-- The store: relation cells and relation maps, each addressed by its index. -/
structure Heap where
  tables : List TableObj := []
  maps : List (OrderedMap Nat) := []

/-- Computations that read and update the store and may fail. -/
abbrev HeapM := StateT Heap (Except Fault)

/-- The relation cell at address `p`. -/
def Heap.table (h : Heap) (p : Nat) : TableObj := h.tables.getD p default

/-- The entries of the map at address `m`. -/
def Heap.map (h : Heap) (m : Nat) : OrderedMap Nat := h.maps.getD m []

/-- Read the relation cell at `p`. -/
def getTable (p : Nat) : HeapM TableObj := do
  return (← get).table p

/-- Allocate a relation cell; `mk` receives the address of the new cell. -/
def newTable (mk : Nat → TableObj) : HeapM Nat := do
  let h ← get
  let p := h.tables.length
  set { h with tables := h.tables ++ [mk p] }
  return p

/-- Overwrite the relation cell at `p`. -/
def setTable (p : Nat) (obj : TableObj) : HeapM Unit :=
  modify (fun h => { h with tables := h.tables.set p obj })

/-- Read the entries of the map at `m`. -/
def getMap (m : Nat) : HeapM (OrderedMap Nat) := do
  return (← get).map m

/-- `om.NewOrderedMapWithElements`: allocate a map with the given entries. -/
def newMap (entries : OrderedMap Nat) : HeapM Nat := do
  let h ← get
  let m := h.maps.length
  set { h with maps := h.maps ++ [entries] }
  return m

/-- Overwrite the entries of the map at `m`. -/
def setMap (m : Nat) (entries : OrderedMap Nat) : HeapM Unit :=
  modify (fun h => { h with maps := h.maps.set m entries })

/-- The iteration `m.AllFromFront()` of a possibly nil map. -/
def entriesOf (m : Option Nat) : HeapM (OrderedMap Nat) :=
  match m with
  | none => throw (.runtimePanic "nil map")
  | some mp => getMap mp

/-- `dst.Set(key, value)` for each of the entries, creating `dst` when nil:
the loop of `MergeMaps`. -/
def mergeEntries (dst : Option Nat) (entries : OrderedMap Nat) : HeapM Nat := do
  let d ← match dst with
    | none => newMap []
    | some d => pure d
  let cur ← getMap d
  setMap d (entries.foldl (fun acc e => omSet acc e.1 e.2) cur)
  return d

/-- Go `MergeMaps`. -/
def MergeMaps (dst src : Option Nat) : HeapM (Option Nat) := do
  match src with
  | none => throw (.runtimePanic "nil map")
  | some sp =>
    let entries ← getMap sp
    let d ← mergeEntries dst entries
    return some d

/-- Copy the graph reachable from the cell at `p` the way `Clone` does, as a
value.  `fuel` bounds the depth of the recursion; on a store of `n` cells a
depth above `n` means that a cell repeats on the path, where Go overflows
its stack. -/
def cloneFromHeap (h : Heap) : Nat → Nat → Except Fault TableInfoV2
  | 0, _ => throw .stackOverflow
  | fuel + 1, p => do
      let obj := h.table p
      let cols ← match obj.Columns with
        | none => pure none
        | some cs =>
          if obj.IsDatabase then
            pure (some (cs.map (fun e => (e.1, ColumnInfo.mk e.2.Name SourceRef.self))))
          else do
            let cs' ← cs.mapM (fun e =>
              match e.2.SourceTable with
              | none => pure (e.1, ColumnInfo.mk e.2.Name SourceRef.nil)
              | some q => do
                let t ← cloneFromHeap h fuel q
                pure (e.1, ColumnInfo.mk e.2.Name (SourceRef.table t)))
            pure (some cs')
      let unAuth ← match obj.UnAuthorizedTables with
        | none => pure none
        | some us => do
          let us' ← us.mapM (fun e => do
            let t ← cloneFromHeap h fuel e.2
            pure (e.1, t))
          pure (some us')
      pure (TableInfoV2.mk obj.Name cols obj.Alias obj.HasStar unAuth obj.Authorized obj.IsDatabase)

/-- Go `(*TableInfoV2).Clone` of the relation at address `p`, as a value. -/
def cloneCell (h : Heap) (p : Nat) : Except Fault TableInfoV2 :=
  cloneFromHeap h (h.tables.length + 1) p

/-- Go `CloneUnAuthorizedTables` of the map at address `m`, as a value. -/
def cloneMapFromHeap (h : Heap) (m : Option Nat) : Except Fault (Option TableMap) :=
  match m with
  | none => pure none
  | some mp => do
    let entries ← (h.map mp).mapM (fun e => do
      let t ← cloneCell h e.2
      pure (e.1, t))
    pure (some entries)

mutual
/-- Put a relation value into the store as fresh cells; the address of its
root cell is returned. -/
def storeTable : TableInfoV2 → HeapM Nat
  | .mk name cols als hasStar unAuth authorized isDb => do
      let p ← newTable (fun _ => default)
      let cols' ← storeColumnsOpt p cols
      let unAuth' ← storeTablesOpt unAuth
      setTable p { Name := name, Columns := cols', Alias := als, HasStar := hasStar,
                   UnAuthorizedTables := unAuth', Authorized := authorized, IsDatabase := isDb }
      return p
/-- Store the columns of the relation at `owner`, when the map is not nil. -/
def storeColumnsOpt (owner : Nat) : Option (List (String × ColumnInfo)) →
    HeapM (Option (OrderedMap ColumnCell))
  | none => pure none
  | some cs => do
      let cs' ← storeColumns owner cs
      return some cs'
/-- Store the columns of the relation at `owner`. -/
def storeColumns (owner : Nat) : List (String × ColumnInfo) → HeapM (OrderedMap ColumnCell)
  | [] => pure []
  | (a, .mk name src) :: rest => do
      let src' ← storeSource owner src
      let rest' ← storeColumns owner rest
      return (a, { Name := name, SourceTable := src' }) :: rest'
/-- Store what a column of the relation at `owner` points to. -/
def storeSource (owner : Nat) : SourceRef → HeapM (Option Nat)
  | .nil => pure none
  | .self => pure (some owner)
  | .table t => do
      let q ← storeTable t
      return some q
/-- Store the relations of a component map, when the map is not nil. -/
def storeTablesOpt : Option (List (String × TableInfoV2)) → HeapM (Option (OrderedMap Nat))
  | none => pure none
  | some ts => do
      let ts' ← storeTables ts
      return some ts'
/-- Store the relations of a map, in order. -/
def storeTables : List (String × TableInfoV2) → HeapM (OrderedMap Nat)
  | [] => pure []
  | (key, t) :: rest => do
      let q ← storeTable t
      let rest' ← storeTables rest
      return (key, q) :: rest'
end

/-- Put a relation map value into the store as a fresh map of fresh cells. -/
def storeMap (tables : Option TableMap) : HeapM (Option Nat) :=
  match tables with
  | none => pure none
  | some ts => do
    let entries ← storeTables ts
    let m ← newMap entries
    return some m

/-! ## Building virtual relations (`table_info.go`, `createVirtualTableForAlias`) -/

/-- Go `SchemaService`: the catalog, as the function `GetColumns`. -/
structure SchemaService where
  GetColumns : String → List String

/-- Go `AuthorizationServiceImpl`. -/
structure AuthorizationServiceImpl where
  schemaService : SchemaService

/-- Go `(*TableInfoV2).createColumnFromSourceTable`, on the column map of the
relation under construction. -/
def createColumnFromSourceTable (columns : OrderedMap ColumnCell) (colName : String)
    (sourceTable : Nat) (newColAlias : Option String) : HeapM (OrderedMap ColumnCell) := do
  let src ← getTable sourceTable
  match src.Columns with
  | none => throw (.runtimePanic "nil map")
  | some srcColumns =>
    if omHas srcColumns colName then
      return omSet columns (newColAlias.getD colName)
        { Name := colName, SourceTable := some sourceTable }
    else return columns

/-- The loop of `createAllColumnFromSourceTable` over the column aliases of
the source relation; `newColAliases` are the aliases not yet used. -/
def createColumnsLoop (sourceTable : Nat) :
    List String → List String → OrderedMap ColumnCell → HeapM (OrderedMap ColumnCell)
  | [], _, columns => pure columns
  | colAlias :: rest, [], columns => do
      let columns' ← createColumnFromSourceTable columns colAlias sourceTable none
      createColumnsLoop sourceTable rest [] columns'
  | colAlias :: rest, newColAlias :: more, columns => do
      let columns' ← createColumnFromSourceTable columns colAlias sourceTable (some newColAlias)
      createColumnsLoop sourceTable rest more columns'

/-- Go `(*TableInfoV2).createAllColumnFromSourceTable`. -/
def createAllColumnFromSourceTable (columns : OrderedMap ColumnCell) (sourceTable : Nat)
    (newColAliases : List String) : HeapM (OrderedMap ColumnCell) := do
  let src ← getTable sourceTable
  match src.Columns with
  | none => return columns
  | some srcColumns => createColumnsLoop sourceTable (srcColumns.map Prod.fst) newColAliases columns

/-- Go `(*TableInfoV2).createAllColumnsFromSourceTableList`; `newColAliases`
is the part of the alias list from `curIndex` on. -/
def createAllColumnsFromSourceTableList :
    List Nat → List String → OrderedMap ColumnCell → HeapM (OrderedMap ColumnCell)
  | [], _, columns => pure columns
  | table :: rest, newColAliases, columns => do
      let src ← getTable table
      match src.Columns with
      | none => createAllColumnsFromSourceTableList rest newColAliases columns
      | some srcColumns =>
        let columns' ← createAllColumnFromSourceTable columns table
          (newColAliases.take srcColumns.length)
        createAllColumnsFromSourceTableList rest (newColAliases.drop srcColumns.length) columns'

/-- The sum `allColCnt` of `createVirtualTableForAlias`. -/
def countAllColumns : List Nat → HeapM Nat
  | [] => pure 0
  | table :: rest => do
      let src ← getTable table
      match src.Columns with
      | none => throw (.runtimePanic "nil map")
      | some srcColumns => do
        let n ← countAllColumns rest
        return srcColumns.length + n

/-- The body of the loop over `targetList` in `createVirtualTableForAlias`,
for one target; the state is the column map built so far and the aliases of
`colAliases` from `curIndex` on. -/
def addTargetColumns (curTables : OrderedMap Nat) (allColCnt : Nat) (colNode : Node)
    (state : OrderedMap ColumnCell × List String) :
    HeapM (OrderedMap ColumnCell × List String) :=
  let (columns, colAliases) := state
  match colNode with
  | .resTarget resName (some (.columnRef fields)) =>
    match fields with
    | [] => pure state
    | f0 :: more =>
      if f0.isAStar then do
        let columns' ← createAllColumnsFromSourceTableList (curTables.map Prod.snd)
          (colAliases.take allColCnt) columns
        return (columns', colAliases.drop allColCnt)
      else
        match f0.GetString_ with
        | none => pure state
        | some selectedTableName =>
          if fields.length = 2 ∧ (more.head?.map Node.isAStar) = some true then
            match omGet curTables selectedTableName with
            | none => pure state
            | some selectedTable => do
              let src ← getTable selectedTable
              match src.Columns with
              | none => throw (.runtimePanic "nil map")
              | some srcColumns =>
                let columns' ← createAllColumnFromSourceTable columns selectedTable
                  (colAliases.take srcColumns.length)
                return (columns', colAliases.drop srcColumns.length)
          else
            match more with
            | [] => throw (.runtimePanic "index out of range [1] with length 1")
            | f1 :: _ =>
              let selectedColName := (f1.GetString_).getD ""
              match omGet curTables selectedTableName with
              | none => pure state
              | some selectedTable => do
                let colAlias := if resName ≠ "" then resName else selectedColName
                match colAliases with
                | a :: rest =>
                  if a ≠ "" then do
                    let columns' ← createColumnFromSourceTable columns selectedColName
                      selectedTable (some a)
                    return (columns', rest)
                  else do
                    let columns' ← createColumnFromSourceTable columns selectedColName
                      selectedTable (some colAlias)
                    return (columns', colAliases)
                | [] => do
                  let columns' ← createColumnFromSourceTable columns selectedColName
                    selectedTable (some colAlias)
                  return (columns', colAliases)
  | _ => pure state

/-- The loop over `targetList` in `createVirtualTableForAlias`. -/
def addTargetListColumns (curTables : OrderedMap Nat) (allColCnt : Nat) :
    List Node → OrderedMap ColumnCell × List String → HeapM (OrderedMap ColumnCell × List String)
  | [], state => pure state
  | colNode :: rest, state => do
      let state' ← addTargetColumns curTables allColCnt colNode state
      addTargetListColumns curTables allColCnt rest state'

/-- First loop after the columns: every relation of `curTables` that is not
authorized becomes a component. -/
def collectUnauthorized : OrderedMap Nat → OrderedMap Nat → HeapM (OrderedMap Nat)
  | [], acc => pure acc
  | (tableAlias, table) :: rest, acc => do
      let obj ← getTable table
      collectUnauthorized rest (if !obj.Authorized then omSet acc tableAlias table else acc)

/-- Second loop after the columns: the components of every relation of
`curTables` become components. -/
def collectNestedUnauthorized : OrderedMap Nat → OrderedMap Nat → HeapM (OrderedMap Nat)
  | [], acc => pure acc
  | (_, table) :: rest, acc => do
      let obj ← getTable table
      match obj.UnAuthorizedTables with
      | none => throw (.runtimePanic "nil map")
      | some unAuth =>
        collectNestedUnauthorized rest (unAuth.foldl (fun a e => omSet a e.1 e.2) acc)

/-- Go `createVirtualTableForAlias`.  `targetList` is `none` for a nil slice. -/
def createVirtualTableForAlias (aliasNode : Alias) (targetList : Option (List Node))
    (curTables : Option Nat) : HeapM (Option Nat) := do
  let colAliases := aliasNode.Colnames.filterMap Node.GetString_
  let cur ← entriesOf curTables
  let allColCnt ← countAllColumns (cur.map Prod.snd)
  let columns ← match targetList with
    | some targets => do
      let st ← addTargetListColumns cur allColCnt targets ([], colAliases)
      pure st.1
    | none => createAllColumnsFromSourceTableList (cur.map Prod.snd) colAliases []
  let unAuth1 ← collectUnauthorized cur []
  let unAuth ← collectNestedUnauthorized cur unAuth1
  let virtualTable ← newTable (fun _ =>
    { Name := aliasNode.Aliasname, Columns := some columns, Alias := aliasNode.Aliasname,
      UnAuthorizedTables := some unAuth, Authorized := unAuth.length = 0, IsDatabase := false })
  let m ← newMap [(aliasNode.Aliasname, virtualTable)]
  return some m

/-- Go `authorizeRangeVar`. -/
def authorizeRangeVar (s : AuthorizationServiceImpl) (relname : String)
    (aliasNode : Option Alias) (tables : Option Nat) (userInfo : UserContext) :
    HeapM (Bool × Option Nat) := do
  let authorized := isPublicTable relname || userInfo.GetRole == "admin"
  let tableAlias := match aliasNode with
    | none => relname
    | some a => a.Aliasname
  let table ← newTable (fun self =>
    { Name := relname,
      Columns := some ((s.schemaService.GetColumns relname).foldl
        (fun acc colName => omSet acc colName { Name := colName, SourceTable := some self }) []),
      Alias := tableAlias, UnAuthorizedTables := some [], Authorized := authorized,
      IsDatabase := true })
  let tables' ← mergeEntries tables [(tableAlias, table)]
  return (authorized, some tables')

/-! ## The walker: results and the two ways a node is walked -/

/-- Go `*AuthorizationResult`, with the relation map by address. -/
structure AuthorizationResultRef where
  Authorized : Bool
  Tables : Option Nat
  TargetList : Option (List Node) := none

/-- The call `AuthorizeNode(node, tables, neg, userInfo)` for a fixed node, on
the heap: `tables` is the address of the incoming map. -/
abbrev Walk := Option Nat → Bool → UserContext → HeapM AuthorizationResultRef

/-- What a call `AuthorizeNode(arg, result.Tables, ...)` made by
`authorizeBoolExpr` on its cloned map leaves behind: the result, the state of
the map it was given (a callee may insert into it), and whether the
result's `Tables` is that very map. -/
structure OperandResult where
  result : AuthorizationResult
  incoming : Option TableMap
  aliased : Bool

/-- The call `AuthorizeNode(node, tables, neg, userInfo)` for a fixed node,
when `tables` is a map of `authorizeBoolExpr`-owned copies, given by value. -/
abbrev CloneWalk := Option TableMap → Bool → UserContext → Except Fault OperandResult

/-- Both readings of a node. -/
structure NodeSem where
  onHeap : Walk
  onClone : CloneWalk

/-- Run a heap walk on a map given by value: the map is put into an empty
store (nothing else is reachable from the callee), the walk runs, and the
result map and the map itself are read back. -/
def runOnClone (w : Walk) : CloneWalk := fun tables neg userInfo =>
  let prog : HeapM (Option Nat × AuthorizationResultRef) := do
    let m0 ← storeMap tables
    let res ← w m0 neg userInfo
    return (m0, res)
  match prog.run {} with
  | .error e => .error e
  | .ok ((m0, res), h) => do
    let resTables ← cloneMapFromHeap h res.Tables
    let incoming ← cloneMapFromHeap h m0
    pure { result := { Authorized := res.Authorized, Tables := resTables,
                       TargetList := res.TargetList },
           incoming := incoming, aliased := res.Tables == m0 }

/-- Run a value walk from the heap: the incoming map is read the way
`CloneUnAuthorizedTables` copies it, and the resulting map is stored as fresh
cells. -/
def runOnHeap (f : Option TableMap → Bool → UserContext → Except Fault AuthorizationResult) :
    Walk := fun tables neg userInfo => do
  let h ← get
  let copy ← cloneMapFromHeap h tables
  let r ← f copy neg userInfo
  let m ← storeMap r.Tables
  return { Authorized := r.Authorized, Tables := m, TargetList := r.TargetList }

/-! ## `authorizeAExpr` -/

/-- Row path, base relation: the call
`AuthorizeNode(expr.GetRexpr(), NewOrderedMapWithElements(tableElement), neg, userInfo)`
whose error is discarded; returns `authResult.Authorized` and the state of the
relation afterwards. -/
def walkRexprWithElement (rexprWalk : Walk) (key : String) (table : TableInfoV2) (neg : Bool)
    (userInfo : UserContext) : Except Fault (Bool × TableInfoV2) :=
  let prog : HeapM (Nat × AuthorizationResultRef) := do
    let p ← storeTable table
    let m ← newMap [(key, p)]
    let res ← rexprWalk (some m) neg userInfo
    return (p, res)
  match prog.run {} with
  | .error (.error _) => .error (.runtimePanic "nil pointer dereference")
  | .error e => .error e
  | .ok ((p, res), h) => do
    let table' ← cloneCell h p
    pure (res.Authorized, table')

/-- Row path, virtual relation: the call
`AuthorizeNode(expr.GetRexpr(), nil, neg, userInfo)` whose error is
discarded; returns the relations of `authResult.Tables`. -/
def walkRexprFromNil (rexprWalk : Walk) (neg : Bool) (userInfo : UserContext) :
    Except Fault TableMap :=
  match (rexprWalk none neg userInfo).run {} with
  | .error (.error _) => .error (.runtimePanic "nil pointer dereference")
  | .error e => .error e
  | .ok (res, h) => do
    match (← cloneMapFromHeap h res.Tables) with
    | none => throw (.runtimePanic "nil map")
    | some ts => pure ts

/-- Row path, virtual relation: the loop over `authResult.Tables`. -/
def creditFromSubselect (table : TableInfoV2) (colAlias : String) (resolvedCol : ResolvedColumn) :
    TableMap → Except Fault TableInfoV2
  | [] => pure table
  | (_, found) :: rest =>
      if !found.IsDatabase then creditFromSubselect table colAlias resolvedCol rest
      else
        match resolvedCol.SourceTable with
        | none => throw (.runtimePanic "nil pointer dereference")
        | some src =>
          if found.Name == src.Name && found.Authorized then
            match table.UnAuthorizedTables with
            | none => throw (.runtimePanic "nil map")
            | some unAuth =>
              let unAuth' := omDelete unAuth found.Alias
              let table' := (table.markResolvedSource colAlias).setUnAuthorizedTables (some unAuth')
              pure (if unAuth'.length = 0 then table'.setAuthorized true else table')
          else creditFromSubselect table colAlias resolvedCol rest

/-- Row path: the body of the loop over the arguments of the row expression. -/
def rowExprStep (rexprWalk : Walk) (neg : Bool) (userInfo : UserContext) (arg : Node)
    (resultTables : Option TableMap) : Except Fault (Option TableMap) :=
  match arg.GetColumnRef with
  | some (f0 :: f1 :: _) =>
    match f0.GetString_, f1.GetString_ with
    | some tableName, some colName =>
      match resultTables with
      | none => throw (.runtimePanic "nil map")
      | some ts =>
        match omGet ts tableName with
        | none => pure resultTables
        | some table =>
          if table.Authorized then pure resultTables
          else if table.IsDatabase then do
            let authContext := getAuthorizationColumn table.Name userInfo
            let realColName ← table.getRealColName colName
            if ContainsString authContext.AuthorizeColumns realColName then pure resultTables
            else do
              let (authorized, table') ← walkRexprWithElement rexprWalk tableName table neg userInfo
              pure (some (omSet ts tableName
                (if authorized then table'.setAuthorized true else table')))
          else do
            match (← table.getRealColumnInfoFromAlias colName) with
            | none => pure resultTables
            | some resolvedCol => do
              let found ← walkRexprFromNil rexprWalk neg userInfo
              let table' ← creditFromSubselect table colName resolvedCol found
              pure (some (omSet ts tableName table'))
    | _, _ => pure resultTables
  | _ => pure resultTables

/-- Row path: the loop over the arguments of the row expression. -/
def rowExprLoop (rexprWalk : Walk) (neg : Bool) (userInfo : UserContext) :
    List Node → Option TableMap → Except Fault (Option TableMap)
  | [], resultTables => pure resultTables
  | arg :: rest, resultTables => do
      let resultTables' ← rowExprStep rexprWalk neg userInfo arg resultTables
      rowExprLoop rexprWalk neg userInfo rest resultTables'

/-- The loop `for _, table := range resultTables.AllFromFront()` of
`authorizeAExpr` on a possibly nil map. -/
def authorizeMapByPredicate (columnRefFields : List Node) (aConst : Option A_Const)
    (userInfo : UserContext) (resultTables : Option TableMap) : Except Fault (Option TableMap) :=
  match resultTables with
  | none => throw (.runtimePanic "nil map")
  | some ts => do
    let ts' ← authorizeTablesByPredicate columnRefFields aConst userInfo ts
    pure (some ts')

/-- The first part of the case `AEXPR_OP` of `authorizeAExpr`: a column
reference compared with a constant, in either order. -/
def authorizeColumnConst (lexpr rexpr : Node) (resultTables : Option TableMap)
    (userInfo : UserContext) : Except Fault (Option TableMap) :=
  match extractColumnRefAndConst lexpr rexpr with
  | (some columnRef, some aConst) =>
      authorizeMapByPredicate columnRef (some aConst) userInfo resultTables
  | _ => pure resultTables

/-- The `switch expr.GetKind()` of `authorizeAExpr`, for non-nil operands:
the state of `resultTables` after it. -/
def authorizeAExprKind (rexprWalk : Walk) (kind : A_Expr_Kind) (lexpr rexpr : Node)
    (resultTables : Option TableMap) (neg : Bool) (userInfo : UserContext) :
    Except Fault (Option TableMap) :=
  match kind with
  | .AEXPR_OP => do
    let afterColumn ← authorizeColumnConst lexpr rexpr resultTables userInfo
    match lexpr.GetRowExpr with
    | some args => rowExprLoop rexprWalk neg userInfo args afterColumn
    | none => pure afterColumn
  | .AEXPR_IN =>
    match lexpr.GetColumnRef, rexpr.GetList with
    | some columnRef, some [item] =>
        authorizeMapByPredicate columnRef item.GetAConst userInfo resultTables
    | _, _ => pure resultTables
  | _ => pure resultTables

/-- The closing loop over a possibly nil map, starting from `authorized`. -/
def foldAuthorizedMap (authorized : Bool) (tables : Option TableMap) : Except Fault Bool :=
  match tables with
  | none => throw (.runtimePanic "nil map")
  | some ts => foldAuthorized authorized ts

/-- The operator `authorizeAExpr` looks for: `wantOperator := "="`, and
`"<>"` when `neg`. -/
def wantOperator (neg : Bool) : String := if neg then "<>" else "="

/-- Go `authorizeAExpr` after its first statement
`resultTables := CloneUnAuthorizedTables(tables)`. -/
def authorizeAExprAfterClone (rexprWalk : Walk) (kind : A_Expr_Kind) (name : List Node)
    (lexpr rexpr : Option Node) (resultTables : Option TableMap) (neg : Bool)
    (userInfo : UserContext) : Except Fault AuthorizationResult :=
  match lexpr, rexpr with
  | some l, some r =>
    match name with
    | [] => throw (.runtimePanic "index out of range [0] with length 0")
    | op :: _ =>
      if getStringValueFromNode (some op) != wantOperator neg then
        pure { Authorized := false, Tables := resultTables }
      else do
        let resultTables' ← authorizeAExprKind rexprWalk kind l r resultTables neg userInfo
        let authorized ← foldAuthorizedMap true resultTables'
        pure { Authorized := authorized, Tables := resultTables' }
  | _, _ => pure { Authorized := false, Tables := resultTables }

/-- Go `authorizeAExpr`, with the walk of `expr.GetRexpr()` as a parameter. -/
def authorizeAExprOn (rexprWalk : Walk) (kind : A_Expr_Kind) (name : List Node)
    (lexpr rexpr : Option Node) (tables : Option TableMap) (neg : Bool)
    (userInfo : UserContext) : Except Fault AuthorizationResult := do
  let resultTables ← CloneUnAuthorizedTables tables
  authorizeAExprAfterClone rexprWalk kind name lexpr rexpr resultTables neg userInfo

/-! ## `authorizeBoolExpr` -/

/-- The loop over `boolExpr.Args` for AND and OR: every operand is walked
with the same map `result.Tables`; returns each operand's `Tables` (with
whether it is `result.Tables` itself) and the state of `result.Tables`. -/
def walkOperands (neg : Bool) (userInfo : UserContext) :
    List CloneWalk → Option TableMap → Except Fault (List (Option TableMap × Bool) × Option TableMap)
  | [], resultTables => pure ([], resultTables)
  | w :: rest, resultTables => do
      let r ← w resultTables neg userInfo
      let (more, final) ← walkOperands neg userInfo rest r.incoming
      pure ((r.result.Tables, r.aliased) :: more, final)

/-- The slice `authResultTables` when it is handed to the update function:
an entry that is `result.Tables` itself shows that map's current state. -/
def operandTables (collected : List (Option TableMap × Bool)) (resultTables : Option TableMap) :
    List (Option TableMap) :=
  collected.map (fun c => if c.2 then resultTables else c.1)

/-- Go `authorizeBoolExpr` after `result.Tables` is set to
`CloneUnAuthorizedTables(tables)`. -/
def authorizeBoolExprAfterClone (operands : List CloneWalk) (boolop : BoolExprType)
    (resultTables : Option TableMap) (neg : Bool) (userInfo : UserContext) :
    Except Fault AuthorizationResult :=
  match boolop with
  | .OR_EXPR => do
    let (collected, resultTables1) ← walkOperands neg userInfo operands resultTables
    let resultTables2 ← UpdateUnauthorizedTablesByUnion resultTables1
      (operandTables collected resultTables1)
    let authorized ← foldAuthorizedMap true resultTables2
    pure { Authorized := authorized, Tables := resultTables2 }
  | .AND_EXPR => do
    let (collected, resultTables1) ← walkOperands neg userInfo operands resultTables
    let resultTables2 ← UpdateUnauthorizedTablesByIntersection resultTables1
      (operandTables collected resultTables1)
    let authorized ← foldAuthorizedMap true resultTables2
    pure { Authorized := authorized, Tables := resultTables2 }
  | .NOT_EXPR =>
    match operands with
    | [w] => do
      let r ← w resultTables (!neg) userInfo
      let childTables := if r.aliased then r.incoming else r.result.Tables
      let authorized ← foldAuthorizedMap r.result.Authorized childTables
      pure { Authorized := authorized, Tables := childTables }
    | _ => throw (.error "NOT expression must have exactly one argument")
  | .BOOL_EXPR_TYPE_UNDEFINED => do
    let authorized ← foldAuthorizedMap true resultTables
    pure { Authorized := authorized, Tables := resultTables }

/-- Go `authorizeBoolExpr`, with the walks of the operands as a parameter. -/
def authorizeBoolExprOn (operands : List CloneWalk) (boolop : BoolExprType)
    (tables : Option TableMap) (neg : Bool) (userInfo : UserContext) :
    Except Fault AuthorizationResult := do
  let resultTables ← CloneUnAuthorizedTables tables
  authorizeBoolExprAfterClone operands boolop resultTables neg userInfo

/-! ## The update functions on maps of the store -/

/-- What the update functions read of a component: its flags. -/
def shallowLeaf (obj : TableObj) : TableInfoV2 :=
  .mk obj.Name none obj.Alias obj.HasStar none obj.Authorized obj.IsDatabase

/-- What the update functions read of a relation of the store: its flags
and, of each component, its alias and flags. -/
def shallowTable (h : Heap) (p : Nat) : TableInfoV2 :=
  let obj := h.table p
  .mk obj.Name none obj.Alias obj.HasStar
    (obj.UnAuthorizedTables.map (fun us => us.map (fun e => (e.1, shallowLeaf (h.table e.2)))))
    obj.Authorized obj.IsDatabase

/-- The map at address `m`, as the update functions read it. -/
def shallowMap (h : Heap) (m : Option Nat) : Option TableMap :=
  m.map (fun mp => (h.map mp).map (fun e => (e.1, shallowTable h e.2)))

/-- Write the outcome of an update function into the cells of `dst`: the flag
`Authorized` and the components that are left. -/
def writeUpdated : OrderedMap Nat → TableMap → HeapM Unit
  | (_, p) :: rest, (_, t) :: rest' => do
      let obj ← getTable p
      let unAuth' := match obj.UnAuthorizedTables, t.UnAuthorizedTables with
        | some us, some ts => some (us.filter (fun e => omHas ts e.1))
        | u, _ => u
      setTable p { obj with Authorized := t.Authorized, UnAuthorizedTables := unAuth' }
      writeUpdated rest rest'
  | _, _ => pure ()

/-- Go `UpdateUnauthorizedTablesByUnion` on maps of the store. -/
def UpdateUnauthorizedTablesByUnionRef (dst : Option Nat) (tablesList : List (Option Nat)) :
    HeapM Unit := do
  let h ← get
  let updated ← UpdateUnauthorizedTablesByUnion (shallowMap h dst)
    (tablesList.map (shallowMap h))
  match dst, updated with
  | some d, some ts => writeUpdated (h.map d) ts
  | _, _ => pure ()

/-- Go `UpdateUnauthorizedTablesByIntersection` on maps of the store. -/
def UpdateUnauthorizedTablesByIntersectionRef (dst : Option Nat) (tablesList : List (Option Nat)) :
    HeapM Unit := do
  let h ← get
  let updated ← UpdateUnauthorizedTablesByIntersection (shallowMap h dst)
    (tablesList.map (shallowMap h))
  match dst, updated with
  | some d, some ts => writeUpdated (h.map d) ts
  | _, _ => pure ()

/-! ## The walker on the heap, node kind by node kind -/

/-- The loop over the CTEs in `authorizeSelectStmt` and `authorizeWithClause`:
`result.Tables = MergeMaps(cteResult.Tables, result.Tables)`. -/
def walkCtes (tables : Option Nat) (neg : Bool) (userInfo : UserContext) :
    List Walk → Bool × Option Nat → HeapM (Bool × Option Nat)
  | [], acc => pure acc
  | cte :: rest, (authorized, resultTables) => do
      let cteResult ← cte tables neg userInfo
      let merged ← MergeMaps cteResult.Tables resultTables
      walkCtes tables neg userInfo rest (authorized && cteResult.Authorized, merged)

/-- The loop over the FROM items in `authorizeSelectStmt`:
`result.Tables = MergeMaps(result.Tables, fromResult.Tables)`. -/
def walkFromItems (tables : Option Nat) (neg : Bool) (userInfo : UserContext) :
    List Walk → Bool × Option Nat → HeapM (Bool × Option Nat)
  | [], acc => pure acc
  | fromItem :: rest, (authorized, resultTables) => do
      let fromResult ← fromItem tables neg userInfo
      let merged ← MergeMaps resultTables fromResult.Tables
      walkFromItems tables neg userInfo rest (authorized && fromResult.Authorized, merged)

/-- Go `authorizeSelectStmt`, with the walks of the parts of the statement as
parameters: the CTEs when a WITH clause is present, the two operands of a set
operation, the FROM items, and the WHERE and HAVING clauses when present. -/
def authorizeSelectStmtOn (intoClause : Bool) (ctes : Option (List Walk)) (op : SetOperation)
    (larg rarg : Walk) (fromItems : List Walk) (whereClause havingClause : Option Walk)
    (targetList : List Node) : Walk := fun tables neg userInfo => do
  let fresh ← newMap []
  if intoClause then return { Authorized := true, Tables := some fresh }
  let (authorized0, tables0) ← match ctes with
    | some cs => walkCtes tables neg userInfo cs (true, some fresh)
    | none => pure (true, some fresh)
  match op with
  | .SETOP_UNION => do
    let lResult ← larg tables neg userInfo
    let rResult ← rarg tables neg userInfo
    let merged ← MergeMaps lResult.Tables rResult.Tables
    UpdateUnauthorizedTablesByUnionRef tables0 [merged]
    return { Authorized := lResult.Authorized && rResult.Authorized, Tables := tables0,
             TargetList := if lResult.TargetList.isSome && rResult.TargetList.isSome
               then lResult.TargetList else none }
  | .SETOP_INTERSECT => do
    let lResult ← larg tables neg userInfo
    let rResult ← rarg tables neg userInfo
    let merged ← MergeMaps lResult.Tables rResult.Tables
    UpdateUnauthorizedTablesByIntersectionRef tables0 [merged]
    return { Authorized := lResult.Authorized || rResult.Authorized, Tables := tables0,
             TargetList := if lResult.TargetList.isSome && rResult.TargetList.isSome
               then lResult.TargetList else none }
  | .SETOP_EXCEPT => larg tables neg userInfo
  | _ => do
    let (authorized1, tables1) ← walkFromItems tables neg userInfo fromItems (authorized0, tables0)
    let (authorized2, tables2) ← match authorized1, whereClause with
      | false, some w => do
        let whereResult ← w tables1 neg userInfo
        pure (whereResult.Authorized, whereResult.Tables)
      | _, _ => pure (authorized1, tables1)
    let (authorized3, tables3) ← match authorized2, havingClause with
      | false, some w => do
        let havingResult ← w tables2 neg userInfo
        pure (havingResult.Authorized, havingResult.Tables)
      | _, _ => pure (authorized2, tables2)
    return { Authorized := authorized3, Tables := tables3,
             TargetList := if targetList.isEmpty then none else some targetList }

/-- The loop over `node.GetFromlist()` in `authorizeFromExpr`. -/
def walkFromlist (tables : Option Nat) (neg : Bool) (userInfo : UserContext) :
    List Walk → Option Nat → HeapM (Option Nat)
  | [], combinedTables => pure combinedTables
  | table :: rest, combinedTables => do
      let tableResult ← table tables neg userInfo
      let merged ← MergeMaps combinedTables tableResult.Tables
      walkFromlist tables neg userInfo rest merged

/-- Go `authorizeFromExpr`, with the walks of the list items and of the quals. -/
def authorizeFromExprOn (fromlist : List Walk) (quals : Walk) : Walk :=
  fun tables neg userInfo => do
    let combinedTables ← walkFromlist tables neg userInfo fromlist none
    quals combinedTables neg userInfo

/-- The loops `table.UnAuthorizedTables = om.NewOrderedMap()` of the LEFT and
RIGHT joins. -/
def clearUnAuthorizedTables : OrderedMap Nat → HeapM Unit
  | [] => pure ()
  | (_, p) :: rest => do
      let obj ← getTable p
      setTable p { obj with UnAuthorizedTables := some [] }
      clearUnAuthorizedTables rest

/-- Wrap the relations of a join in a virtual relation when the join has an alias. -/
def wrapJoinAlias (joinAlias : Option Alias) (curTables : Option Nat) : HeapM (Option Nat) :=
  match joinAlias with
  | some a => createVirtualTableForAlias a none curTables
  | none => pure curTables

/-- Go `authorizeJoinExpr`, with the walks of the two sides and of the quals
as parameters; `largNil` and `rargNil` tell whether a side is a nil node. -/
def authorizeJoinExprOn (larg rarg quals : Walk) (largNil rargNil : Bool) (jointype : JoinType)
    (isNatural : Bool) (usingClause : List Node) (joinAlias : Option Alias) : Walk :=
  fun tables neg userInfo => do
    if largNil then throw (.error "left side of join is nil")
    if rargNil then throw (.error "right side of join is nil")
    let lResult ← larg tables neg userInfo
    let rResult ← rarg tables neg userInfo
    let curTables0 ← MergeMaps none lResult.Tables
    let curTables ← MergeMaps curTables0 rResult.Tables
    if lResult.Authorized && rResult.Authorized then
      let wrapped ← wrapJoinAlias joinAlias curTables
      return { Authorized := true, Tables := wrapped }
    if !usingClause.isEmpty || isNatural then
      let wrapped ← wrapJoinAlias joinAlias curTables
      return { Authorized := userInfo.GetRole == "admin", Tables := wrapped }
    match jointype with
    | .JOIN_INNER | .JOIN_UNIQUE_INNER =>
      UpdateUnauthorizedTablesByIntersectionRef curTables [lResult.Tables, rResult.Tables]
    | .JOIN_LEFT => do
      let entries ← entriesOf rResult.Tables
      clearUnAuthorizedTables entries
    | .JOIN_RIGHT => do
      let entries ← entriesOf lResult.Tables
      clearUnAuthorizedTables entries
    | .JOIN_FULL | .JOIN_UNIQUE_OUTER => pure ()
    | _ => throw (.error ("unsupported join type: " ++ jointype.String))
    let qualResult ← quals curTables neg userInfo
    let wrapped ← wrapJoinAlias joinAlias qualResult.Tables
    return { qualResult with Tables := wrapped }

/-- Go `authorizeRangeSubselect`, with the walk of the subquery as a parameter. -/
def authorizeRangeSubselectOn (subquery : Walk) (lateral : Bool) (aliasNode : Option Alias) :
    Walk := fun tables _ userInfo => do
  if lateral then throw (.error "lateral is not supported")
  let authResult ← subquery tables false userInfo
  match aliasNode with
  | some a => do
    let wrapped ← createVirtualTableForAlias a authResult.TargetList authResult.Tables
    return { Authorized := authResult.Authorized, Tables := wrapped, TargetList := none }
  | none => return authResult

/-- Go `authorizeWithClause`, with the walks of the CTEs as a parameter. -/
def authorizeWithClauseOn (ctes : List Walk) : Walk := fun tables neg userInfo => do
  let fresh ← newMap []
  let (authorized, resultTables) ← walkCtes tables neg userInfo ctes (true, some fresh)
  return { Authorized := authorized, Tables := resultTables }

/-- The last statement of `AuthorizeNode`, reached by every node kind that
has no case of its own. -/
def defaultNodeSem : NodeSem where
  onHeap := fun tables _ _ => pure { Authorized := false, Tables := tables }
  onClone := fun tables _ _ =>
    pure { result := { Authorized := false, Tables := tables }, incoming := tables, aliased := true }

/-- The first statement of `AuthorizeNode`: a nil node is an error. -/
def nilNodeSem : NodeSem where
  onHeap := fun _ _ _ => throw (.error "node is nil")
  onClone := fun _ _ _ => throw (.error "node is nil")

/-- A node that is walked on the heap; on a cloned map the walk runs in a
store of its own. -/
def heapNodeSem (w : Walk) : NodeSem where
  onHeap := w
  onClone := runOnClone w

/-- A node that is walked on a copy of the map (`authorizeAExpr`,
`authorizeBoolExpr`): the incoming map is left as it is. -/
def cloneNodeSem (f : Option TableMap → Bool → UserContext → Except Fault AuthorizationResult) :
    NodeSem where
  onHeap := runOnHeap f
  onClone := fun tables neg userInfo => do
    let r ← f tables neg userInfo
    pure { result := r, incoming := tables, aliased := false }

mutual
/-- The `switch` of `AuthorizeNode` for a non-nil node. -/
def nodeSem (s : AuthorizationServiceImpl) : Node → NodeSem
  | .selectStmt stmt => heapNodeSem (selectSem s stmt)
  | .boolExpr boolop args =>
      let operands := nodeSemList s args
      cloneNodeSem (authorizeBoolExprOn (operands.map NodeSem.onClone) boolop)
  | .aExpr kind name lexpr rexpr =>
      let rexprSem := nodeSemOpt s rexpr
      cloneNodeSem (authorizeAExprOn rexprSem.onHeap kind name lexpr rexpr)
  | .subLink subselect => nodeSemOpt s subselect
  | .joinExpr jointype isNatural larg rarg usingClause joinAlias quals =>
      let l := nodeSemOpt s larg
      let r := nodeSemOpt s rarg
      let q := nodeSemOpt s quals
      heapNodeSem (authorizeJoinExprOn l.onHeap r.onHeap q.onHeap larg.isNone rarg.isNone
        jointype isNatural usingClause joinAlias)
  | .fromExpr fromlist quals =>
      let items := nodeSemList s fromlist
      let q := nodeSemOpt s quals
      heapNodeSem (authorizeFromExprOn (items.map NodeSem.onHeap) q.onHeap)
  | .rangeVar relname aliasNode =>
      heapNodeSem (fun tables _ userInfo => do
        let (authorized, tables') ← authorizeRangeVar s relname aliasNode tables userInfo
        return { Authorized := authorized, Tables := tables' })
  | .rangeSubselect lateral subquery aliasNode =>
      let sub := nodeSemOpt s subquery
      heapNodeSem (authorizeRangeSubselectOn sub.onHeap lateral aliasNode)
  | .withClause ctes =>
      let items := nodeSemList s ctes
      heapNodeSem (authorizeWithClauseOn (items.map NodeSem.onHeap))
  | _ => defaultNodeSem
/-- Go `AuthorizeNode` for a possibly nil node. -/
def nodeSemOpt (s : AuthorizationServiceImpl) : Option Node → NodeSem
  | none => nilNodeSem
  | some node => nodeSem s node
/-- The walks of the nodes of a list. -/
def nodeSemList (s : AuthorizationServiceImpl) : List Node → List NodeSem
  | [] => []
  | node :: rest => nodeSem s node :: nodeSemList s rest
/-- Go `authorizeSelectStmt` for a non-nil statement. -/
def selectSem (s : AuthorizationServiceImpl) : SelectStmt → Walk
  | .mk intoClause withClause op larg rarg fromClause whereClause havingClause targetList =>
      let ctes := nodeSemListOpt s withClause
      let l := selectSemOpt s larg
      let r := selectSemOpt s rarg
      let items := nodeSemList s fromClause
      let w := whereSem s whereClause
      let hv := whereSem s havingClause
      authorizeSelectStmtOn intoClause ctes op l r (items.map NodeSem.onHeap) w hv targetList
/-- Go `authorizeSelectStmt` for a possibly nil statement; every getter of a
nil statement returns the zero value. -/
def selectSemOpt (s : AuthorizationServiceImpl) : Option SelectStmt → Walk
  | none => fun _ _ _ => do
      let fresh ← newMap []
      return { Authorized := true, Tables := some fresh }
  | some stmt => selectSem s stmt
/-- The walks of the CTEs of a WITH clause, when the clause is present. -/
def nodeSemListOpt (s : AuthorizationServiceImpl) : Option (List Node) → Option (List Walk)
  | none => none
  | some ctes => some ((nodeSemList s ctes).map NodeSem.onHeap)
/-- The walk of a WHERE or HAVING clause, when the clause is present. -/
def whereSem (s : AuthorizationServiceImpl) : Option Node → Option Walk
  | none => none
  | some node => some (nodeSem s node).onHeap
end

/-! ## The functions of `authorization.go` by name -/

/-- Go `AuthorizeNode`, on the heap. -/
def AuthorizeNode (s : AuthorizationServiceImpl) (node : Option Node) : Walk :=
  (nodeSemOpt s node).onHeap

/-- Go `authorizeSelectStmt`, on the heap. -/
def authorizeSelectStmt (s : AuthorizationServiceImpl) (stmt : Option SelectStmt) : Walk :=
  selectSemOpt s stmt

/-- Go `authorizeAExpr`, on a relation map given by value. -/
def authorizeAExpr (s : AuthorizationServiceImpl) (kind : A_Expr_Kind) (name : List Node)
    (lexpr rexpr : Option Node) (tables : Option TableMap) (neg : Bool) (userInfo : UserContext) :
    Except Fault AuthorizationResult :=
  authorizeAExprOn (AuthorizeNode s rexpr) kind name lexpr rexpr tables neg userInfo

/-- Go `authorizeBoolExpr`, on a relation map given by value. -/
def authorizeBoolExpr (s : AuthorizationServiceImpl) (boolop : BoolExprType) (args : List Node)
    (tables : Option TableMap) (neg : Bool) (userInfo : UserContext) :
    Except Fault AuthorizationResult :=
  authorizeBoolExprOn ((nodeSemList s args).map NodeSem.onClone) boolop tables neg userInfo

/-- Go `authorizeJoinExpr`, on the heap. -/
def authorizeJoinExpr (s : AuthorizationServiceImpl) (jointype : JoinType) (isNatural : Bool)
    (larg rarg : Option Node) (usingClause : List Node) (joinAlias : Option Alias)
    (quals : Option Node) : Walk :=
  authorizeJoinExprOn (AuthorizeNode s larg) (AuthorizeNode s rarg) (AuthorizeNode s quals)
    larg.isNone rarg.isNone jointype isNatural usingClause joinAlias

/-- Go `authorizeRangeSubselect`, on the heap. -/
def authorizeRangeSubselect (s : AuthorizationServiceImpl) (lateral : Bool)
    (subquery : Option Node) (aliasNode : Option Alias) : Walk :=
  authorizeRangeSubselectOn (AuthorizeNode s subquery) lateral aliasNode

/-- A walk from the empty store: the result, with the relation map read back
as a value. -/
def runWalk (w : Walk) (neg : Bool) (userInfo : UserContext) : Except Fault AuthorizationResult :=
  match (w none neg userInfo).run {} with
  | .error e => .error e
  | .ok (res, h) => do
    let tables ← cloneMapFromHeap h res.Tables
    pure { Authorized := res.Authorized, Tables := tables, TargetList := res.TargetList }

/-! ## Test fixtures (`authorization_test.go`) and vocabulary of the statements -/

/-- Test fixture `MockSchemaService`. -/
def MockSchemaService : SchemaService where
  GetColumns := fun tableName =>
    if tableName = "student" then
      ["id", "code", "name", "gender", "birthday", "email", "administrative_class_id"]
    else if tableName = "professor" then
      ["id", "name", "email", "academic_rank", "degree", "department_id"]
    else if tableName = "course" then
      ["id", "code", "name", "english_name", "credits", "practice_hours", "theory_hours",
        "self_learn_hours", "prerequisite"]
    else if tableName = "administrative_class" then ["id", "name", "program_id", "advisor_id"]
    else if tableName = "course_class_enrollment" then
      ["id", "student_id", "course_class_id", "grade"]
    else []

/-- The service the tests run: `NewAuthorizationServiceImpl(&MockSchemaService{})`. -/
def mockService : AuthorizationServiceImpl := { schemaService := MockSchemaService }

/-- The column map `authorizeRangeVar` and the test fixtures build from a list
of column names: `Columns.Set(col, &ColumnInfo{Name: col, SourceTable: table})`. -/
def ownColumns (columns : List String) : List (String × ColumnInfo) :=
  columns.foldl (fun acc col => omSet acc col (ColumnInfo.mk col SourceRef.self)) []

/-- Test fixture `createTableInfo`: a relation with its own columns and an
empty component map. -/
def createTableInfo (name als : String) (authorized isDatabase : Bool) (columns : List String) :
    TableInfoV2 :=
  .mk name (some (ownColumns columns)) als false (some []) authorized isDatabase

/-- The base relation `authorizeRangeVar` creates for table `name` without an
alias, for a caller who is not authorized on it yet. -/
def unauthorizedBase (s : AuthorizationServiceImpl) (name : String) : TableInfoV2 :=
  createTableInfo name name false true (s.schemaService.GetColumns name)

/-- The node `pgquery.MakeColumnRefNode` of the two strings `table.column`. -/
def columnRefNode (table column : String) : Node :=
  .columnRef [.string table, .string column]

/-- The node `pgquery.MakeAConstIntNode(k)`. -/
def intConstNode (k : Int) : Node := .aConst (.ival k)

/-- A column map with every `SourceTable` pointer dropped. -/
def eraseColumnSources (cs : List (String × ColumnInfo)) : List (String × ColumnInfo) :=
  cs.map (fun e => (e.1, ColumnInfo.mk e.2.Name SourceRef.nil))

mutual
/-- A relation with every `SourceTable` pointer dropped, in the relation and
in its components: what a comparison that ignores `SourceTable` sees (name,
alias, flags, the column aliases and names in order, the components). -/
def TableInfoV2.eraseSources : TableInfoV2 → TableInfoV2
  | .mk name cols als hasStar unAuth authorized isDb =>
      .mk name (cols.map eraseColumnSources) als hasStar (eraseSourcesOpt unAuth) authorized isDb
/-- The component map with every `SourceTable` pointer dropped, when not nil. -/
def eraseSourcesOpt : Option (List (String × TableInfoV2)) → Option (List (String × TableInfoV2))
  | none => none
  | some ts => some (eraseSourcesList ts)
/-- The relations of a map with every `SourceTable` pointer dropped. -/
def eraseSourcesList : List (String × TableInfoV2) → List (String × TableInfoV2)
  | [] => []
  | (key, t) :: rest => (key, t.eraseSources) :: eraseSourcesList rest
end

/-- The flag `Authorized` of the relation stored under `key`, if there is one. -/
def authorizedAt (tables : Option TableMap) (key : String) : Option Bool :=
  match tables with
  | none => none
  | some ts => (omGet ts key).map TableInfoV2.Authorized

/-- A relation counts as authorized: a base relation by its flag, a virtual
relation by having no unauthorized component left. -/
def TableInfoV2.isAuthorized (t : TableInfoV2) : Bool :=
  if t.IsDatabase then t.Authorized
  else match t.UnAuthorizedTables with
    | none => false
    | some unAuth => unAuth.length = 0

/-- A comparison expression: the fields of a `pgquery.A_Expr`. -/
structure Comparison where
  Kind : A_Expr_Kind
  Name : List Node
  Lexpr : Option Node
  Rexpr : Option Node

/-- The parse-tree node of a comparison expression. -/
def Comparison.node (c : Comparison) : Node := .aExpr c.Kind c.Name c.Lexpr c.Rexpr

/-- Walking a comparison expression: `authorizeAExpr`. -/
def Comparison.walk (s : AuthorizationServiceImpl) (c : Comparison) (tables : Option TableMap)
    (neg : Bool) (userInfo : UserContext) : Except Fault AuthorizationResult :=
  authorizeAExpr s c.Kind c.Name c.Lexpr c.Rexpr tables neg userInfo

/-- The comparison `table.column op k` with an integer constant. -/
def columnOpConst (table column op : String) (k : Int) : Comparison :=
  { Kind := .AEXPR_OP, Name := [.string op], Lexpr := some (columnRefNode table column),
    Rexpr := some (intConstNode k) }

/-- A student caller as `FetchStudentInfo` builds it: role `student`. -/
def studentCaller (id administrativeClass advisor : Int) (instructors : List Int) : UserContext :=
  .student { ID := id, Role := "student", AdministrativeClassID := administrativeClass,
             EnrolledCourseClassIDs := [], EnrolledScheduleIDs := [],
             AdvisorProfessorID := advisor, CourseInstructorIDs := instructors }

/-- A professor caller as `FetchProfessorInfo` builds it: role `professor`. -/
def professorCaller (id : Int) (taughtCourseClasses advisedStudents : List Int) : UserContext :=
  .professor { ID := id, Role := "professor", AdvisedClassIDs := [],
               TaughtCourseClassIDs := taughtCourseClasses, TaughtScheduleIDs := [],
               AdvisedStudentIDs := advisedStudents, TaughtStudentIDs := [] }

/-- An admin caller as `FetchAdminInfo` builds it: role `admin`. -/
def adminCaller (id : Int) : UserContext := .admin { ID := id, Role := "admin" }

/-- A child map reports the relation under `k` as not authorized. -/
def reportsUnauthorized (k : String) (T : Option TableMap) : Bool :=
  match T with
  | none => false
  | some ts =>
    match omGet ts k with
    | none => false
    | some c => !c.Authorized

/-- A child map reports the relation under `k` as authorized, or has no
relation under `k`. -/
def reportsAuthorized (k : String) (T : Option TableMap) : Bool :=
  match T with
  | none => false
  | some ts =>
    match omGet ts k with
    | none => true
    | some c => c.Authorized

/-- The statement `SELECT * FROM fromClause WHERE whereClause`. -/
def selectStarFrom (fromClause : List Node) (whereClause : Option Node) : Node :=
  .selectStmt (.mk false none .SETOP_NONE none none fromClause whereClause none
    [.resTarget "" (some (.columnRef [.aStar]))])

/-- The last statements of `validateQuery` (`db.go`): the statement is walked
with `AuthorizeNode(stmt, nil, false, userInfo)` and `authResult.Authorized`
is the verdict. -/
def validateStatement (s : AuthorizationServiceImpl) (stmt : Node) (userInfo : UserContext) :
    Except Fault Bool :=
  match (AuthorizeNode s (some stmt) none false userInfo).run {} with
  | .error e => .error e
  | .ok (res, _) => .ok res.Authorized

/-- The test catalog, with `columns` as the columns of `table`. -/
def mockServiceWith (table : String) (columns : List String) : AuthorizationServiceImpl :=
  { schemaService :=
      { GetColumns := fun t => if t = table then columns else MockSchemaService.GetColumns t } }

/-- The comparison `(table.c1, table.c2) = (SELECT other.d1, other.d2 FROM other)`. -/
def rowEqualsSubselect (table c1 c2 other d1 d2 : String) : Comparison :=
  { Kind := .AEXPR_OP, Name := [.string "="],
    Lexpr := some (.rowExpr [columnRefNode table c1, columnRefNode table c2]),
    Rexpr := some (.subLink (some (.selectStmt (.mk false none .SETOP_NONE none none
      [.rangeVar other none] none none
      [.resTarget "" (some (columnRefNode other d1)),
       .resTarget "" (some (columnRefNode other d2))])))) }

/-- The virtual relation `createVirtualTableForAlias` builds for
`(SELECT student.id FROM student) AS v`, with the given components left. -/
def virtualOverStudent (s : AuthorizationServiceImpl) (components : List (String × TableInfoV2))
    (authorized : Bool) : TableInfoV2 :=
  .mk "v" (some [("id", .mk "id" (.table (unauthorizedBase s "student")))]) "v" false
    (some components) authorized false

mutual
/-- The graph `Clone` walks from a relation is a tree: no column of a
virtual relation met on the way (through the sources of virtual columns and
through the components) is bound to the relation that owns it. -/
def TableInfoV2.acyclic : TableInfoV2 → Bool
  | .mk _ cols _ _ unAuth _ isDb => (isDb || acyclicColumnsOpt cols) && acyclicTablesOpt unAuth
/-- The columns of a virtual relation are bound to trees, when the map is not nil. -/
def acyclicColumnsOpt : Option (List (String × ColumnInfo)) → Bool
  | none => true
  | some cs => acyclicColumns cs
/-- The columns of a virtual relation are bound to trees. -/
def acyclicColumns : List (String × ColumnInfo) → Bool
  | [] => true
  | (_, .mk _ src) :: rest => acyclicSource src && acyclicColumns rest
/-- A column of a virtual relation is bound to nil or to a tree. -/
def acyclicSource : SourceRef → Bool
  | .nil => true
  | .self => false
  | .table t => t.acyclic
/-- The components are trees, when the map is not nil. -/
def acyclicTablesOpt : Option (List (String × TableInfoV2)) → Bool
  | none => true
  | some ts => acyclicTables ts
/-- The components are trees. -/
def acyclicTables : List (String × TableInfoV2) → Bool
  | [] => true
  | (_, t) :: rest => t.acyclic && acyclicTables rest
end

/-- The relation a column of `owner` stored under `colAlias` is bound to. -/
def TableInfoV2.sourceOf (owner : TableInfoV2) (colAlias : String) : Option TableInfoV2 :=
  match owner.Columns with
  | none => none
  | some cs => (omGet cs colAlias).bind (fun col => col.SourceTable.deref owner)

/-- Test fixture of `TestTableInfoV2_Clone`, "Table with columns": the base
relation `table1` whose column `col1` is bound to the relation `source`. -/
def tableWithColumns : TableInfoV2 :=
  .mk "table1" (some [("col1", .mk "col1" (.table (.mk "source" none "" false none false true)))])
    "t1" false none false true

/-- The relation still holds the component `c`, with `Authorized = false`. -/
def TableInfoV2.holdsUnauthorized (cur : TableInfoV2) (c : String) : Bool :=
  match cur.UnAuthorizedTables.bind (fun cu => omGet cu c) with
  | none => false
  | some x => !x.Authorized

/-- The copy of the relation under `k` in a child map still holds the
component `c`, with `Authorized = false`. -/
def holdsUnauthorized (k c : String) (T : Option TableMap) : Bool :=
  match T.bind (fun ts => omGet ts k) with
  | none => false
  | some cur => cur.holdsUnauthorized c

/-- A child map has a relation under `k`. -/
def holdsRelation (k : String) (T : Option TableMap) : Bool :=
  (T.bind (fun ts => omGet ts k)).isSome

/-- What one child map says about the component `c` of the virtual relation
under `k` in `UpdateUnauthorizedTablesByIntersection`: as far as this child
goes the component stays.  A child without a relation under `k` only counts
against a component whose alias is `k` itself. -/
def childKeeps (k c : String) (T : Option TableMap) : Bool :=
  holdsUnauthorized k c T || (!holdsRelation k T && c != k)

/-- The end of the last loop of both update functions for a virtual relation:
the components that are left, and `Authorized = true` when none is. -/
def TableInfoV2.withComponents (t : TableInfoV2) (unAuth : List (String × TableInfoV2)) :
    TableInfoV2 :=
  if unAuth.length = 0 then (t.setUnAuthorizedTables (some unAuth)).setAuthorized true
  else t.setUnAuthorizedTables (some unAuth)

/-- What a walk may not undo of a relation `R` in the relation `R'` that
takes its place: a base relation with the flag `Authorized` keeps it, and a
virtual relation with no unauthorized component has none afterwards. -/
def TableInfoV2.keptBy (R R' : TableInfoV2) : Prop :=
  (R.IsDatabase = true → R.Authorized = true → R'.IsDatabase = true ∧ R'.Authorized = true) ∧
  (R.IsDatabase = false → R.UnAuthorizedTables = some [] →
    R'.IsDatabase = false ∧ R'.UnAuthorizedTables = some [])

/-- `M'` has the keys of `M`, and every relation of `M` is kept by the
relation under its key in `M'`. -/
def mapKeptBy (M M' : TableMap) : Prop :=
  M'.map Prod.fst = M.map Prod.fst ∧
  ∀ k R, omGet M k = some R → ∃ R', omGet M' k = some R' ∧ R.keptBy R'

mutual
/-- A boolean tree over comparison expressions: a `BoolExpr` node whose
arguments are such trees, or an `A_Expr` node. -/
def Node.isBooleanTree : Node → Bool
  | .aExpr _ _ _ _ => true
  | .boolExpr _ args => allBooleanTrees args
  | _ => false
/-- Every node of the list is a boolean tree over comparison expressions. -/
def allBooleanTrees : List Node → Bool
  | [] => true
  | n :: rest => n.isBooleanTree && allBooleanTrees rest
end

/-- Test fixture of `TestUpdateUnauthorizedTablesByUnion`, "Database table
unauthorized in one": the base relation `student` with the given flag. -/
def studentTbl (authorized : Bool) : TableInfoV2 :=
  createTableInfo "student" "student" authorized true (mockService.schemaService.GetColumns "student")

/-- A walk on a map of copies keeps what is authorized: on a map with
distinct keys that are the aliases, it leaves the map it was given as it is,
returns a map of its own, and every relation of the incoming map is kept by
the relation under its key in the returned map. -/
def CloneWalk.keepsAuthorized (w : CloneWalk) : Prop :=
  ∀ (M : TableMap) (neg : Bool) (u : UserContext) (r : OperandResult),
    (M.map Prod.fst).Nodup → (∀ e ∈ M, e.2.Alias = e.1) → w (some M) neg u = .ok r →
    r.incoming = some M ∧ r.aliased = false ∧ ∃ M', r.result.Tables = some M' ∧ mapKeptBy M M'

/-- Every relation of `M` that is authorized (a base relation by its flag, a
virtual relation by having no unauthorized component) is authorized in the
map `res`, under the same key. -/
def keepsAuthorizedRelations (M : TableMap) (res : Option TableMap) : Prop :=
  ∀ k R, omGet M k = some R → R.isAuthorized = true →
    ∃ M' R', res = some M' ∧ omGet M' k = some R' ∧ R'.isAuthorized = true

/-- The operand `EXISTS (SELECT * FROM course <jointype> JOIN professor ON
professor.id = 1)`: a `SubLink` over a statement whose FROM item is a join. -/
def existsJoin (jointype : JoinType) : Node :=
  .subLink (some (selectStarFrom
    [.joinExpr jointype false (some (.rangeVar "course" none)) (some (.rangeVar "professor" none))
      [] none (some (columnOpConst "professor" "id" "=" 1).node)] none))

/-- What the invariant of a virtual relation is about: `IsDatabase`,
`Authorized`, and the number of unauthorized components (`none` for a nil map). -/
def TableInfoV2.authorizationState (t : TableInfoV2) : Bool × Bool × Option Nat :=
  (t.IsDatabase, t.Authorized, t.UnAuthorizedTables.map List.length)

/-- Go `(*TableInfoV2).getRealColumnInfoFromAlias` on relations of the store,
where a column may be bound to any relation, also to the one that owns it.
`fuel` bounds the number of turns of the loop
`for curTable != nil && !curTable.IsDatabase`; the result is `none` when the
loop has not finished within `fuel` turns, otherwise what the function
returns (a column, or nil) or the panic of `Columns.Get` on a nil map. -/
def getRealColumnInfoFromAliasRef (h : Heap) :
    Nat → Option Nat → String → Option (Except Fault (Option ColumnCell))
  | _, none, _ => some (.ok none)
  | fuel, some p, colAlias =>
      if (h.table p).IsDatabase then
        match (h.table p).Columns with
        | none => some (.error (.runtimePanic "nil map"))
        | some cs => some (.ok (omGet cs colAlias))
      else
        match fuel with
        | 0 => none
        | fuel + 1 =>
          match (h.table p).Columns with
          | none => some (.error (.runtimePanic "nil map"))
          | some cs =>
            match omGet cs colAlias with
            | none => some (.ok none)
            | some resolvedCol =>
                getRealColumnInfoFromAliasRef h fuel resolvedCol.SourceTable resolvedCol.Name

/-- Go `(*TableInfoV2).getRealColName` on relations of the store. -/
def getRealColNameRef (h : Heap) (fuel : Nat) (t : Option Nat) (colAlias : String) :
    Option (Except Fault String) :=
  (getRealColumnInfoFromAliasRef h fuel t colAlias).map (fun r =>
    r.map (fun resolvedCol =>
      match resolvedCol with
      | none => ""
      | some c => c.Name))

/-- The chain of bindings from the alias `a` of the relation `p`: in a
virtual relation the binding under the current alias leads to its name in its
source relation. -/
inductive BindingChain (h : Heap) : Option Nat → String → Option Nat → String → Prop where
  | here (p : Option Nat) (a : String) : BindingChain h p a p a
  | through (p : Nat) (a : String) (cs : OrderedMap ColumnCell) (col : ColumnCell)
      (q : Option Nat) (b : String) :
      (h.table p).IsDatabase = false → (h.table p).Columns = some cs → omGet cs a = some col →
      BindingChain h col.SourceTable col.Name q b → BindingChain h (some p) a q b

/-- Where a chain of bindings ends and what resolution returns there: at a
base relation, its column under the final name if it has one; at an absent
source relation, nil; at a virtual relation without a column under the
current alias, nil. -/
def chainEnd (h : Heap) (q : Option Nat) (b : String) (r : Option ColumnCell) : Prop :=
  match q with
  | none => r = none
  | some p =>
    ∃ cs, (h.table p).Columns = some cs ∧
      (if (h.table p).IsDatabase then r = omGet cs b else omGet cs b = none ∧ r = none)

/-- Test fixture of `TestUpdateUnauthorizedTablesByIntersection`, "No
unauthorized tables in virtual table": the virtual relation `subquery` whose
column `id` is bound to `subquery` itself. -/
def selfBoundHeap : Heap :=
  { tables := [{ Name := "subquery", Columns := some [("id", { Name := "id", SourceTable := some 0 })],
                 Alias := "subquery", UnAuthorizedTables := some [], Authorized := false,
                 IsDatabase := false }],
    maps := [] }

/-- A store with the base relation `student` at 0 and, at 1, the virtual
relation `v` whose column `sid` is bound to `student.id`. -/
def layeredHeap : Heap :=
  { tables := [{ Name := "student", Columns := some [("id", { Name := "id", SourceTable := some 0 })],
                 Alias := "student", UnAuthorizedTables := some [], Authorized := false,
                 IsDatabase := true },
               { Name := "v", Columns := some [("sid", { Name := "id", SourceTable := some 0 })],
                 Alias := "v", UnAuthorizedTables := some [], Authorized := false,
                 IsDatabase := false }],
    maps := [] }

/-- The columns of the source relations in the order `*` takes them: for
each source relation in turn, its column aliases in order, each with the
relation that holds it; a relation with a nil column map is skipped. -/
def sourceColumns (h : Heap) : List Nat → List (String × Nat)
  | [] => []
  | p :: rest =>
    match (h.table p).Columns with
    | none => sourceColumns h rest
    | some cs => cs.map (fun e => (e.1, p)) ++ sourceColumns h rest

/-- Star expansion as the specification words it: the i-th source column is
bound (by its name and the relation that holds it) under the i-th outer alias
while there is one, and under its own alias otherwise. -/
def starExpansion : List (String × Nat) → List String → OrderedMap ColumnCell
  | [], _ => []
  | (name, p) :: rest, [] =>
      (name, { Name := name, SourceTable := some p }) :: starExpansion rest []
  | (name, p) :: rest, a :: more =>
      (a, { Name := name, SourceTable := some p }) :: starExpansion rest more

/-- The cell `authorizeRangeVar` builds for the table `name` with the given
columns, at the address `self`. -/
def baseCell (name : String) (self : Nat) (columns : List String) (authorized : Bool) :
    TableObj :=
  { Name := name,
    Columns := some (columns.foldl
      (fun acc colName => omSet acc colName { Name := colName, SourceTable := some self }) []),
    Alias := name, UnAuthorizedTables := some [], Authorized := authorized, IsDatabase := true }

/-- A store with the base relations `student (id, name)`, not authorized, at 0
and `course (code)`, authorized, at 1, and the map of both at 0. -/
def twoTableHeap : Heap :=
  { tables := [baseCell "student" 0 ["id", "name"] false, baseCell "course" 1 ["code"] true],
    maps := [[("student", 0), ("course", 1)]] }

/-- The target `table.column AS name` of a target list (`name` empty when
there is no AS). -/
def columnTarget (table column name : String) : Node :=
  .resTarget name (some (columnRefNode table column))

/-- The outward alias of a `table.column [AS name]` target, as the
specification orders it, with the outer aliases that are left: the outer
explicit column alias at the running index if there is one and it is not
empty (the index advances), else the AS name if one is given, else the
column name. -/
def outwardAlias (colAliases : List String) (name column : String) : String × List String :=
  match colAliases with
  | a :: rest => if a ≠ "" then (a, rest) else (if name ≠ "" then name else column, colAliases)
  | [] => (if name ≠ "" then name else column, colAliases)

/-- The FROM item `(SELECT * FROM fromClause) AS name`. -/
def subselectStarAs (fromClause : List Node) (name : String) : Node :=
  .rangeSubselect false (some (selectStarFrom fromClause none))
    (some { Aliasname := name, Colnames := [] })

/-- The unauthorized components of the relation under `key`: for each, its
alias and the name of the relation stored under it. -/
def componentsAt (tables : Option TableMap) (key : String) : Option (List (String × String)) :=
  (tables.bind (fun ts => omGet ts key)).bind (fun t =>
    t.UnAuthorizedTables.map (fun u => u.map (fun e => (e.1, e.2.Name))))

/-- A relation is open to the caller without any predicate: the flag
`authorizeRangeVar` gives the relation it creates. -/
def relationOpen (userInfo : UserContext) (relname : String) : Bool :=
  isPublicTable relname || userInfo.GetRole == "admin"

/-- A target that `createVirtualTableForAlias` can process: not a column
reference made of a single name, for which the code reads `fields[1]` of a
one-element slice. -/
def targetResolvable : Node → Bool
  | .resTarget _ (some (.columnRef [f0])) => f0.isAStar || f0.GetString_.isNone
  | _ => true

/-- Every target of the list, when there is one, can be processed. -/
def targetsResolvable : Option (List Node) → Bool
  | none => true
  | some targets => targets.all targetResolvable

mutual
/-- The field `TargetList` of the result `authorizeSelectStmt` returns for a
statement it walks to the end. -/
def SelectStmt.resultTargetList : SelectStmt → Option (List Node)
  | .mk intoClause _ op larg rarg _ _ _ targetList =>
    if intoClause then none
    else
      match op with
      | .SETOP_UNION =>
        if (resultTargetListOpt larg).isSome && (resultTargetListOpt rarg).isSome
        then resultTargetListOpt larg else none
      | .SETOP_INTERSECT =>
        if (resultTargetListOpt larg).isSome && (resultTargetListOpt rarg).isSome
        then resultTargetListOpt larg else none
      | .SETOP_EXCEPT => resultTargetListOpt larg
      | _ => if targetList.isEmpty then none else some targetList
/-- The field `TargetList` of the result for a possibly nil statement. -/
def resultTargetListOpt : Option SelectStmt → Option (List Node)
  | none => none
  | some stmt => stmt.resultTargetList
end

/-- The store `h'` continues `h`: the relations and the maps of `h` are in
`h'`, unchanged. -/
def Heap.continuedBy (h h' : Heap) : Prop :=
  h.tables.length ≤ h'.tables.length ∧ h.maps.length ≤ h'.maps.length ∧
  (∀ p, p < h.tables.length → h'.table p = h.table p) ∧
  (∀ m, m < h.maps.length → h'.map m = h.map m)

/-- The relations of the entries are cells of the store with a column map and
a component map: what `createVirtualTableForAlias` reads without a panic. -/
def Heap.usable (h : Heap) (entries : OrderedMap Nat) : Prop :=
  ∀ e ∈ entries, e.2 < h.tables.length ∧ (h.table e.2).Columns.isSome = true ∧
    (h.table e.2).UnAuthorizedTables.isSome = true

/-! ## Relations that are authorized throughout -/

/-- The relation at `p` is authorized throughout: it is a cell of the store
with `Authorized = true`, an empty component map and a column map, and, when
it is virtual, every relation a column of it is bound to is authorized
throughout.  `d` bounds the length of the chains of bindings, and no relation
on them has an address below `lo`. -/
def Heap.credited (h : Heap) (lo : Nat) : Nat → Nat → Prop
  | 0, _ => False
  | d + 1, p => lo ≤ p ∧ p < h.tables.length ∧ (h.table p).Authorized = true ∧
      (h.table p).UnAuthorizedTables = some [] ∧
      ∃ cs, (h.table p).Columns = some cs ∧
        ((h.table p).IsDatabase = true ∨
          ∀ e ∈ cs, ∀ q, e.2.SourceTable = some q → h.credited lo d q)

/-- Every relation of the entries is authorized throughout. -/
def Heap.settled (h : Heap) (entries : OrderedMap Nat) : Prop :=
  ∀ e ∈ entries, h.credited 0 h.tables.length e.2

/-- The cells of `h` from address `lo` on are in `h'`, unchanged. -/
def Heap.agreesFrom (h h' : Heap) (lo : Nat) : Prop :=
  h.tables.length ≤ h'.tables.length ∧
  ∀ x, lo ≤ x → x < h.tables.length → h'.table x = h.table x

/-- The component map is present and empty. -/
def emptyComponents : Option (List (String × TableInfoV2)) → Bool
  | some [] => true
  | _ => false

mutual
/-- A relation value that is authorized throughout: `Authorized = true`, an
empty component map, a column map, and, when it is virtual, columns bound to
nothing or to relations that are authorized throughout. -/
def TableInfoV2.settled : TableInfoV2 → Bool
  | .mk _ cols _ _ unAuth authorized isDb =>
      authorized && emptyComponents unAuth && settledColumnsOpt isDb cols
/-- The column map is present and, in a virtual relation, every column is
bound to nothing or to a relation that is authorized throughout. -/
def settledColumnsOpt (isDb : Bool) : Option (List (String × ColumnInfo)) → Bool
  | none => false
  | some cs => isDb || settledColumns cs
/-- Every column is bound to nothing or to a relation that is authorized
throughout. -/
def settledColumns : List (String × ColumnInfo) → Bool
  | [] => true
  | (_, .mk _ src) :: rest => settledSource src && settledColumns rest
/-- The source of a column of a virtual relation: nothing, or a relation that
is authorized throughout. -/
def settledSource : SourceRef → Bool
  | .nil => true
  | .self => false
  | .table t => t.settled
end

/-- The outcome of a walk that started from the store `h` with `tables = nil`
and found everything open: no fault, `Authorized = true`, the target list
`tl`, and a map of its own whose relations are authorized throughout; the
store `h` is continued. -/
def Heap.settledWith (h : Heap) (tl : Option (List Node))
    (r : Except Fault (AuthorizationResultRef × Heap)) : Prop :=
  ∃ res h' m, r = .ok (res, h') ∧ res.Authorized = true ∧ res.Tables = some m ∧
    res.TargetList = tl ∧ h.maps.length ≤ m ∧ m < h'.maps.length ∧ h.continuedBy h' ∧
    h'.settled (h'.map m)

/-- A walk from `tables = nil` with `neg = false` finds everything open, from
every store. -/
def Walk.settles (w : Walk) (userInfo : UserContext) : Prop :=
  ∀ (h : Heap), ∃ tl, h.settledWith tl ((w none false userInfo).run h)

/-- A walk from `tables = nil` with `neg = false` finds everything open and
returns the target list `tl`, from every store. -/
def Walk.settlesWith (w : Walk) (userInfo : UserContext) (tl : Option (List Node)) : Prop :=
  ∀ (h : Heap), h.settledWith tl ((w none false userInfo).run h)

/-- A comparison that `authorizeAExpr` walks to the end when `neg = false`:
an `A_Expr` with both operands whose operator is `=`. -/
def Node.isEqualsComparison : Node → Bool
  | .aExpr _ (op :: _) (some _) (some _) => getStringValueFromNode (some op) == "="
  | _ => false

/-- The clause `authorizeSelectStmt` walks first when the FROM items left
`Authorized = false` (the WHERE clause, or the HAVING clause when there is no
WHERE clause) is a comparison with the operator `=`. -/
def creditingClause (whereClause havingClause : Option Node) : Bool :=
  match whereClause with
  | some w => w.isEqualsComparison
  | none =>
    match havingClause with
    | some hv => hv.isEqualsComparison
    | none => false

/-- A `CommonTableExpr` node. -/
def Node.isCommonTableExpr : Node → Bool
  | .commonTableExpr _ _ => true
  | _ => false

/-- The WITH clause, when there is one, lists `CommonTableExpr` nodes. -/
def cteEntries : Option (List Node) → Bool
  | none => true
  | some ctes => ctes.all Node.isCommonTableExpr

/-- The WITH clause is present and lists at least one CTE. -/
def hasCte : Option (List Node) → Bool
  | some (_ :: _) => true
  | _ => false

mutual
/-- A FROM item the walker handles and finds open, for relations open
according to `isOpen`: a reference to an open relation, a join of two such
items, or a subselect that is not LATERAL over a supported statement whose
targets, when the subselect has an alias, can all be processed. -/
def Node.supportedFromItem (isOpen : String → Bool) : Node → Bool
  | .rangeVar relname _ => isOpen relname
  | .joinExpr _ _ larg rarg _ _ _ =>
      supportedSide isOpen larg && supportedSide isOpen rarg
  | .rangeSubselect lateral subquery aliasNode =>
      !lateral && supportedSubquery isOpen aliasNode.isSome subquery
  | _ => false
/-- A side of a join: present and a supported FROM item. -/
def supportedSide (isOpen : String → Bool) : Option Node → Bool
  | some node => node.supportedFromItem isOpen
  | none => false
/-- The subquery of a subselect in FROM: a supported statement; `aliased`
tells whether the subselect has an alias. -/
def supportedSubquery (isOpen : String → Bool) (aliased : Bool) : Option Node → Bool
  | some (.selectStmt stmt) =>
      stmt.supported isOpen && (!aliased || targetsResolvable stmt.resultTargetList)
  | _ => false
/-- A statement with an INTO clause; or, the WITH clause (if any) listing
CTEs, a set operation over supported statements, or a plain SELECT whose FROM
items are all supported and which, when the WITH clause lists a CTE, has an
`=` comparison as its WHERE clause (or, without a WHERE clause, as its HAVING
clause). -/
def SelectStmt.supported (isOpen : String → Bool) : SelectStmt → Bool
  | .mk intoClause withClause op larg rarg fromClause whereClause havingClause _ =>
    intoClause || (cteEntries withClause &&
      match op with
      | .SETOP_UNION => supportedOpt isOpen larg && supportedOpt isOpen rarg
      | .SETOP_INTERSECT => supportedOpt isOpen larg && supportedOpt isOpen rarg
      | .SETOP_EXCEPT => supportedOpt isOpen larg
      | _ => supportedFromItems isOpen fromClause &&
          (!hasCte withClause || creditingClause whereClause havingClause))
/-- An operand of a set operation: nil, or a supported statement. -/
def supportedOpt (isOpen : String → Bool) : Option SelectStmt → Bool
  | none => true
  | some stmt => stmt.supported isOpen
/-- Every FROM item of the list is supported. -/
def supportedFromItems (isOpen : String → Bool) : List Node → Bool
  | [] => true
  | node :: rest => node.supportedFromItem isOpen && supportedFromItems isOpen rest
end

/-- The statement `WITH x AS (SELECT * FROM student) SELECT * FROM x WHERE 1 = 1`. -/
def selectFromCteWhereTrue : SelectStmt :=
  .mk false (some [.commonTableExpr "x" (some (selectStarFrom [.rangeVar "student" none] none))])
    .SETOP_NONE none none [.rangeVar "x" none]
    (some (.aExpr .AEXPR_OP [.string "="] (some (intConstNode 1)) (some (intConstNode 1))))
    none [.resTarget "" (some (.columnRef [.aStar]))]

/-- The walk of the CTE list of a statement from `tables = nil`, started with
an empty map of the statement: it returns, leaves `Authorized = a0` and an
empty map of the statement, and the store is continued. -/
def ctesLeave (ctes : List Walk) (userInfo : UserContext) (a0 : Bool) : Prop :=
  ∀ (h : Heap) (m : Nat), m < h.maps.length → h.map m = [] →
    ∃ h' m', (walkCtes none false userInfo ctes (true, some m)).run h = .ok ((a0, some m'), h') ∧
      h.continuedBy h' ∧ m ≤ m' ∧ m' < h'.maps.length ∧ h'.map m' = []

/-- The walk of a WHERE or HAVING clause on a settled map of the store with
`neg = false` returns `Authorized = true` and a new, settled map, and the store
is continued. -/
def Walk.credits (w : Walk) (userInfo : UserContext) : Prop :=
  ∀ (h : Heap) (m : Nat), m < h.maps.length → h.settled (h.map m) →
    ∃ h', (w (some m) false userInfo).run h
        = .ok ({ Authorized := true, Tables := some h.maps.length }, h') ∧
      h.continuedBy h' ∧ h.maps.length < h'.maps.length ∧ h'.settled (h'.map h.maps.length)

/-- The comparison `a op b` of two integer constants. -/
def intComparison (op : String) (a b : Int) : Node :=
  .aExpr .AEXPR_OP [.string op] (some (intConstNode a)) (some (intConstNode b))

/-- The statement `WITH x AS (SELECT * FROM student) SELECT * FROM x` with a
WHERE and a HAVING clause. -/
def selectFromCteWith (whereClause havingClause : Option Node) : Node :=
  .selectStmt (.mk false
    (some [.commonTableExpr "x" (some (selectStarFrom [.rangeVar "student" none] none))])
    .SETOP_NONE none none [.rangeVar "x" none] whereClause havingClause
    [.resTarget "" (some (.columnRef [.aStar]))])

/-- The statement `WITH x AS (SELECT * FROM student) SELECT * FROM x`. -/
def selectFromCte : Node :=
  .selectStmt (.mk false
    (some [.commonTableExpr "x" (some (selectStarFrom [.rangeVar "student" none] none))])
    .SETOP_NONE none none [.rangeVar "x" none] none none
    [.resTarget "" (some (.columnRef [.aStar]))])

/-- The statement
`SELECT * FROM student s, LATERAL (SELECT * FROM enrollment) e`. -/
def selectFromLateral : Node :=
  selectStarFrom
    [.rangeVar "student" (some { Aliasname := "s", Colnames := [] }),
     .rangeSubselect true (some (selectStarFrom [.rangeVar "enrollment" none] none))
       (some { Aliasname := "e", Colnames := [] })] none

/-- The statement `SELECT * FROM generate_series(1, 3)`; the function item is
a node kind the walker has no case for. -/
def selectFromFunction : Node :=
  selectStarFrom [.other "RangeFunction"] none

/-- The verdict of `validateStatement`: `some (some b)` when the walk returns
`b`, `some none` when it returns an error, `none` when it panics. -/
def verdictOf (r : Except Fault Bool) : Option (Option Bool) :=
  match r with
  | .ok b => some (some b)
  | .error (.error _) => some none
  | .error _ => none

/-- The statement
`SELECT * FROM (SELECT * FROM student s JOIN enrollment e ON s.id = e.student_id) v
 UNION SELECT * FROM professor WHERE id = 1`. -/
def selectJoinUnion : SelectStmt :=
  .mk false none .SETOP_UNION
    (some (.mk false none .SETOP_NONE none none
      [.rangeSubselect false
        (some (selectStarFrom
          [.joinExpr .JOIN_INNER false
            (some (.rangeVar "student" (some { Aliasname := "s", Colnames := [] })))
            (some (.rangeVar "enrollment" (some { Aliasname := "e", Colnames := [] })))
            [] none
            (some (.aExpr .AEXPR_OP [.string "="] (some (columnRefNode "s" "id"))
              (some (columnRefNode "e" "student_id"))))] none))
        (some { Aliasname := "v", Colnames := [] })]
      none none [.resTarget "" (some (.columnRef [.aStar]))]))
    (some (.mk false none .SETOP_NONE none none [.rangeVar "professor" none]
      (some (columnOpConst "professor" "id" "=" 1).node) none
      [.resTarget "" (some (.columnRef [.aStar]))]))
    [] none none []

/-- The statement `SELECT targets FROM fromClause WHERE whereClause`. -/
def selectFrom (targets fromClause : List Node) (whereClause : Option Node) : Node :=
  .selectStmt (.mk false none .SETOP_NONE none none fromClause whereClause none targets)

/-- A target that is an unqualified column reference, as in `SELECT id`. -/
def singleNameTarget (column : String) : Node :=
  .resTarget "" (some (.columnRef [.string column]))

/-- The comparison `column = k` with an unqualified column reference. -/
def singleNameEquals (column : String) (k : Int) : Node :=
  .aExpr .AEXPR_OP [.string "="] (some (.columnRef [.string column])) (some (intConstNode k))

/-- The statement
`SELECT * FROM (SELECT id, name FROM student WHERE id = 123) AS v`. -/
def selectOwnRowAsV : Node :=
  selectStarFrom
    [.rangeSubselect false
      (some (selectFrom [singleNameTarget "id", singleNameTarget "name"]
        [.rangeVar "student" none] (some (singleNameEquals "id" 123))))
      (some { Aliasname := "v", Colnames := [] })] none

/-- The statement
`SELECT * FROM (SELECT student.id, student.name FROM student WHERE id = 123) AS v`. -/
def selectOwnRowQualifiedAsV : Node :=
  selectStarFrom
    [.rangeSubselect false
      (some (selectFrom [columnTarget "student" "id" "", columnTarget "student" "name" ""]
        [.rangeVar "student" none] (some (singleNameEquals "id" 123))))
      (some { Aliasname := "v", Colnames := [] })] none

/-- The outcome of a walk: `some (some b)` when it returns `Authorized = b`,
`some none` when it returns an error, `none` when it panics. -/
def outcomeOf {α : Type} (authorized : α → Bool) (r : Except Fault α) : Option (Option Bool) :=
  match r with
  | .ok a => some (some (authorized a))
  | .error (.error _) => some none
  | .error _ => none

/-- What is read of a relation of a map given by value: the key it is stored
under, its name, its flag `Authorized`, the keys of its columns and the keys
of its unauthorized components. -/
structure RelationView where
  key : String
  name : String
  authorized : Bool
  columns : List String
  components : List String
deriving DecidableEq

/-- The relations of a map given by value, as `RelationView`s. -/
def describeTables (tables : Option TableMap) : Option (List RelationView) :=
  tables.map (fun ts => ts.map (fun e =>
    { key := e.1, name := e.2.Name, authorized := e.2.Authorized,
      columns := (e.2.Columns.getD []).map Prod.fst,
      components := (e.2.UnAuthorizedTables.getD []).map Prod.fst }))

/-- What is read of the outcome of a walk: the authorized bit, the returned
map and the incoming map afterwards. -/
structure WalkView where
  authorized : Bool
  tables : Option (List RelationView)
  incoming : Option (List RelationView)
deriving DecidableEq

/-- The fault a call ends in, if any. -/
def faultOf {α : Type} (r : Except Fault α) : Option Fault :=
  match r with
  | .ok _ => none
  | .error e => some e

/-- A walk from a relation map given by value: the authorized bit and what
the returned map and the incoming map show afterwards. -/
def walkFrom (w : Walk) (tables : Option TableMap) (neg : Bool) (userInfo : UserContext) :
    Option WalkView :=
  (runOnClone w tables neg userInfo).toOption.map
    (fun r => { authorized := r.result.Authorized, tables := describeTables r.result.Tables,
                incoming := describeTables r.incoming })

/-- The keys and flags of the relations of a view. -/
def RelationView.flags (vs : Option (List RelationView)) : Option (List (String × Bool)) :=
  vs.map (fun l => l.map (fun v => (v.key, v.authorized)))

/-- The FROM item `(SELECT * FROM course) AS v`. -/
def courseAsV : Node := subselectStarAs [.rangeVar "course" none] "v"

/-- The statement `SELECT * FROM student UNION SELECT * FROM professor`. -/
def studentUnionProfessor : Node :=
  .selectStmt (.mk false none .SETOP_UNION
    (some (.mk false none .SETOP_NONE none none [.rangeVar "student" none] none none
      [.resTarget "" (some (.columnRef [.aStar]))]))
    (some (.mk false none .SETOP_NONE none none [.rangeVar "professor" none] none none
      [.resTarget "" (some (.columnRef [.aStar]))]))
    [] none none [])

/-- The statement
`SELECT * FROM (SELECT * FROM student UNION SELECT * FROM professor) AS v WHERE 1 = 1`. -/
def unionAsVWhereTrue : Node :=
  selectStarFrom
    [.rangeSubselect false (some studentUnionProfessor) (some { Aliasname := "v", Colnames := [] })]
    (some (.aExpr .AEXPR_OP [.string "="] (some (intConstNode 1)) (some (intConstNode 1))))

/-- The join `student <jointype> JOIN course_class_enrollment AS cce ON quals`
the way `TestAuthorizeJoinExpr` builds it. -/
def joinStudentEnrollment (jointype : JoinType) (isNatural : Bool) (quals : Option Node) : Node :=
  .joinExpr jointype isNatural
    (some (.rangeVar "student" (some { Aliasname := "student", Colnames := [] })))
    (some (.rangeVar "course_class_enrollment" (some { Aliasname := "cce", Colnames := [] })))
    [] none quals

/-- The ON predicate `student.id = cce.course_class_id`. -/
def onColumnEqualsColumn : Node :=
  .aExpr .AEXPR_OP [.string "="] (some (columnRefNode "student" "id"))
    (some (columnRefNode "cce" "course_class_id"))

/-- The ON predicate `cce.student_id = k`. -/
def onEnrollmentStudent (k : Int) : Node :=
  .aExpr .AEXPR_OP [.string "="] (some (columnRefNode "cce" "student_id")) (some (intConstNode k))

/-- The node kinds for which the `switch` of `AuthorizeNode` has a case that
returns. -/
def Node.hasCase : Node → Bool
  | .selectStmt _ => true
  | .boolExpr _ _ => true
  | .aExpr _ _ _ _ => true
  | .subLink _ => true
  | .joinExpr _ _ _ _ _ _ _ => true
  | .fromExpr _ _ => true
  | .rangeVar _ _ => true
  | .rangeSubselect _ _ _ => true
  | .withClause _ => true
  | _ => false

/-! ## `validateQuery` (`db.go`) -/

/-- What the `Fetch...Info` functions read from the database for a user id;
a query that fails is logged and leaves the zero value. -/
structure UserDirectory where
  AdministrativeClassID : Int → Int
  EnrolledCourseClassIDs : Int → List Int
  EnrolledScheduleIDs : Int → List Int
  AdvisedClassIDs : Int → List Int
  TaughtCourseClassIDs : Int → List Int
  TaughtScheduleIDs : Int → List Int
  AdvisedStudentIDs : Int → List Int
  TaughtStudentIDs : Int → List Int

/-- Go `FetchStudentInfo`. -/
def FetchStudentInfo (db : UserDirectory) (specificUserID : Int) : StudentInfo :=
  { ID := specificUserID, Role := "student",
    AdministrativeClassID := db.AdministrativeClassID specificUserID,
    EnrolledCourseClassIDs := db.EnrolledCourseClassIDs specificUserID,
    EnrolledScheduleIDs := db.EnrolledScheduleIDs specificUserID,
    AdvisorProfessorID := 0, CourseInstructorIDs := [] }

/-- Go `FetchProfessorInfo`. -/
def FetchProfessorInfo (db : UserDirectory) (specificUserID : Int) : ProfessorInfo :=
  { ID := specificUserID, Role := "professor",
    AdvisedClassIDs := db.AdvisedClassIDs specificUserID,
    TaughtCourseClassIDs := db.TaughtCourseClassIDs specificUserID,
    TaughtScheduleIDs := db.TaughtScheduleIDs specificUserID,
    AdvisedStudentIDs := db.AdvisedStudentIDs specificUserID,
    TaughtStudentIDs := db.TaughtStudentIDs specificUserID }

/-- Go `FetchAdminInfo`. -/
def FetchAdminInfo (userID : Int) : AdminInfo := { ID := userID, Role := "admin" }

/-- The three values `validateQuery` returns: `(bool, string, error)`; `err`
is the message of the error, `none` for nil. -/
structure Validation where
  isValid : Bool
  errMsg : String
  err : Option String
deriving DecidableEq

/-- The message `validateQuery` returns with the verdict of the walk. -/
def permissionMessage : String := "Xin lỗi bạn không có quyền truy cập vào dữ liệu này"

/-- Go `validateQuery`.  `parsed` is what `pgquery.Parse(query)` returns: an
error, or the statements of the text; `userRole` and `specificId` are the two
values read from the request context.  A panic of the walk is the fault of the
call. -/
def validateQuery (s : AuthorizationServiceImpl) (db : UserDirectory) (userRole : String)
    (specificId : Int) (parsed : Except String (List Node)) : Except Fault Validation :=
  match parsed with
  | .error e => pure { isValid := false, errMsg := "Failed to parse SQL query", err := some e }
  | .ok [] => pure { isValid := false, errMsg := "Empty query", err := none }
  | .ok (stmt :: _) =>
    match stmt with
    | .selectStmt _ =>
      if userRole = "" then pure { isValid := false, errMsg := "Role not found", err := none }
      else if specificId = 0 then
        pure { isValid := false, errMsg := "User ID not found", err := none }
      else
        let fetched : Option UserContext :=
          if userRole = "student" then some (.student (FetchStudentInfo db specificId))
          else if userRole = "professor" then some (.professor (FetchProfessorInfo db specificId))
          else if userRole = "admin" then some (.admin (FetchAdminInfo specificId))
          else none
        match fetched with
        | none =>
          pure { isValid := false, errMsg := "Unknown role: " ++ userRole, err := none }
        | some userInfo =>
          match (AuthorizeNode s (some stmt) none false userInfo).run {} with
          | .error (.error e) =>
            pure { isValid := false, errMsg := permissionMessage, err := some e }
          | .error e => throw e
          | .ok (authResult, _) =>
            pure { isValid := authResult.Authorized, errMsg := permissionMessage, err := none }
    | _ => pure { isValid := false, errMsg := "Only SELECT queries are allowed", err := none }

/-- A database in which every query of the `Fetch...Info` functions returns
no rows. -/
def emptyDirectory : UserDirectory :=
  { AdministrativeClassID := fun _ => 0, EnrolledCourseClassIDs := fun _ => [],
    EnrolledScheduleIDs := fun _ => [], AdvisedClassIDs := fun _ => [],
    TaughtCourseClassIDs := fun _ => [], TaughtScheduleIDs := fun _ => [],
    AdvisedStudentIDs := fun _ => [], TaughtStudentIDs := fun _ => [] }

/-- The statement `SELECT 1`. -/
def selectOne : Node := selectFrom [.resTarget "" (some (intConstNode 1))] [] none

/-- The statement `DROP TABLE student`, a node kind the walker has no
constructor for. -/
def dropTableStudent : Node := .other "DropStmt"

/-! ## `authorizeJoinExpr` on a `*JoinExpr` -/

/-- Go `pgquery.JoinExpr`, with the fields the walker reads. -/
structure JoinExpr where
  Jointype : JoinType
  IsNatural : Bool
  Larg : Option Node
  Rarg : Option Node
  UsingClause : List Node
  Alias : Option Alias
  Quals : Option Node

/-- Go `authorizeJoinExpr` with its first statement: a nil `*JoinExpr` is an
error. -/
def authorizeJoinExprPtr (s : AuthorizationServiceImpl) (joinExpr : Option JoinExpr) : Walk :=
  match joinExpr with
  | none => fun _ _ _ => throw (.error "joinExpr is nil")
  | some j =>
    authorizeJoinExpr s j.Jointype j.IsNatural j.Larg j.Rarg j.UsingClause j.Alias j.Quals

/-- The join types the `switch joinExpr.GetJointype()` of `authorizeJoinExpr`
has a case for. -/
def JoinType.supported : JoinType → Bool
  | .JOIN_INNER => true
  | .JOIN_UNIQUE_INNER => true
  | .JOIN_LEFT => true
  | .JOIN_RIGHT => true
  | .JOIN_FULL => true
  | .JOIN_UNIQUE_OUTER => true
  | _ => false

/-- The address `m` is a map of the store and its relations are cells with a
column map and a component map. -/
def Heap.holds (h : Heap) (m : Nat) : Prop :=
  m < h.maps.length ∧ h.usable (h.map m)

/-- The join `student NATURAL JOIN course_class_enrollment AS cce`, as a
`*JoinExpr`. -/
def naturalJoinStudentEnrollment : JoinExpr :=
  { Jointype := .JOIN_INNER, IsNatural := true,
    Larg := some (.rangeVar "student" (some { Aliasname := "student", Colnames := [] })),
    Rarg := some (.rangeVar "course_class_enrollment" (some { Aliasname := "cce", Colnames := [] })),
    UsingClause := [], Alias := none, Quals := none }

/-- The join `left SEMI JOIN right` without ON, as a `*JoinExpr`. -/
def semiJoin (left right : String) : JoinExpr :=
  { Jointype := .JOIN_SEMI, IsNatural := false,
    Larg := some (.rangeVar left (some { Aliasname := left, Colnames := [] })),
    Rarg := some (.rangeVar right (some { Aliasname := right, Colnames := [] })),
    UsingClause := [], Alias := none, Quals := none }

/-- The professor of the test "Natural Join for Professor Missing Restrictive ON". -/
def professorTwo : UserContext :=
  professorCaller 2 [100] [3]

/-! ## A map of the store that a walk has no reference to -/

/-- The address `f` is a map of the store, and that map is empty. -/
def Heap.emptyAt (h : Heap) (f : Nat) : Prop :=
  f < h.maps.length ∧ h.map f = []

/-- The computation `x` leaves the map at `f` in place and empty, and the
value it returns satisfies `post`. -/
def keepsEmpty {α : Type} (f : Nat) (x : HeapM α) (post : α → Prop) : Prop :=
  ∀ (h : Heap) (a : α) (h' : Heap), h.emptyAt f → x.run h = .ok (a, h') → h'.emptyAt f ∧ post a

/-- A walk that is not given the map at `f` leaves it in place and empty and
does not return it. -/
def Walk.avoids (w : Walk) (f : Nat) : Prop :=
  ∀ (tables : Option Nat) (neg : Bool) (u : UserContext), tables ≠ some f →
    keepsEmpty f (w tables neg u) (fun res => res.Tables ≠ some f)

/-! ## Statements and fixtures of the claims on the top-level walk and on predicates -/

/-- The comparison `table.column op 'text'` with a string constant. -/
def columnOpString (table column op text : String) : Comparison :=
  { Kind := .AEXPR_OP, Name := [.string op], Lexpr := some (columnRefNode table column),
    Rexpr := some (.aConst (.sval text)) }

/-- The comparison `(s.name, s.code) = (SELECT c.name, c.code FROM course c)`. -/
def studentRowEqualsCourseRow : Comparison :=
  { Kind := .AEXPR_OP, Name := [.string "="],
    Lexpr := some (.rowExpr [columnRefNode "s" "name", columnRefNode "s" "code"]),
    Rexpr := some (.subLink (some (selectFrom [columnTarget "c" "name" "", columnTarget "c" "code" ""]
      [.rangeVar "course" (some { Aliasname := "c", Colnames := [] })] none))) }

/-- The relation map that holds the unauthorized base relation `student`
under its alias `s`. -/
def studentAsS : TableMap :=
  [("s", createTableInfo "student" "s" false true (MockSchemaService.GetColumns "student"))]

/-- The predicate `NOT (student.id <> k AND student.name <> 'text')`. -/
def notBothDiffer (k : Int) (text : String) : Node :=
  .boolExpr .NOT_EXPR [.boolExpr .AND_EXPR
    [(columnOpConst "student" "id" "<>" k).node, (columnOpString "student" "name" "<>" text).node]]

/-- The predicate `NOT (student.id <> k) OR NOT (student.name <> 'text')`. -/
def eitherNotDiffers (k : Int) (text : String) : Node :=
  .boolExpr .OR_EXPR
    [.boolExpr .NOT_EXPR [(columnOpConst "student" "id" "<>" k).node],
     .boolExpr .NOT_EXPR [(columnOpString "student" "name" "<>" text).node]]

/-- The predicate `student.id = k OR student.name = 'text'`. -/
def eitherEquals (k : Int) (text : String) : Node :=
  .boolExpr .OR_EXPR
    [(columnOpConst "student" "id" "=" k).node, (columnOpString "student" "name" "=" text).node]

/-- The statement `SELECT * FROM student WHERE EXISTS (SELECT 1 FROM course)`. -/
def selectStudentWhereExistsCourse : Node :=
  selectStarFrom [.rangeVar "student" none]
    (some (.subLink (some (selectFrom [.resTarget "" (some (intConstNode 1))]
      [.rangeVar "course" none] none))))

/-- Test fixture of `TestAuthorizeBoolExpr`, "Nested AND with virtual table
from authorized subquery": the virtual relation `subquery` over the
unauthorized base relations `student` and `administrative_class` (component
`admin_class`), with the column `id` bound to `student.id` and the column
`administrative_class_id` bound to `administrative_class.id`. -/
def subqueryOverStudentAndClass : TableInfoV2 :=
  .mk "subquery"
    (some [("id", .mk "id" (.table (unauthorizedBase mockService "student"))),
           ("administrative_class_id",
             .mk "id" (.table (unauthorizedBase mockService "administrative_class")))])
    "subquery" false
    (some [("student", unauthorizedBase mockService "student"),
           ("admin_class", unauthorizedBase mockService "administrative_class")])
    false false

/-- Test fixture of `TestIsAuthorizedExpression`, "Column name conflict -
student accessing student_id in wrong table": the target table `student`
with a column `student_id` bound to a relation named `student`. -/
def studentWithStudentIdColumn : TableInfoV2 :=
  .mk "student"
    (some [("student_id", .mk "student_id" (.table (.mk "student" none "" false none false false)))])
    "student" false none false true

/-- Test fixture of the same test: the relation `course_class_enrollment`
given as `realUnAuthTable`, without columns. -/
def enrollmentWithoutColumns : TableInfoV2 :=
  .mk "course_class_enrollment" (some []) "course_class_enrollment" false none false true

/-- The columns of the relation under `key`: for each, its alias, the name it
is bound to and the name of the relation it is bound to (empty for nil). -/
def columnBindingsAt (tables : Option TableMap) (key : String) :
    Option (List (String × String × String)) :=
  (tables.bind (fun ts => omGet ts key)).bind (fun t =>
    t.Columns.map (fun cs => cs.map (fun e =>
      (e.1, e.2.Name, ((e.2.SourceTable.deref t).map TableInfoV2.Name).getD ""))))

/-- The FROM item
`(SELECT e.grade + 0, e.student_id FROM course_class_enrollment e) AS v(x, y)`. -/
def gradeAndStudentAsV : Node :=
  .rangeSubselect false
    (some (selectFrom
      [.resTarget "" (some (.aExpr .AEXPR_OP [.string "+"] (some (columnRefNode "e" "grade"))
          (some (intConstNode 0)))),
       columnTarget "e" "student_id" ""]
      [.rangeVar "course_class_enrollment" (some { Aliasname := "e", Colnames := [] })] none))
    (some { Aliasname := "v", Colnames := [.string "x", .string "y"] })

/-- The relation map a walk from a nil map returns, read back as a value. -/
def tablesOf (r : Except Fault AuthorizationResult) : Option TableMap :=
  r.toOption.bind (fun res => res.Tables)
/-! ## The catalog queries of `Fetch...Info` (`user_info.go`) -/

/-- The catalog queries `FetchStudentInfo` (the first three) and
`FetchProfessorInfo` (the other five) issue through `GetContext` and
`SelectContext`, each as a function of the user id: the value scanned into
the destination, or the error of the query. -/
structure CatalogQueries where
  AdministrativeClassID : Int → Except String Int
  EnrolledCourseClassIDs : Int → Except String (List Int)
  EnrolledScheduleIDs : Int → Except String (List Int)
  TaughtStudentIDs : Int → Except String (List Int)
  AdvisedClassIDs : Int → Except String (List Int)
  TaughtCourseClassIDs : Int → Except String (List Int)
  TaughtScheduleIDs : Int → Except String (List Int)
  AdvisedStudentIDs : Int → Except String (List Int)

/-- What a goroutine of `Fetch...Info` leaves in its destination field: the
scanned value, or, when the query returned an error (`log.Println(...)`,
`return`), the zero value the field started with. -/
def scanInto {α : Type} (zero : α) (r : Except String α) : α :=
  match r with
  | .ok v => v
  | .error _ => zero

/-- The fields of the info after `wg.Wait()`, query by query. -/
def CatalogQueries.directory (q : CatalogQueries) : UserDirectory :=
  { AdministrativeClassID := fun id => scanInto 0 (q.AdministrativeClassID id),
    EnrolledCourseClassIDs := fun id => scanInto [] (q.EnrolledCourseClassIDs id),
    EnrolledScheduleIDs := fun id => scanInto [] (q.EnrolledScheduleIDs id),
    AdvisedClassIDs := fun id => scanInto [] (q.AdvisedClassIDs id),
    TaughtCourseClassIDs := fun id => scanInto [] (q.TaughtCourseClassIDs id),
    TaughtScheduleIDs := fun id => scanInto [] (q.TaughtScheduleIDs id),
    AdvisedStudentIDs := fun id => scanInto [] (q.AdvisedStudentIDs id),
    TaughtStudentIDs := fun id => scanInto [] (q.TaughtStudentIDs id) }

/-- Go `FetchStudentInfo` with both values it returns, `(*StudentInfo, error)`:
the last statement is `return &info, nil`. -/
def FetchStudentInfoResult (q : CatalogQueries) (specificUserID : Int) :
    StudentInfo × Option String :=
  (FetchStudentInfo q.directory specificUserID, none)

/-- Go `FetchProfessorInfo` with both values it returns: the last statement is
`return &info, nil`. -/
def FetchProfessorInfoResult (q : CatalogQueries) (specificUserID : Int) :
    ProfessorInfo × Option String :=
  (FetchProfessorInfo q.directory specificUserID, none)

/-- Go `FetchAdminInfo` with both values it returns. -/
def FetchAdminInfoResult (userID : Int) : AdminInfo × Option String :=
  (FetchAdminInfo userID, none)

/-- The `switch role` of `validateQuery` with its `if err != nil` branches:
the caller context, or the message and the error `validateQuery` returns. -/
def fetchUserInfo (q : CatalogQueries) (userRole : String) (specificId : Int) :
    Except Validation UserContext :=
  if userRole = "student" then
    match FetchStudentInfoResult q specificId with
    | (_, some e) =>
      .error { isValid := false, errMsg := "Failed to fetch student info", err := some e }
    | (info, none) => .ok (.student info)
  else if userRole = "professor" then
    match FetchProfessorInfoResult q specificId with
    | (_, some e) =>
      .error { isValid := false, errMsg := "Failed to fetch professor info", err := some e }
    | (info, none) => .ok (.professor info)
  else if userRole = "admin" then
    match FetchAdminInfoResult specificId with
    | (_, some e) =>
      .error { isValid := false, errMsg := "Failed to fetch admin info", err := some e }
    | (info, none) => .ok (.admin info)
  else .error { isValid := false, errMsg := "Unknown role: " ++ userRole, err := none }

/-- Go `validateQuery` over catalog queries that may fail. -/
def validateQueryOver (s : AuthorizationServiceImpl) (q : CatalogQueries) (userRole : String)
    (specificId : Int) (parsed : Except String (List Node)) : Except Fault Validation :=
  match parsed with
  | .error e => pure { isValid := false, errMsg := "Failed to parse SQL query", err := some e }
  | .ok [] => pure { isValid := false, errMsg := "Empty query", err := none }
  | .ok (stmt :: _) =>
    match stmt with
    | .selectStmt _ =>
      if userRole = "" then pure { isValid := false, errMsg := "Role not found", err := none }
      else if specificId = 0 then
        pure { isValid := false, errMsg := "User ID not found", err := none }
      else
        match fetchUserInfo q userRole specificId with
        | .error refused => pure refused
        | .ok userInfo =>
          match (AuthorizeNode s (some stmt) none false userInfo).run {} with
          | .error (.error e) =>
            pure { isValid := false, errMsg := permissionMessage, err := some e }
          | .error e => throw e
          | .ok (authResult, _) =>
            pure { isValid := authResult.Authorized, errMsg := permissionMessage, err := none }
    | _ => pure { isValid := false, errMsg := "Only SELECT queries are allowed", err := none }

/-- A database in which the query for the administrative class of a student
fails and every other query returns no rows. -/
def classQueryFails : CatalogQueries :=
  { AdministrativeClassID := fun _ => .error "connection refused",
    EnrolledCourseClassIDs := fun _ => .ok [], EnrolledScheduleIDs := fun _ => .ok [],
    TaughtStudentIDs := fun _ => .ok [], AdvisedClassIDs := fun _ => .ok [],
    TaughtCourseClassIDs := fun _ => .ok [], TaughtScheduleIDs := fun _ => .ok [],
    AdvisedStudentIDs := fun _ => .ok [] }

/-- A database in which every query of the `Fetch...Info` functions fails. -/
def everyQueryFails : CatalogQueries :=
  { AdministrativeClassID := fun _ => .error "connection refused",
    EnrolledCourseClassIDs := fun _ => .error "connection refused",
    EnrolledScheduleIDs := fun _ => .error "connection refused",
    TaughtStudentIDs := fun _ => .error "connection refused",
    AdvisedClassIDs := fun _ => .error "connection refused",
    TaughtCourseClassIDs := fun _ => .error "connection refused",
    TaughtScheduleIDs := fun _ => .error "connection refused",
    AdvisedStudentIDs := fun _ => .error "connection refused" }

/-- The statement `SELECT * FROM table WHERE table.column = k`. -/
def selectStarWhereEquals (table column : String) (k : Int) : Node :=
  selectStarFrom [.rangeVar table none] (some (columnOpConst table column "=" k).node)

/-- The roles `validateQuery` has a case for. -/
def knownRole (userRole : String) : Bool :=
  userRole = "student" || userRole = "professor" || userRole = "admin"

/-- The first statement of the parsed text is a SELECT statement. -/
def startsWithSelect (parsed : Except String (List Node)) : Bool :=
  match parsed with
  | .ok (.selectStmt _ :: _) => true
  | _ => false

/-- A database in which every query of the `Fetch...Info` functions succeeds
and returns no rows (the class 0 for the administrative class). -/
def noRowsCatalog : CatalogQueries :=
  { AdministrativeClassID := fun _ => .ok 0,
    EnrolledCourseClassIDs := fun _ => .ok [], EnrolledScheduleIDs := fun _ => .ok [],
    TaughtStudentIDs := fun _ => .ok [], AdvisedClassIDs := fun _ => .ok [],
    TaughtCourseClassIDs := fun _ => .ok [], TaughtScheduleIDs := fun _ => .ok [],
    AdvisedStudentIDs := fun _ => .ok [] }

/-- The first statements of `ExecuteQuery` (`db.go`): the error it returns
instead of running the query, `none` when the query is run. -/
def executeQueryRefusal (v : Validation) : Option String :=
  match v.err with
  | some e => some ("error validating query: " ++ e)
  | none => if !v.isValid then some v.errMsg else none

/-- The join `student NATURAL JOIN generate_series(1, 3)`, as a `*JoinExpr`;
the function item is a node kind the walker has no case for. -/
def naturalJoinStudentSeries : JoinExpr :=
  { Jointype := .JOIN_INNER, IsNatural := true,
    Larg := some (.rangeVar "student" none), Rarg := some (.other "RangeFunction"),
    UsingClause := [], Alias := none, Quals := none }

/-- The join `generate_series(1, 3) AS id JOIN student USING (id)`, as a
`*JoinExpr`. -/
def usingJoinSeriesStudent : JoinExpr :=
  { Jointype := .JOIN_INNER, IsNatural := false,
    Larg := some (.other "RangeFunction"), Rarg := some (.rangeVar "student" none),
    UsingClause := [.string "id"], Alias := none, Quals := none }

/-- The parse-tree node of a join expression. -/
def JoinExpr.node (j : JoinExpr) : Node :=
  .joinExpr j.Jointype j.IsNatural j.Larg j.Rarg j.UsingClause j.Alias j.Quals

/-! ## `authorizeAExpr` and `authorizeBoolExpr` on the cells of the store

The predicates once more, now the way the Go code performs them: the copy
`CloneUnAuthorizedTables` makes is a map of new cells of the store, and every
assignment to a relation is a write to the cell the pointer leads to. -/

/-- Go `CloneUnAuthorizedTables` on the store: the graph reachable from the
map is read the way `Clone` copies it and put into new cells; the copy is a
new map. -/
def CloneUnAuthorizedTablesRef (src : Option Nat) : HeapM (Option Nat) := do
  let h ← get
  let copy ← cloneMapFromHeap h src
  storeMap copy

/-- The number of column bindings in the store.  The loop of
`getRealColumnInfoFromAlias` that has made more turns than this is at a
binding it has been at before, and does not end. -/
def Heap.bindingCount (h : Heap) : Nat :=
  (h.tables.map (fun obj => (obj.Columns.getD []).length)).sum

/-- Go `(*TableInfoV2).getRealColumnInfoFromAlias` of the relation at `p`; a
loop that does not end is the fault `cycle`. -/
def resolveColumn (p : Nat) (colAlias : String) : HeapM (Option ColumnCell) := do
  let h ← get
  match getRealColumnInfoFromAliasRef h (h.bindingCount + 1) (some p) colAlias with
  | none => throw .cycle
  | some r => do
    let resolvedCol ← r
    pure resolvedCol

/-- Go `isAuthorizedExpression` on relations of the store. -/
def isAuthorizedExpressionRef (columnRefFields : List Node) (aConst : Option A_Const)
    (targetTable realUnAuthTable : Nat) (userInfo : UserContext) : HeapM Bool := do
  let target ← getTable targetTable
  let real ← getTable realUnAuthTable
  let (tableAliasColumnRef, columnName) :=
    match columnRefFields with
    | [f0] => (target.Alias, getStringValueFromNode (some f0))
    | [f0, f1] => (getStringValueFromNode (some f0), getStringValueFromNode (some f1))
    | _ => ("", "")
  let authContext := getAuthorizationColumn real.Name userInfo
  match (← resolveColumn targetTable columnName) with
  | none => pure authContext.Bypass
  | some columnInfo =>
    if columnInfo.SourceTable.isNone then pure authContext.Bypass
    else if !(tableAliasColumnRef == target.Alias)
        || !ContainsString authContext.AuthorizeColumns columnInfo.Name then
      pure authContext.Bypass
    else
      match authContext.Conditions with
      | none => throw (.runtimePanic "nil map")
      | some conditions =>
        let expectedValues := (omGet conditions columnInfo.Name).getD []
        match aConst with
        | some (.ival v) =>
          if !ContainsInt expectedValues v then pure authContext.Bypass else pure true
        | _ => throw (.runtimePanic "nil pointer dereference")

/-- The loop over `table.UnAuthorizedTables` in the virtual branch of
`authorizeAExpr`: a component the expression authorizes gets
`Authorized = true` and its alias goes to `tablesToRemove`. -/
def collectTablesToRemoveRef (columnRefFields : List Node) (aConst : Option A_Const)
    (table : Nat) (userInfo : UserContext) : OrderedMap Nat → HeapM (List String)
  | [] => pure []
  | (unAuthAlias, unauthorizedTable) :: rest => do
      let ok ← isAuthorizedExpressionRef columnRefFields aConst table unauthorizedTable userInfo
      if ok then do
        let authorizedTable ← getTable unauthorizedTable
        setTable unauthorizedTable { authorizedTable with Authorized := true }
        let more ← collectTablesToRemoveRef columnRefFields aConst table userInfo rest
        pure (unAuthAlias :: more)
      else collectTablesToRemoveRef columnRefFields aConst table userInfo rest

/-- The body of the loop over `resultTables` in `authorizeAExpr` (both for
`AEXPR_OP` and `AEXPR_IN`), for the relation at `table`. -/
def authorizeTableByPredicateRef (columnRefFields : List Node) (aConst : Option A_Const)
    (userInfo : UserContext) (table : Nat) : HeapM Unit := do
  let obj ← getTable table
  if obj.IsDatabase then
    if obj.Authorized then pure ()
    else do
      let ok ← isAuthorizedExpressionRef columnRefFields aConst table table userInfo
      if ok then setTable table { obj with Authorized := true } else pure ()
  else
    match obj.UnAuthorizedTables with
    | none => throw (.runtimePanic "nil map")
    | some unAuth => do
      let tablesToRemove ← collectTablesToRemoveRef columnRefFields aConst table userInfo unAuth
      let cur ← getTable table
      let unAuth' := tablesToRemove.foldl omDelete unAuth
      let authorized := if unAuth'.length = 0 then true else cur.Authorized
      setTable table { cur with UnAuthorizedTables := some unAuth', Authorized := authorized }

/-- The loop `for _, table := range resultTables.AllFromFront()` of
`authorizeAExpr`, over the entries of the map. -/
def authorizeTablesByPredicateRef (columnRefFields : List Node) (aConst : Option A_Const)
    (userInfo : UserContext) : OrderedMap Nat → HeapM Unit
  | [] => pure ()
  | (_, table) :: rest => do
      authorizeTableByPredicateRef columnRefFields aConst userInfo table
      authorizeTablesByPredicateRef columnRefFields aConst userInfo rest

/-- The loop `for _, table := range resultTables.AllFromFront()` of
`authorizeAExpr` on a possibly nil map of the store. -/
def authorizeMapByPredicateRef (columnRefFields : List Node) (aConst : Option A_Const)
    (userInfo : UserContext) (resultTables : Option Nat) : HeapM Unit := do
  let entries ← entriesOf resultTables
  authorizeTablesByPredicateRef columnRefFields aConst userInfo entries

/-- A call `authResult, _ := s.AuthorizeNode(...)` whose error is discarded:
after an error `authResult` is nil, and reading it is a panic. -/
def discardError {α : Type} (x : HeapM α) : HeapM α := fun h =>
  match x.run h with
  | .error (.error _) => .error (.runtimePanic "nil pointer dereference")
  | r => r

/-- Row path, virtual relation: the loop over `authResult.Tables`. -/
def creditFromSubselectRef (table : Nat) (resolvedCol : ColumnCell) :
    OrderedMap Nat → HeapM Unit
  | [] => pure ()
  | (_, found) :: rest => do
      let foundObj ← getTable found
      if !foundObj.IsDatabase then creditFromSubselectRef table resolvedCol rest
      else
        match resolvedCol.SourceTable with
        | none => throw (.runtimePanic "nil pointer dereference")
        | some src => do
          let srcObj ← getTable src
          if foundObj.Name == srcObj.Name && foundObj.Authorized then do
            setTable src { srcObj with Authorized := true }
            let obj ← getTable table
            match obj.UnAuthorizedTables with
            | none => throw (.runtimePanic "nil map")
            | some unAuth => do
              let unAuth' := omDelete unAuth foundObj.Alias
              let authorized := if unAuth'.length = 0 then true else obj.Authorized
              setTable table { obj with UnAuthorizedTables := some unAuth', Authorized := authorized }
          else creditFromSubselectRef table resolvedCol rest

/-- Row path: the body of the loop over the arguments of the row expression,
on the map `resultTables` of the store. -/
def rowExprStepRef (rexprWalk : Walk) (neg : Bool) (userInfo : UserContext)
    (resultTables : Option Nat) (arg : Node) : HeapM Unit :=
  match arg.GetColumnRef with
  | some (f0 :: f1 :: _) =>
    match f0.GetString_, f1.GetString_ with
    | some tableName, some colName => do
      let entries ← entriesOf resultTables
      match omGet entries tableName with
      | none => pure ()
      | some table => do
        let obj ← getTable table
        if obj.Authorized then pure ()
        else if obj.IsDatabase then do
          let authContext := getAuthorizationColumn obj.Name userInfo
          let resolvedCol ← resolveColumn table colName
          let realColName := match resolvedCol with
            | none => ""
            | some c => c.Name
          if ContainsString authContext.AuthorizeColumns realColName then pure ()
          else do
            let element ← newMap [(tableName, table)]
            let authResult ← discardError (rexprWalk (some element) neg userInfo)
            if authResult.Authorized then do
              let cur ← getTable table
              setTable table { cur with Authorized := true }
            else pure ()
        else do
          match (← resolveColumn table colName) with
          | none => pure ()
          | some resolvedCol => do
            let authResult ← discardError (rexprWalk none neg userInfo)
            let found ← entriesOf authResult.Tables
            creditFromSubselectRef table resolvedCol found
    | _, _ => pure ()
  | _ => pure ()

/-- Row path: the loop over the arguments of the row expression. -/
def rowExprLoopRef (rexprWalk : Walk) (neg : Bool) (userInfo : UserContext)
    (resultTables : Option Nat) : List Node → HeapM Unit
  | [] => pure ()
  | arg :: rest => do
      rowExprStepRef rexprWalk neg userInfo resultTables arg
      rowExprLoopRef rexprWalk neg userInfo resultTables rest

/-- The first part of the case `AEXPR_OP` of `authorizeAExpr`: a column
reference compared with a constant, in either order. -/
def authorizeColumnConstRef (lexpr rexpr : Node) (resultTables : Option Nat)
    (userInfo : UserContext) : HeapM Unit :=
  match extractColumnRefAndConst lexpr rexpr with
  | (some columnRef, some aConst) =>
      authorizeMapByPredicateRef columnRef (some aConst) userInfo resultTables
  | _ => pure ()

/-- The `switch expr.GetKind()` of `authorizeAExpr`, for non-nil operands, on
the map `resultTables` of the store. -/
def authorizeAExprKindRef (rexprWalk : Walk) (kind : A_Expr_Kind) (lexpr rexpr : Node)
    (resultTables : Option Nat) (neg : Bool) (userInfo : UserContext) : HeapM Unit :=
  match kind with
  | .AEXPR_OP => do
    authorizeColumnConstRef lexpr rexpr resultTables userInfo
    match lexpr.GetRowExpr with
    | some args => rowExprLoopRef rexprWalk neg userInfo resultTables args
    | none => pure ()
  | .AEXPR_IN =>
    match lexpr.GetColumnRef, rexpr.GetList with
    | some columnRef, some [item] =>
        authorizeMapByPredicateRef columnRef item.GetAConst userInfo resultTables
    | _, _ => pure ()
  | _ => pure ()

/-- The closing loop of `authorizeAExpr` and of `authorizeBoolExpr` over the
entries of a map of the store. -/
def foldAuthorizedRef : Bool → OrderedMap Nat → HeapM Bool
  | authorized, [] => pure authorized
  | authorized, (_, table) :: rest => do
      let obj ← getTable table
      if obj.IsDatabase then foldAuthorizedRef (authorized && obj.Authorized) rest
      else if authorized then
        match obj.UnAuthorizedTables with
        | none => throw (.runtimePanic "nil map")
        | some unAuth => foldAuthorizedRef (unAuth.length = 0) rest
      else foldAuthorizedRef false rest

/-- The closing loop over a possibly nil map of the store. -/
def foldAuthorizedMapRef (authorized : Bool) (tables : Option Nat) : HeapM Bool := do
  let entries ← entriesOf tables
  foldAuthorizedRef authorized entries

/-- Go `authorizeAExpr` on the store, with the walk of `expr.GetRexpr()` as a
parameter. -/
def authorizeAExprRef (rexprWalk : Walk) (kind : A_Expr_Kind) (name : List Node)
    (lexpr rexpr : Option Node) : Walk := fun tables neg userInfo => do
  let resultTables ← CloneUnAuthorizedTablesRef tables
  match lexpr, rexpr with
  | some l, some r =>
    match name with
    | [] => throw (.runtimePanic "index out of range [0] with length 0")
    | op :: _ =>
      if getStringValueFromNode (some op) != wantOperator neg then
        return { Authorized := false, Tables := resultTables }
      else do
        authorizeAExprKindRef rexprWalk kind l r resultTables neg userInfo
        let authorized ← foldAuthorizedMapRef true resultTables
        return { Authorized := authorized, Tables := resultTables }
  | _, _ => return { Authorized := false, Tables := resultTables }

/-- The loop over `boolExpr.Args` for AND and OR: every operand is walked
with the map `result.Tables`; the slice `authResultTables`. -/
def walkOperandsRef (resultTables : Option Nat) (neg : Bool) (userInfo : UserContext) :
    List Walk → HeapM (List (Option Nat))
  | [] => pure []
  | arg :: rest => do
      let authResult ← arg resultTables neg userInfo
      let more ← walkOperandsRef resultTables neg userInfo rest
      pure (authResult.Tables :: more)

/-- Go `authorizeBoolExpr` on the store, with the walks of the operands as a
parameter. -/
def authorizeBoolExprRef (operands : List Walk) (boolop : BoolExprType) : Walk :=
  fun tables neg userInfo => do
    let resultTables ← CloneUnAuthorizedTablesRef tables
    match boolop with
    | .OR_EXPR => do
      let authResultTables ← walkOperandsRef resultTables neg userInfo operands
      UpdateUnauthorizedTablesByUnionRef resultTables authResultTables
      let authorized ← foldAuthorizedMapRef true resultTables
      return { Authorized := authorized, Tables := resultTables }
    | .AND_EXPR => do
      let authResultTables ← walkOperandsRef resultTables neg userInfo operands
      UpdateUnauthorizedTablesByIntersectionRef resultTables authResultTables
      let authorized ← foldAuthorizedMapRef true resultTables
      return { Authorized := authorized, Tables := resultTables }
    | .NOT_EXPR =>
      match operands with
      | [arg] => do
        let authResult ← arg resultTables (!neg) userInfo
        let authorized ← foldAuthorizedMapRef authResult.Authorized authResult.Tables
        return { Authorized := authorized, Tables := authResult.Tables }
      | _ => throw (.error "NOT expression must have exactly one argument")
    | .BOOL_EXPR_TYPE_UNDEFINED => do
      let authorized ← foldAuthorizedMapRef true resultTables
      return { Authorized := authorized, Tables := resultTables }

mutual
/-- The `switch` of `AuthorizeNode` for a non-nil node, every node kind on
the store. -/
def nodeWalk (s : AuthorizationServiceImpl) : Node → Walk
  | .selectStmt stmt => selectWalk s stmt
  | .boolExpr boolop args => authorizeBoolExprRef (nodeWalkList s args) boolop
  | .aExpr kind name lexpr rexpr =>
      authorizeAExprRef (nodeWalkOpt s rexpr) kind name lexpr rexpr
  | .subLink subselect => nodeWalkOpt s subselect
  | .joinExpr jointype isNatural larg rarg usingClause joinAlias quals =>
      authorizeJoinExprOn (nodeWalkOpt s larg) (nodeWalkOpt s rarg) (nodeWalkOpt s quals)
        larg.isNone rarg.isNone jointype isNatural usingClause joinAlias
  | .fromExpr fromlist quals =>
      authorizeFromExprOn (nodeWalkList s fromlist) (nodeWalkOpt s quals)
  | .rangeVar relname aliasNode => fun tables _ userInfo => do
      let (authorized, tables') ← authorizeRangeVar s relname aliasNode tables userInfo
      return { Authorized := authorized, Tables := tables' }
  | .rangeSubselect lateral subquery aliasNode =>
      authorizeRangeSubselectOn (nodeWalkOpt s subquery) lateral aliasNode
  | .withClause ctes => authorizeWithClauseOn (nodeWalkList s ctes)
  | _ => defaultNodeSem.onHeap
/-- Go `AuthorizeNode` for a possibly nil node, on the store. -/
def nodeWalkOpt (s : AuthorizationServiceImpl) : Option Node → Walk
  | none => nilNodeSem.onHeap
  | some node => nodeWalk s node
/-- The walks of the nodes of a list, on the store. -/
def nodeWalkList (s : AuthorizationServiceImpl) : List Node → List Walk
  | [] => []
  | node :: rest => nodeWalk s node :: nodeWalkList s rest
/-- Go `authorizeSelectStmt` for a non-nil statement, on the store. -/
def selectWalk (s : AuthorizationServiceImpl) : SelectStmt → Walk
  | .mk intoClause withClause op larg rarg fromClause whereClause havingClause targetList =>
      authorizeSelectStmtOn intoClause (nodeWalkListOpt s withClause) op (selectWalkOpt s larg)
        (selectWalkOpt s rarg) (nodeWalkList s fromClause) (whereWalk s whereClause)
        (whereWalk s havingClause) targetList
/-- Go `authorizeSelectStmt` for a possibly nil statement, on the store. -/
def selectWalkOpt (s : AuthorizationServiceImpl) : Option SelectStmt → Walk
  | none => fun _ _ _ => do
      let fresh ← newMap []
      return { Authorized := true, Tables := some fresh }
  | some stmt => selectWalk s stmt
/-- The walks of the CTEs of a WITH clause, when the clause is present. -/
def nodeWalkListOpt (s : AuthorizationServiceImpl) : Option (List Node) → Option (List Walk)
  | none => none
  | some ctes => some (nodeWalkList s ctes)
/-- The walk of a WHERE or HAVING clause, when the clause is present. -/
def whereWalk (s : AuthorizationServiceImpl) : Option Node → Option Walk
  | none => none
  | some node => some (nodeWalk s node)
end

/-- Go `AuthorizeNode`, every node kind on the store. -/
def AuthorizeNodeRef (s : AuthorizationServiceImpl) (node : Option Node) : Walk :=
  nodeWalkOpt s node

/-! ## The part of the store a walk has allocated -/

/-- The relation refers only to cells from address `n` on: its components,
and the sources of its columns. -/
def TableObj.refersFrom (obj : TableObj) (n : Nat) : Prop :=
  (∀ us, obj.UnAuthorizedTables = some us → ∀ e ∈ us, n ≤ e.2) ∧
  (∀ cs, obj.Columns = some cs → ∀ e ∈ cs, ∀ q, e.2.SourceTable = some q → n ≤ q)

/-- The store `h` continues `base`, and what was allocated after `base` is
apart from it: a map that is not of `base` holds only cells that are not of
`base`, and these refer only to cells that are not of `base`. -/
def Heap.apart (base h : Heap) : Prop :=
  base.continuedBy h ∧
  (∀ m, base.maps.length ≤ m → ∀ e ∈ h.map m, base.tables.length ≤ e.2) ∧
  (∀ p, base.tables.length ≤ p → (h.table p).refersFrom base.tables.length)

/-- The map is nil or was allocated after `base`. -/
def Heap.newerMap (base : Heap) (m : Option Nat) : Prop :=
  ∀ x, m = some x → base.maps.length ≤ x

/-- The computation `x`, run from a store that continues `base` with a part
apart from it, leaves the relations and the maps of `base` as they are and
the allocated part apart, and the value it returns satisfies `post`. -/
def keepsApart {α : Type} (base : Heap) (x : HeapM α) (post : α → Prop) : Prop :=
  ∀ (h : Heap) (a : α) (h' : Heap), base.apart h → x.run h = .ok (a, h') →
    base.apart h' ∧ post a

/-- A walk that is given nil or a map allocated after `base` leaves `base` as
it is and returns nil or a map allocated after `base`. -/
def Walk.staysApart (w : Walk) (base : Heap) : Prop :=
  ∀ (tables : Option Nat) (neg : Bool) (u : UserContext), base.newerMap tables →
    keepsApart base (w tables neg u) (fun res => base.newerMap res.Tables)

/-- A walk that leaves `base` as it is whatever map it is given, and returns
nil or a map allocated after `base`. -/
def Walk.leavesCaller (w : Walk) (base : Heap) : Prop :=
  ∀ (tables : Option Nat) (neg : Bool) (u : UserContext),
    keepsApart base (w tables neg u) (fun res => base.newerMap res.Tables)

/-! # Theorems -/

/-! ## The `Except` monad -/

@[simp] theorem except_pure {α : Type} (a : α) : (pure a : Except Fault α) = Except.ok a := rfl

@[simp] theorem except_bind_ok {α β : Type} (a : α) (f : α → Except Fault β) :
    (Except.ok a >>= f) = f a := rfl

@[simp] theorem except_bind_error {α β : Type} (e : Fault) (f : α → Except Fault β) :
    ((Except.error e : Except Fault α) >>= f) = Except.error e := rfl

@[simp] theorem except_throw {α : Type} (e : Fault) :
    (throw e : Except Fault α) = Except.error e := rfl

theorem bind_eq_ok {α β : Type} {x : Except Fault α} {f : α → Except Fault β} {b : β}
    (h : (x >>= f) = .ok b) : ∃ a, x = .ok a ∧ f a = .ok b := by
  cases x with
  | error e => simp at h
  | ok a => exact ⟨a, rfl, by simpa using h⟩

/-! ## Ordered maps -/

theorem omGet_omSet {V : Type} (m : OrderedMap V) (k k' : String) (v : V) :
    omGet (omSet m k v) k' = if k = k' then some v else omGet m k' := by
  induction m with
  | nil => simp [omSet, omGet]
  | cons e rest ih =>
    obtain ⟨a, b⟩ := e
    by_cases h : a = k
    · subst h
      by_cases h' : a = k' <;> simp [omSet, omGet, h']
    · by_cases h' : a = k'
      · subst h'
        have h2 : ¬ k = a := fun h2 => h h2.symm
        simp [omSet, omGet, h, h2]
      · simp [omSet, omGet, h, h', ih]

theorem omSet_mem {V : Type} (m : OrderedMap V) (k : String) (v : V) (e : String × V)
    (h : e ∈ omSet m k v) : e ∈ m ∨ e = (k, v) := by
  induction m with
  | nil => simp [omSet] at h; exact Or.inr h
  | cons x rest ih =>
    obtain ⟨a, b⟩ := x
    by_cases hk : a = k
    · subst hk
      simp [omSet] at h
      rcases h with h | h
      · exact Or.inr h
      · exact Or.inl (List.mem_cons_of_mem _ h)
    · simp [omSet, hk] at h
      rcases h with h | h
      · exact Or.inl (by rw [h]; exact List.mem_cons_self _ _)
      · rcases ih h with h | h
        · exact Or.inl (List.mem_cons_of_mem _ h)
        · exact Or.inr h

/-! ## Relations built from the catalog -/

theorem foldl_own_get (cols : List String) (acc : List (String × ColumnInfo)) (c : String) :
    omGet (cols.foldl (fun acc col => omSet acc col (ColumnInfo.mk col SourceRef.self)) acc) c
      = if c ∈ cols then some (ColumnInfo.mk c SourceRef.self) else omGet acc c := by
  induction cols generalizing acc with
  | nil => simp
  | cons x rest ih =>
    simp only [List.foldl_cons, ih, omGet_omSet]
    by_cases h1 : c ∈ rest
    · simp [h1]
    · by_cases h2 : x = c
      · subst h2; simp [h1]
      · have : ¬ c = x := fun h => h2 h.symm
        simp [h1, h2, this]

theorem ownColumns_get (cols : List String) (c : String) :
    omGet (ownColumns cols) c
      = if c ∈ cols then some (ColumnInfo.mk c SourceRef.self) else none := by
  simp [ownColumns, foldl_own_get, omGet]

theorem foldl_own_self (cols : List String) (acc : List (String × ColumnInfo))
    (hacc : ∀ e ∈ acc, e.2 = ColumnInfo.mk e.1 SourceRef.self) :
    ∀ e ∈ cols.foldl (fun acc col => omSet acc col (ColumnInfo.mk col SourceRef.self)) acc,
      e.2 = ColumnInfo.mk e.1 SourceRef.self := by
  induction cols generalizing acc with
  | nil => simpa using hacc
  | cons x rest ih =>
    simp only [List.foldl_cons]
    apply ih
    intro e he
    rcases omSet_mem _ _ _ _ he with h | h
    · exact hacc e h
    · rw [h]

theorem cloneColumns_self (cs : List (String × ColumnInfo))
    (h : ∀ e ∈ cs, e.2 = ColumnInfo.mk e.1 SourceRef.self) : cloneColumns true cs = .ok cs := by
  induction cs with
  | nil => simp [cloneColumns]
  | cons x rest ih =>
    obtain ⟨a, c⟩ := x
    have hc := h (a, c) (List.mem_cons_self _ _)
    simp at hc
    subst hc
    have := ih (fun e he => h e (List.mem_cons_of_mem _ he))
    simp [cloneColumns, cloneColumn, this]

theorem clone_createTableInfo (name als : String) (auth : Bool) (cols : List String) :
    (createTableInfo name als auth true cols).Clone
      = .ok (createTableInfo name als auth true cols) := by
  have h := cloneColumns_self (ownColumns cols) (foldl_own_self cols [] (by simp))
  simp [createTableInfo, TableInfoV2.Clone, cloneColumnsOpt, cloneTablesOpt, cloneTables, h]

theorem cloneMap_single (key name als : String) (auth : Bool) (cols : List String) :
    CloneUnAuthorizedTables (some [(key, createTableInfo name als auth true cols)])
      = .ok (some [(key, createTableInfo name als auth true cols)]) := by
  simp [CloneUnAuthorizedTables, cloneTablesOpt, cloneTables, clone_createTableInfo]

/-! ## `Clone` -/

mutual
theorem clone_idem : ∀ (t t' : TableInfoV2), t.Clone = .ok t' → t'.Clone = .ok t'
  | .mk name cols als hs un au db, t', h => by
      simp only [TableInfoV2.Clone] at h
      obtain ⟨cols', hc, h⟩ := bind_eq_ok h
      obtain ⟨un', hu, h⟩ := bind_eq_ok h
      simp at h
      subst h
      simp [TableInfoV2.Clone, cloneColumnsOpt_idem db cols cols' hc, cloneTablesOpt_idem un un' hu]
theorem cloneColumnsOpt_idem : ∀ (db : Bool) (cols cols' : Option (List (String × ColumnInfo))),
    cloneColumnsOpt db cols = .ok cols' → cloneColumnsOpt db cols' = .ok cols'
  | _, none, cols', h => by
      simp [cloneColumnsOpt] at h; subst h; simp [cloneColumnsOpt]
  | db, some cs, cols', h => by
      simp only [cloneColumnsOpt] at h
      obtain ⟨cs', hc, h⟩ := bind_eq_ok h
      simp at h; subst h
      simp [cloneColumnsOpt, cloneColumns_idem db cs cs' hc]
theorem cloneColumns_idem : ∀ (db : Bool) (cs cs' : List (String × ColumnInfo)),
    cloneColumns db cs = .ok cs' → cloneColumns db cs' = .ok cs'
  | _, [], cs', h => by
      simp [cloneColumns] at h; subst h; simp [cloneColumns]
  | db, (a, c) :: rest, cs', h => by
      simp only [cloneColumns] at h
      obtain ⟨c', hc, h⟩ := bind_eq_ok h
      obtain ⟨rest', hr, h⟩ := bind_eq_ok h
      simp at h; subst h
      simp [cloneColumns, cloneColumn_idem db c c' hc, cloneColumns_idem db rest rest' hr]
theorem cloneColumn_idem : ∀ (db : Bool) (c c' : ColumnInfo),
    cloneColumn db c = .ok c' → cloneColumn db c' = .ok c'
  | db, .mk name src, c', h => by
      cases db with
      | true => simp [cloneColumn] at h; subst h; simp [cloneColumn]
      | false =>
        simp only [cloneColumn] at h
        simp at h
        obtain ⟨src', hs, h⟩ := bind_eq_ok h
        simp at h; subst h
        simp [cloneColumn, cloneSource_idem src src' hs]
theorem cloneSource_idem : ∀ (src src' : SourceRef), cloneSource src = .ok src' →
    cloneSource src' = .ok src'
  | .nil, src', h => by simp [cloneSource] at h; subst h; simp [cloneSource]
  | .self, src', h => by simp [cloneSource] at h
  | .table t, src', h => by
      simp only [cloneSource] at h
      obtain ⟨t', ht, h⟩ := bind_eq_ok h
      simp at h; subst h
      simp [cloneSource, clone_idem t t' ht]
theorem cloneTablesOpt_idem : ∀ (un un' : Option (List (String × TableInfoV2))),
    cloneTablesOpt un = .ok un' → cloneTablesOpt un' = .ok un'
  | none, un', h => by simp [cloneTablesOpt] at h; subst h; simp [cloneTablesOpt]
  | some ts, un', h => by
      simp only [cloneTablesOpt] at h
      obtain ⟨ts', hc, h⟩ := bind_eq_ok h
      simp at h; subst h
      simp [cloneTablesOpt, cloneTables_idem ts ts' hc]
theorem cloneTables_idem : ∀ (ts ts' : List (String × TableInfoV2)),
    cloneTables ts = .ok ts' → cloneTables ts' = .ok ts'
  | [], ts', h => by simp [cloneTables] at h; subst h; simp [cloneTables]
  | (k, t) :: rest, ts', h => by
      simp only [cloneTables] at h
      obtain ⟨t', ht, h⟩ := bind_eq_ok h
      obtain ⟨rest', hr, h⟩ := bind_eq_ok h
      simp at h; subst h
      simp [cloneTables, clone_idem t t' ht, cloneTables_idem rest rest' hr]
end


theorem cloneColumn_name (db : Bool) (name : String) (src : SourceRef) (c' : ColumnInfo)
    (hc : cloneColumn db (ColumnInfo.mk name src) = .ok c') : ∃ src', c' = ColumnInfo.mk name src' := by
  cases db with
  | true => simp [cloneColumn] at hc; exact ⟨_, hc.symm⟩
  | false =>
    simp only [cloneColumn] at hc
    simp at hc
    obtain ⟨src', _, hc⟩ := bind_eq_ok hc
    simp at hc; exact ⟨_, hc.symm⟩

theorem cloneColumns_erase : ∀ (db : Bool) (cs cs' : List (String × ColumnInfo)),
    cloneColumns db cs = .ok cs' → eraseColumnSources cs' = eraseColumnSources cs
  | _, [], cs', h => by simp [cloneColumns] at h; subst h; rfl
  | db, (a, .mk name src) :: rest, cs', h => by
      simp only [cloneColumns] at h
      obtain ⟨c', hc, h⟩ := bind_eq_ok h
      obtain ⟨rest', hr, h⟩ := bind_eq_ok h
      simp at h; subst h
      have ih := cloneColumns_erase db rest rest' hr
      obtain ⟨src', rfl⟩ := cloneColumn_name db name src c' hc
      simp only [eraseColumnSources, List.map_cons] at ih ⊢
      rw [ih]
      rfl

mutual
theorem clone_erase : ∀ (t t' : TableInfoV2), t.Clone = .ok t' → t'.eraseSources = t.eraseSources
  | .mk name cols als hs un au db, t', h => by
      simp only [TableInfoV2.Clone] at h
      obtain ⟨cols', hc, h⟩ := bind_eq_ok h
      obtain ⟨un', hu, h⟩ := bind_eq_ok h
      simp at h
      subst h
      have h1 : cols'.map eraseColumnSources = cols.map eraseColumnSources := by
        cases cols with
        | none => simp [cloneColumnsOpt] at hc; subst hc; rfl
        | some cs =>
          simp only [cloneColumnsOpt] at hc
          obtain ⟨cs', hcs, hc⟩ := bind_eq_ok hc
          simp at hc; subst hc
          simp [cloneColumns_erase db cs cs' hcs]
      simp [TableInfoV2.eraseSources, h1, cloneTablesOpt_erase un un' hu]
theorem cloneTablesOpt_erase : ∀ (un un' : Option (List (String × TableInfoV2))),
    cloneTablesOpt un = .ok un' → eraseSourcesOpt un' = eraseSourcesOpt un
  | none, un', h => by simp [cloneTablesOpt] at h; subst h; rfl
  | some ts, un', h => by
      simp only [cloneTablesOpt] at h
      obtain ⟨ts', hc, h⟩ := bind_eq_ok h
      simp at h; subst h
      simp [eraseSourcesOpt, cloneTables_erase ts ts' hc]
theorem cloneTables_erase : ∀ (ts ts' : List (String × TableInfoV2)),
    cloneTables ts = .ok ts' → eraseSourcesList ts' = eraseSourcesList ts
  | [], ts', h => by simp [cloneTables] at h; subst h; rfl
  | (k, t) :: rest, ts', h => by
      simp only [cloneTables] at h
      obtain ⟨t', ht, h⟩ := bind_eq_ok h
      obtain ⟨rest', hr, h⟩ := bind_eq_ok h
      simp at h; subst h
      simp [eraseSourcesList, clone_erase t t' ht, cloneTables_erase rest rest' hr]
end

theorem foldAuthorized_false (ts : TableMap) : foldAuthorized false ts = .ok false := by
  induction ts with
  | nil => simp [foldAuthorized]
  | cons e rest ih =>
    obtain ⟨k, t⟩ := e
    by_cases h : t.IsDatabase = true <;> simp [foldAuthorized, h, ih]

theorem foldAuthorizedMap_stable (a b : Bool) (tables : Option TableMap)
    (h : foldAuthorizedMap a tables = .ok b) : foldAuthorizedMap b tables = .ok b := by
  cases tables with
  | none => simp [foldAuthorizedMap] at h
  | some ts =>
    cases b with
    | false => simp [foldAuthorizedMap, foldAuthorized_false]
    | true =>
      cases a with
      | true => exact h
      | false => simp [foldAuthorizedMap, foldAuthorized_false] at h

/-- Shape of what `authorizeAExpr` returns on a non-nil map. -/
theorem aexprAfterClone_shape (w : Walk) (kind : A_Expr_Kind) (name : List Node)
    (lexpr rexpr : Option Node) (ts : TableMap) (neg : Bool) (u : UserContext)
    (res : AuthorizationResult)
    (h : authorizeAExprAfterClone w kind name lexpr rexpr (some ts) neg u = .ok res) :
    res.TargetList = none ∧ foldAuthorizedMap res.Authorized res.Tables = .ok res.Authorized := by
  cases lexpr with
  | none =>
    simp [authorizeAExprAfterClone] at h; subst h
    simp [foldAuthorizedMap, foldAuthorized_false]
  | some l =>
    cases rexpr with
    | none =>
      simp [authorizeAExprAfterClone] at h; subst h
      simp [foldAuthorizedMap, foldAuthorized_false]
    | some r =>
      cases name with
      | nil => simp [authorizeAExprAfterClone] at h
      | cons op rest =>
        simp only [authorizeAExprAfterClone] at h
        by_cases hop : (getStringValueFromNode (some op) != wantOperator neg) = true
        · simp [hop] at h; subst h
          simp [foldAuthorizedMap, foldAuthorized_false]
        · simp only [hop] at h
          obtain ⟨T', _, h⟩ := bind_eq_ok h
          obtain ⟨a, ha, h⟩ := bind_eq_ok h
          simp at h; subst h
          exact ⟨rfl, foldAuthorizedMap_stable _ _ _ ha⟩


/-! ## Comparisons against a single base relation -/

/-- Walking `t.c op k`, with `op` the operator looked for, against a map
holding one unauthorized base relation. -/
theorem aexpr_single_base (s : AuthorizationServiceImpl) (key name als t c : String)
    (cols : List String) (k : Int) (neg : Bool) (u : UserContext) (b : Bool)
    (hb : isAuthorizedExpression [.string t, .string c] (some (.ival k))
      (createTableInfo name als false true cols) (createTableInfo name als false true cols) u
        = .ok b) :
    authorizeAExpr s .AEXPR_OP [.string (wantOperator neg)] (some (columnRefNode t c))
      (some (intConstNode k)) (some [(key, createTableInfo name als false true cols)]) neg u
      = .ok { Authorized := b,
              Tables := some [(key, createTableInfo name als b true cols)] } := by
  simp only [authorizeAExpr, authorizeAExprOn, cloneMap_single]
  cases b <;>
  simp [authorizeAExprAfterClone, authorizeAExprKind, authorizeColumnConst,
    extractColumnRefAndConst, columnRefNode,
    intConstNode, Node.GetColumnRef, Node.GetAConst, Node.GetRowExpr, authorizeMapByPredicate,
    authorizeTablesByPredicate, mapTables, authorizeTableByPredicate, hb, foldAuthorizedMap,
    foldAuthorized, getStringValueFromNode] <;>
  simp [createTableInfo, TableInfoV2.IsDatabase, TableInfoV2.Authorized,
    TableInfoV2.setAuthorized, foldAuthorized]

theorem isAuth_student_id (s : AuthorizationServiceImpl) (info : StudentInfo) (k : Int)
    (hrole : info.Role = "student") (hcat : "id" ∈ s.schemaService.GetColumns "student") :
    isAuthorizedExpression [.string "student", .string "id"] (some (.ival k))
      (unauthorizedBase s "student") (unauthorizedBase s "student") (.student info)
      = .ok (decide (k = info.ID)) := by
  simp [isAuthorizedExpression, unauthorizedBase, createTableInfo,
    TableInfoV2.getRealColumnInfoFromAlias, ownColumns_get, hcat, getStringValueFromNode,
    TableInfoV2.Alias, TableInfoV2.Name, getAuthorizationColumn, UserContext.GetRole, hrole,
    singleColumnContext, ContainsString, ContainsInt, omGet, omSet, SourceRef.deref,
    ColumnInfo.Name, ColumnInfo.SourceTable]
  by_cases h : info.ID = k <;> simp [h, eq_comm]
  exact fun h2 => h h2.symm

theorem realColName_base (name als : String) (auth : Bool) (cols : List String) (c : String) :
    (createTableInfo name als auth true cols).getRealColName c
      = .ok (if c ∈ cols then c else "") := by
  by_cases h : c ∈ cols <;>
  simp [TableInfoV2.getRealColName, createTableInfo, TableInfoV2.getRealColumnInfoFromAlias,
    ownColumns_get, h, ColumnInfo.Name]

theorem isAuth_professor_enrollment (s : AuthorizationServiceImpl) (info : ProfessorInfo)
    (c : String) (k : Int) (hrole : info.Role = "professor") :
    isAuthorizedExpression [.string "course_class_enrollment", .string c] (some (.ival k))
      (unauthorizedBase s "course_class_enrollment") (unauthorizedBase s "course_class_enrollment")
      (.professor info)
      = .ok (decide ((c ∈ s.schemaService.GetColumns "course_class_enrollment"
            ∧ c = "course_class_id" ∧ k ∈ info.TaughtCourseClassIDs)
          ∨ (c ∈ s.schemaService.GetColumns "course_class_enrollment"
            ∧ c = "student_id" ∧ k ∈ info.AdvisedStudentIDs))) := by
  by_cases hc : c ∈ s.schemaService.GetColumns "course_class_enrollment"
  · by_cases h1 : c = "course_class_id"
    · subst h1
      by_cases hk : k ∈ info.TaughtCourseClassIDs <;>
      simp [isAuthorizedExpression, unauthorizedBase, createTableInfo,
        TableInfoV2.getRealColumnInfoFromAlias, ownColumns_get, hc, getStringValueFromNode,
        TableInfoV2.Alias, TableInfoV2.Name, getAuthorizationColumn, UserContext.GetRole, hrole,
        ContainsString, ContainsInt, omGet, omSet, SourceRef.deref,
        ColumnInfo.Name, ColumnInfo.SourceTable, hk]
    · by_cases h2 : c = "student_id"
      · subst h2
        by_cases hk : k ∈ info.AdvisedStudentIDs <;>
        simp [isAuthorizedExpression, unauthorizedBase, createTableInfo,
          TableInfoV2.getRealColumnInfoFromAlias, ownColumns_get, hc, getStringValueFromNode,
          TableInfoV2.Alias, TableInfoV2.Name, getAuthorizationColumn, UserContext.GetRole, hrole,
          ContainsString, ContainsInt, omGet, omSet, SourceRef.deref,
          ColumnInfo.Name, ColumnInfo.SourceTable, hk]
      · have h1' : ¬ "course_class_id" = c := fun h => h1 h.symm
        have h2' : ¬ "student_id" = c := fun h => h2 h.symm
        simp [isAuthorizedExpression, unauthorizedBase, createTableInfo,
          TableInfoV2.getRealColumnInfoFromAlias, ownColumns_get, hc, getStringValueFromNode,
          TableInfoV2.Alias, TableInfoV2.Name, getAuthorizationColumn, UserContext.GetRole, hrole,
          ContainsString, ContainsInt, omGet, omSet, SourceRef.deref,
          ColumnInfo.Name, ColumnInfo.SourceTable, h1, h2, h1', h2']
  · simp [isAuthorizedExpression, unauthorizedBase, createTableInfo,
      TableInfoV2.getRealColumnInfoFromAlias, ownColumns_get, hc, getStringValueFromNode,
      TableInfoV2.Alias, TableInfoV2.Name, getAuthorizationColumn, UserContext.GetRole, hrole]

/-- C1. For every student caller with id `n` and every integer `k`, walking
`student.id = k` (neg = false) against the map that holds only the
unauthorized base relation `student`, with its columns from a catalog that
lists `id`, returns a result, and it has authorized = true with `student`
marked authorized if and only if `k = n`. -/
theorem student_own_id_authorizes_iff (s : AuthorizationServiceImpl) (info : StudentInfo)
    (k : Int) (hrole : info.Role = "student")
    (hcat : "id" ∈ s.schemaService.GetColumns "student") :
    ∃ res, (columnOpConst "student" "id" "=" k).walk s
        (some [("student", unauthorizedBase s "student")]) false (.student info) = .ok res ∧
      ((res.Authorized = true ∧ authorizedAt res.Tables "student" = some true) ↔ k = info.ID) := by
  have h := aexpr_single_base s "student" "student" "student" "student" "id"
    (s.schemaService.GetColumns "student") k false (.student info) _
    (isAuth_student_id s info k hrole hcat)
  refine ⟨_, h, ?_⟩
  simp [authorizedAt, omGet, createTableInfo, TableInfoV2.Authorized]

theorem student_own_id_authorizes_iff_witness :
    "id" ∈ mockService.schemaService.GetColumns "student" ∧
    ∃ res, (columnOpConst "student" "id" "=" 123).walk mockService
        (some [("student", unauthorizedBase mockService "student")]) false
        (studentCaller 123 0 0 []) = .ok res ∧
      ((res.Authorized = true ∧ authorizedAt res.Tables "student" = some true)
        ↔ (123 : Int) = 123) :=
  ⟨by decide, student_own_id_authorizes_iff mockService _ 123 rfl (by decide)⟩

/-- C5. For every professor caller and every integer `k`, walking
`course_class_enrollment.c = k` against the unauthorized base relation
`course_class_enrollment` returns a result, and the relation is authorized in
it if and only if `c` resolves to `course_class_id` and `k` is one of the
caller's taught course classes, or `c` resolves to `student_id` and `k` is one
of the caller's advised students; with taught course classes `[10]` and the
test catalog, `course_class_id = 10` is allowed and `course_class_id = 11` is
denied. -/
theorem professor_enrollment_authorizes_iff (s : AuthorizationServiceImpl)
    (info : ProfessorInfo) (c : String) (k : Int) (hrole : info.Role = "professor") :
    (∃ res, (columnOpConst "course_class_enrollment" c "=" k).walk s
        (some [("course_class_enrollment", unauthorizedBase s "course_class_enrollment")]) false
        (.professor info) = .ok res ∧
      (res.Authorized = true ↔ authorizedAt res.Tables "course_class_enrollment" = some true) ∧
      (authorizedAt res.Tables "course_class_enrollment" = some true ↔
        (((unauthorizedBase s "course_class_enrollment").getRealColName c = .ok "course_class_id"
            ∧ k ∈ info.TaughtCourseClassIDs)
          ∨ ((unauthorizedBase s "course_class_enrollment").getRealColName c = .ok "student_id"
            ∧ k ∈ info.AdvisedStudentIDs)))) ∧
    (∃ res, (columnOpConst "course_class_enrollment" "course_class_id" "=" 10).walk mockService
        (some [("course_class_enrollment",
          unauthorizedBase mockService "course_class_enrollment")]) false
        (professorCaller 456 [10] []) = .ok res ∧ res.Authorized = true) ∧
    (∃ res, (columnOpConst "course_class_enrollment" "course_class_id" "=" 11).walk mockService
        (some [("course_class_enrollment",
          unauthorizedBase mockService "course_class_enrollment")]) false
        (professorCaller 456 [10] []) = .ok res ∧ res.Authorized = false) := by
  refine ⟨?_, ?_, ?_⟩
  · have h := aexpr_single_base s "course_class_enrollment" "course_class_enrollment"
      "course_class_enrollment" "course_class_enrollment" c
      (s.schemaService.GetColumns "course_class_enrollment") k false (.professor info) _
      (isAuth_professor_enrollment s info c k hrole)
    refine ⟨_, h, ?_, ?_⟩
    · simp [authorizedAt, omGet, createTableInfo, TableInfoV2.Authorized]
    · simp only [unauthorizedBase, realColName_base]
      by_cases hc : c ∈ s.schemaService.GetColumns "course_class_enrollment" <;>
      simp [authorizedAt, omGet, createTableInfo, TableInfoV2.Authorized, hc]
  · have h := aexpr_single_base mockService "course_class_enrollment" "course_class_enrollment"
      "course_class_enrollment" "course_class_enrollment" "course_class_id"
      (mockService.schemaService.GetColumns "course_class_enrollment") 10 false
      (professorCaller 456 [10] []) _
      (isAuth_professor_enrollment mockService _ "course_class_id" 10 rfl)
    exact ⟨_, h, by simp [mockService, MockSchemaService]⟩
  · have h := aexpr_single_base mockService "course_class_enrollment" "course_class_enrollment"
      "course_class_enrollment" "course_class_enrollment" "course_class_id"
      (mockService.schemaService.GetColumns "course_class_enrollment") 11 false
      (professorCaller 456 [10] []) _
      (isAuth_professor_enrollment mockService _ "course_class_id" 11 rfl)
    exact ⟨_, h, by simp [mockService, MockSchemaService]⟩

theorem professor_enrollment_authorizes_iff_witness :
    (professorCaller 456 [10] [7]).GetRole = "professor" ∧
    ∃ res, (columnOpConst "course_class_enrollment" "student_id" "=" 7).walk mockService
        (some [("course_class_enrollment",
          unauthorizedBase mockService "course_class_enrollment")]) false
        (professorCaller 456 [10] [7]) = .ok res ∧
      (res.Authorized = true ↔ authorizedAt res.Tables "course_class_enrollment" = some true) ∧
      (authorizedAt res.Tables "course_class_enrollment" = some true ↔
        (((unauthorizedBase mockService "course_class_enrollment").getRealColName "student_id"
            = .ok "course_class_id" ∧ (7 : Int) ∈ [10])
          ∨ ((unauthorizedBase mockService "course_class_enrollment").getRealColName "student_id"
            = .ok "student_id" ∧ (7 : Int) ∈ [7]))) :=
  ⟨rfl, (professor_enrollment_authorizes_iff mockService
    { ID := 456, Role := "professor", AdvisedClassIDs := [], TaughtCourseClassIDs := [10],
      TaughtScheduleIDs := [], AdvisedStudentIDs := [7], TaughtStudentIDs := [] }
    "student_id" 7 rfl).1⟩

theorem aexpr_other_operator (s : AuthorizationServiceImpl) (kind : A_Expr_Kind) (op : Node)
    (rest : List Node) (lexpr rexpr : Option Node) (M : Option TableMap) (neg : Bool)
    (u : UserContext) (hop : getStringValueFromNode (some op) ≠ wantOperator neg) :
    authorizeAExpr s kind (op :: rest) lexpr rexpr M neg u
      = (CloneUnAuthorizedTables M).map (fun M' => { Authorized := false, Tables := M' }) := by
  simp only [authorizeAExpr, authorizeAExprOn]
  cases CloneUnAuthorizedTables M with
  | error e => rfl
  | ok M1 =>
    cases lexpr <;> cases rexpr <;>
    simp [authorizeAExprAfterClone, hop, Except.map]

/-- C6. Operator polarity.  When the operator name of a comparison is not the
operator looked for (`=`, or `<>` under neg), `authorizeAExpr` returns
authorized = false together with the copy of the incoming map, for every
relation map and caller, and the copy equals the incoming map relation by
relation (name, alias, flags, columns, unauthorized components; only the
`SourceTable` pointers are new).  For a student with id `n`:
`student.id = n` under neg = true leaves `student` unauthorized, and
`student.id <> n` under neg = true authorizes it. -/
theorem other_operator_changes_nothing (s : AuthorizationServiceImpl) (kind : A_Expr_Kind)
    (op : Node) (rest : List Node) (lexpr rexpr : Option Node) (M : Option TableMap) (neg : Bool)
    (u : UserContext) (n : Int)
    (hop : getStringValueFromNode (some op) ≠ wantOperator neg) :
    authorizeAExpr s kind (op :: rest) lexpr rexpr M neg u
        = (CloneUnAuthorizedTables M).map (fun M' => { Authorized := false, Tables := M' }) ∧
    (∀ M', CloneUnAuthorizedTables M = .ok M' → eraseSourcesOpt M' = eraseSourcesOpt M) ∧
    (columnOpConst "student" "id" "=" n).walk mockService
        (some [("student", unauthorizedBase mockService "student")]) true
        (studentCaller n 0 0 [])
      = .ok { Authorized := false,
              Tables := some [("student", unauthorizedBase mockService "student")] } ∧
    (columnOpConst "student" "id" "<>" n).walk mockService
        (some [("student", unauthorizedBase mockService "student")]) true
        (studentCaller n 0 0 [])
      = .ok { Authorized := true,
              Tables := some [("student", createTableInfo "student" "student" true true
                (mockService.schemaService.GetColumns "student"))] } := by
  refine ⟨aexpr_other_operator s kind op rest lexpr rexpr M neg u hop,
    fun M' h => cloneTablesOpt_erase _ _ h, ?_, ?_⟩
  · have h := aexpr_other_operator mockService .AEXPR_OP (.string "=") []
      (some (columnRefNode "student" "id")) (some (intConstNode n))
      (some [("student", unauthorizedBase mockService "student")]) true (studentCaller n 0 0 [])
      (by decide)
    simp only [Comparison.walk, columnOpConst, h, unauthorizedBase, cloneMap_single]
    rfl
  · have h := aexpr_single_base mockService "student" "student" "student" "student" "id"
      (mockService.schemaService.GetColumns "student") n true (studentCaller n 0 0 []) true
      (by
        have := isAuth_student_id mockService
          { ID := n, Role := "student", AdministrativeClassID := 0, EnrolledCourseClassIDs := [],
            EnrolledScheduleIDs := [], AdvisorProfessorID := 0, CourseInstructorIDs := [] }
          n rfl (by decide)
        simpa [studentCaller, unauthorizedBase] using this)
    simpa [Comparison.walk, columnOpConst, wantOperator, unauthorizedBase] using h

theorem other_operator_changes_nothing_witness :
    getStringValueFromNode (some (Node.string "<")) ≠ wantOperator false ∧
    authorizeAExpr mockService .AEXPR_OP [.string "<"] (some (columnRefNode "student" "id"))
        (some (intConstNode 5)) (some [("student", unauthorizedBase mockService "student")])
        false (studentCaller 5 0 0 [])
      = .ok { Authorized := false,
              Tables := some [("student", unauthorizedBase mockService "student")] } := by
  refine ⟨by decide, ?_⟩
  have h := (other_operator_changes_nothing mockService .AEXPR_OP (.string "<") []
    (some (columnRefNode "student" "id")) (some (intConstNode 5))
    (some [("student", unauthorizedBase mockService "student")]) false (studentCaller 5 0 0 []) 5
    (by decide)).1
  simp only [h, unauthorizedBase, cloneMap_single]
  rfl

/-- C7. NOT polarity.  For every comparison expression, every negation flag
`n`, every relation map and every caller, walking NOT of the comparison with
flag `n` gives exactly what walking the comparison with flag `¬n` gives: the
same fault, or the same authorized bit and the same relation map. -/
theorem not_toggles_polarity (s : AuthorizationServiceImpl) (P : Comparison) (M : TableMap)
    (n : Bool) (u : UserContext) :
    authorizeBoolExpr s .NOT_EXPR [P.node] (some M) n u = P.walk s (some M) (!n) u := by
  simp only [authorizeBoolExpr, authorizeBoolExprOn, Comparison.walk, Comparison.node,
    authorizeAExpr, authorizeAExprOn]
  cases hc : CloneUnAuthorizedTables (some M) with
  | error e => simp
  | ok M1 =>
    have hidem : CloneUnAuthorizedTables M1 = .ok M1 := cloneTablesOpt_idem _ _ hc
    obtain ⟨ts, rfl⟩ : ∃ ts, M1 = some ts := by
      simp only [CloneUnAuthorizedTables, cloneTablesOpt] at hc
      obtain ⟨ts, _, h⟩ := bind_eq_ok hc
      simp at h; exact ⟨ts, h.symm⟩
    simp only [except_bind_ok, authorizeBoolExprAfterClone, nodeSemList, List.map, nodeSem,
      cloneNodeSem, authorizeAExprOn, hidem, AuthorizeNode]
    cases hr : authorizeAExprAfterClone (nodeSemOpt s P.Rexpr).onHeap P.Kind P.Name P.Lexpr
        P.Rexpr (some ts) (!n) u with
    | error e => simp
    | ok res =>
      obtain ⟨h1, h2⟩ := aexprAfterClone_shape _ _ _ _ _ _ _ _ _ hr
      simp [h2]
      cases res
      simp_all

/-! ## Keys of relation maps -/

theorem omGet_none_iff {V : Type} (m : OrderedMap V) (k : String) :
    omGet m k = none ↔ k ∉ m.map Prod.fst := by
  induction m with
  | nil => simp [omGet]
  | cons e rest ih =>
    obtain ⟨a, b⟩ := e
    by_cases h : a = k
    · simp [omGet, h]
    · have h' : ¬ k = a := fun h2 => h h2.symm
      simp [omGet, h, h', ih]

theorem omGet_of_keys_eq {V W : Type} (m : OrderedMap V) (m' : OrderedMap W)
    (hk : m'.map Prod.fst = m.map Prod.fst) (k : String) (v : V) (h : omGet m k = some v) :
    ∃ w, omGet m' k = some w := by
  cases h' : omGet m' k with
  | some w => exact ⟨w, rfl⟩
  | none =>
    rw [omGet_none_iff, hk, ← omGet_none_iff] at h'
    rw [h'] at h; cases h

theorem omGet_mem {V : Type} (m : OrderedMap V) (k : String) (v : V) (h : omGet m k = some v) :
    (k, v) ∈ m := by
  induction m with
  | nil => simp [omGet] at h
  | cons e rest ih =>
    obtain ⟨a, b⟩ := e
    by_cases hk : a = k
    · simp [omGet, hk] at h
      simp [hk, h]
    · simp [omGet, hk] at h
      exact List.mem_cons_of_mem _ (ih h)

theorem omSet_keys {V : Type} (m : OrderedMap V) (k : String) (v x : V)
    (h : omGet m k = some x) : (omSet m k v).map Prod.fst = m.map Prod.fst := by
  induction m with
  | nil => simp [omGet] at h
  | cons e rest ih =>
    obtain ⟨a, b⟩ := e
    by_cases hk : a = k
    · simp [omSet, hk]
    · simp [omGet, hk] at h
      simp [omSet, hk, ih h]

theorem mapTables_keys (f : TableInfoV2 → Except Fault TableInfoV2) :
    ∀ (ts ts' : TableMap), mapTables f ts = .ok ts' → ts'.map Prod.fst = ts.map Prod.fst
  | [], ts', h => by simp [mapTables] at h; subst h; rfl
  | (k, t) :: rest, ts', h => by
      simp only [mapTables] at h
      obtain ⟨t', _, h⟩ := bind_eq_ok h
      obtain ⟨rest', hr, h⟩ := bind_eq_ok h
      simp at h; subst h
      simp [mapTables_keys f rest rest' hr]

theorem mapTables_get (f : TableInfoV2 → Except Fault TableInfoV2) :
    ∀ (ts ts' : TableMap), mapTables f ts = .ok ts' → ∀ (k : String) (t : TableInfoV2),
      omGet ts k = some t → ∃ t', f t = .ok t' ∧ omGet ts' k = some t'
  | [], _, _, k, t, hg => by simp [omGet] at hg
  | (a, x) :: rest, ts', h, k, t, hg => by
      simp only [mapTables] at h
      obtain ⟨x', hx, h⟩ := bind_eq_ok h
      obtain ⟨rest', hr, h⟩ := bind_eq_ok h
      simp at h; subst h
      by_cases hk : a = k
      · simp [omGet, hk] at hg ⊢
        subst hg
        exact hx
      · simp [omGet, hk] at hg ⊢
        exact mapTables_get f rest rest' hr k t hg

theorem cloneTables_keys : ∀ (ts ts' : List (String × TableInfoV2)),
    cloneTables ts = .ok ts' → ts'.map Prod.fst = ts.map Prod.fst
  | [], ts', h => by simp [cloneTables] at h; subst h; rfl
  | (k, t) :: rest, ts', h => by
      simp only [cloneTables] at h
      obtain ⟨t', _, h⟩ := bind_eq_ok h
      obtain ⟨rest', hr, h⟩ := bind_eq_ok h
      simp at h; subst h
      simp [cloneTables_keys rest rest' hr]

theorem cloneTables_get : ∀ (ts ts' : List (String × TableInfoV2)),
    cloneTables ts = .ok ts' → ∀ (k : String) (t : TableInfoV2),
      omGet ts k = some t → ∃ t', t.Clone = .ok t' ∧ omGet ts' k = some t'
  | [], _, _, k, t, hg => by simp [omGet] at hg
  | (a, x) :: rest, ts', h, k, t, hg => by
      simp only [cloneTables] at h
      obtain ⟨x', hx, h⟩ := bind_eq_ok h
      obtain ⟨rest', hr, h⟩ := bind_eq_ok h
      simp at h; subst h
      by_cases hk : a = k
      · simp [omGet, hk] at hg ⊢
        subst hg
        exact hx
      · simp [omGet, hk] at hg ⊢
        exact cloneTables_get rest rest' hr k t hg

theorem cloneTables_mem : ∀ (ts ts' : List (String × TableInfoV2)),
    cloneTables ts = .ok ts' → ∀ e' ∈ ts', ∃ t, (e'.1, t) ∈ ts ∧ t.Clone = .ok e'.2
  | [], ts', h, e', he => by simp [cloneTables] at h; subst h; simp at he
  | (a, x) :: rest, ts', h, e', he => by
      simp only [cloneTables] at h
      obtain ⟨x', hx, h⟩ := bind_eq_ok h
      obtain ⟨rest', hr, h⟩ := bind_eq_ok h
      simp at h; subst h
      rcases List.mem_cons.mp he with he | he
      · subst he
        exact ⟨x, List.mem_cons_self _ _, hx⟩
      · obtain ⟨t, ht, hc⟩ := cloneTables_mem rest rest' hr e' he
        exact ⟨t, List.mem_cons_of_mem _ ht, hc⟩

theorem clone_fields (t t' : TableInfoV2) (h : t.Clone = .ok t') :
    t'.Alias = t.Alias ∧ t'.IsDatabase = t.IsDatabase ∧ t'.Authorized = t.Authorized
      ∧ t'.Name = t.Name := by
  obtain ⟨name, cols, als, hs, un, au, db⟩ := t
  simp only [TableInfoV2.Clone] at h
  obtain ⟨cols', _, h⟩ := bind_eq_ok h
  obtain ⟨un', _, h⟩ := bind_eq_ok h
  simp at h
  subst h
  exact ⟨rfl, rfl, rfl, rfl⟩

theorem cloneMap_some (M : TableMap) (M1 : Option TableMap)
    (hc : CloneUnAuthorizedTables (some M) = .ok M1) :
    ∃ ts, M1 = some ts ∧ cloneTables M = .ok ts := by
  simp only [CloneUnAuthorizedTables, cloneTablesOpt] at hc
  obtain ⟨ts, h1, h⟩ := bind_eq_ok hc
  simp at h
  exact ⟨ts, h.symm, h1⟩

/-! ## `authorizeAExpr` keeps the keys of the map -/

theorem rowExprStep_keys (w : Walk) (neg : Bool) (u : UserContext) (arg : Node) (ts : TableMap)
    (T' : Option TableMap) (h : rowExprStep w neg u arg (some ts) = .ok T') :
    ∃ ts', T' = some ts' ∧ ts'.map Prod.fst = ts.map Prod.fst := by
  unfold rowExprStep at h
  split at h
  · split at h
    · split at h
      · simp at h
      · rename_i ts0 heq
        simp at heq
        subst heq
        split at h
        · simp at h; exact ⟨_, h.symm, rfl⟩
        · rename_i table hget
          split at h
          · simp at h; exact ⟨_, h.symm, rfl⟩
          · split at h
            · obtain ⟨real, _, h⟩ := bind_eq_ok h
              split at h
              · simp at h; exact ⟨_, h.symm, rfl⟩
              · obtain ⟨p, _, h⟩ := bind_eq_ok h
                simp at h
                exact ⟨_, h.symm, omSet_keys _ _ _ _ hget⟩
            · obtain ⟨rc, _, h⟩ := bind_eq_ok h
              split at h
              · simp at h; exact ⟨_, h.symm, rfl⟩
              · obtain ⟨found, _, h⟩ := bind_eq_ok h
                obtain ⟨table', _, h⟩ := bind_eq_ok h
                simp at h
                exact ⟨_, h.symm, omSet_keys _ _ _ _ hget⟩
    · simp at h; exact ⟨_, h.symm, rfl⟩
  · simp at h; exact ⟨_, h.symm, rfl⟩

theorem rowExprLoop_keys (w : Walk) (neg : Bool) (u : UserContext) :
    ∀ (args : List Node) (ts : TableMap) (T' : Option TableMap),
      rowExprLoop w neg u args (some ts) = .ok T' →
      ∃ ts', T' = some ts' ∧ ts'.map Prod.fst = ts.map Prod.fst
  | [], ts, T', h => by simp [rowExprLoop] at h; exact ⟨_, h.symm, rfl⟩
  | arg :: rest, ts, T', h => by
      simp only [rowExprLoop] at h
      obtain ⟨T1, h1, h⟩ := bind_eq_ok h
      obtain ⟨ts1, rfl, hk1⟩ := rowExprStep_keys w neg u arg ts T1 h1
      obtain ⟨ts', rfl, hk⟩ := rowExprLoop_keys w neg u rest ts1 T' h
      exact ⟨ts', rfl, hk.trans hk1⟩

theorem authorizeMapByPredicate_keys (fields : List Node) (c : Option A_Const) (u : UserContext)
    (ts : TableMap) (T' : Option TableMap)
    (h : authorizeMapByPredicate fields c u (some ts) = .ok T') :
    ∃ ts', T' = some ts' ∧ ts'.map Prod.fst = ts.map Prod.fst := by
  simp only [authorizeMapByPredicate, authorizeTablesByPredicate] at h
  obtain ⟨ts', h1, h⟩ := bind_eq_ok h
  simp at h
  exact ⟨ts', h.symm, mapTables_keys _ _ _ h1⟩

theorem authorizeAExprKind_keys (w : Walk) (kind : A_Expr_Kind) (l r : Node) (ts : TableMap)
    (neg : Bool) (u : UserContext) (T' : Option TableMap)
    (h : authorizeAExprKind w kind l r (some ts) neg u = .ok T') :
    ∃ ts', T' = some ts' ∧ ts'.map Prod.fst = ts.map Prod.fst := by
  unfold authorizeAExprKind at h
  split at h
  · obtain ⟨T1, h1, h⟩ := bind_eq_ok h
    have hT1 : ∃ ts1, T1 = some ts1 ∧ ts1.map Prod.fst = ts.map Prod.fst := by
      unfold authorizeColumnConst at h1
      split at h1
      · exact authorizeMapByPredicate_keys _ _ _ _ _ h1
      · simp at h1; exact ⟨_, h1.symm, rfl⟩
    obtain ⟨ts1, rfl, hk1⟩ := hT1
    split at h
    · obtain ⟨ts', rfl, hk⟩ := rowExprLoop_keys w neg u _ ts1 T' h
      exact ⟨ts', rfl, hk.trans hk1⟩
    · simp at h; exact ⟨_, h.symm, hk1⟩
  · split at h
    · exact authorizeMapByPredicate_keys _ _ _ _ _ h
    · simp at h; exact ⟨_, h.symm, rfl⟩
  · simp at h; exact ⟨_, h.symm, rfl⟩

theorem aexprAfterClone_keys (w : Walk) (kind : A_Expr_Kind) (name : List Node)
    (lexpr rexpr : Option Node) (ts : TableMap) (neg : Bool) (u : UserContext)
    (res : AuthorizationResult)
    (h : authorizeAExprAfterClone w kind name lexpr rexpr (some ts) neg u = .ok res) :
    ∃ ts', res.Tables = some ts' ∧ ts'.map Prod.fst = ts.map Prod.fst := by
  cases lexpr with
  | none => simp [authorizeAExprAfterClone] at h; subst h; exact ⟨ts, rfl, rfl⟩
  | some l =>
    cases rexpr with
    | none => simp [authorizeAExprAfterClone] at h; subst h; exact ⟨ts, rfl, rfl⟩
    | some r =>
      cases name with
      | nil => simp [authorizeAExprAfterClone] at h
      | cons op rest =>
        simp only [authorizeAExprAfterClone] at h
        by_cases hop : (getStringValueFromNode (some op) != wantOperator neg) = true
        · simp [hop] at h; subst h; exact ⟨ts, rfl, rfl⟩
        · simp only [hop] at h
          obtain ⟨T', hT, h⟩ := bind_eq_ok h
          obtain ⟨a, ha, h⟩ := bind_eq_ok h
          simp at h; subst h
          exact authorizeAExprKind_keys w kind l r ts neg u T' hT

/-! ## The flag tables of the update functions -/

theorem flagTable_set_ok (F : FlagTable) (a b : String) (v : Bool) (inner : FlagMap)
    (h : omGet F a = some inner) : F.set a b v = .ok (omSet F a (omSet inner b v)) := by
  simp [FlagTable.set, h]

theorem flagTable_set_get (F F' : FlagTable) (a b : String) (v : Bool)
    (h : F.set a b v = .ok F') (a' b' : String) :
    F'.get a' b' = if a = a' ∧ b = b' then v else F.get a' b' := by
  unfold FlagTable.set at h
  cases hi : omGet F a with
  | none => simp [hi] at h
  | some inner =>
    simp [hi] at h
    subst h
    by_cases ha : a = a'
    · subst ha
      by_cases hb : b = b'
      · simp [FlagTable.get, omGet_omSet, hb]
      · simp [FlagTable.get, omGet_omSet, hb, hi]
    · simp [FlagTable.get, omGet_omSet, ha]

theorem flagTable_set_has (F F' : FlagTable) (a b : String) (v : Bool)
    (h : F.set a b v = .ok F') (a' : String) :
    (omGet F' a').isSome = (omGet F a').isSome := by
  unfold FlagTable.set at h
  cases hi : omGet F a with
  | none => simp [hi] at h
  | some inner =>
    simp [hi] at h
    subst h
    by_cases ha : a = a'
    · subst ha; simp [omGet_omSet, hi]
    · simp [omGet_omSet, ha]

theorem initFlagTable_get : ∀ (D : TableMap) (acc : FlagTable),
    (∀ a b, acc.get a b = false) → ∀ a b, (initFlagTable D acc).get a b = false
  | [], acc, h, a, b => by simpa [initFlagTable] using h a b
  | (_, t) :: rest, acc, h, a, b => by
      simp only [initFlagTable]
      apply initFlagTable_get rest
      intro a' b'
      by_cases ha : t.Alias = a'
      · simp [FlagTable.get, omGet_omSet, ha, omGet]
      · have := h a' b'
        simpa [FlagTable.get, omGet_omSet, ha] using this

/-! ## `UpdateUnauthorizedTablesByUnion` on a base relation -/

theorem unionScanComponents_other (k : String) (cur : TableInfoV2) :
    ∀ (un : List (String × TableInfoV2)) (F F' : FlagTable),
      unionScanComponents k cur un F = .ok F' →
      ∀ a' b', a' ≠ k → F'.get a' b' = F.get a' b'
  | [], F, F', h, a', b', _ => by simp [unionScanComponents] at h; subst h; rfl
  | (x, _) :: rest, F, F', h, a', b', hne => by
      simp only [unionScanComponents] at h
      split at h
      · simp at h
      · split at h
        · exact unionScanComponents_other k cur rest F F' h a' b' hne
        · obtain ⟨F1, h1, h⟩ := bind_eq_ok h
          rw [unionScanComponents_other k cur rest F1 F' h a' b' hne,
            flagTable_set_get F F1 _ _ _ h1]
          have : ¬ (k = a' ∧ x = b') := fun hh => hne hh.1.symm
          simp [this]

theorem unionScanLists_other (k : String) (t : TableInfoV2) :
    ∀ (L : List (Option TableMap)) (F F' : FlagTable),
      unionScanLists k t L F = .ok F' → ∀ a' b', a' ≠ k → F'.get a' b' = F.get a' b'
  | [], F, F', h, a', b', _ => by simp [unionScanLists] at h; subst h; rfl
  | none :: _, F, F', h, _, _, _ => by simp [unionScanLists] at h
  | some T :: rest, F, F', h, a', b', hne => by
      simp only [unionScanLists] at h
      split at h
      · exact unionScanLists_other k t rest F F' h a' b' hne
      · split at h
        · obtain ⟨F1, h1, h⟩ := bind_eq_ok h
          rw [unionScanLists_other k t rest F1 F' h a' b' hne, flagTable_set_get F F1 _ _ _ h1]
          have : ¬ (k = a' ∧ k = b') := fun hh => hne hh.1.symm
          simp [this]
        · split at h
          · simp at h
          · obtain ⟨F1, h1, h⟩ := bind_eq_ok h
            rw [unionScanLists_other k t rest F1 F' h a' b' hne,
              unionScanComponents_other k _ _ F F1 h1 a' b' hne]

theorem unionScanLists_base (k : String) (t : TableInfoV2) (hdb : t.IsDatabase = true) :
    ∀ (L : List (Option TableMap)) (F F' : FlagTable),
      unionScanLists k t L F = .ok F' →
      F'.get k k = (F.get k k || L.any (reportsUnauthorized k))
  | [], F, F', h => by simp [unionScanLists] at h; subst h; simp
  | none :: _, F, F', h => by simp [unionScanLists] at h
  | some T :: rest, F, F', h => by
      simp only [unionScanLists] at h
      split at h
      · rename_i hget
        rw [unionScanLists_base k t hdb rest F F' h]
        simp [reportsUnauthorized, hget]
      · rename_i c hget
        simp only [hdb, if_true] at h
        obtain ⟨F1, h1, h⟩ := bind_eq_ok h
        rw [unionScanLists_base k t hdb rest F1 F' h, flagTable_set_get F F1 _ _ _ h1]
        simp [reportsUnauthorized, hget, Bool.or_assoc]

theorem unionScan_other (L : List (Option TableMap)) :
    ∀ (D : TableMap) (F F' : FlagTable), unionScan L D F = .ok F' →
      ∀ k b, k ∉ D.map Prod.fst → F'.get k b = F.get k b
  | [], F, F', h, k, b, _ => by simp [unionScan] at h; subst h; rfl
  | (a, t) :: rest, F, F', h, k, b, hk => by
      simp only [unionScan] at h
      obtain ⟨F1, h1, h⟩ := bind_eq_ok h
      simp only [List.map_cons, List.mem_cons, not_or] at hk
      rw [unionScan_other L rest F1 F' h k b hk.2, unionScanLists_other a t L F F1 h1 k b hk.1]

theorem unionScan_base (L : List (Option TableMap)) :
    ∀ (D : TableMap) (F F' : FlagTable), unionScan L D F = .ok F' →
      (D.map Prod.fst).Nodup → ∀ k t, omGet D k = some t → t.IsDatabase = true →
      F'.get k k = (F.get k k || L.any (reportsUnauthorized k))
  | [], _, _, _, _, k, t, hg, _ => by simp [omGet] at hg
  | (a, x) :: rest, F, F', h, hnd, k, t, hg, hdb => by
      simp only [unionScan] at h
      obtain ⟨F1, h1, h⟩ := bind_eq_ok h
      simp only [List.map_cons, List.nodup_cons] at hnd
      by_cases hk : a = k
      · subst hk
        simp [omGet] at hg
        subst hg
        rw [unionScan_other L rest F1 F' h a a hnd.1, unionScanLists_base a x hdb L F F1 h1]
      · simp [omGet, hk] at hg
        rw [unionScan_base L rest F1 F' h hnd.2 k t hg hdb,
          unionScanLists_other a x L F F1 h1 k k (fun hh => hk hh.symm)]

/-- What `UpdateUnauthorizedTablesByUnion` does to a base relation of `dst`:
its flag becomes "no child map reports it unauthorized". -/
theorem union_base (D : TableMap) (L : List (Option TableMap)) (R : Option TableMap)
    (hL : L ≠ []) (hnd : (D.map Prod.fst).Nodup) (hal : ∀ e ∈ D, e.2.Alias = e.1)
    (h : UpdateUnauthorizedTablesByUnion (some D) L = .ok R) :
    ∃ D', R = some D' ∧ D'.map Prod.fst = D.map Prod.fst ∧
      ∀ k t, omGet D k = some t → t.IsDatabase = true →
        omGet D' k = some (t.setAuthorized (!L.any (reportsUnauthorized k))) := by
  unfold UpdateUnauthorizedTablesByUnion at h
  have hlen : ¬ L.length = 0 := by
    cases L with
    | nil => exact absurd rfl hL
    | cons _ _ => simp
  simp only [hlen, if_false] at h
  obtain ⟨F, hF, h⟩ := bind_eq_ok h
  obtain ⟨D', hD, h⟩ := bind_eq_ok h
  simp at h
  refine ⟨D', h.symm, mapTables_keys _ _ _ hD, ?_⟩
  intro k t hg hdb
  obtain ⟨t', ht', hg'⟩ := mapTables_get _ _ _ hD k t hg
  have hal' : t.Alias = k := hal (k, t) (omGet_mem _ _ _ hg)
  have hflag := unionScan_base L D _ F hF hnd k t hg hdb
  rw [initFlagTable_get D [] (by intro a b; rfl) k k] at hflag
  simp [unionApplyTable, hdb, hal', hflag] at ht'
  rw [hg', ← ht']

/-! ## `UpdateUnauthorizedTablesByIntersection` on a base relation -/

theorem intersectionScanComponents_other (k : String) (cur : TableInfoV2) :
    ∀ (un : List (String × TableInfoV2)) (F F' : FlagTable),
      intersectionScanComponents k cur un F = .ok F' →
      ∀ a' b', a' ≠ k → F'.get a' b' = F.get a' b'
  | [], F, F', h, a', b', _ => by simp [intersectionScanComponents] at h; subst h; rfl
  | (x, _) :: rest, F, F', h, a', b', hne => by
      simp only [intersectionScanComponents] at h
      have hno : ¬ (k = a' ∧ x = b') := fun hh => hne hh.1.symm
      split at h
      · simp at h
      · split at h
        · obtain ⟨F1, h1, h⟩ := bind_eq_ok h
          rw [intersectionScanComponents_other k cur rest F1 F' h a' b' hne,
            flagTable_set_get F F1 _ _ _ h1]
          simp [hno]
        · obtain ⟨F1, h1, h⟩ := bind_eq_ok h
          rw [intersectionScanComponents_other k cur rest F1 F' h a' b' hne,
            flagTable_set_get F F1 _ _ _ h1]
          simp [hno]

theorem intersectionScanLists_other (k : String) (t : TableInfoV2) :
    ∀ (L : List (Option TableMap)) (F F' : FlagTable),
      intersectionScanLists k t L F = .ok F' → ∀ a' b', a' ≠ k → F'.get a' b' = F.get a' b'
  | [], F, F', h, a', b', _ => by simp [intersectionScanLists] at h; subst h; rfl
  | none :: _, F, F', h, _, _, _ => by simp [intersectionScanLists] at h
  | some T :: rest, F, F', h, a', b', hne => by
      simp only [intersectionScanLists] at h
      have hno : ¬ (k = a' ∧ k = b') := fun hh => hne hh.1.symm
      split at h
      · obtain ⟨F1, h1, h⟩ := bind_eq_ok h
        rw [intersectionScanLists_other k t rest F1 F' h a' b' hne,
          flagTable_set_get F F1 _ _ _ h1]
        simp [hno]
      · split at h
        · obtain ⟨F1, h1, h⟩ := bind_eq_ok h
          rw [intersectionScanLists_other k t rest F1 F' h a' b' hne,
            flagTable_set_get F F1 _ _ _ h1]
          simp [hno]
        · split at h
          · simp at h
          · obtain ⟨F1, h1, h⟩ := bind_eq_ok h
            rw [intersectionScanLists_other k t rest F1 F' h a' b' hne,
              intersectionScanComponents_other k _ _ F F1 h1 a' b' hne]

theorem intersectionScanLists_base (k : String) (t : TableInfoV2) (hdb : t.IsDatabase = true) :
    ∀ (L : List (Option TableMap)) (F F' : FlagTable),
      intersectionScanLists k t L F = .ok F' →
      F'.get k k = (F.get k k || L.any (reportsAuthorized k))
  | [], F, F', h => by simp [intersectionScanLists] at h; subst h; simp
  | none :: _, F, F', h => by simp [intersectionScanLists] at h
  | some T :: rest, F, F', h => by
      simp only [intersectionScanLists] at h
      split at h
      · rename_i hget
        obtain ⟨F1, h1, h⟩ := bind_eq_ok h
        rw [intersectionScanLists_base k t hdb rest F1 F' h, flagTable_set_get F F1 _ _ _ h1]
        simp [reportsAuthorized, hget]
      · rename_i c hget
        simp only [hdb, if_true] at h
        obtain ⟨F1, h1, h⟩ := bind_eq_ok h
        rw [intersectionScanLists_base k t hdb rest F1 F' h, flagTable_set_get F F1 _ _ _ h1]
        simp [reportsAuthorized, hget, Bool.or_assoc]

theorem intersectionScan_other (L : List (Option TableMap)) :
    ∀ (D : TableMap) (F F' : FlagTable), intersectionScan L D F = .ok F' →
      ∀ k b, k ∉ D.map Prod.fst → F'.get k b = F.get k b
  | [], F, F', h, k, b, _ => by simp [intersectionScan] at h; subst h; rfl
  | (a, t) :: rest, F, F', h, k, b, hk => by
      simp only [intersectionScan] at h
      obtain ⟨F1, h1, h⟩ := bind_eq_ok h
      simp only [List.map_cons, List.mem_cons, not_or] at hk
      rw [intersectionScan_other L rest F1 F' h k b hk.2,
        intersectionScanLists_other a t L F F1 h1 k b hk.1]

theorem intersectionScan_base (L : List (Option TableMap)) :
    ∀ (D : TableMap) (F F' : FlagTable), intersectionScan L D F = .ok F' →
      (D.map Prod.fst).Nodup → ∀ k t, omGet D k = some t → t.IsDatabase = true →
      F'.get k k = (F.get k k || L.any (reportsAuthorized k))
  | [], _, _, _, _, k, t, hg, _ => by simp [omGet] at hg
  | (a, x) :: rest, F, F', h, hnd, k, t, hg, hdb => by
      simp only [intersectionScan] at h
      obtain ⟨F1, h1, h⟩ := bind_eq_ok h
      simp only [List.map_cons, List.nodup_cons] at hnd
      by_cases hk : a = k
      · subst hk
        simp [omGet] at hg
        subst hg
        rw [intersectionScan_other L rest F1 F' h a a hnd.1,
          intersectionScanLists_base a x hdb L F F1 h1]
      · simp [omGet, hk] at hg
        rw [intersectionScan_base L rest F1 F' h hnd.2 k t hg hdb,
          intersectionScanLists_other a x L F F1 h1 k k (fun hh => hk hh.symm)]

/-- What `UpdateUnauthorizedTablesByIntersection` does to a base relation of
`dst`: its flag becomes "some child map reports it authorized, or lacks it". -/
theorem intersection_base (D : TableMap) (L : List (Option TableMap)) (R : Option TableMap)
    (hL : L ≠ []) (hnd : (D.map Prod.fst).Nodup) (hal : ∀ e ∈ D, e.2.Alias = e.1)
    (h : UpdateUnauthorizedTablesByIntersection (some D) L = .ok R) :
    ∃ D', R = some D' ∧ D'.map Prod.fst = D.map Prod.fst ∧
      ∀ k t, omGet D k = some t → t.IsDatabase = true →
        omGet D' k = some (t.setAuthorized (L.any (reportsAuthorized k))) := by
  unfold UpdateUnauthorizedTablesByIntersection at h
  have hlen : ¬ L.length = 0 := by
    cases L with
    | nil => exact absurd rfl hL
    | cons _ _ => simp
  simp only [hlen, if_false] at h
  obtain ⟨F, hF, h⟩ := bind_eq_ok h
  obtain ⟨D', hD, h⟩ := bind_eq_ok h
  simp at h
  refine ⟨D', h.symm, mapTables_keys _ _ _ hD, ?_⟩
  intro k t hg hdb
  obtain ⟨t', ht', hg'⟩ := mapTables_get _ _ _ hD k t hg
  have hal' : t.Alias = k := hal (k, t) (omGet_mem _ _ _ hg)
  have hflag := intersectionScan_base L D _ F hF hnd k t hg hdb
  rw [initFlagTable_get D [] (by intro a b; rfl) k k] at hflag
  simp [intersectionApplyTable, hdb, hal', hflag] at ht'
  rw [hg', ← ht']

/-! ## AND and OR over comparison expressions -/

theorem foldAuthorized_iff : ∀ (ts : TableMap) (a0 a : Bool), foldAuthorized a0 ts = .ok a →
    (a = true ↔ a0 = true ∧ ∀ e ∈ ts, e.2.isAuthorized = true)
  | [], a0, a, h => by simp [foldAuthorized] at h; subst h; simp
  | (k, t) :: rest, a0, a, h => by
      simp only [foldAuthorized] at h
      by_cases hdb : t.IsDatabase = true
      · simp only [hdb, if_true] at h
        rw [foldAuthorized_iff rest _ a h]
        simp [TableInfoV2.isAuthorized, hdb, and_assoc]
      · simp only [hdb] at h
        cases a0 with
        | false =>
          simp at h
          rw [foldAuthorized_false] at h
          simp at h; subst h; simp
        | true =>
          simp at h
          cases hu : t.UnAuthorizedTables with
          | none => simp [hu] at h
          | some un =>
            simp [hu] at h
            rw [foldAuthorized_iff rest _ a h]
            simp [TableInfoV2.isAuthorized, hdb, hu]

/-- The loop over the operands when they are comparison expressions: the map
handed to them stays as it is, and each operand contributes the map
`authorizeAExpr` returns. -/
theorem walkOperands_comparisons (s : AuthorizationServiceImpl) (neg : Bool) (u : UserContext)
    (ts : TableMap) (hidem : CloneUnAuthorizedTables (some ts) = .ok (some ts)) :
    ∀ (cs : List Comparison) (collected : List (Option TableMap × Bool))
      (final : Option TableMap),
      walkOperands neg u ((nodeSemList s (cs.map Comparison.node)).map NodeSem.onClone)
        (some ts) = .ok (collected, final) →
      final = some ts ∧ ∃ rs, List.Forall₂ (fun c r => c.walk s (some ts) neg u = .ok r) cs rs ∧
        collected = rs.map (fun r => (r.Tables, false))
  | [], collected, final, h => by
      simp [nodeSemList, walkOperands] at h
      exact ⟨h.2.symm, [], List.Forall₂.nil, by rw [h.1]; rfl⟩
  | c :: rest, collected, final, h => by
      simp only [List.map_cons, nodeSemList, walkOperands, Comparison.node, nodeSem,
        cloneNodeSem] at h
      obtain ⟨r1, h1, h⟩ := bind_eq_ok h
      obtain ⟨r, hr, h1⟩ := bind_eq_ok h1
      simp at h1
      subst h1
      obtain ⟨p, hp, h⟩ := bind_eq_ok h
      obtain ⟨more, fin⟩ := p
      simp at h
      obtain ⟨hfin, rs, hrs, hmore⟩ := walkOperands_comparisons s neg u ts hidem rest more fin hp
      refine ⟨by rw [← h.2, hfin], r :: rs, List.Forall₂.cons ?_ hrs, ?_⟩
      · simpa [Comparison.walk, authorizeAExpr, AuthorizeNode] using hr
      · rw [← h.1, hmore]; rfl

theorem walk_after_clone (s : AuthorizationServiceImpl) (c : Comparison) (M ts : TableMap)
    (neg : Bool) (u : UserContext) (hc : CloneUnAuthorizedTables (some M) = .ok (some ts)) :
    c.walk s (some ts) neg u = c.walk s (some M) neg u := by
  have hidem : CloneUnAuthorizedTables (some ts) = .ok (some ts) := cloneTablesOpt_idem _ _ hc
  simp [Comparison.walk, authorizeAExpr, authorizeAExprOn, hc, hidem]

theorem walk_keys (s : AuthorizationServiceImpl) (c : Comparison) (ts : TableMap)
    (neg : Bool) (u : UserContext) (r : AuthorizationResult)
    (hidem : CloneUnAuthorizedTables (some ts) = .ok (some ts))
    (h : c.walk s (some ts) neg u = .ok r) :
    ∃ ts', r.Tables = some ts' ∧ ts'.map Prod.fst = ts.map Prod.fst := by
  simp only [Comparison.walk, authorizeAExpr, authorizeAExprOn, hidem, except_bind_ok] at h
  exact aexprAfterClone_keys _ _ _ _ _ _ _ _ _ h

theorem operandTables_unaliased (rs : List AuthorizationResult) (final : Option TableMap) :
    operandTables (rs.map (fun r => (r.Tables, false))) final
      = rs.map AuthorizationResult.Tables := by
  simp [operandTables, Function.comp_def]

theorem forall₂_mem_right {α β : Type} {R : α → β → Prop} {l : List α} {l' : List β}
    (h : List.Forall₂ R l l') : ∀ b ∈ l', ∃ a ∈ l, R a b := by
  induction h with
  | nil => intro b hb; simp at hb
  | cons hhd _ ih =>
    intro b hb
    rcases List.mem_cons.mp hb with hb | hb
    · subst hb; exact ⟨_, List.mem_cons_self _ _, hhd⟩
    · obtain ⟨a, ha, hab⟩ := ih b hb
      exact ⟨a, List.mem_cons_of_mem _ ha, hab⟩

/-- The operands of AND and OR, when they are comparison expressions: each is
walked against a copy of the incoming map and returns a map with the same
keys. -/
theorem boolExpr_operands (s : AuthorizationServiceImpl) (M ts : TableMap)
    (cs : List Comparison) (neg : Bool) (u : UserContext)
    (collected : List (Option TableMap × Bool)) (final : Option TableMap)
    (hc : CloneUnAuthorizedTables (some M) = .ok (some ts))
    (h : walkOperands neg u ((nodeSemList s (cs.map Comparison.node)).map NodeSem.onClone)
        (some ts) = .ok (collected, final)) :
    final = some ts ∧ ∃ rs, List.Forall₂ (fun c r => c.walk s (some M) neg u = .ok r) cs rs ∧
      operandTables collected final = rs.map AuthorizationResult.Tables ∧
      ∀ r ∈ rs, ∃ tr, r.Tables = some tr ∧ tr.map Prod.fst = ts.map Prod.fst := by
  have hidem : CloneUnAuthorizedTables (some ts) = .ok (some ts) := cloneTablesOpt_idem _ _ hc
  obtain ⟨hfin, rs, hrs, hcol⟩ := walkOperands_comparisons s neg u ts hidem cs collected final h
  refine ⟨hfin, rs, ?_, ?_, ?_⟩
  · refine List.Forall₂.imp ?_ hrs
    intro c r hcr
    rw [← walk_after_clone s c M ts neg u hc]; exact hcr
  · rw [hcol, operandTables_unaliased]
  · intro r hr
    obtain ⟨c, _, hcr⟩ := forall₂_mem_right hrs r hr
    exact walk_keys s c ts neg u r hidem hcr

theorem forall₂_ne_nil {α β : Type} {R : α → β → Prop} {l : List α} {l' : List β}
    (h : List.Forall₂ R l l') (hne : l ≠ []) : l' ≠ [] := by
  cases h with
  | nil => exact absurd rfl hne
  | cons _ _ => simp

theorem reportsUnauthorized_eq (k : String) (r : AuthorizationResult) (tr : TableMap)
    (c : TableInfoV2) (ht : r.Tables = some tr) (hg : omGet tr k = some c) :
    reportsUnauthorized k r.Tables = !c.Authorized ∧
    reportsAuthorized k r.Tables = c.Authorized ∧
    authorizedAt r.Tables k = some c.Authorized := by
  simp [reportsUnauthorized, reportsAuthorized, authorizedAt, ht, hg]

/-- The common part of AND and OR over comparisons against a map `M` with
distinct keys that are the aliases: the operands' results `rs`, the copy `ts`
of `M` that is updated, and the list the update function receives. -/
theorem boolExpr_comparisons (s : AuthorizationServiceImpl) (M : TableMap)
    (cs : List Comparison) (neg : Bool) (u : UserContext) (res : AuthorizationResult)
    (op : BoolExprType) (hop : op = .OR_EXPR ∨ op = .AND_EXPR)
    (hnd : (M.map Prod.fst).Nodup) (hal : ∀ e ∈ M, e.2.Alias = e.1)
    (h : authorizeBoolExpr s op (cs.map Comparison.node) (some M) neg u = .ok res) :
    ∃ ts rs, cloneTables M = .ok ts ∧ (ts.map Prod.fst).Nodup ∧ (∀ e ∈ ts, e.2.Alias = e.1) ∧
      List.Forall₂ (fun c r => c.walk s (some M) neg u = .ok r) cs rs ∧
      (∀ r ∈ rs, ∃ tr, r.Tables = some tr ∧ tr.map Prod.fst = ts.map Prod.fst) ∧
      (if op = .OR_EXPR then
          UpdateUnauthorizedTablesByUnion (some ts) (rs.map AuthorizationResult.Tables)
        else UpdateUnauthorizedTablesByIntersection (some ts)
          (rs.map AuthorizationResult.Tables)) = .ok res.Tables ∧
      foldAuthorizedMap true res.Tables = .ok res.Authorized := by
  simp only [authorizeBoolExpr, authorizeBoolExprOn] at h
  obtain ⟨M1, hc, h⟩ := bind_eq_ok h
  obtain ⟨ts, rfl, hts⟩ := cloneMap_some M M1 hc
  have hkeys := cloneTables_keys M ts hts
  have hal' : ∀ e ∈ ts, e.2.Alias = e.1 := by
    intro e he
    obtain ⟨t, ht, hcl⟩ := cloneTables_mem M ts hts e he
    rw [(clone_fields t e.2 hcl).1]
    exact hal (e.1, t) ht
  refine ⟨ts, ?_⟩
  rcases hop with rfl | rfl
  · simp only [authorizeBoolExprAfterClone] at h
    obtain ⟨p, hw, h⟩ := bind_eq_ok h
    obtain ⟨collected, final⟩ := p
    obtain ⟨hfin, rs, hrs, hcol, hk⟩ := boolExpr_operands s M ts cs neg u collected final hc hw
    subst hfin
    obtain ⟨R2, hu, h⟩ := bind_eq_ok h
    rw [hcol] at hu
    obtain ⟨a, ha, h⟩ := bind_eq_ok h
    simp at h; subst h
    exact ⟨rs, hts, hkeys ▸ hnd, hal', hrs, hk, by simpa using hu, ha⟩
  · simp only [authorizeBoolExprAfterClone] at h
    obtain ⟨p, hw, h⟩ := bind_eq_ok h
    obtain ⟨collected, final⟩ := p
    obtain ⟨hfin, rs, hrs, hcol, hk⟩ := boolExpr_operands s M ts cs neg u collected final hc hw
    subst hfin
    obtain ⟨R2, hu, h⟩ := bind_eq_ok h
    rw [hcol] at hu
    obtain ⟨a, ha, h⟩ := bind_eq_ok h
    simp at h; subst h
    exact ⟨rs, hts, hkeys ▸ hnd, hal', hrs, hk, by simpa using hu, ha⟩

theorem any_reports (k : String) : ∀ (rs : List AuthorizationResult),
    (∀ r ∈ rs, ∃ c, reportsUnauthorized k r.Tables = !c ∧ reportsAuthorized k r.Tables = c ∧
      authorizedAt r.Tables k = some c) →
    (((rs.map AuthorizationResult.Tables).any (reportsUnauthorized k) = false ↔
        ∀ r ∈ rs, authorizedAt r.Tables k = some true) ∧
     ((rs.map AuthorizationResult.Tables).any (reportsAuthorized k) = true ↔
        ∃ r ∈ rs, authorizedAt r.Tables k = some true))
  | [], _ => by simp
  | r :: rest, hall => by
      obtain ⟨c, h1, h2, h3⟩ := hall r (List.mem_cons_self _ _)
      obtain ⟨ih1, ih2⟩ := any_reports k rest (fun x hx => hall x (List.mem_cons_of_mem _ hx))
      simp only [List.map_cons, List.any_cons, Bool.or_eq_false_iff, Bool.or_eq_true,
        List.forall_mem_cons, List.exists_mem_cons, ih1, ih2, h1, h2, h3]
      cases c <;> simp [h3]

/-- The flag of a base relation after AND or OR over comparisons, in terms of
what the operands report. -/
theorem operands_report (M ts : TableMap) (rs : List AuthorizationResult)
    (hts : cloneTables M = .ok ts)
    (hk : ∀ r ∈ rs, ∃ tr, r.Tables = some tr ∧ tr.map Prod.fst = ts.map Prod.fst)
    (k : String) (R : TableInfoV2) (hg : omGet M k = some R) (hdb : R.IsDatabase = true) :
    (∃ R', omGet ts k = some R' ∧ R'.IsDatabase = true) ∧
    ((rs.map AuthorizationResult.Tables).any (reportsUnauthorized k) = false ↔
        ∀ r ∈ rs, authorizedAt r.Tables k = some true) ∧
    ((rs.map AuthorizationResult.Tables).any (reportsAuthorized k) = true ↔
        ∃ r ∈ rs, authorizedAt r.Tables k = some true) := by
  obtain ⟨R', hR', hg'⟩ := cloneTables_get M ts hts k R hg
  refine ⟨⟨R', hg', by rw [(clone_fields R R' hR').2.1]; exact hdb⟩, ?_⟩
  apply any_reports
  intro r hr
  obtain ⟨tr, htr, hktr⟩ := hk r hr
  obtain ⟨c, hc⟩ := omGet_of_keys_eq ts tr hktr k R' hg'
  exact ⟨c.Authorized, reportsUnauthorized_eq k r tr c htr hc⟩

/-- C9. Boolean composition under OR for base relations.  Let `M` be a
relation map whose keys are distinct and are the aliases of its relations, and
`C1..Cn` (n ≥ 1) comparison expressions.  When walking `OR(C1..Cn)` against
`M` returns a result, every `Ci` walked against `M` returns a result too, and
a base relation of `M` is authorized in the result of the OR if and only if it
is authorized in the result of every `Ci`.  For a student with id 123,
`student.id = 123 OR student.id = 456` leaves `student` unauthorized and the
result is denied. -/
theorem or_base_authorized_iff_every_operand (s : AuthorizationServiceImpl) (M : TableMap)
    (cs : List Comparison) (neg : Bool) (u : UserContext) (res : AuthorizationResult)
    (hne : cs ≠ []) (hnd : (M.map Prod.fst).Nodup) (hal : ∀ e ∈ M, e.2.Alias = e.1)
    (h : authorizeBoolExpr s .OR_EXPR (cs.map Comparison.node) (some M) neg u = .ok res) :
    (∃ rs, List.Forall₂ (fun c r => c.walk s (some M) neg u = .ok r) cs rs ∧
      ∀ k R, omGet M k = some R → R.IsDatabase = true →
        (authorizedAt res.Tables k = some true ↔
          ∀ r ∈ rs, authorizedAt r.Tables k = some true)) ∧
    authorizeBoolExpr mockService .OR_EXPR
        [(columnOpConst "student" "id" "=" 123).node, (columnOpConst "student" "id" "=" 456).node]
        (some [("student", unauthorizedBase mockService "student")]) false
        (studentCaller 123 0 0 [])
      = .ok { Authorized := false,
              Tables := some [("student", unauthorizedBase mockService "student")] } := by
  refine ⟨?_, rfl⟩
  obtain ⟨ts, rs, hts, hnd', hal', hrs, hk, hu, _⟩ :=
    boolExpr_comparisons s M cs neg u res .OR_EXPR (Or.inl rfl) hnd hal h
  simp only [if_true] at hu
  obtain ⟨D', hD, _, hget⟩ := union_base ts _ res.Tables
    (by simpa using forall₂_ne_nil hrs hne) hnd' hal' hu
  refine ⟨rs, hrs, ?_⟩
  intro k R hg hdb
  obtain ⟨⟨R', hg', hdb'⟩, hall, _⟩ := operands_report M ts rs hts hk k R hg hdb
  rw [← hall]
  obtain ⟨name, cols, als, hs, un, au, db⟩ := R'
  simp [authorizedAt, hD, hget k _ hg' hdb', TableInfoV2.setAuthorized, TableInfoV2.Authorized]

theorem or_base_authorized_iff_every_operand_witness :
    [columnOpConst "student" "id" "=" 123, columnOpConst "student" "id" "=" 456] ≠ [] ∧
    ([("student", unauthorizedBase mockService "student")].map Prod.fst).Nodup ∧
    (∀ e ∈ [("student", unauthorizedBase mockService "student")], e.2.Alias = e.1) ∧
    ∃ rs, List.Forall₂ (fun c r => c.walk mockService
          (some [("student", unauthorizedBase mockService "student")]) false
          (studentCaller 123 0 0 []) = .ok r)
        [columnOpConst "student" "id" "=" 123, columnOpConst "student" "id" "=" 456] rs ∧
      ∀ k R, omGet [("student", unauthorizedBase mockService "student")] k = some R →
        R.IsDatabase = true →
        (authorizedAt (some [("student", unauthorizedBase mockService "student")]) k = some true ↔
          ∀ r ∈ rs, authorizedAt r.Tables k = some true) :=
  ⟨by simp, by simp, by intro e he; simp at he; subst he; rfl,
    (or_base_authorized_iff_every_operand mockService
      [("student", unauthorizedBase mockService "student")]
      [columnOpConst "student" "id" "=" 123, columnOpConst "student" "id" "=" 456] false
      (studentCaller 123 0 0 [])
      { Authorized := false, Tables := some [("student", unauthorizedBase mockService "student")] }
      (by simp) (by simp) (by intro e he; simp at he; subst he; rfl) rfl).1⟩

/-- C8. Boolean composition under AND.  Let `M` be a relation map whose keys
are distinct and are the aliases of its relations, and `C1`, `C2` comparison
expressions.  When walking `AND(C1, C2)` against `M` returns a result, `C1`
and `C2` walked against `M` return results too; a base relation of `M` is
authorized in the result of the AND if and only if it is authorized in the
result of `C1` or in the result of `C2`; and the authorized bit is true if and
only if every relation of the resulting map is authorized (a base relation by
its flag, a virtual relation by having no unauthorized component left). -/
theorem and_base_authorized_iff_either_operand (s : AuthorizationServiceImpl) (M : TableMap)
    (c1 c2 : Comparison) (neg : Bool) (u : UserContext) (res : AuthorizationResult)
    (hnd : (M.map Prod.fst).Nodup) (hal : ∀ e ∈ M, e.2.Alias = e.1)
    (h : authorizeBoolExpr s .AND_EXPR [c1.node, c2.node] (some M) neg u = .ok res) :
    ∃ r1 r2 D, c1.walk s (some M) neg u = .ok r1 ∧ c2.walk s (some M) neg u = .ok r2 ∧
      res.Tables = some D ∧
      (∀ k R, omGet M k = some R → R.IsDatabase = true →
        (authorizedAt res.Tables k = some true ↔
          authorizedAt r1.Tables k = some true ∨ authorizedAt r2.Tables k = some true)) ∧
      (res.Authorized = true ↔ ∀ e ∈ D, e.2.isAuthorized = true) := by
  obtain ⟨ts, rs, hts, hnd', hal', hrs, hk, hu, ha⟩ :=
    boolExpr_comparisons s M [c1, c2] neg u res .AND_EXPR (Or.inr rfl) hnd hal h
  simp only [reduceCtorEq, if_false] at hu
  obtain ⟨r1, rs1, h1, hrs1, rfl⟩ := List.forall₂_cons_left_iff.mp hrs
  obtain ⟨r2, rs2, h2, hrs2, rfl⟩ := List.forall₂_cons_left_iff.mp hrs1
  obtain rfl := List.forall₂_nil_left_iff.mp hrs2
  obtain ⟨D', hD, _, hget⟩ := intersection_base ts _ res.Tables (by simp) hnd' hal' hu
  refine ⟨r1, r2, D', h1, h2, hD, ?_, ?_⟩
  · intro k R hg hdb
    obtain ⟨⟨R', hg', hdb'⟩, _, hany⟩ := operands_report M ts [r1, r2] hts hk k R hg hdb
    have hany' : ([r1, r2].map AuthorizationResult.Tables).any (reportsAuthorized k) = true ↔
        authorizedAt r1.Tables k = some true ∨ authorizedAt r2.Tables k = some true := by
      rw [hany]; simp
    rw [← hany']
    obtain ⟨name, cols, als, hs, un, au, db⟩ := R'
    simp [authorizedAt, hD, hget k _ hg' hdb', TableInfoV2.setAuthorized,
      TableInfoV2.Authorized]
  · rw [hD] at ha
    simpa using foldAuthorized_iff D' true res.Authorized ha

theorem and_base_authorized_iff_either_operand_witness :
    ([("student", unauthorizedBase mockService "student")].map Prod.fst).Nodup ∧
    (∀ e ∈ [("student", unauthorizedBase mockService "student")], e.2.Alias = e.1) ∧
    ∃ r1 r2 D,
      (columnOpConst "student" "id" "=" 123).walk mockService
        (some [("student", unauthorizedBase mockService "student")]) false
        (studentCaller 123 0 0 []) = .ok r1 ∧
      (columnOpConst "student" "id" "=" 456).walk mockService
        (some [("student", unauthorizedBase mockService "student")]) false
        (studentCaller 123 0 0 []) = .ok r2 ∧
      some [("student", createTableInfo "student" "student" true true
        (mockService.schemaService.GetColumns "student"))] = some D ∧
      (∀ k R, omGet [("student", unauthorizedBase mockService "student")] k = some R →
        R.IsDatabase = true →
        (authorizedAt (some [("student", createTableInfo "student" "student" true true
            (mockService.schemaService.GetColumns "student"))]) k = some true ↔
          authorizedAt r1.Tables k = some true ∨ authorizedAt r2.Tables k = some true)) ∧
      (true = true ↔ ∀ e ∈ D, e.2.isAuthorized = true) :=
  ⟨by simp, by intro e he; simp at he; subst he; rfl,
    and_base_authorized_iff_either_operand mockService
      [("student", unauthorizedBase mockService "student")]
      (columnOpConst "student" "id" "=" 123) (columnOpConst "student" "id" "=" 456) false
      (studentCaller 123 0 0 [])
      { Authorized := true,
        Tables := some [("student", createTableInfo "student" "student" true true
          (mockService.schemaService.GetColumns "student"))] }
      (by simp) (by intro e he; simp at he; subst he; rfl) rfl⟩

/-- C2. Public table freedom, at the inputs where the code departs from it.
`isPublicTable` lists six tables: `semester` and `course_schedule_instructor`
are not among them, while `getAuthorizationColumn` treats both as public
(`Bypass`).  For a student, `SELECT * FROM semester` is denied, and so is
`SELECT * FROM course_schedule_instructor` for a professor; the six listed
tables are allowed; and `SELECT * FROM semester WHERE semester.id = 7` is
allowed for the student. -/
theorem semester_select_star_denied :
    isPublicTable "semester" = false ∧ isPublicTable "course_schedule_instructor" = false ∧
    (getAuthorizationColumn "semester" (studentCaller 123 0 0 [])).Bypass = true ∧
    (getAuthorizationColumn "course_schedule_instructor" (professorCaller 456 [10] [])).Bypass
      = true ∧
    validateStatement mockService (selectStarFrom [.rangeVar "semester" none] none)
      (studentCaller 123 0 0 []) = .ok false ∧
    validateStatement mockService
      (selectStarFrom [.rangeVar "course_schedule_instructor" none] none)
      (professorCaller 456 [10] []) = .ok false ∧
    (∀ T ∈ ["program", "course", "course_program", "course_class", "course_class_schedule",
        "faculty"],
      validateStatement mockService (selectStarFrom [.rangeVar T none] none)
        (studentCaller 123 0 0 []) = .ok true) ∧
    validateStatement mockService
      (selectStarFrom [.rangeVar "semester" none]
        (some (columnOpConst "semester" "id" "=" 7).node))
      (studentCaller 123 0 0 []) = .ok true := by
  refine ⟨by decide, by decide, by decide, by decide, rfl, rfl, ?_, rfl⟩
  intro T hT
  simp only [List.mem_cons, List.mem_singleton, List.not_mem_nil, or_false] at hT
  rcases hT with rfl | rfl | rfl | rfl | rfl | rfl <;> rfl

/-- C4. Tables without a policy entry, at the input where the code departs
from the claim.  For a professor and `student_scholarship` the policy context
is empty and `isAuthorizedExpression` is false for `student_id = 7`, and that
comparison leaves the relation unauthorized; but the comparison
`(student_scholarship.id, student_scholarship.student_id) =
(SELECT course.id, course.credits FROM course)` marks the relation authorized
and returns authorized = true. -/
theorem unlisted_table_authorized_by_row_comparison :
    getAuthorizationColumn "student_scholarship" (professorCaller 456 [10] [7]) = {} ∧
    isAuthorizedExpression [.string "student_scholarship", .string "student_id"] (some (.ival 7))
        (unauthorizedBase (mockServiceWith "student_scholarship" ["id", "student_id", "amount"])
          "student_scholarship")
        (unauthorizedBase (mockServiceWith "student_scholarship" ["id", "student_id", "amount"])
          "student_scholarship")
        (professorCaller 456 [10] [7]) = .ok false ∧
    ((columnOpConst "student_scholarship" "student_id" "=" 7).walk
        (mockServiceWith "student_scholarship" ["id", "student_id", "amount"])
        (some [("student_scholarship",
          unauthorizedBase (mockServiceWith "student_scholarship" ["id", "student_id", "amount"])
            "student_scholarship")]) false (professorCaller 456 [10] [7])).map
      (fun res => (res.Authorized, authorizedAt res.Tables "student_scholarship"))
      = .ok (false, some false) ∧
    ((rowEqualsSubselect "student_scholarship" "id" "student_id" "course" "id" "credits").walk
        (mockServiceWith "student_scholarship" ["id", "student_id", "amount"])
        (some [("student_scholarship",
          unauthorizedBase (mockServiceWith "student_scholarship" ["id", "student_id", "amount"])
            "student_scholarship")]) false (professorCaller 456 [10] [7])).map
      (fun res => (res.Authorized, authorizedAt res.Tables "student_scholarship"))
      = .ok (true, some true) :=
  ⟨by decide, rfl, rfl, rfl⟩

/-- C10. Union over virtual relations, at the input where the code departs
from the claim.  `dst` holds the virtual relation `v` with the component
`student`; the only child map holds `v` with no component left (the child
removed `student`).  `UpdateUnauthorizedTablesByUnion` leaves `student` among
the components of `v`.  For student 123 and the relation `v` of
`(SELECT student.id FROM student) AS v`: `v.id = 123` removes `student` and
authorizes `v`, and `v.id = 123 OR v.id = 123` leaves `v` as it was and
returns authorized = false. -/
theorem union_keeps_component_removed_by_every_child :
    UpdateUnauthorizedTablesByUnion
        (some [("v", virtualOverStudent mockService
          [("student", unauthorizedBase mockService "student")] false)])
        [some [("v", virtualOverStudent mockService [] true)]]
      = .ok (some [("v", virtualOverStudent mockService
          [("student", unauthorizedBase mockService "student")] false)]) ∧
    (columnOpConst "v" "id" "=" 123).walk mockService
        (some [("v", virtualOverStudent mockService
          [("student", unauthorizedBase mockService "student")] false)]) false
        (studentCaller 123 0 0 [])
      = .ok { Authorized := true,
              Tables := some [("v", virtualOverStudent mockService [] true)] } ∧
    authorizeBoolExpr mockService .OR_EXPR
        [(columnOpConst "v" "id" "=" 123).node, (columnOpConst "v" "id" "=" 123).node]
        (some [("v", virtualOverStudent mockService
          [("student", unauthorizedBase mockService "student")] false)]) false
        (studentCaller 123 0 0 [])
      = .ok { Authorized := false,
              Tables := some [("v", virtualOverStudent mockService
                [("student", unauthorizedBase mockService "student")] false)] } :=
  ⟨rfl, rfl, rfl⟩

/-! ## `Clone` returns on trees -/

mutual
theorem clone_total : ∀ (t : TableInfoV2), t.acyclic = true → ∃ t', t.Clone = .ok t'
  | .mk name cols als hs un au db, h => by
      simp only [TableInfoV2.acyclic, Bool.and_eq_true, Bool.or_eq_true] at h
      obtain ⟨cols', hc⟩ := cloneColumnsOpt_total db cols h.1
      obtain ⟨un', hu⟩ := cloneTablesOpt_total un h.2
      exact ⟨.mk name cols' als hs un' au db, by simp [TableInfoV2.Clone, hc, hu]⟩
theorem cloneColumnsOpt_total : ∀ (db : Bool) (cols : Option (List (String × ColumnInfo))),
    (db = true ∨ acyclicColumnsOpt cols = true) → ∃ cols', cloneColumnsOpt db cols = .ok cols'
  | _, none, _ => ⟨none, by simp [cloneColumnsOpt]⟩
  | db, some cs, h => by
      obtain ⟨cs', hc⟩ := cloneColumns_total db cs (by simpa [acyclicColumnsOpt] using h)
      exact ⟨some cs', by simp [cloneColumnsOpt, hc]⟩
theorem cloneColumns_total : ∀ (db : Bool) (cs : List (String × ColumnInfo)),
    (db = true ∨ acyclicColumns cs = true) → ∃ cs', cloneColumns db cs = .ok cs'
  | _, [], _ => ⟨[], by simp [cloneColumns]⟩
  | db, (a, .mk name src) :: rest, h => by
      have h1 : db = true ∨ acyclicSource src = true := by
        rcases h with h | h
        · exact Or.inl h
        · simp only [acyclicColumns, Bool.and_eq_true] at h; exact Or.inr h.1
      have h2 : db = true ∨ acyclicColumns rest = true := by
        rcases h with h | h
        · exact Or.inl h
        · simp only [acyclicColumns, Bool.and_eq_true] at h; exact Or.inr h.2
      obtain ⟨rest', hr⟩ := cloneColumns_total db rest h2
      cases db with
      | true => exact ⟨(a, .mk name .self) :: rest', by simp [cloneColumns, cloneColumn, hr]⟩
      | false =>
        obtain ⟨src', hs⟩ := cloneSource_total src (by simpa using h1)
        exact ⟨(a, .mk name src') :: rest', by simp [cloneColumns, cloneColumn, hs, hr]⟩
theorem cloneSource_total : ∀ (src : SourceRef), acyclicSource src = true →
    ∃ src', cloneSource src = .ok src'
  | .nil, _ => ⟨.nil, by simp [cloneSource]⟩
  | .self, h => by simp [acyclicSource] at h
  | .table t, h => by
      obtain ⟨t', ht⟩ := clone_total t (by simpa [acyclicSource] using h)
      exact ⟨.table t', by simp [cloneSource, ht]⟩
theorem cloneTablesOpt_total : ∀ (un : Option (List (String × TableInfoV2))),
    acyclicTablesOpt un = true → ∃ un', cloneTablesOpt un = .ok un'
  | none, _ => ⟨none, by simp [cloneTablesOpt]⟩
  | some ts, h => by
      obtain ⟨ts', hc⟩ := cloneTables_total ts (by simpa [acyclicTablesOpt] using h)
      exact ⟨some ts', by simp [cloneTablesOpt, hc]⟩
theorem cloneTables_total : ∀ (ts : List (String × TableInfoV2)),
    acyclicTables ts = true → ∃ ts', cloneTables ts = .ok ts'
  | [], _ => ⟨[], by simp [cloneTables]⟩
  | (k, t) :: rest, h => by
      simp only [acyclicTables, Bool.and_eq_true] at h
      obtain ⟨t', ht⟩ := clone_total t h.1
      obtain ⟨rest', hr⟩ := cloneTables_total rest h.2
      exact ⟨(k, t') :: rest', by simp [cloneTables, ht, hr]⟩
end

theorem clone_nil_fields (t t' : TableInfoV2) (h : t.Clone = .ok t') :
    (t.Columns = none → t'.Columns = none) ∧
    (t.UnAuthorizedTables = none → t'.UnAuthorizedTables = none) := by
  obtain ⟨name, cols, als, hs, un, au, db⟩ := t
  simp only [TableInfoV2.Clone] at h
  obtain ⟨cols', hc, h⟩ := bind_eq_ok h
  obtain ⟨un', hu, h⟩ := bind_eq_ok h
  simp at h
  subst h
  constructor
  · intro hn
    simp only [TableInfoV2.Columns] at hn ⊢
    subst hn
    simpa [cloneColumnsOpt] using hc.symm
  · intro hn
    simp only [TableInfoV2.UnAuthorizedTables] at hn ⊢
    subst hn
    simpa [cloneTablesOpt] using hu.symm

/-- C14. Round-trip cloning.  For every relation whose graph is a tree,
`Clone` returns a relation that is equal to the original when the
`SourceTable` pointers are ignored: the same name, alias, `HasStar`,
`IsDatabase` and `Authorized`, the same column aliases in the same order with
the same column names, and recursively equal components in the same order.
Absent columns and absent components stay absent, and the copy of a nil
relation pointer is nil. -/
theorem clone_round_trip (t : TableInfoV2) (hac : t.acyclic = true) :
    ∃ t', t.Clone = .ok t' ∧ t'.eraseSources = t.eraseSources ∧
      (t.Columns = none → t'.Columns = none) ∧
      (t.UnAuthorizedTables = none → t'.UnAuthorizedTables = none) ∧
      cloneSource .nil = .ok .nil := by
  obtain ⟨t', ht⟩ := clone_total t hac
  exact ⟨t', ht, clone_erase t t' ht, (clone_nil_fields t t' ht).1, (clone_nil_fields t t' ht).2,
    rfl⟩

theorem clone_round_trip_witness :
    (virtualOverStudent mockService [("student", unauthorizedBase mockService "student")]
        false).acyclic = true ∧
    ∃ t', (virtualOverStudent mockService [("student", unauthorizedBase mockService "student")]
        false).Clone = .ok t' ∧
      t'.eraseSources = (virtualOverStudent mockService
        [("student", unauthorizedBase mockService "student")] false).eraseSources ∧
      ((virtualOverStudent mockService [("student", unauthorizedBase mockService "student")]
        false).Columns = none → t'.Columns = none) ∧
      ((virtualOverStudent mockService [("student", unauthorizedBase mockService "student")]
        false).UnAuthorizedTables = none → t'.UnAuthorizedTables = none) ∧
      cloneSource .nil = .ok .nil :=
  ⟨rfl, clone_round_trip _ rfl⟩

/-- C15. What `Clone` does with `SourceTable`, at the input of the repository's
own test "Table with columns": the base relation `table1` has the column
`col1` bound to the relation `source`; in the copy `col1` is bound to the copy
itself, so the relation it refers to is named `table1`, not `source`. -/
theorem clone_rebinds_base_column_to_copy :
    tableWithColumns.sourceOf "col1" = some (.mk "source" none "" false none false true) ∧
    tableWithColumns.Clone
      = .ok (.mk "table1" (some [("col1", .mk "col1" .self)]) "t1" false none false true) ∧
    (tableWithColumns.Clone.toOption.bind (fun c => c.sourceOf "col1")).map TableInfoV2.Name
      = some "table1" :=
  ⟨rfl, rfl, rfl⟩

/-! ## `UpdateUnauthorizedTablesByIntersection` on a virtual relation -/

theorem omSet_nodup {V : Type} (m : OrderedMap V) (k : String) (v : V)
    (h : (m.map Prod.fst).Nodup) : ((omSet m k v).map Prod.fst).Nodup := by
  cases hg : omGet m k with
  | some x => rw [omSet_keys m k v x hg]; exact h
  | none =>
    have hk : (omSet m k v).map Prod.fst = m.map Prod.fst ++ [k] := by
      clear h
      induction m with
      | nil => simp [omSet]
      | cons e rest ih =>
        obtain ⟨a, b⟩ := e
        by_cases ha : a = k
        · simp [omGet, ha] at hg
        · simp [omGet, ha] at hg
          simp [omSet, ha, ih hg]
    rw [hk]
    rw [omGet_none_iff] at hg
    exact List.Nodup.append h (by simp) (by simpa using hg)

theorem omGet_iff_mem {V : Type} (m : OrderedMap V) (h : (m.map Prod.fst).Nodup) (k : String)
    (v : V) : omGet m k = some v ↔ (k, v) ∈ m := by
  induction m with
  | nil => simp [omGet]
  | cons e rest ih =>
    obtain ⟨a, b⟩ := e
    simp only [List.map_cons, List.nodup_cons] at h
    by_cases ha : a = k
    · subst ha
      simp only [omGet, if_true, Option.some.injEq, List.mem_cons, Prod.mk.injEq, true_and]
      constructor
      · intro hb; exact Or.inl hb.symm
      · rintro (hb | hb)
        · exact hb.symm
        · exact absurd (List.mem_map_of_mem Prod.fst hb) h.1
    · simp only [omGet, ha, if_false, List.mem_cons, Prod.mk.injEq]
      rw [ih h.2]
      constructor
      · intro hb; exact Or.inr hb
      · rintro (hb | hb)
        · exact absurd hb.1.symm ha
        · exact hb

theorem deleteFlagged_filter (removeWhen : Bool) : ∀ (flags : FlagMap)
    (unAuth : List (String × TableInfoV2)),
    deleteFlagged removeWhen flags unAuth
      = unAuth.filter (fun e => !(flags.any (fun x => x.1 == e.1 && x.2 == removeWhen)))
  | [], unAuth => by simp [deleteFlagged]
  | (c, v) :: rest, unAuth => by
      have ih := deleteFlagged_filter removeWhen rest
      simp only [deleteFlagged, List.foldl_cons] at ih ⊢
      by_cases hv : v = removeWhen
      · subst hv
        rw [if_pos rfl, ih]
        simp only [omDelete, List.filter_filter, List.any_cons, beq_self_eq_true, Bool.and_true]
        congr 1
        funext e
        by_cases he : c = e.1
        · simp [he]
        · have he' : ¬ e.1 = c := fun h => he h.symm
          have h1 : (e.1 != c) = true := by simp [he']
          have h2 : (c == e.1) = false := by simp [he]
          rw [h1, h2]
          simp
      · rw [if_neg hv, ih]
        congr 1
        funext e
        simp [hv]

theorem flags_any_eq (flags : FlagMap) (h : (flags.map Prod.fst).Nodup) (c : String) (v : Bool) :
    flags.any (fun x => x.1 == c && x.2 == v) = (omGet flags c == some v) := by
  rw [Bool.eq_iff_iff]
  simp only [List.any_eq_true, Bool.and_eq_true, beq_iff_eq]
  constructor
  · rintro ⟨⟨a, b⟩, hm, h1, h2⟩
    simp only at h1 h2
    subst h1; subst h2
    exact (omGet_iff_mem flags h a b).mpr hm
  · intro hg
    exact ⟨(c, v), (omGet_iff_mem flags h c v).mp hg, rfl, rfl⟩

/-- Every row of a flag table has distinct keys. -/
theorem flagTable_set_rows (F F' : FlagTable) (a b : String) (v : Bool)
    (h : F.set a b v = .ok F')
    (hrows : ∀ r inner, omGet F r = some inner → (inner.map Prod.fst).Nodup) :
    ∀ r inner, omGet F' r = some inner → (inner.map Prod.fst).Nodup := by
  unfold FlagTable.set at h
  cases hi : omGet F a with
  | none => simp [hi] at h
  | some row =>
    simp [hi] at h
    subst h
    intro r inner hr
    rw [omGet_omSet] at hr
    by_cases har : a = r
    · simp [har] at hr
      subst hr
      exact omSet_nodup _ _ _ (hrows a row hi)
    · simp [har] at hr
      exact hrows r inner hr

theorem initFlagTable_rows : ∀ (D : TableMap) (acc : FlagTable),
    (∀ r inner, omGet acc r = some inner → (inner.map Prod.fst).Nodup) →
    ∀ r inner, omGet (initFlagTable D acc) r = some inner → (inner.map Prod.fst).Nodup
  | [], acc, h => by simpa [initFlagTable] using h
  | (_, t) :: rest, acc, h => by
      simp only [initFlagTable]
      apply initFlagTable_rows rest
      intro r inner hr
      rw [omGet_omSet] at hr
      by_cases ha : t.Alias = r
      · simp [ha] at hr; subst hr; simp
      · simp [ha] at hr; exact h r inner hr
theorem holdsUnauthorized_some (cur : TableInfoV2) (cu : List (String × TableInfoV2))
    (x : String) (y : TableInfoV2) (hu : cur.UnAuthorizedTables = some cu)
    (hx : omGet cu x = some y) : cur.holdsUnauthorized x = !y.Authorized := by
  simp [TableInfoV2.holdsUnauthorized, hu, hx]

theorem holdsUnauthorized_none (cur : TableInfoV2) (cu : List (String × TableInfoV2))
    (x : String) (hu : cur.UnAuthorizedTables = some cu)
    (hx : omGet cu x = none) : cur.holdsUnauthorized x = false := by
  simp [TableInfoV2.holdsUnauthorized, hu, hx]

theorem intersectionScanComponents_flag (k : String) (cur : TableInfoV2) :
    ∀ (un : List (String × TableInfoV2)) (F F' : FlagTable),
      intersectionScanComponents k cur un F = .ok F' →
      (∀ r inner, omGet F r = some inner → (inner.map Prod.fst).Nodup) →
      (∀ r inner, omGet F' r = some inner → (inner.map Prod.fst).Nodup) ∧
      ∀ c, F'.get k c = (F.get k c || (omHas un c && !cur.holdsUnauthorized c))
  | [], F, F', h, hrows => by
      simp [intersectionScanComponents] at h; subst h
      exact ⟨hrows, by simp [omHas]⟩
  | (x, _) :: rest, F, F', h, hrows => by
      simp only [intersectionScanComponents] at h
      cases hu : cur.UnAuthorizedTables with
      | none => simp [hu] at h
      | some cu =>
        simp only [hu] at h
        cases hx : omGet cu x with
        | none =>
          simp only [hx] at h
          obtain ⟨F1, h1, h⟩ := bind_eq_ok h
          obtain ⟨hr, hf⟩ := intersectionScanComponents_flag k cur rest F1 F' h
            (flagTable_set_rows F F1 _ _ _ h1 hrows)
          refine ⟨hr, fun c => ?_⟩
          rw [hf c, flagTable_set_get F F1 _ _ _ h1]
          by_cases hc : x = c
          · subst hc
            simp [omHas, holdsUnauthorized_none cur cu x hu hx]
          · have hc' : (x == c) = false := by simp [hc]
            simp [omHas, hc, hc']
        | some y =>
          simp only [hx] at h
          obtain ⟨F1, h1, h⟩ := bind_eq_ok h
          obtain ⟨hr, hf⟩ := intersectionScanComponents_flag k cur rest F1 F' h
            (flagTable_set_rows F F1 _ _ _ h1 hrows)
          refine ⟨hr, fun c => ?_⟩
          rw [hf c, flagTable_set_get F F1 _ _ _ h1]
          by_cases hc : x = c
          · subst hc
            simp only [true_and, if_true, omHas, List.any_cons, beq_self_eq_true, Bool.true_or,
              Bool.true_and, holdsUnauthorized_some cur cu x y hu hx, Bool.not_not]
            cases F.get k x <;> cases y.Authorized <;> simp
          · have hc' : (x == c) = false := by simp [hc]
            simp [omHas, hc, hc']

theorem intersectionScanLists_rows (k : String) (t : TableInfoV2) :
    ∀ (L : List (Option TableMap)) (F F' : FlagTable),
      intersectionScanLists k t L F = .ok F' →
      (∀ r inner, omGet F r = some inner → (inner.map Prod.fst).Nodup) →
      (∀ r inner, omGet F' r = some inner → (inner.map Prod.fst).Nodup)
  | [], F, F', h, hrows => by simp [intersectionScanLists] at h; subst h; exact hrows
  | none :: _, F, F', h, _ => by simp [intersectionScanLists] at h
  | some T :: rest, F, F', h, hrows => by
      simp only [intersectionScanLists] at h
      split at h
      · obtain ⟨F1, h1, h⟩ := bind_eq_ok h
        exact intersectionScanLists_rows k t rest F1 F' h (flagTable_set_rows F F1 _ _ _ h1 hrows)
      · split at h
        · obtain ⟨F1, h1, h⟩ := bind_eq_ok h
          exact intersectionScanLists_rows k t rest F1 F' h
            (flagTable_set_rows F F1 _ _ _ h1 hrows)
        · split at h
          · simp at h
          · obtain ⟨F1, h1, h⟩ := bind_eq_ok h
            exact intersectionScanLists_rows k t rest F1 F' h
              (intersectionScanComponents_flag k _ _ F F1 h1 hrows).1

theorem intersectionScanLists_virtual (k : String) (V : TableInfoV2)
    (U : List (String × TableInfoV2)) (hdb : V.IsDatabase = false)
    (hU : V.UnAuthorizedTables = some U) :
    ∀ (L : List (Option TableMap)) (F F' : FlagTable),
      intersectionScanLists k V L F = .ok F' →
      (∀ r inner, omGet F r = some inner → (inner.map Prod.fst).Nodup) →
      ∀ c, omHas U c = true → F'.get k c = (F.get k c || L.any (fun T => !childKeeps k c T))
  | [], F, F', h, _, c, _ => by simp [intersectionScanLists] at h; subst h; simp
  | none :: _, F, F', h, _, _, _ => by simp [intersectionScanLists] at h
  | some T :: rest, F, F', h, hrows, c, hc => by
      simp only [intersectionScanLists] at h
      cases hg : omGet T k with
      | none =>
        simp only [hg] at h
        obtain ⟨F1, h1, h⟩ := bind_eq_ok h
        rw [intersectionScanLists_virtual k V U hdb hU rest F1 F' h
          (flagTable_set_rows F F1 _ _ _ h1 hrows) c hc, flagTable_set_get F F1 _ _ _ h1]
        have hkeep : childKeeps k c (some T) = (c != k) := by
          simp [childKeeps, holdsUnauthorized, holdsRelation, hg]
        simp only [List.any_cons, hkeep]
        by_cases hk : k = c
        · subst hk
          simp
        · have hk' : (c != k) = true := by
            simp only [bne_iff_ne, ne_eq]
            exact fun hh => hk hh.symm
          simp [hk, hk']
      | some cur =>
        simp only [hg, hdb, hU] at h
        simp only [Bool.false_eq_true, if_false] at h
        obtain ⟨F1, h1, h⟩ := bind_eq_ok h
        obtain ⟨hr1, hf1⟩ := intersectionScanComponents_flag k cur U F F1 h1 hrows
        have hkeep : childKeeps k c (some T) = cur.holdsUnauthorized c := by
          simp [childKeeps, holdsUnauthorized, holdsRelation, hg]
        rw [intersectionScanLists_virtual k V U hdb hU rest F1 F' h hr1 c hc, hf1 c, hc]
        simp only [List.any_cons, hkeep, Bool.true_and, Bool.or_assoc]

theorem intersectionScan_rows (L : List (Option TableMap)) :
    ∀ (D : TableMap) (F F' : FlagTable), intersectionScan L D F = .ok F' →
      (∀ r inner, omGet F r = some inner → (inner.map Prod.fst).Nodup) →
      (∀ r inner, omGet F' r = some inner → (inner.map Prod.fst).Nodup)
  | [], F, F', h, hrows => by simp [intersectionScan] at h; subst h; exact hrows
  | (a, t) :: rest, F, F', h, hrows => by
      simp only [intersectionScan] at h
      obtain ⟨F1, h1, h⟩ := bind_eq_ok h
      exact intersectionScan_rows L rest F1 F' h (intersectionScanLists_rows a t L F F1 h1 hrows)

theorem intersectionScan_virtual (L : List (Option TableMap)) :
    ∀ (D : TableMap) (F F' : FlagTable), intersectionScan L D F = .ok F' →
      (∀ r inner, omGet F r = some inner → (inner.map Prod.fst).Nodup) →
      (D.map Prod.fst).Nodup → ∀ k V U, omGet D k = some V → V.IsDatabase = false →
      V.UnAuthorizedTables = some U →
      ∀ c, omHas U c = true → F'.get k c = (F.get k c || L.any (fun T => !childKeeps k c T))
  | [], _, _, _, _, _, k, V, U, hg, _, _, _, _ => by simp [omGet] at hg
  | (a, x) :: rest, F, F', h, hrows, hnd, k, V, U, hg, hdb, hU, c, hc => by
      simp only [intersectionScan] at h
      obtain ⟨F1, h1, h⟩ := bind_eq_ok h
      simp only [List.map_cons, List.nodup_cons] at hnd
      by_cases hk : a = k
      · subst hk
        simp [omGet] at hg
        subst hg
        rw [intersectionScan_other L rest F1 F' h a c hnd.1,
          intersectionScanLists_virtual a x U hdb hU L F F1 h1 hrows c hc]
      · simp [omGet, hk] at hg
        rw [intersectionScan_virtual L rest F1 F' h
            (intersectionScanLists_rows a x L F F1 h1 hrows) hnd.2 k V U hg hdb hU c hc,
          intersectionScanLists_other a x L F F1 h1 k c (fun hh => hk hh.symm)]

theorem omHas_of_mem {V : Type} (m : OrderedMap V) (e : String × V) (h : e ∈ m) :
    omHas m e.1 = true := by
  simp only [omHas, List.any_eq_true, beq_iff_eq]
  exact ⟨e, h, rfl⟩

theorem flag_row_eq (F : FlagTable) (k c : String)
    (hrows : ∀ r inner, omGet F r = some inner → (inner.map Prod.fst).Nodup) :
    ((omGet F k).getD []).any (fun x => x.1 == c && x.2 == true) = F.get k c := by
  cases hr : omGet F k with
  | none => simp [FlagTable.get, hr]
  | some row =>
    simp only [Option.getD_some, FlagTable.get, hr]
    rw [flags_any_eq row (hrows k row hr)]
    cases omGet row c with
    | none => rfl
    | some b => cases b <;> rfl

/-- What `UpdateUnauthorizedTablesByIntersection` does to a virtual relation
of `dst`: a component stays exactly when every child map keeps it. -/
theorem intersection_virtual (D : TableMap) (L : List (Option TableMap)) (R : Option TableMap)
    (hL : L ≠ []) (hnd : (D.map Prod.fst).Nodup) (hal : ∀ e ∈ D, e.2.Alias = e.1)
    (h : UpdateUnauthorizedTablesByIntersection (some D) L = .ok R) :
    ∃ D', R = some D' ∧ D'.map Prod.fst = D.map Prod.fst ∧
      ∀ k V U, omGet D k = some V → V.IsDatabase = false → V.UnAuthorizedTables = some U →
        omGet D' k = some (V.withComponents (U.filter (fun e => L.all (childKeeps k e.1)))) := by
  unfold UpdateUnauthorizedTablesByIntersection at h
  have hlen : ¬ L.length = 0 := by
    cases L with
    | nil => exact absurd rfl hL
    | cons _ _ => simp
  simp only [hlen, if_false] at h
  obtain ⟨F, hF, h⟩ := bind_eq_ok h
  obtain ⟨D', hD, h⟩ := bind_eq_ok h
  simp at h
  refine ⟨D', h.symm, mapTables_keys _ _ _ hD, ?_⟩
  intro k V U hg hdb hU
  obtain ⟨V', hV', hg'⟩ := mapTables_get _ _ _ hD k V hg
  have hal' : V.Alias = k := hal (k, V) (omGet_mem _ _ _ hg)
  have hrows0 : ∀ r inner, omGet (initFlagTable D []) r = some inner →
      (inner.map Prod.fst).Nodup :=
    initFlagTable_rows D [] (by intro r inner hr; simp [omGet] at hr)
  have hrows := intersectionScan_rows L D _ F hF hrows0
  have hflag : ∀ c, omHas U c = true → F.get k c = L.any (fun T => !childKeeps k c T) := by
    intro c hc
    rw [intersectionScan_virtual L D _ F hF hrows0 hnd k V U hg hdb hU c hc,
      initFlagTable_get D [] (by intro a b; rfl) k c]
    simp
  have hV2 : intersectionApplyTable F V
      = .ok (V.withComponents (deleteFlagged true ((omGet F k).getD []) U)) := by
    simp only [intersectionApplyTable, hdb, hU, hal', Bool.false_eq_true, if_false,
      TableInfoV2.withComponents]
    split <;> rfl
  rw [hV2] at hV'
  rw [hg', ← Except.ok.inj hV']
  have hfilter : deleteFlagged true ((omGet F k).getD []) U
      = U.filter (fun e => L.all (childKeeps k e.1)) := by
    rw [deleteFlagged_filter]
    apply List.filter_congr
    intro e he
    rw [flag_row_eq F k e.1 hrows, hflag e.1 (omHas_of_mem U e he)]
    simp [List.all_eq_not_any_not]
  rw [hfilter]
theorem withComponents_fields (V : TableInfoV2) (U' : List (String × TableInfoV2)) :
    (V.withComponents U').UnAuthorizedTables = some U' ∧
    (V.withComponents U').IsDatabase = V.IsDatabase ∧
    (V.withComponents U').Alias = V.Alias ∧
    (U' = [] → (V.withComponents U').Authorized = true) ∧
    (U' ≠ [] → (V.withComponents U').Authorized = V.Authorized) := by
  obtain ⟨name, cols, als, hs, un, au, db⟩ := V
  cases U' with
  | nil => simp [TableInfoV2.withComponents, TableInfoV2.setUnAuthorizedTables,
      TableInfoV2.setAuthorized, TableInfoV2.UnAuthorizedTables, TableInfoV2.IsDatabase,
      TableInfoV2.Alias, TableInfoV2.Authorized]
  | cons e rest => simp [TableInfoV2.withComponents, TableInfoV2.setUnAuthorizedTables,
      TableInfoV2.UnAuthorizedTables, TableInfoV2.IsDatabase, TableInfoV2.Alias,
      TableInfoV2.Authorized]

/-- C11, at a child map that holds no copy of the virtual relation.  `dst`
holds the virtual relation `v` with the unauthorized component `student`.
With the two child maps `{v: copy with student unauthorized}` and `{course}`,
the second child does not hold `student` in a copy of `v` (it has no relation
under `v`), yet `student` stays a component of `v` and `v` stays
unauthorized; so it does with the single child map `{course}`.  A component
stored under the key of the relation itself, `v`, is removed by such a
child. -/
theorem child_without_relation_keeps_component :
    holdsUnauthorized "v" "student" (some [("course", unauthorizedBase mockService "course")])
      = false ∧
    (UpdateUnauthorizedTablesByIntersection
        (some [("v", virtualOverStudent mockService
          [("student", unauthorizedBase mockService "student")] false)])
        [some [("v", virtualOverStudent mockService
            [("student", unauthorizedBase mockService "student")] false)],
         some [("course", unauthorizedBase mockService "course")]]).toOption.map
        (fun r => (componentsAt r "v", authorizedAt r "v"))
      = some (some [("student", "student")], some false) ∧
    (UpdateUnauthorizedTablesByIntersection
        (some [("v", virtualOverStudent mockService
          [("student", unauthorizedBase mockService "student")] false)])
        [some [("course", unauthorizedBase mockService "course")]]).toOption.map
        (fun r => (componentsAt r "v", authorizedAt r "v"))
      = some (some [("student", "student")], some false) ∧
    (UpdateUnauthorizedTablesByIntersection
        (some [("v", virtualOverStudent mockService
          [("v", unauthorizedBase mockService "student")] false)])
        [some [("course", unauthorizedBase mockService "course")]]).toOption.map
        (fun r => (componentsAt r "v", authorizedAt r "v"))
      = some (some [], some true) := by
  refine ⟨?_, ?_, ?_, ?_⟩ <;> decide!

/-- C11, amended.  Let `dst` have distinct keys that are the aliases of its
relations, let the list of child maps be non-empty, and let `V` be a virtual
relation of `dst` under the key `k` with the components `U`.  After
`UpdateUnauthorizedTablesByIntersection` the components of `V` are those of
`U`, in order, that every child map keeps: a child keeps the component `c`
when it holds `c` in its copy of `V` with `Authorized = false`, or when it
holds no relation under `k` and `c` is not `k` itself.  A component stays if
and only if every child keeps it, otherwise it is removed; `V.Authorized` is
true when no component is left (and as before otherwise).  When every child
map holds a copy of `V`, a component stays if and only if every child holds
it in that copy with `Authorized = false`. -/
theorem intersection_virtual_component_stays_iff (D : TableMap) (L : List (Option TableMap))
    (R : Option TableMap) (k : String) (V : TableInfoV2) (U : List (String × TableInfoV2))
    (hL : L ≠ []) (hnd : (D.map Prod.fst).Nodup) (hal : ∀ e ∈ D, e.2.Alias = e.1)
    (hg : omGet D k = some V) (hdb : V.IsDatabase = false) (hU : V.UnAuthorizedTables = some U)
    (h : UpdateUnauthorizedTablesByIntersection (some D) L = .ok R) :
    ∃ D' V' U', R = some D' ∧ omGet D' k = some V' ∧ V'.UnAuthorizedTables = some U' ∧
      U' = U.filter (fun e => L.all (childKeeps k e.1)) ∧
      (∀ e ∈ U, (e ∈ U' ↔ ∀ T ∈ L, holdsUnauthorized k e.1 T = true ∨
        (holdsRelation k T = false ∧ e.1 ≠ k))) ∧
      (U' = [] → V'.Authorized = true) ∧ (U' ≠ [] → V'.Authorized = V.Authorized) ∧
      ((∀ T ∈ L, holdsRelation k T = true) →
        ∀ e ∈ U, (e ∈ U' ↔ ∀ T ∈ L, holdsUnauthorized k e.1 T = true)) := by
  obtain ⟨D', hD, _, hget⟩ := intersection_virtual D L R hL hnd hal h
  have hV := hget k V U hg hdb hU
  obtain ⟨f1, _, _, f4, f5⟩ := withComponents_fields V
    (U.filter (fun e => L.all (childKeeps k e.1)))
  have hiff : ∀ e ∈ U, (e ∈ U.filter (fun e => L.all (childKeeps k e.1)) ↔
      ∀ T ∈ L, holdsUnauthorized k e.1 T = true ∨ (holdsRelation k T = false ∧ e.1 ≠ k)) := by
    intro e he
    simp only [List.mem_filter, he, true_and, List.all_eq_true]
    constructor
    · intro hall T hT
      have := hall T hT
      simpa [childKeeps] using this
    · intro hall T hT
      have := hall T hT
      simpa [childKeeps] using this
  refine ⟨D', _, _, hD, hV, f1, rfl, hiff, f4, f5, ?_⟩
  intro hcopy e he
  rw [hiff e he]
  constructor
  · intro hall T hT
    rcases hall T hT with h1 | h1
    · exact h1
    · rw [hcopy T hT] at h1
      exact absurd h1.1 (by simp)
  · intro hall T hT
    exact Or.inl (hall T hT)

theorem intersection_virtual_component_stays_iff_witness :
    [some [("v", virtualOverStudent mockService
        [("student", unauthorizedBase mockService "student")] false)],
      some [("course", unauthorizedBase mockService "course")]] ≠ [] ∧
    ([("v", virtualOverStudent mockService
        [("student", unauthorizedBase mockService "student")] false)].map Prod.fst).Nodup ∧
    ∃ D' V' U', some [("v", virtualOverStudent mockService
        [("student", unauthorizedBase mockService "student")] false)] = some D' ∧
      omGet D' "v" = some V' ∧ V'.UnAuthorizedTables = some U' ∧
      U' = [("student", unauthorizedBase mockService "student")].filter
        (fun e => [some [("v", virtualOverStudent mockService
            [("student", unauthorizedBase mockService "student")] false)],
          some [("course", unauthorizedBase mockService "course")]].all
          (childKeeps "v" e.1)) ∧
      (∀ e ∈ [("student", unauthorizedBase mockService "student")],
        (e ∈ U' ↔ ∀ T ∈ [some [("v", virtualOverStudent mockService
            [("student", unauthorizedBase mockService "student")] false)],
          some [("course", unauthorizedBase mockService "course")]],
          holdsUnauthorized "v" e.1 T = true ∨ (holdsRelation "v" T = false ∧ e.1 ≠ "v"))) ∧
      (U' = [] → V'.Authorized = true) ∧
      (U' ≠ [] → V'.Authorized = (virtualOverStudent mockService
        [("student", unauthorizedBase mockService "student")] false).Authorized) ∧
      ((∀ T ∈ [some [("v", virtualOverStudent mockService
            [("student", unauthorizedBase mockService "student")] false)],
          some [("course", unauthorizedBase mockService "course")]],
          holdsRelation "v" T = true) →
        ∀ e ∈ [("student", unauthorizedBase mockService "student")],
          (e ∈ U' ↔ ∀ T ∈ [some [("v", virtualOverStudent mockService
              [("student", unauthorizedBase mockService "student")] false)],
            some [("course", unauthorizedBase mockService "course")]],
            holdsUnauthorized "v" e.1 T = true)) :=
  ⟨by simp, by simp,
    intersection_virtual_component_stays_iff
      [("v", virtualOverStudent mockService
        [("student", unauthorizedBase mockService "student")] false)]
      [some [("v", virtualOverStudent mockService
          [("student", unauthorizedBase mockService "student")] false)],
        some [("course", unauthorizedBase mockService "course")]]
      (some [("v", virtualOverStudent mockService
        [("student", unauthorizedBase mockService "student")] false)]) "v"
      (virtualOverStudent mockService [("student", unauthorizedBase mockService "student")] false)
      [("student", unauthorizedBase mockService "student")]
      (by simp) (by simp) (by intro e he; simp at he; subst he; rfl) rfl rfl rfl rfl⟩

/-! ## Authorized relations stay authorized -/

theorem keptBy_refl (R : TableInfoV2) : R.keptBy R :=
  ⟨fun h1 h2 => ⟨h1, h2⟩, fun h1 h2 => ⟨h1, h2⟩⟩

theorem keptBy_trans (R R1 R2 : TableInfoV2) (h1 : R.keptBy R1) (h2 : R1.keptBy R2) :
    R.keptBy R2 := by
  constructor
  · intro hdb hau
    obtain ⟨a, b⟩ := h1.1 hdb hau
    exact h2.1 a b
  · intro hdb hun
    obtain ⟨a, b⟩ := h1.2 hdb hun
    exact h2.2 a b

theorem keptBy_isAuthorized (R R' : TableInfoV2) (h : R.keptBy R')
    (hR : R.isAuthorized = true) : R'.isAuthorized = true := by
  obtain ⟨name, cols, als, hs, un, au, db⟩ := R
  cases db with
  | true =>
    have hau : au = true := by simpa [TableInfoV2.isAuthorized, TableInfoV2.IsDatabase,
      TableInfoV2.Authorized] using hR
    obtain ⟨a, b⟩ := h.1 rfl hau
    simp [TableInfoV2.isAuthorized, a, b]
  | false =>
    have hun : un = some [] := by
      cases un with
      | none => simp [TableInfoV2.isAuthorized, TableInfoV2.IsDatabase,
          TableInfoV2.UnAuthorizedTables] at hR
      | some U =>
        simp [TableInfoV2.isAuthorized, TableInfoV2.IsDatabase,
          TableInfoV2.UnAuthorizedTables] at hR
        simp [hR]
    obtain ⟨a, b⟩ := h.2 rfl (by simpa [TableInfoV2.UnAuthorizedTables] using hun)
    simp [TableInfoV2.isAuthorized, a, b]

theorem mapKeptBy_refl (M : TableMap) : mapKeptBy M M :=
  ⟨rfl, fun _ R h => ⟨R, h, keptBy_refl R⟩⟩

theorem mapKeptBy_trans (M M1 M2 : TableMap) (h1 : mapKeptBy M M1) (h2 : mapKeptBy M1 M2) :
    mapKeptBy M M2 := by
  refine ⟨h2.1.trans h1.1, ?_⟩
  intro k R hg
  obtain ⟨R1, hg1, hk1⟩ := h1.2 k R hg
  obtain ⟨R2, hg2, hk2⟩ := h2.2 k R1 hg1
  exact ⟨R2, hg2, keptBy_trans R R1 R2 hk1 hk2⟩

theorem mapKeptBy_omSet (M : TableMap) (k : String) (R X : TableInfoV2)
    (hg : omGet M k = some R) (hk : R.keptBy X) : mapKeptBy M (omSet M k X) := by
  refine ⟨omSet_keys M k X R hg, ?_⟩
  intro k' R' hg'
  rw [omGet_omSet]
  by_cases hkk : k = k'
  · subst hkk
    rw [hg] at hg'
    cases hg'
    exact ⟨X, by simp, hk⟩
  · exact ⟨R', by simp [hkk, hg'], keptBy_refl R'⟩

theorem clone_keptBy (R R' : TableInfoV2) (h : R.Clone = .ok R') : R.keptBy R' := by
  obtain ⟨f1, f2, f3, _⟩ := clone_fields R R' h
  refine ⟨fun h1 h2 => ⟨by rw [f2, h1], by rw [f3, h2]⟩, fun h1 h2 => ⟨by rw [f2, h1], ?_⟩⟩
  obtain ⟨name, cols, als, hs, un, au, db⟩ := R
  simp only [TableInfoV2.UnAuthorizedTables] at h2
  subst h2
  simp only [TableInfoV2.Clone] at h
  obtain ⟨cols', _, h⟩ := bind_eq_ok h
  simp [cloneTablesOpt, cloneTables] at h
  subst h
  rfl

theorem cloneTables_keptBy (M ts : TableMap) (h : cloneTables M = .ok ts) : mapKeptBy M ts := by
  refine ⟨cloneTables_keys M ts h, ?_⟩
  intro k R hg
  obtain ⟨R', hR', hg'⟩ := cloneTables_get M ts h k R hg
  exact ⟨R', hg', clone_keptBy R R' hR'⟩

theorem foldl_omDelete_nil {V : Type} (ks : List String) :
    ks.foldl omDelete ([] : OrderedMap V) = [] := by
  induction ks with
  | nil => rfl
  | cons k rest ih => simpa [omDelete] using ih

theorem authorizeTableByPredicate_keptBy (fields : List Node) (c : Option A_Const)
    (u : UserContext) (R R' : TableInfoV2)
    (h : authorizeTableByPredicate fields c u R = .ok R') : R.keptBy R' := by
  obtain ⟨name, cols, als, hs, un, au, db⟩ := R
  unfold authorizeTableByPredicate at h
  cases db with
  | true =>
    cases au with
    | true =>
      simp [TableInfoV2.IsDatabase, TableInfoV2.Authorized] at h
      subst h
      exact keptBy_refl _
    | false =>
      exact ⟨fun _ h2 => by simp [TableInfoV2.Authorized] at h2,
        fun h1 _ => by simp [TableInfoV2.IsDatabase] at h1⟩
  | false =>
    refine ⟨fun h1 _ => by simp [TableInfoV2.IsDatabase] at h1, fun _ h2 => ?_⟩
    simp only [TableInfoV2.UnAuthorizedTables] at h2
    subst h2
    simp only [TableInfoV2.IsDatabase, Bool.false_eq_true, if_false,
      TableInfoV2.UnAuthorizedTables] at h
    obtain ⟨rm, _, h⟩ := bind_eq_ok h
    simp [foldl_omDelete_nil] at h
    subst h
    exact ⟨rfl, rfl⟩

theorem markResolvedSource_fields (t : TableInfoV2) (a : String) (hdb : t.IsDatabase = false) :
    (t.markResolvedSource a).IsDatabase = false ∧
    (t.markResolvedSource a).UnAuthorizedTables = t.UnAuthorizedTables := by
  obtain ⟨name, cols, als, hs, un, au, db⟩ := t
  simp only [TableInfoV2.IsDatabase] at hdb
  subst hdb
  cases cols with
  | none => simp [TableInfoV2.markResolvedSource, TableInfoV2.IsDatabase,
      TableInfoV2.UnAuthorizedTables]
  | some cs => simp [TableInfoV2.markResolvedSource, TableInfoV2.IsDatabase,
      TableInfoV2.UnAuthorizedTables]

theorem creditFromSubselect_keptBy (R : TableInfoV2) (a : String) (rc : ResolvedColumn)
    (hdb : R.IsDatabase = false) :
    ∀ (found : TableMap) (R' : TableInfoV2), creditFromSubselect R a rc found = .ok R' →
      R.keptBy R'
  | [], R', h => by simp [creditFromSubselect] at h; subst h; exact keptBy_refl _
  | (_, f) :: rest, R', h => by
      simp only [creditFromSubselect] at h
      split at h
      · exact creditFromSubselect_keptBy R a rc hdb rest R' h
      · split at h
        · simp at h
        · split at h
          · split at h
            · simp at h
            · rename_i unAuth hun
              refine ⟨fun h1 _ => (by rw [hdb] at h1; cases h1), fun _ h2 => ?_⟩
              rw [hun] at h2
              cases h2
              obtain ⟨m1, m2⟩ := markResolvedSource_fields R a hdb
              simp [omDelete] at h
              subst h
              generalize R.markResolvedSource a = X at m1 m2 ⊢
              obtain ⟨name, cols, als, hs, un, au, db⟩ := X
              simp only [TableInfoV2.IsDatabase] at m1
              subst m1
              exact ⟨rfl, rfl⟩
          · exact creditFromSubselect_keptBy R a rc hdb rest R' h
theorem mapTables_keptBy (f : TableInfoV2 → Except Fault TableInfoV2)
    (hf : ∀ R R', f R = .ok R' → R.keptBy R') (ts ts' : TableMap)
    (h : mapTables f ts = .ok ts') : mapKeptBy ts ts' := by
  refine ⟨mapTables_keys f ts ts' h, ?_⟩
  intro k R hg
  obtain ⟨R', hR', hg'⟩ := mapTables_get f ts ts' h k R hg
  exact ⟨R', hg', hf R R' hR'⟩

theorem rowExprStep_keptBy (w : Walk) (neg : Bool) (u : UserContext) (arg : Node) (ts : TableMap)
    (T' : Option TableMap) (h : rowExprStep w neg u arg (some ts) = .ok T') :
    ∃ ts', T' = some ts' ∧ mapKeptBy ts ts' := by
  unfold rowExprStep at h
  split at h
  · split at h
    · split at h
      · simp at h
      · rename_i ts0 heq
        simp at heq
        subst heq
        split at h
        · simp at h; exact ⟨_, h.symm, mapKeptBy_refl _⟩
        · rename_i table hget
          split at h
          · simp at h; exact ⟨_, h.symm, mapKeptBy_refl _⟩
          · rename_i hna
            split at h
            · rename_i hdb
              obtain ⟨real, _, h⟩ := bind_eq_ok h
              split at h
              · simp at h; exact ⟨_, h.symm, mapKeptBy_refl _⟩
              · obtain ⟨p, _, h⟩ := bind_eq_ok h
                simp at h
                refine ⟨_, h.symm, mapKeptBy_omSet _ _ table _ hget ?_⟩
                exact ⟨fun _ h2 => absurd h2 hna, fun h1 _ => by rw [hdb] at h1; cases h1⟩
            · rename_i hdb
              obtain ⟨rc, _, h⟩ := bind_eq_ok h
              split at h
              · simp at h; exact ⟨_, h.symm, mapKeptBy_refl _⟩
              · obtain ⟨found, _, h⟩ := bind_eq_ok h
                obtain ⟨table', hcr, h⟩ := bind_eq_ok h
                simp at h
                refine ⟨_, h.symm, mapKeptBy_omSet _ _ table _ hget ?_⟩
                exact creditFromSubselect_keptBy table _ _ (by simpa using hdb) found table' hcr
    · simp at h; exact ⟨_, h.symm, mapKeptBy_refl _⟩
  · simp at h; exact ⟨_, h.symm, mapKeptBy_refl _⟩

theorem rowExprLoop_keptBy (w : Walk) (neg : Bool) (u : UserContext) :
    ∀ (args : List Node) (ts : TableMap) (T' : Option TableMap),
      rowExprLoop w neg u args (some ts) = .ok T' →
      ∃ ts', T' = some ts' ∧ mapKeptBy ts ts'
  | [], ts, T', h => by simp [rowExprLoop] at h; exact ⟨_, h.symm, mapKeptBy_refl _⟩
  | arg :: rest, ts, T', h => by
      simp only [rowExprLoop] at h
      obtain ⟨T1, h1, h⟩ := bind_eq_ok h
      obtain ⟨ts1, rfl, hk1⟩ := rowExprStep_keptBy w neg u arg ts T1 h1
      obtain ⟨ts', rfl, hk⟩ := rowExprLoop_keptBy w neg u rest ts1 T' h
      exact ⟨ts', rfl, mapKeptBy_trans _ _ _ hk1 hk⟩

theorem authorizeMapByPredicate_keptBy (fields : List Node) (c : Option A_Const)
    (u : UserContext) (ts : TableMap) (T' : Option TableMap)
    (h : authorizeMapByPredicate fields c u (some ts) = .ok T') :
    ∃ ts', T' = some ts' ∧ mapKeptBy ts ts' := by
  simp only [authorizeMapByPredicate, authorizeTablesByPredicate] at h
  obtain ⟨ts', h1, h⟩ := bind_eq_ok h
  simp at h
  exact ⟨ts', h.symm, mapTables_keptBy _ (authorizeTableByPredicate_keptBy fields c u) _ _ h1⟩

theorem authorizeAExprKind_keptBy (w : Walk) (kind : A_Expr_Kind) (l r : Node) (ts : TableMap)
    (neg : Bool) (u : UserContext) (T' : Option TableMap)
    (h : authorizeAExprKind w kind l r (some ts) neg u = .ok T') :
    ∃ ts', T' = some ts' ∧ mapKeptBy ts ts' := by
  unfold authorizeAExprKind at h
  split at h
  · obtain ⟨T1, h1, h⟩ := bind_eq_ok h
    have hT1 : ∃ ts1, T1 = some ts1 ∧ mapKeptBy ts ts1 := by
      unfold authorizeColumnConst at h1
      split at h1
      · exact authorizeMapByPredicate_keptBy _ _ _ _ _ h1
      · simp at h1; exact ⟨_, h1.symm, mapKeptBy_refl _⟩
    obtain ⟨ts1, rfl, hk1⟩ := hT1
    split at h
    · obtain ⟨ts', rfl, hk⟩ := rowExprLoop_keptBy w neg u _ ts1 T' h
      exact ⟨ts', rfl, mapKeptBy_trans _ _ _ hk1 hk⟩
    · simp at h; exact ⟨_, h.symm, hk1⟩
  · split at h
    · exact authorizeMapByPredicate_keptBy _ _ _ _ _ h
    · simp at h; exact ⟨_, h.symm, mapKeptBy_refl _⟩
  · simp at h; exact ⟨_, h.symm, mapKeptBy_refl _⟩

theorem aexprAfterClone_keptBy (w : Walk) (kind : A_Expr_Kind) (name : List Node)
    (lexpr rexpr : Option Node) (ts : TableMap) (neg : Bool) (u : UserContext)
    (res : AuthorizationResult)
    (h : authorizeAExprAfterClone w kind name lexpr rexpr (some ts) neg u = .ok res) :
    ∃ ts', res.Tables = some ts' ∧ mapKeptBy ts ts' := by
  cases lexpr with
  | none => simp [authorizeAExprAfterClone] at h; subst h; exact ⟨ts, rfl, mapKeptBy_refl _⟩
  | some l =>
    cases rexpr with
    | none => simp [authorizeAExprAfterClone] at h; subst h; exact ⟨ts, rfl, mapKeptBy_refl _⟩
    | some r =>
      cases name with
      | nil => simp [authorizeAExprAfterClone] at h
      | cons op rest =>
        simp only [authorizeAExprAfterClone] at h
        split at h
        · simp at h; subst h; exact ⟨ts, rfl, mapKeptBy_refl _⟩
        · obtain ⟨T1, h1, h⟩ := bind_eq_ok h
          obtain ⟨a, _, h⟩ := bind_eq_ok h
          simp at h; subst h
          exact authorizeAExprKind_keptBy w kind l r ts neg u T1 h1

theorem aexprOn_keptBy (w : Walk) (kind : A_Expr_Kind) (name : List Node)
    (lexpr rexpr : Option Node) (M : TableMap) (neg : Bool) (u : UserContext)
    (res : AuthorizationResult)
    (h : authorizeAExprOn w kind name lexpr rexpr (some M) neg u = .ok res) :
    ∃ M', res.Tables = some M' ∧ mapKeptBy M M' := by
  simp only [authorizeAExprOn] at h
  obtain ⟨M1, hc, h⟩ := bind_eq_ok h
  obtain ⟨ts, rfl, hts⟩ := cloneMap_some M M1 hc
  obtain ⟨M', hM', hk⟩ := aexprAfterClone_keptBy w kind name lexpr rexpr ts neg u res h
  exact ⟨M', hM', mapKeptBy_trans _ _ _ (cloneTables_keptBy M ts hts) hk⟩
theorem cloneTables_wellFormed (M ts : TableMap) (hts : cloneTables M = .ok ts)
    (hnd : (M.map Prod.fst).Nodup) (hal : ∀ e ∈ M, e.2.Alias = e.1) :
    (ts.map Prod.fst).Nodup ∧ ∀ e ∈ ts, e.2.Alias = e.1 := by
  refine ⟨(cloneTables_keys M ts hts) ▸ hnd, ?_⟩
  intro e he
  obtain ⟨t, ht, hcl⟩ := cloneTables_mem M ts hts e he
  rw [(clone_fields t e.2 hcl).1]
  exact hal (e.1, t) ht

theorem setAuthorized_keptBy (R : TableInfoV2) (b : Bool) (hb : R.Authorized = true → b = true) :
    R.keptBy (R.setAuthorized b) := by
  obtain ⟨name, cols, als, hs, un, au, db⟩ := R
  refine ⟨fun h1 h2 => ⟨h1, ?_⟩, fun h1 h2 => ⟨h1, h2⟩⟩
  simp [TableInfoV2.setAuthorized, TableInfoV2.Authorized, hb h2]

theorem withComponents_keptBy (V : TableInfoV2) (U U' : List (String × TableInfoV2))
    (hdb : V.IsDatabase = false) (hU : V.UnAuthorizedTables = some U) (hsub : U = [] → U' = []) :
    V.keptBy (V.withComponents U') := by
  obtain ⟨f1, f2, _⟩ := withComponents_fields V U'
  refine ⟨fun h1 _ => (by rw [hdb] at h1; cases h1), fun _ h2 => ⟨by rw [f2, hdb], ?_⟩⟩
  rw [hU] at h2
  cases h2
  rw [f1, hsub rfl]

theorem unionApplyTable_virtual (F : FlagTable) (V V' : TableInfoV2)
    (hdb : V.IsDatabase = false) (h : unionApplyTable F V = .ok V') : V.keptBy V' := by
  unfold unionApplyTable at h
  simp only [hdb, Bool.false_eq_true, if_false] at h
  cases hU : V.UnAuthorizedTables with
  | none => simp [hU] at h
  | some U =>
    simp only [hU] at h
    have h2 : V' = V.withComponents (deleteFlagged false ((omGet F V.Alias).getD []) U) := by
      simp only [TableInfoV2.withComponents]
      split at h <;> simp_all
    rw [h2]
    exact withComponents_keptBy V U _ hdb hU (by intro h0; subst h0; simp [deleteFlagged_filter])

theorem intersectionApplyTable_virtual (F : FlagTable) (V V' : TableInfoV2)
    (hdb : V.IsDatabase = false) (h : intersectionApplyTable F V = .ok V') : V.keptBy V' := by
  unfold intersectionApplyTable at h
  simp only [hdb, Bool.false_eq_true, if_false] at h
  cases hU : V.UnAuthorizedTables with
  | none => simp [hU] at h
  | some U =>
    simp only [hU] at h
    have h2 : V' = V.withComponents (deleteFlagged true ((omGet F V.Alias).getD []) U) := by
      simp only [TableInfoV2.withComponents]
      split at h <;> simp_all
    rw [h2]
    exact withComponents_keptBy V U _ hdb hU (by intro h0; subst h0; simp [deleteFlagged_filter])

theorem child_reports (D : TableMap) (T : Option TableMap) (k : String) (R : TableInfoV2)
    (hT : ∃ tr, T = some tr ∧ mapKeptBy D tr) (hg : omGet D k = some R)
    (hdb : R.IsDatabase = true) (hau : R.Authorized = true) :
    reportsUnauthorized k T = false ∧ reportsAuthorized k T = true := by
  obtain ⟨tr, rfl, hk⟩ := hT
  obtain ⟨R', hg', hkept⟩ := hk.2 k R hg
  obtain ⟨_, b⟩ := hkept.1 hdb hau
  simp [reportsUnauthorized, reportsAuthorized, hg', b]

/-- Both update functions keep what is authorized in `dst` when every child
map does. -/
theorem update_keptBy (D : TableMap) (L : List (Option TableMap)) (R : Option TableMap)
    (union : Bool) (hnd : (D.map Prod.fst).Nodup) (hal : ∀ e ∈ D, e.2.Alias = e.1)
    (hL : ∀ T ∈ L, ∃ tr, T = some tr ∧ mapKeptBy D tr)
    (h : (if union then UpdateUnauthorizedTablesByUnion (some D) L
      else UpdateUnauthorizedTablesByIntersection (some D) L) = .ok R) :
    ∃ D', R = some D' ∧ mapKeptBy D D' := by
  cases L with
  | nil =>
    cases union <;>
    simp [UpdateUnauthorizedTablesByUnion, UpdateUnauthorizedTablesByIntersection] at h <;>
    exact ⟨D, h.symm, mapKeptBy_refl D⟩
  | cons T0 L0 =>
    cases union with
    | true =>
      simp only [if_true] at h
      obtain ⟨D', hD, hkeys, hbase⟩ := union_base D (T0 :: L0) R (by simp) hnd hal h
      refine ⟨D', hD, hkeys, ?_⟩
      intro k X hg
      by_cases hdb : X.IsDatabase = true
      · refine ⟨_, hbase k X hg hdb, setAuthorized_keptBy X _ ?_⟩
        intro hau
        simp only [Bool.not_eq_true', List.any_eq_false]
        intro T hT
        simp [(child_reports D T k X (hL T hT) hg hdb hau).1]
      · unfold UpdateUnauthorizedTablesByUnion at h
        simp only [List.length_cons, Nat.add_one_ne_zero, if_false] at h
        obtain ⟨F, _, h⟩ := bind_eq_ok h
        obtain ⟨D2, hD2, h⟩ := bind_eq_ok h
        simp at h
        rw [hD] at h
        cases h
        obtain ⟨X', hX', hg'⟩ := mapTables_get _ _ _ hD2 k X hg
        exact ⟨X', hg', unionApplyTable_virtual F X X' (by simpa using hdb) hX'⟩
    | false =>
      simp only [Bool.false_eq_true, if_false] at h
      obtain ⟨D', hD, hkeys, hbase⟩ := intersection_base D (T0 :: L0) R (by simp) hnd hal h
      refine ⟨D', hD, hkeys, ?_⟩
      intro k X hg
      by_cases hdb : X.IsDatabase = true
      · refine ⟨_, hbase k X hg hdb, setAuthorized_keptBy X _ ?_⟩
        intro hau
        simp only [List.any_cons, Bool.or_eq_true]
        exact Or.inl (child_reports D T0 k X (hL T0 (List.mem_cons_self _ _)) hg hdb hau).2
      · unfold UpdateUnauthorizedTablesByIntersection at h
        simp only [List.length_cons, Nat.add_one_ne_zero, if_false] at h
        obtain ⟨F, _, h⟩ := bind_eq_ok h
        obtain ⟨D2, hD2, h⟩ := bind_eq_ok h
        simp at h
        rw [hD] at h
        cases h
        obtain ⟨X', hX', hg'⟩ := mapTables_get _ _ _ hD2 k X hg
        exact ⟨X', hg', intersectionApplyTable_virtual F X X' (by simpa using hdb) hX'⟩

theorem walkOperands_keptBy (neg : Bool) (u : UserContext) (ts : TableMap)
    (hnd : (ts.map Prod.fst).Nodup) (hal : ∀ e ∈ ts, e.2.Alias = e.1) :
    ∀ (ws : List CloneWalk) (collected : List (Option TableMap × Bool))
      (final : Option TableMap), (∀ w ∈ ws, w.keepsAuthorized) →
      walkOperands neg u ws (some ts) = .ok (collected, final) →
      final = some ts ∧ ∀ T ∈ operandTables collected final, ∃ tr, T = some tr ∧ mapKeptBy ts tr
  | [], collected, final, _, h => by
      simp [walkOperands] at h
      obtain ⟨h1, h2⟩ := h
      subst h1
      exact ⟨h2.symm, by simp [operandTables]⟩
  | w :: rest, collected, final, hws, h => by
      simp only [walkOperands] at h
      obtain ⟨r, hr, h⟩ := bind_eq_ok h
      obtain ⟨hin, hali, M', hM', hk⟩ := hws w (List.mem_cons_self _ _) ts neg u r hnd hal hr
      rw [hin] at h
      obtain ⟨p, hp, h⟩ := bind_eq_ok h
      obtain ⟨more, fin⟩ := p
      simp at h
      obtain ⟨hfin, hmore⟩ := walkOperands_keptBy neg u ts hnd hal rest more fin
        (fun w' hw' => hws w' (List.mem_cons_of_mem _ hw')) hp
      obtain ⟨h1, h2⟩ := h
      subst h1; subst h2
      refine ⟨hfin, ?_⟩
      intro T hT
      simp only [operandTables, List.map_cons, List.mem_cons, hali, Bool.false_eq_true,
        if_false] at hT
      rcases hT with hT | hT
      · exact ⟨M', hT.trans hM', hk⟩
      · exact hmore T hT

theorem boolExprOn_keptBy (ws : List CloneWalk) (op : BoolExprType) (M : TableMap) (neg : Bool)
    (u : UserContext) (res : AuthorizationResult) (hws : ∀ w ∈ ws, w.keepsAuthorized)
    (hnd : (M.map Prod.fst).Nodup) (hal : ∀ e ∈ M, e.2.Alias = e.1)
    (h : authorizeBoolExprOn ws op (some M) neg u = .ok res) :
    ∃ M', res.Tables = some M' ∧ mapKeptBy M M' := by
  simp only [authorizeBoolExprOn] at h
  obtain ⟨M1, hc, h⟩ := bind_eq_ok h
  obtain ⟨ts, rfl, hts⟩ := cloneMap_some M M1 hc
  obtain ⟨hnd', hal'⟩ := cloneTables_wellFormed M ts hts hnd hal
  have hclone := cloneTables_keptBy M ts hts
  cases op with
  | OR_EXPR =>
    simp only [authorizeBoolExprAfterClone] at h
    obtain ⟨p, hw, h⟩ := bind_eq_ok h
    obtain ⟨collected, final⟩ := p
    obtain ⟨hfin, hL⟩ := walkOperands_keptBy neg u ts hnd' hal' ws collected final hws hw
    subst hfin
    obtain ⟨R2, hu, h⟩ := bind_eq_ok h
    obtain ⟨a, _, h⟩ := bind_eq_ok h
    simp at h; subst h
    obtain ⟨D', hD, hk⟩ := update_keptBy ts _ R2 true hnd' hal' hL (by simpa using hu)
    exact ⟨D', hD, mapKeptBy_trans _ _ _ hclone hk⟩
  | AND_EXPR =>
    simp only [authorizeBoolExprAfterClone] at h
    obtain ⟨p, hw, h⟩ := bind_eq_ok h
    obtain ⟨collected, final⟩ := p
    obtain ⟨hfin, hL⟩ := walkOperands_keptBy neg u ts hnd' hal' ws collected final hws hw
    subst hfin
    obtain ⟨R2, hu, h⟩ := bind_eq_ok h
    obtain ⟨a, _, h⟩ := bind_eq_ok h
    simp at h; subst h
    obtain ⟨D', hD, hk⟩ := update_keptBy ts _ R2 false hnd' hal' hL (by simpa using hu)
    exact ⟨D', hD, mapKeptBy_trans _ _ _ hclone hk⟩
  | NOT_EXPR =>
    cases ws with
    | nil => simp [authorizeBoolExprAfterClone] at h
    | cons w rest =>
      cases rest with
      | cons w2 rest2 => simp [authorizeBoolExprAfterClone] at h
      | nil =>
        simp only [authorizeBoolExprAfterClone] at h
        obtain ⟨r, hr, h⟩ := bind_eq_ok h
        obtain ⟨hin, hali, M', hM', hk⟩ := hws w (by simp) ts (!neg) u r hnd' hal' hr
        simp only [hali, Bool.false_eq_true, if_false] at h
        obtain ⟨a, _, h⟩ := bind_eq_ok h
        simp at h; subst h
        exact ⟨M', hM', mapKeptBy_trans _ _ _ hclone hk⟩
  | BOOL_EXPR_TYPE_UNDEFINED =>
    simp only [authorizeBoolExprAfterClone] at h
    obtain ⟨a, _, h⟩ := bind_eq_ok h
    simp at h; subst h
    exact ⟨ts, rfl, hclone⟩

theorem cloneNodeSem_keeps
    (f : Option TableMap → Bool → UserContext → Except Fault AuthorizationResult)
    (hf : ∀ (M : TableMap) (neg : Bool) (u : UserContext) (res : AuthorizationResult),
      (M.map Prod.fst).Nodup → (∀ e ∈ M, e.2.Alias = e.1) → f (some M) neg u = .ok res →
      ∃ M', res.Tables = some M' ∧ mapKeptBy M M') :
    (cloneNodeSem f).onClone.keepsAuthorized := by
  intro M neg u r hnd hal h
  simp only [cloneNodeSem] at h
  obtain ⟨res, hres, h⟩ := bind_eq_ok h
  simp at h; subst h
  exact ⟨rfl, rfl, hf M neg u res hnd hal hres⟩

mutual
theorem booleanTree_keeps (s : AuthorizationServiceImpl) : ∀ (n : Node),
    n.isBooleanTree = true → (nodeSem s n).onClone.keepsAuthorized
  | .aExpr kind name lexpr rexpr, _ => by
      simp only [nodeSem]
      exact cloneNodeSem_keeps _ (fun M neg u res _ _ h => aexprOn_keptBy _ _ _ _ _ M neg u res h)
  | .boolExpr op args, hn => by
      simp only [nodeSem]
      have hargs := booleanTrees_keep s args (by simpa [Node.isBooleanTree] using hn)
      exact cloneNodeSem_keeps _ (fun M neg u res hnd hal h =>
        boolExprOn_keptBy _ op M neg u res hargs hnd hal h)
  | .selectStmt _, hn => by simp [Node.isBooleanTree] at hn
  | .subLink _, hn => by simp [Node.isBooleanTree] at hn
  | .joinExpr _ _ _ _ _ _ _, hn => by simp [Node.isBooleanTree] at hn
  | .fromExpr _ _, hn => by simp [Node.isBooleanTree] at hn
  | .rangeVar _ _, hn => by simp [Node.isBooleanTree] at hn
  | .rangeSubselect _ _ _, hn => by simp [Node.isBooleanTree] at hn
  | .withClause _, hn => by simp [Node.isBooleanTree] at hn
  | .commonTableExpr _ _, hn => by simp [Node.isBooleanTree] at hn
  | .columnRef _, hn => by simp [Node.isBooleanTree] at hn
  | .aConst _, hn => by simp [Node.isBooleanTree] at hn
  | .string _, hn => by simp [Node.isBooleanTree] at hn
  | .integer _, hn => by simp [Node.isBooleanTree] at hn
  | .float _, hn => by simp [Node.isBooleanTree] at hn
  | .aStar, hn => by simp [Node.isBooleanTree] at hn
  | .rowExpr _, hn => by simp [Node.isBooleanTree] at hn
  | .list _, hn => by simp [Node.isBooleanTree] at hn
  | .resTarget _ _, hn => by simp [Node.isBooleanTree] at hn
  | .other _, hn => by simp [Node.isBooleanTree] at hn
theorem booleanTrees_keep (s : AuthorizationServiceImpl) : ∀ (args : List Node),
    allBooleanTrees args = true →
    ∀ w ∈ (nodeSemList s args).map NodeSem.onClone, w.keepsAuthorized
  | [], _ => by simp [nodeSemList]
  | n :: rest, h => by
      simp only [allBooleanTrees, Bool.and_eq_true] at h
      intro w hw
      simp only [nodeSemList, List.map_cons, List.mem_cons] at hw
      rcases hw with hw | hw
      · subst hw; exact booleanTree_keeps s n h.1
      · exact booleanTrees_keep s rest h.2 w hw
end
theorem mapKeptBy_keeps (M M' : TableMap) (R : Option TableMap) (hR : R = some M')
    (h : mapKeptBy M M') : keepsAuthorizedRelations M R := by
  intro k X hg hX
  obtain ⟨X', hg', hk⟩ := h.2 k X hg
  exact ⟨M', X', hR, hg', keptBy_isAuthorized X X' hk hX⟩

theorem update_virtual_keptBy (D : TableMap) (L : List (Option TableMap)) (R : Option TableMap)
    (union : Bool)
    (h : (if union then UpdateUnauthorizedTablesByUnion (some D) L
      else UpdateUnauthorizedTablesByIntersection (some D) L) = .ok R) :
    ∃ D', R = some D' ∧ ∀ k X, omGet D k = some X → X.IsDatabase = false →
      ∃ X', omGet D' k = some X' ∧ X.keptBy X' := by
  cases L with
  | nil =>
    cases union <;>
    simp [UpdateUnauthorizedTablesByUnion, UpdateUnauthorizedTablesByIntersection] at h <;>
    exact ⟨D, h.symm, fun k X hg _ => ⟨X, hg, keptBy_refl X⟩⟩
  | cons T0 L0 =>
    cases union with
    | true =>
      simp only [if_true, UpdateUnauthorizedTablesByUnion, List.length_cons,
        Nat.add_one_ne_zero, if_false] at h
      obtain ⟨F, _, h⟩ := bind_eq_ok h
      obtain ⟨D2, hD2, h⟩ := bind_eq_ok h
      simp at h
      refine ⟨D2, h.symm, ?_⟩
      intro k X hg hdb
      obtain ⟨X', hX', hg'⟩ := mapTables_get _ _ _ hD2 k X hg
      exact ⟨X', hg', unionApplyTable_virtual F X X' hdb hX'⟩
    | false =>
      simp only [Bool.false_eq_true, if_false, UpdateUnauthorizedTablesByIntersection,
        List.length_cons, Nat.add_one_ne_zero] at h
      obtain ⟨F, _, h⟩ := bind_eq_ok h
      obtain ⟨D2, hD2, h⟩ := bind_eq_ok h
      simp at h
      refine ⟨D2, h.symm, ?_⟩
      intro k X hg hdb
      obtain ⟨X', hX', hg'⟩ := mapTables_get _ _ _ hD2 k X hg
      exact ⟨X', hg', intersectionApplyTable_virtual F X X' hdb hX'⟩

theorem setAuthorized_fields (R : TableInfoV2) (b : Bool) :
    (R.setAuthorized b).IsDatabase = R.IsDatabase ∧ (R.setAuthorized b).Authorized = b := by
  obtain ⟨name, cols, als, hs, un, au, db⟩ := R
  exact ⟨rfl, rfl⟩

/-- C12, the claim as stated fails.  The input of the repository's test
"Database table unauthorized in one": `dst` holds the base relation `student`
with `Authorized = true`, one child map reports it authorized and one
unauthorized; after `UpdateUnauthorizedTablesByUnion` it is unauthorized.
`UpdateUnauthorizedTablesByIntersection` un-authorizes it too when the only
child reports it unauthorized. -/
theorem union_unauthorizes_base_relation :
    (studentTbl true).isAuthorized = true ∧ (studentTbl false).isAuthorized = false ∧
    UpdateUnauthorizedTablesByUnion (some [("student", studentTbl true)])
        [some [("student", studentTbl true)], some [("student", studentTbl false)]]
      = .ok (some [("student", studentTbl false)]) ∧
    UpdateUnauthorizedTablesByIntersection (some [("student", studentTbl true)])
        [some [("student", studentTbl false)]]
      = .ok (some [("student", studentTbl false)]) ∧
    ¬ keepsAuthorizedRelations [("student", studentTbl true)]
        (some [("student", studentTbl false)]) := by
  refine ⟨rfl, rfl, rfl, rfl, ?_⟩
  intro h
  obtain ⟨M', R', hM', hg, hR'⟩ := h "student" (studentTbl true) rfl rfl
  cases hM'
  simp [omGet] at hg
  subst hg
  simp [studentTbl, createTableInfo, TableInfoV2.isAuthorized, TableInfoV2.IsDatabase,
    TableInfoV2.Authorized] at hR'

/-- C12, amended.  Let `M` be a relation map whose keys are distinct and are
the aliases of its relations.  (1) For every boolean tree built from
`BoolExpr` nodes over comparison expressions, every flag and caller: every
relation of `M` that is authorized before the walk (a base relation by its
flag, a virtual relation by having no unauthorized component) is authorized
in the map the walk returns.  (2) The same for a single comparison
expression.  (3) `UpdateUnauthorizedTablesByUnion` and
`UpdateUnauthorizedTablesByIntersection` keep every authorized virtual
relation of `dst` authorized; a base relation of `dst` is authorized
afterwards exactly when no child map reports it unauthorized (union), or when
some child map reports it authorized or does not hold it (intersection),
whatever its flag was before. -/
theorem authorized_stays_authorized (s : AuthorizationServiceImpl) (M : TableMap) (neg : Bool)
    (u : UserContext) (hnd : (M.map Prod.fst).Nodup) (hal : ∀ e ∈ M, e.2.Alias = e.1) :
    (∀ op args res, allBooleanTrees args = true →
      authorizeBoolExpr s op args (some M) neg u = .ok res →
      keepsAuthorizedRelations M res.Tables) ∧
    (∀ (c : Comparison) res, c.walk s (some M) neg u = .ok res →
      keepsAuthorizedRelations M res.Tables) ∧
    (∀ L R, UpdateUnauthorizedTablesByUnion (some M) L = .ok R →
      ∃ M', R = some M' ∧
        (∀ k X, omGet M k = some X → X.IsDatabase = false → X.isAuthorized = true →
          ∃ X', omGet M' k = some X' ∧ X'.isAuthorized = true) ∧
        (L ≠ [] → ∀ k X, omGet M k = some X → X.IsDatabase = true →
          ∃ X', omGet M' k = some X' ∧
            (X'.isAuthorized = true ↔ L.any (reportsUnauthorized k) = false))) ∧
    (∀ L R, UpdateUnauthorizedTablesByIntersection (some M) L = .ok R →
      ∃ M', R = some M' ∧
        (∀ k X, omGet M k = some X → X.IsDatabase = false → X.isAuthorized = true →
          ∃ X', omGet M' k = some X' ∧ X'.isAuthorized = true) ∧
        (L ≠ [] → ∀ k X, omGet M k = some X → X.IsDatabase = true →
          ∃ X', omGet M' k = some X' ∧
            (X'.isAuthorized = true ↔ L.any (reportsAuthorized k) = true))) := by
  refine ⟨?_, ?_, ?_, ?_⟩
  · intro op args res hargs h
    obtain ⟨M', hM', hk⟩ := boolExprOn_keptBy _ op M neg u res (booleanTrees_keep s args hargs)
      hnd hal h
    exact mapKeptBy_keeps M M' _ hM' hk
  · intro c res h
    obtain ⟨M', hM', hk⟩ := aexprOn_keptBy _ _ _ _ _ M neg u res h
    exact mapKeptBy_keeps M M' _ hM' hk
  · intro L R h
    obtain ⟨M', hM', hv⟩ := update_virtual_keptBy M L R true (by simpa using h)
    refine ⟨M', hM', ?_, ?_⟩
    · intro k X hg hdb hX
      obtain ⟨X', hg', hk⟩ := hv k X hg hdb
      exact ⟨X', hg', keptBy_isAuthorized X X' hk hX⟩
    · intro hL k X hg hdb
      obtain ⟨D', hD, _, hbase⟩ := union_base M L R hL hnd hal h
      rw [hM'] at hD
      cases hD
      refine ⟨_, hbase k X hg hdb, ?_⟩
      obtain ⟨f1, f2⟩ := setAuthorized_fields X (!L.any (reportsUnauthorized k))
      simp [TableInfoV2.isAuthorized, f1, f2, hdb]
  · intro L R h
    obtain ⟨M', hM', hv⟩ := update_virtual_keptBy M L R false (by simpa using h)
    refine ⟨M', hM', ?_, ?_⟩
    · intro k X hg hdb hX
      obtain ⟨X', hg', hk⟩ := hv k X hg hdb
      exact ⟨X', hg', keptBy_isAuthorized X X' hk hX⟩
    · intro hL k X hg hdb
      obtain ⟨D', hD, _, hbase⟩ := intersection_base M L R hL hnd hal h
      rw [hM'] at hD
      cases hD
      refine ⟨_, hbase k X hg hdb, ?_⟩
      obtain ⟨f1, f2⟩ := setAuthorized_fields X (L.any (reportsAuthorized k))
      simp [TableInfoV2.isAuthorized, f1, f2, hdb]

theorem authorized_stays_authorized_witness :
    ([("student", studentTbl true)].map Prod.fst).Nodup ∧
    (∀ e ∈ [("student", studentTbl true)], e.2.Alias = e.1) ∧
    keepsAuthorizedRelations [("student", studentTbl true)]
      (some [("student", studentTbl true)]) :=
  ⟨by simp, by intro e he; simp at he; subst he; rfl,
    (authorized_stays_authorized mockService [("student", studentTbl true)] false
      (studentCaller 123 0 0 []) (by simp) (by intro e he; simp at he; subst he; rfl)).1
      .OR_EXPR
      [(columnOpConst "student" "id" "=" 123).node, (columnOpConst "student" "id" "=" 456).node]
      { Authorized := true, Tables := some [("student", studentTbl true)] } rfl rfl⟩

/-- C13. The virtual-relation invariant, at the input where the code departs
from it.  The map holds the virtual relation `v` of
`(SELECT student.id FROM student) AS v` with the component `student` and
`Authorized = false`, which satisfies the invariant.  Walking
`NOT EXISTS (SELECT * FROM course LEFT JOIN professor ON professor.id = 1)`
with `authorizeBoolExpr` returns a map in which `v` has no component left and
`Authorized = false`: the LEFT JOIN inside the operand empties the components
of every relation of the map it was given without setting the flag. -/
theorem not_exists_left_join_breaks_invariant :
    (virtualOverStudent mockService [("student", unauthorizedBase mockService "student")]
      false).authorizationState = (false, false, some 1) ∧
    ((authorizeBoolExpr mockService .NOT_EXPR [existsJoin .JOIN_LEFT]
        (some [("v", virtualOverStudent mockService
          [("student", unauthorizedBase mockService "student")] false)]) false
        (studentCaller 123 0 0 [])).toOption.map
      (fun res => (res.Tables.bind (fun ts => omGet ts "v")).map TableInfoV2.authorizationState))
      = some (some (false, false, some 0)) := by
  constructor
  · rfl
  · decide!

/-! ## Column-alias resolution on the store -/

theorem resolveRef_sound (h : Heap) : ∀ (fuel : Nat) (t : Option Nat) (a : String)
    (r : Option ColumnCell), getRealColumnInfoFromAliasRef h fuel t a = some (.ok r) →
    ∃ q b, BindingChain h t a q b ∧ chainEnd h q b r
  | fuel, none, a, r, hres => by
      simp [getRealColumnInfoFromAliasRef] at hres
      exact ⟨none, a, .here _ _, by simp [chainEnd, hres]⟩
  | 0, some p, a, r, hres => by
      simp only [getRealColumnInfoFromAliasRef] at hres
      by_cases hdb : (h.table p).IsDatabase = true
      · simp only [hdb, if_true] at hres
        cases hc : (h.table p).Columns with
        | none => simp [hc] at hres
        | some cs =>
          simp [hc] at hres
          exact ⟨some p, a, .here _ _, cs, hc, by simp [hdb, hres]⟩
      · simp [hdb] at hres
  | fuel + 1, some p, a, r, hres => by
      simp only [getRealColumnInfoFromAliasRef] at hres
      by_cases hdb : (h.table p).IsDatabase = true
      · simp only [hdb, if_true] at hres
        cases hc : (h.table p).Columns with
        | none => simp [hc] at hres
        | some cs =>
          simp [hc] at hres
          exact ⟨some p, a, .here _ _, cs, hc, by simp [hdb, hres]⟩
      · simp only [hdb, Bool.false_eq_true, if_false] at hres
        cases hc : (h.table p).Columns with
        | none => simp [hc] at hres
        | some cs =>
          simp only [hc] at hres
          cases hg : omGet cs a with
          | none =>
            simp [hg] at hres
            exact ⟨some p, a, .here _ _, cs, hc, by simp [hdb, hg, hres]⟩
          | some col =>
            simp only [hg] at hres
            obtain ⟨q, b, hch, hend⟩ := resolveRef_sound h fuel col.SourceTable col.Name r hres
            exact ⟨q, b, .through p a cs col q b (by simpa using hdb) hc hg hch, hend⟩

theorem resolveRef_complete (h : Heap) (t q : Option Nat) (a b : String)
    (hch : BindingChain h t a q b) (r : Option ColumnCell) (hend : chainEnd h q b r) :
    ∃ fuel, getRealColumnInfoFromAliasRef h fuel t a = some (.ok r) := by
  induction hch with
  | here p a =>
    cases p with
    | none =>
      simp only [chainEnd] at hend
      exact ⟨0, by simp [getRealColumnInfoFromAliasRef, hend]⟩
    | some p =>
      obtain ⟨cs, hc, hif⟩ := hend
      by_cases hdb : (h.table p).IsDatabase = true
      · simp only [hdb, if_true] at hif
        exact ⟨0, by simp [getRealColumnInfoFromAliasRef, hdb, hc, hif]⟩
      · simp only [hdb, Bool.false_eq_true, if_false] at hif
        exact ⟨1, by simp [getRealColumnInfoFromAliasRef, hdb, hc, hif.1, hif.2]⟩
  | through p a cs col q b hdb hc hg _ ih =>
    obtain ⟨fuel, hf⟩ := ih hend
    exact ⟨fuel + 1, by simp [getRealColumnInfoFromAliasRef, hdb, hc, hg, hf]⟩

theorem resolveRef_mono (h : Heap) : ∀ (fuel : Nat) (t : Option Nat) (a : String)
    (x : Except Fault (Option ColumnCell)), getRealColumnInfoFromAliasRef h fuel t a = some x →
    getRealColumnInfoFromAliasRef h (fuel + 1) t a = some x
  | fuel, none, a, x, hres => by
      simpa [getRealColumnInfoFromAliasRef] using hres
  | 0, some p, a, x, hres => by
      simp only [getRealColumnInfoFromAliasRef] at hres ⊢
      by_cases hdb : (h.table p).IsDatabase = true
      · simpa [hdb] using hres
      · simp [hdb] at hres
  | fuel + 1, some p, a, x, hres => by
      simp only [getRealColumnInfoFromAliasRef] at hres
      rw [getRealColumnInfoFromAliasRef]
      by_cases hdb : (h.table p).IsDatabase = true
      · simpa [hdb] using hres
      · simp only [hdb, Bool.false_eq_true, if_false] at hres ⊢
        cases hc : (h.table p).Columns with
        | none => simpa [hc] using hres
        | some cs =>
          simp only [hc] at hres ⊢
          cases hg : omGet cs a with
          | none => simpa [hg] using hres
          | some col =>
            simp only [hg] at hres ⊢
            exact resolveRef_mono h fuel col.SourceTable col.Name x hres
/-- C16. Column-alias resolution.  `getRealColumnInfoFromAlias` follows the
chain of bindings (alias to the binding's name in the binding's source
relation) through zero or more virtual relations.  Whenever it returns, the
chain from `(t, a)` ends where the result says: a returned column is an entry
of the columns of a relation with `IsDatabase = true` reached by the chain,
under the final name; nil is returned at a base relation without a column
under the final name, at an absent source relation, and at a virtual relation
without a column under the current alias.  Conversely, wherever the chain
ends in one of these ways the function returns that result after finitely
many turns.  `getRealColName` returns the name of the returned column, and
the empty string when resolution returns nil.  In the store `layeredHeap`,
the alias `sid` of the virtual relation `v` resolves to the column `id` of the
base relation `student`. -/
theorem resolution_follows_binding_chain (h : Heap) (t : Option Nat) (a : String) :
    (∀ fuel r, getRealColumnInfoFromAliasRef h fuel t a = some (.ok r) →
      ∃ q b, BindingChain h t a q b ∧ chainEnd h q b r) ∧
    (∀ fuel c, getRealColumnInfoFromAliasRef h fuel t a = some (.ok (some c)) →
      ∃ q b cs, BindingChain h t a (some q) b ∧ (h.table q).IsDatabase = true ∧
        (h.table q).Columns = some cs ∧ (b, c) ∈ cs) ∧
    (∀ q b r, BindingChain h t a q b → chainEnd h q b r →
      ∃ fuel, getRealColumnInfoFromAliasRef h fuel t a = some (.ok r)) ∧
    (∀ fuel r, getRealColumnInfoFromAliasRef h fuel t a = some (.ok r) →
      getRealColNameRef h fuel t a
        = some (.ok (match r with
          | none => ""
          | some c => c.Name))) ∧
    getRealColumnInfoFromAliasRef layeredHeap 1 (some 1) "sid"
      = some (.ok (some { Name := "id", SourceTable := some 0 })) ∧
    getRealColNameRef layeredHeap 1 (some 1) "sid" = some (.ok "id") ∧
    getRealColNameRef layeredHeap 1 (some 1) "name" = some (.ok "") := by
  refine ⟨fun fuel r hres => resolveRef_sound h fuel t a r hres, ?_,
    fun q b r hch hend => resolveRef_complete h t q a b hch r hend, ?_, rfl, rfl, rfl⟩
  · intro fuel c hres
    obtain ⟨q, b, hch, hend⟩ := resolveRef_sound h fuel t a (some c) hres
    cases q with
    | none => simp [chainEnd] at hend
    | some q =>
      obtain ⟨cs, hc, hif⟩ := hend
      by_cases hdb : (h.table q).IsDatabase = true
      · simp only [hdb, if_true] at hif
        exact ⟨q, b, cs, hch, hdb, hc, omGet_mem cs b c hif.symm⟩
      · simp [hdb] at hif
  · intro fuel r hres
    simp [getRealColNameRef, hres, Except.map]

/-- C17, the claim as stated fails.  In the store of the repository's test
fixture, where the column `id` of the virtual relation `subquery` is bound to
`subquery` itself, the loop of `getRealColumnInfoFromAlias` for the alias `id`
has not finished after any number of turns. -/
theorem resolution_loops_on_self_bound_column :
    ¬ ∃ fuel, (getRealColumnInfoFromAliasRef selfBoundHeap fuel (some 0) "id").isSome = true := by
  rintro ⟨fuel, hf⟩
  induction fuel with
  | zero => simp [getRealColumnInfoFromAliasRef, selfBoundHeap, Heap.table] at hf
  | succ n ih =>
    apply ih
    simpa [getRealColumnInfoFromAliasRef, selfBoundHeap, Heap.table, omGet] using hf

theorem resolveRef_ranked (h : Heap) (rank : Nat → Nat)
    (hrank : ∀ p cs, (h.table p).IsDatabase = false → (h.table p).Columns = some cs →
      ∀ e ∈ cs, ∀ q, e.2.SourceTable = some q → rank q < rank p) :
    ∀ (fuel : Nat) (t : Option Nat) (a : String), (∀ p, t = some p → rank p < fuel) →
      ∃ x, getRealColumnInfoFromAliasRef h fuel t a = some x
  | fuel, none, a, _ => ⟨.ok none, by simp [getRealColumnInfoFromAliasRef]⟩
  | 0, some p, a, hlt => absurd (hlt p rfl) (Nat.not_lt_zero _)
  | fuel + 1, some p, a, hlt => by
      simp only [getRealColumnInfoFromAliasRef]
      by_cases hdb : (h.table p).IsDatabase = true
      · simp only [hdb, if_true]
        cases (h.table p).Columns <;> simp
      · simp only [hdb, Bool.false_eq_true, if_false]
        cases hc : (h.table p).Columns with
        | none => simp
        | some cs =>
          simp only
          cases hg : omGet cs a with
          | none => simp
          | some col =>
            simp only
            apply resolveRef_ranked h rank hrank fuel
            intro q hq
            have := hrank p cs (by simpa using hdb) hc (a, col) (omGet_mem cs a col hg) q hq
            have := hlt p rfl
            omega

/-- C17, amended.  On a store in which the relations are ranked so that the
source relation of every column of a virtual relation lies strictly below
that virtual relation, `getRealColumnInfoFromAlias` returns (a column, nil,
or the panic of a nil column map) within `rank + 1` turns of its loop, for
every relation and alias; and once it has returned, more turns change
nothing. -/
theorem resolution_terminates_on_ranked_store (h : Heap) (rank : Nat → Nat) (p : Nat)
    (a : String)
    (hrank : ∀ p cs, (h.table p).IsDatabase = false → (h.table p).Columns = some cs →
      ∀ e ∈ cs, ∀ q, e.2.SourceTable = some q → rank q < rank p) :
    (∃ x, getRealColumnInfoFromAliasRef h (rank p + 1) (some p) a = some x) ∧
    (∀ fuel x, getRealColumnInfoFromAliasRef h fuel (some p) a = some x →
      getRealColumnInfoFromAliasRef h (fuel + 1) (some p) a = some x) :=
  ⟨resolveRef_ranked h rank hrank (rank p + 1) (some p) a
      (fun q hq => by cases hq; exact Nat.lt_succ_self _),
    fun fuel x hx => resolveRef_mono h fuel (some p) a x hx⟩

theorem resolution_terminates_on_ranked_store_witness :
    (∀ p cs, (layeredHeap.table p).IsDatabase = false → (layeredHeap.table p).Columns = some cs →
      ∀ e ∈ cs, ∀ q, e.2.SourceTable = some q → id q < id p) ∧
    (∃ x, getRealColumnInfoFromAliasRef layeredHeap (id 1 + 1) (some 1) "sid" = some x) ∧
    (∀ fuel x, getRealColumnInfoFromAliasRef layeredHeap fuel (some 1) "sid" = some x →
      getRealColumnInfoFromAliasRef layeredHeap (fuel + 1) (some 1) "sid" = some x) :=
  have hrank : ∀ p cs, (layeredHeap.table p).IsDatabase = false →
      (layeredHeap.table p).Columns = some cs →
      ∀ e ∈ cs, ∀ q, e.2.SourceTable = some q → id q < id p := by
    intro p cs hdb hc e he q hq
    match p with
    | 0 => simp [layeredHeap, Heap.table] at hdb
    | 1 =>
      simp [layeredHeap, Heap.table] at hc
      subst hc
      simp at he
      subst he
      simp at hq
      subst hq
      decide
    | p + 2 => simp [layeredHeap, Heap.table, default] at hc
  ⟨hrank, resolution_terminates_on_ranked_store layeredHeap id 1 "sid" hrank⟩

/-! ## Running computations on the store -/

theorem run_pure {α : Type} (a : α) (h : Heap) : (pure a : HeapM α).run h = .ok (a, h) := rfl

theorem run_bind {α β : Type} (x : HeapM α) (f : α → HeapM β) (h : Heap) :
    (x >>= f).run h = (x.run h >>= fun p => (f p.1).run p.2) := rfl

theorem run_throw {α : Type} (e : Fault) (h : Heap) : (throw e : HeapM α).run h = .error e := rfl

theorem run_getTable (p : Nat) (h : Heap) : (getTable p).run h = .ok (h.table p, h) := rfl

theorem run_getMap (m : Nat) (h : Heap) : (getMap m).run h = .ok (h.map m, h) := rfl

theorem run_newMap (es : OrderedMap Nat) (h : Heap) :
    (newMap es).run h = .ok (h.maps.length, { h with maps := h.maps ++ [es] }) := rfl

theorem run_setMap (m : Nat) (es : OrderedMap Nat) (h : Heap) :
    (setMap m es).run h = .ok ((), { h with maps := h.maps.set m es }) := rfl

theorem run_newTable (mk : Nat → TableObj) (h : Heap) :
    (newTable mk).run h
      = .ok (h.tables.length, { h with tables := h.tables ++ [mk h.tables.length] }) := rfl

theorem run_setTable (p : Nat) (obj : TableObj) (h : Heap) :
    (setTable p obj).run h = .ok ((), { h with tables := h.tables.set p obj }) := rfl

theorem run_get (h : Heap) : (get : HeapM Heap).run h = .ok (h, h) := rfl

theorem run_bind_ok {α β : Type} (x : HeapM α) (f : α → HeapM β) (h h' : Heap) (a : α)
    (hx : x.run h = .ok (a, h')) : (x >>= f).run h = (f a).run h' := by
  rw [run_bind, hx]; rfl

theorem run_createColumnFromSourceTable (h : Heap) (columns : OrderedMap ColumnCell)
    (colName : String) (src : Nat) (newColAlias : Option String)
    (srcColumns : OrderedMap ColumnCell) (hc : (h.table src).Columns = some srcColumns) :
    (createColumnFromSourceTable columns colName src newColAlias).run h
      = .ok (if omHas srcColumns colName then
          omSet columns (newColAlias.getD colName) { Name := colName, SourceTable := some src }
        else columns, h) := by
  simp only [createColumnFromSourceTable, run_bind, run_getTable, except_bind_ok, hc]
  split <;> rfl
/-! ## Star expansion -/

theorem omSet_append {V : Type} (m : OrderedMap V) (k : String) (v : V)
    (hk : k ∉ m.map Prod.fst) : omSet m k v = m ++ [(k, v)] := by
  induction m with
  | nil => rfl
  | cons e rest ih =>
    obtain ⟨a, b⟩ := e
    simp only [List.map_cons, List.mem_cons, not_or] at hk
    have ha : ¬ a = k := fun h => hk.1 h.symm
    simp [omSet, ha, ih hk.2]

theorem omHas_iff {V : Type} (m : OrderedMap V) (k : String) :
    omHas m k = true ↔ k ∈ m.map Prod.fst := by
  simp only [omHas, List.any_eq_true, beq_iff_eq, List.mem_map]

theorem starExpansion_keys : ∀ (all : List (String × Nat)) (A : List String),
    (starExpansion all A).map Prod.fst = A.take all.length ++ (all.drop A.length).map Prod.fst
  | [], A => by simp [starExpansion]
  | (n, p) :: rest, [] => by
      have ih := starExpansion_keys rest []
      simp only [List.take_nil, List.length_nil, List.drop_zero, List.nil_append] at ih
      simp [starExpansion, ih]
  | (n, p) :: rest, a :: more => by
      simp [starExpansion, starExpansion_keys rest more]

theorem starExpansion_bindings : ∀ (all : List (String × Nat)) (A : List String),
    (starExpansion all A).map Prod.snd
      = all.map (fun e => ({ Name := e.1, SourceTable := some e.2 } : ColumnCell))
  | [], A => by simp [starExpansion]
  | (n, p) :: rest, [] => by simp [starExpansion, starExpansion_bindings rest []]
  | (n, p) :: rest, a :: more => by simp [starExpansion, starExpansion_bindings rest more]

theorem starExpansion_append : ∀ (xs ys : List (String × Nat)) (A : List String),
    starExpansion (xs ++ ys) A
      = starExpansion xs (A.take xs.length) ++ starExpansion ys (A.drop xs.length)
  | [], ys, A => by simp [starExpansion]
  | (n, p) :: rest, ys, [] => by
      have ih := starExpansion_append rest ys []
      simp only [List.take_nil, List.drop_nil] at ih
      simp [starExpansion, ih]
  | (n, p) :: rest, ys, a :: more => by
      simp [starExpansion, starExpansion_append rest ys more]

theorem nodup_shift (xs ys : List String) (k : String) (h : (xs ++ k :: ys).Nodup) :
    k ∉ xs ∧ ((xs ++ [k]) ++ ys).Nodup := by
  have h1 : (k :: (xs ++ ys)).Nodup := (List.perm_middle.nodup_iff).mp h
  refine ⟨fun hk => (List.nodup_cons.mp h1).1 (List.mem_append_left _ hk), ?_⟩
  have hp : List.Perm ((xs ++ [k]) ++ ys) (k :: (xs ++ ys)) := by
    rw [List.append_assoc]
    exact List.perm_middle
  exact hp.nodup_iff.mpr h1

theorem run_createColumn_has (h : Heap) (columns : OrderedMap ColumnCell)
    (colName : String) (src : Nat) (newColAlias : Option String)
    (srcColumns : OrderedMap ColumnCell) (hc : (h.table src).Columns = some srcColumns)
    (hhas : omHas srcColumns colName = true) :
    (createColumnFromSourceTable columns colName src newColAlias).run h
      = .ok (omSet columns (newColAlias.getD colName)
          { Name := colName, SourceTable := some src }, h) := by
  rw [run_createColumnFromSourceTable h columns colName src newColAlias srcColumns hc]
  simp [hhas]

theorem run_createColumnsLoop (h : Heap) (src : Nat) (srcColumns : OrderedMap ColumnCell)
    (hc : (h.table src).Columns = some srcColumns) :
    ∀ (names A : List String) (acc : OrderedMap ColumnCell),
      (∀ n ∈ names, n ∈ srcColumns.map Prod.fst) →
      (acc.map Prod.fst ++ (starExpansion (names.map (fun n => (n, src))) A).map Prod.fst).Nodup →
      (createColumnsLoop src names A acc).run h
        = .ok (acc ++ starExpansion (names.map (fun n => (n, src))) A, h)
  | [], A, acc, _, _ => by simp [createColumnsLoop, starExpansion, run_pure]
  | n :: rest, [], acc, hin, hnd => by
      have hhas : omHas srcColumns n = true := (omHas_iff _ _).mpr (hin n (List.mem_cons_self _ _))
      simp only [List.map_cons, starExpansion] at hnd
      obtain ⟨hfresh, hnd'⟩ := nodup_shift _ _ _ hnd
      rw [createColumnsLoop, run_bind_ok _ _ h h _
        (run_createColumn_has h acc n src none srcColumns hc hhas)]
      simp only [Option.getD_none, omSet_append acc n _ hfresh]
      rw [run_createColumnsLoop h src srcColumns hc rest [] _
        (fun m hm => hin m (List.mem_cons_of_mem _ hm)) (by simpa using hnd')]
      simp [starExpansion]
  | n :: rest, a :: more, acc, hin, hnd => by
      have hhas : omHas srcColumns n = true := (omHas_iff _ _).mpr (hin n (List.mem_cons_self _ _))
      simp only [List.map_cons, starExpansion] at hnd
      obtain ⟨hfresh, hnd'⟩ := nodup_shift _ _ _ hnd
      rw [createColumnsLoop, run_bind_ok _ _ h h _
        (run_createColumn_has h acc n src (some a) srcColumns hc hhas)]
      simp only [Option.getD_some, omSet_append acc a _ hfresh]
      rw [run_createColumnsLoop h src srcColumns hc rest more _
        (fun m hm => hin m (List.mem_cons_of_mem _ hm)) (by simpa using hnd')]
      simp [starExpansion]
theorem run_createAllColumnFromSourceTable (h : Heap) (src : Nat) (cs : OrderedMap ColumnCell)
    (hc : (h.table src).Columns = some cs) (A : List String) (acc : OrderedMap ColumnCell)
    (hnd : (acc.map Prod.fst
      ++ (starExpansion (cs.map (fun e => (e.1, src))) A).map Prod.fst).Nodup) :
    (createAllColumnFromSourceTable acc src A).run h
      = .ok (acc ++ starExpansion (cs.map (fun e => (e.1, src))) A, h) := by
  have hmap : (cs.map Prod.fst).map (fun n => (n, src)) = cs.map (fun e => (e.1, src)) := by
    simp [List.map_map, Function.comp_def]
  simp only [createAllColumnFromSourceTable, run_bind, run_getTable, except_bind_ok, hc]
  rw [run_createColumnsLoop h src cs hc (cs.map Prod.fst) A acc (fun n hn => hn)
    (by rw [hmap]; exact hnd), hmap]

theorem run_createAllColumnsFromSourceTableList (h : Heap) :
    ∀ (ps : List Nat) (A : List String) (acc : OrderedMap ColumnCell),
      (acc.map Prod.fst ++ (starExpansion (sourceColumns h ps) A).map Prod.fst).Nodup →
      (createAllColumnsFromSourceTableList ps A acc).run h
        = .ok (acc ++ starExpansion (sourceColumns h ps) A, h)
  | [], A, acc, _ => by simp [createAllColumnsFromSourceTableList, sourceColumns, starExpansion,
      run_pure]
  | p :: rest, A, acc, hnd => by
      cases hc : (h.table p).Columns with
      | none =>
        simp only [sourceColumns, hc] at hnd ⊢
        simp only [createAllColumnsFromSourceTableList, run_bind, run_getTable, except_bind_ok, hc]
        exact run_createAllColumnsFromSourceTableList h rest A acc hnd
      | some cs =>
        simp only [sourceColumns, hc] at hnd ⊢
        have hlen : (cs.map (fun e => (e.1, p))).length = cs.length := by simp
        rw [starExpansion_append, hlen] at hnd ⊢
        simp only [List.map_append] at hnd
        have hnd1 : (acc.map Prod.fst ++ (starExpansion (cs.map (fun e => (e.1, p)))
            (A.take cs.length)).map Prod.fst).Nodup := by
          rw [← List.append_assoc] at hnd
          exact (List.nodup_append.mp hnd).1
        simp only [createAllColumnsFromSourceTableList, run_bind, run_getTable, except_bind_ok, hc]
        rw [run_createAllColumnFromSourceTable h p cs hc (A.take cs.length) acc hnd1]
        simp only [except_bind_ok]
        rw [run_createAllColumnsFromSourceTableList h rest (A.drop cs.length) _
          (by simpa [List.append_assoc] using hnd)]
        simp [List.append_assoc]

/-- C18, the claim as stated fails.  In the store `twoTableHeap` the source
relation `student` has the two columns `id` and `name`, distinct from each
other and from the outer aliases `x`, `x`; `createAllColumnsFromSourceTableList`
produces one column, keyed `x` and bound to `name`, not two. -/
theorem star_expansion_repeated_alias :
    sourceColumns twoTableHeap [0] = [("id", 0), ("name", 0)] ∧
    ((createAllColumnsFromSourceTableList [0] ["x", "x"] []).run twoTableHeap).toOption.map
        (fun r => r.1.map (fun e => (e.1, e.2.Name, e.2.SourceTable)))
      = some [("x", "name", some 0)] := by
  constructor
  · rfl
  · decide!

/-- C18, amended.  Star expansion with positional aliases.  Let the source
relations (in the order of the map) have the columns `all`, of total length
`m`, and let `A` be the outer aliases.  When the outward aliases that result
(the first `m` outer aliases, then the own aliases of the source columns from
position `|A|` on) are pairwise distinct, `createAllColumnsFromSourceTableList`
on an empty column map produces exactly `m` columns in the concatenated
source order: the i-th is bound to the i-th source column (its name and the
relation that holds it) and is keyed by `A[i]` if `i < |A|` and by the source
column's own alias otherwise; the store is left as it is. -/
theorem star_expansion_positional_aliases (h : Heap) (ps : List Nat) (A : List String)
    (hnd : (A.take (sourceColumns h ps).length
      ++ ((sourceColumns h ps).drop A.length).map Prod.fst).Nodup) :
    ∃ columns, (createAllColumnsFromSourceTableList ps A []).run h = .ok (columns, h) ∧
      columns = starExpansion (sourceColumns h ps) A ∧
      columns.length = (sourceColumns h ps).length ∧
      columns.map Prod.snd = (sourceColumns h ps).map
        (fun e => ({ Name := e.1, SourceTable := some e.2 } : ColumnCell)) ∧
      columns.map Prod.fst = A.take (sourceColumns h ps).length
        ++ ((sourceColumns h ps).drop A.length).map Prod.fst := by
  refine ⟨_, ?_, rfl, ?_, starExpansion_bindings _ _, starExpansion_keys _ _⟩
  · have := run_createAllColumnsFromSourceTableList h ps A []
      (by simpa [starExpansion_keys] using hnd)
    simpa using this
  · have := congrArg List.length (starExpansion_bindings (sourceColumns h ps) A)
    simpa using this

theorem star_expansion_positional_aliases_witness :
    (["x"].take (sourceColumns twoTableHeap [0, 1]).length
      ++ ((sourceColumns twoTableHeap [0, 1]).drop ["x"].length).map Prod.fst).Nodup ∧
    ∃ columns, (createAllColumnsFromSourceTableList [0, 1] ["x"] []).run twoTableHeap
        = .ok (columns, twoTableHeap) ∧
      columns = starExpansion (sourceColumns twoTableHeap [0, 1]) ["x"] ∧
      columns.length = (sourceColumns twoTableHeap [0, 1]).length ∧
      columns.map Prod.snd = (sourceColumns twoTableHeap [0, 1]).map
        (fun e => ({ Name := e.1, SourceTable := some e.2 } : ColumnCell)) ∧
      columns.map Prod.fst = ["x"].take (sourceColumns twoTableHeap [0, 1]).length
        ++ ((sourceColumns twoTableHeap [0, 1]).drop ["x"].length).map Prod.fst :=
  ⟨by decide, star_expansion_positional_aliases twoTableHeap [0, 1] ["x"] (by decide)⟩

/-! ## A `table.column` target -/

theorem run_addTargetColumns_column (h : Heap) (cur : OrderedMap Nat) (allColCnt : Nat)
    (t c n : String) (columns : OrderedMap ColumnCell) (A : List String) :
    (addTargetColumns cur allColCnt (columnTarget t c n) (columns, A)).run h
      = match omGet cur t with
        | none => .ok ((columns, A), h)
        | some p =>
          match (h.table p).Columns with
          | none => .error (.runtimePanic "nil map")
          | some cs =>
            .ok ((if omHas cs c then
                omSet columns (outwardAlias A n c).1 { Name := c, SourceTable := some p }
              else columns, (outwardAlias A n c).2), h) := by
  simp only [addTargetColumns, columnTarget, columnRefNode, Node.isAStar, Node.GetString_,
    Bool.false_eq_true, if_false, List.length_cons, List.length_singleton, List.head?_cons,
    Option.map_some', Option.some.injEq, and_false, Option.getD_some, List.length_nil]
  cases hg : omGet cur t with
  | none => rfl
  | some p =>
    simp only
    cases hc : (h.table p).Columns with
    | none =>
      cases A with
      | nil => simp [createColumnFromSourceTable, run_bind, run_getTable, hc, run_throw]
      | cons a rest =>
        by_cases ha : a = ""
        · simp [ha, createColumnFromSourceTable, run_bind, run_getTable, hc, run_throw]
        · simp [ha, createColumnFromSourceTable, run_bind, run_getTable, hc, run_throw]
    | some cs =>
      cases A with
      | nil =>
        simp only [run_bind, run_createColumnFromSourceTable h _ _ _ _ cs hc, except_bind_ok,
          outwardAlias, Option.getD_some]
        rfl
      | cons a rest =>
        by_cases ha : a = ""
        · simp only [ha, ne_eq, not_true_eq_false, if_false, run_bind,
            run_createColumnFromSourceTable h _ _ _ _ cs hc, except_bind_ok, outwardAlias,
            Option.getD_some]
          rfl
        · simp only [ha, ne_eq, not_false_eq_true, if_true, run_bind,
            run_createColumnFromSourceTable h _ _ _ _ cs hc, except_bind_ok, outwardAlias,
            Option.getD_some]
          rfl
/-- C19, the claim as stated fails.  In the store `twoTableHeap`, with the
source map of `student` and `course`, the target list
`student.id, student.id` gives the virtual relation one column: the second
target finds the alias `id` taken and re-binds it, it appends nothing. -/
theorem repeated_column_target_appends_nothing :
    ((addTargetListColumns [("student", 0), ("course", 1)] 3
        [columnTarget "student" "id" ""] ([], [])).run twoTableHeap).toOption.map
        (fun r => r.1.1.map (fun e => (e.1, e.2.Name, e.2.SourceTable)))
      = some [("id", "id", some 0)] ∧
    ((addTargetListColumns [("student", 0), ("course", 1)] 3
        [columnTarget "student" "id" "", columnTarget "student" "id" ""]
        ([], [])).run twoTableHeap).toOption.map
        (fun r => r.1.1.map (fun e => (e.1, e.2.Name, e.2.SourceTable)))
      = some [("id", "id", some 0)] := by
  constructor <;> decide!

/-- C19, amended.  Alias precedence for a `table.col` target.  When
`createVirtualTableForAlias` processes a target `t.c [AS n]` with `t` in the
source map: if `c` is a column of `t`, the binding (name `c`, source relation
`t`) is stored under the outward alias, which is the outer explicit column
alias at the running index if there is one and it is not empty (the index
advances by one), else `n` if an AS name is given, else `c`; the column is
appended when no column is stored under that alias yet, and the column stored
under it is re-bound in place otherwise.  If `c` is not a column of `t` no
column is added, and if `t` is not in the source map nothing changes.  The
store is left as it is. -/
theorem column_target_alias_precedence (h : Heap) (cur : OrderedMap Nat) (allColCnt : Nat)
    (t c n : String) (columns : OrderedMap ColumnCell) (A : List String) (p : Nat)
    (cs : OrderedMap ColumnCell) (hg : omGet cur t = some p)
    (hc : (h.table p).Columns = some cs) :
    (omHas cs c = true →
      (addTargetColumns cur allColCnt (columnTarget t c n) (columns, A)).run h
        = .ok ((omSet columns (outwardAlias A n c).1 { Name := c, SourceTable := some p },
            (outwardAlias A n c).2), h) ∧
      ((outwardAlias A n c).1 ∉ columns.map Prod.fst →
        omSet columns (outwardAlias A n c).1 { Name := c, SourceTable := some p }
          = columns ++ [((outwardAlias A n c).1, { Name := c, SourceTable := some p })]) ∧
      (∀ old, omGet columns (outwardAlias A n c).1 = some old →
        (omSet columns (outwardAlias A n c).1
            ({ Name := c, SourceTable := some p } : ColumnCell)).map Prod.fst
          = columns.map Prod.fst)) ∧
    (omHas cs c = false →
      (addTargetColumns cur allColCnt (columnTarget t c n) (columns, A)).run h
        = .ok ((columns, (outwardAlias A n c).2), h)) ∧
    (∀ cur', omGet cur' t = none →
      (addTargetColumns cur' allColCnt (columnTarget t c n) (columns, A)).run h
        = .ok ((columns, A), h)) ∧
    (∀ a rest, a ≠ "" → outwardAlias (a :: rest) n c = (a, rest)) ∧
    (n ≠ "" → outwardAlias [] n c = (n, []) ∧ ∀ rest, outwardAlias ("" :: rest) n c
      = (n, "" :: rest)) ∧
    (outwardAlias [] "" c = (c, []) ∧ ∀ rest, outwardAlias ("" :: rest) "" c
      = (c, "" :: rest)) := by
  refine ⟨?_, ?_, ?_, ?_, ?_, ?_⟩
  · intro hhas
    refine ⟨?_, fun hfresh => omSet_append _ _ _ hfresh, fun old hold => omSet_keys _ _ _ old hold⟩
    rw [run_addTargetColumns_column, hg]
    simp [hc, hhas]
  · intro hhas
    rw [run_addTargetColumns_column, hg]
    simp [hc, hhas]
  · intro cur' hg'
    rw [run_addTargetColumns_column, hg']
  · intro a rest ha
    simp [outwardAlias, ha]
  · intro hn
    simp [outwardAlias, hn]
  · simp [outwardAlias]

theorem column_target_alias_precedence_witness :
    omGet [("student", 0), ("course", 1)] "student" = some 0 ∧
    (twoTableHeap.table 0).Columns
      = some [("id", { Name := "id", SourceTable := some 0 }),
              ("name", { Name := "name", SourceTable := some 0 })] ∧
    omHas [("id", ({ Name := "id", SourceTable := some 0 } : ColumnCell)),
           ("name", { Name := "name", SourceTable := some 0 })] "name" = true ∧
    (addTargetColumns [("student", 0), ("course", 1)] 3 (columnTarget "student" "name" "n")
        ([], ["x"])).run twoTableHeap
      = .ok ((omSet [] (outwardAlias ["x"] "n" "name").1
          { Name := "name", SourceTable := some 0 }, (outwardAlias ["x"] "n" "name").2),
          twoTableHeap) :=
  ⟨rfl, rfl, rfl,
    ((column_target_alias_precedence twoTableHeap [("student", 0), ("course", 1)] 3 "student"
      "name" "n" [] ["x"] 0 _ rfl rfl).1 rfl).1⟩

/-- C20. Unauthorized-component propagation, at the input where the code
departs from the claim.  For a student, in
`SELECT * FROM (SELECT * FROM student a, (SELECT * FROM professor a) v) w`
the source map of `w` holds the unauthorized base relation `student` under
the alias `a` and the virtual relation `v`, whose component `professor` is
stored under the alias `a` too.  The components of `w` are `a`, bound to
`professor`, and `v`: the unauthorized source relation `student` is not among
them, the second loop of `createVirtualTableForAlias` has overwritten it. -/
theorem component_overwritten_by_nested_alias :
    (runWalk (AuthorizeNode mockService (some (selectStarFrom
        [subselectStarAs
          [.rangeVar "student" (some { Aliasname := "a", Colnames := [] }),
           subselectStarAs [.rangeVar "professor" (some { Aliasname := "a", Colnames := [] })]
             "v"] "w"] none))) false (studentCaller 123 0 0 [])).toOption.map
        (fun res => (res.Authorized, componentsAt res.Tables "w"))
      = some (false, some [("a", "professor"), ("v", "v")]) := by
  decide!

/-! ## The store under allocation -/

theorem continuedBy_refl (h : Heap) : h.continuedBy h :=
  ⟨Nat.le_refl _, Nat.le_refl _, fun _ _ => rfl, fun _ _ => rfl⟩

theorem continuedBy_trans (h h1 h2 : Heap) (a : h.continuedBy h1) (b : h1.continuedBy h2) :
    h.continuedBy h2 :=
  ⟨Nat.le_trans a.1 b.1, Nat.le_trans a.2.1 b.2.1,
    fun p hp => (b.2.2.1 p (Nat.lt_of_lt_of_le hp a.1)).trans (a.2.2.1 p hp),
    fun m hm => (b.2.2.2 m (Nat.lt_of_lt_of_le hm a.2.1)).trans (a.2.2.2 m hm)⟩

theorem usable_continued (h h' : Heap) (es : OrderedMap Nat) (hu : h.usable es)
    (hc : h.continuedBy h') : h'.usable es := by
  intro e he
  obtain ⟨a, b, c⟩ := hu e he
  rw [hc.2.2.1 e.2 a]
  exact ⟨Nat.lt_of_lt_of_le a hc.1, b, c⟩

theorem table_append_old (h : Heap) (obj : TableObj) (p : Nat) (hp : p < h.tables.length) :
    ({ h with tables := h.tables ++ [obj] } : Heap).table p = h.table p := by
  simp [Heap.table, List.getD_eq_getElem?_getD, List.getElem?_append_left hp]

theorem table_append_new (h : Heap) (obj : TableObj) :
    ({ h with tables := h.tables ++ [obj] } : Heap).table h.tables.length = obj := by
  simp [Heap.table, List.getD_eq_getElem?_getD]

theorem map_append_old (h : Heap) (es : OrderedMap Nat) (m : Nat) (hm : m < h.maps.length) :
    ({ h with maps := h.maps ++ [es] } : Heap).map m = h.map m := by
  simp [Heap.map, List.getD_eq_getElem?_getD, List.getElem?_append_left hm]

theorem map_append_new (h : Heap) (es : OrderedMap Nat) :
    ({ h with maps := h.maps ++ [es] } : Heap).map h.maps.length = es := by
  simp [Heap.map, List.getD_eq_getElem?_getD]

theorem map_set_other (h : Heap) (es : OrderedMap Nat) (d m : Nat) (hne : m ≠ d) :
    ({ h with maps := h.maps.set d es } : Heap).map m = h.map m := by
  simp [Heap.map, List.getD_eq_getElem?_getD, List.getElem?_set_ne (Ne.symm hne)]

theorem map_set_same (h : Heap) (es : OrderedMap Nat) (d : Nat) (hd : d < h.maps.length) :
    ({ h with maps := h.maps.set d es } : Heap).map d = es := by
  simp [Heap.map, List.getD_eq_getElem?_getD, List.getElem?_set_self, hd]

theorem continuedBy_newTable (h : Heap) (obj : TableObj) :
    h.continuedBy { h with tables := h.tables ++ [obj] } :=
  ⟨by simp, Nat.le_refl _, fun p hp => table_append_old h obj p hp, fun _ _ => rfl⟩

theorem continuedBy_newMap (h : Heap) (es : OrderedMap Nat) :
    h.continuedBy { h with maps := h.maps ++ [es] } :=
  ⟨Nat.le_refl _, by simp, fun _ _ => rfl, fun m hm => map_append_old h es m hm⟩

/-- Overwriting a map that is not one of the first `n` keeps those. -/
theorem setMap_keeps (base h : Heap) (d : Nat) (es : OrderedMap Nat)
    (hb : base.continuedBy h) (hd : base.maps.length ≤ d) :
    base.continuedBy { h with maps := h.maps.set d es } := by
  refine ⟨hb.1, by simpa using hb.2.1, hb.2.2.1, ?_⟩
  intro m hm
  rw [map_set_other h es d m (by omega)]
  exact hb.2.2.2 m hm

theorem foldl_omSet_mem {V : Type} : ∀ (entries cur : OrderedMap V) (e : String × V),
    e ∈ entries.foldl (fun acc x => omSet acc x.1 x.2) cur → e ∈ cur ∨ e ∈ entries
  | [], cur, e, h => Or.inl h
  | x :: rest, cur, e, h => by
      simp only [List.foldl_cons] at h
      rcases foldl_omSet_mem rest _ e h with h1 | h1
      · rcases omSet_mem cur x.1 x.2 e h1 with h2 | h2
        · exact Or.inl h2
        · exact Or.inr (by simp [h2])
      · exact Or.inr (List.mem_cons_of_mem _ h1)
theorem set_append_last {α : Type} (l : List α) (x y : α) :
    (l ++ [x]).set l.length y = l ++ [y] := by
  induction l with
  | nil => rfl
  | cons a rest ih => simp [ih]

theorem run_MergeMaps_some (h : Heap) (d sp : Nat) :
    (MergeMaps (some d) (some sp)).run h
      = .ok (some d, { h with
          maps := List.set h.maps d
            (List.foldl (fun acc e => omSet acc e.1 e.2) (h.map d) (h.map sp)) }) := rfl

theorem run_MergeMaps_none (h : Heap) (sp : Nat) :
    (MergeMaps none (some sp)).run h
      = .ok (some h.maps.length, { h with
          maps := h.maps ++ [List.foldl (fun acc e => omSet acc e.1 e.2) [] (h.map sp)] }) := by
  have h1 : (MergeMaps none (some sp)).run h
      = .ok (some h.maps.length, { h with
          maps := List.set (h.maps ++ [[]]) h.maps.length
            (List.foldl (fun acc e => omSet acc e.1 e.2)
              (Heap.map { h with maps := h.maps ++ [[]] } h.maps.length) (h.map sp)) }) := rfl
  rw [h1, map_append_new, set_append_last]

/-- Merging a usable map into a map that the walk owns: the stores before the
walk are continued, and the merged map is usable. -/
theorem mergeMaps_owned (base h : Heap) (d sp : Nat) (hb : base.continuedBy h)
    (hd : base.maps.length ≤ d) (hdlt : d < h.maps.length) (hud : h.usable (h.map d))
    (hus : h.usable (h.map sp)) :
    ∃ h', (MergeMaps (some d) (some sp)).run h = .ok (some d, h') ∧ base.continuedBy h' ∧
      h'.tables = h.tables ∧ h'.maps.length = h.maps.length ∧ h'.usable (h'.map d) ∧
      (∀ m, m ≠ d → h'.map m = h.map m) := by
  refine ⟨_, run_MergeMaps_some h d sp, setMap_keeps base h d _ hb hd, rfl, by simp, ?_,
    fun m hm => map_set_other h _ d m hm⟩
  rw [map_set_same h _ d hdlt]
  intro e he
  rcases foldl_omSet_mem _ _ e he with h1 | h1
  · exact hud e h1
  · exact hus e h1

theorem mergeMaps_fresh (h : Heap) (sp : Nat) (hus : h.usable (h.map sp)) :
    ∃ h', (MergeMaps none (some sp)).run h = .ok (some h.maps.length, h') ∧ h.continuedBy h' ∧
      h'.tables = h.tables ∧ h'.maps.length = h.maps.length + 1 ∧
      h'.usable (h'.map h.maps.length) := by
  refine ⟨_, run_MergeMaps_none h sp, continuedBy_newMap h _, rfl, by simp, ?_⟩
  rw [map_append_new]
  intro e he
  rcases foldl_omSet_mem _ _ e he with h1 | h1
  · simp at h1
  · exact hus e h1

/-! ## `createVirtualTableForAlias` returns on usable relations -/

theorem run_countAllColumns (h : Heap) : ∀ (ps : List Nat),
    (∀ p ∈ ps, (h.table p).Columns.isSome = true) →
    ∃ n, (countAllColumns ps).run h = .ok (n, h)
  | [], _ => ⟨0, rfl⟩
  | p :: rest, hall => by
      obtain ⟨n, hn⟩ := run_countAllColumns h rest (fun q hq => hall q (List.mem_cons_of_mem _ hq))
      have hp := hall p (List.mem_cons_self _ _)
      cases hc : (h.table p).Columns with
      | none => simp [hc] at hp
      | some cs =>
        refine ⟨cs.length + n, ?_⟩
        simp only [countAllColumns, run_bind, run_getTable, except_bind_ok, hc, hn, run_pure]

theorem run_createColumnsLoop_ok (h : Heap) (src : Nat) (cs : OrderedMap ColumnCell)
    (hc : (h.table src).Columns = some cs) :
    ∀ (names A : List String) (acc : OrderedMap ColumnCell),
      ∃ c, (createColumnsLoop src names A acc).run h = .ok (c, h)
  | [], A, acc => ⟨acc, by simp [createColumnsLoop, run_pure]⟩
  | n :: rest, [], acc => by
      obtain ⟨c, hcr⟩ := run_createColumnsLoop_ok h src cs hc rest [] _
      exact ⟨c, by rw [createColumnsLoop, run_bind,
        run_createColumnFromSourceTable h acc n src none cs hc, except_bind_ok]; exact hcr⟩
  | n :: rest, a :: more, acc => by
      obtain ⟨c, hcr⟩ := run_createColumnsLoop_ok h src cs hc rest more _
      exact ⟨c, by rw [createColumnsLoop, run_bind,
        run_createColumnFromSourceTable h acc n src (some a) cs hc, except_bind_ok]; exact hcr⟩

theorem run_createAllColumnFromSourceTable_ok (h : Heap) (src : Nat) (A : List String)
    (acc : OrderedMap ColumnCell) :
    ∃ c, (createAllColumnFromSourceTable acc src A).run h = .ok (c, h) := by
  cases hc : (h.table src).Columns with
  | none => exact ⟨acc, by simp [createAllColumnFromSourceTable, run_bind, run_getTable, hc,
      run_pure]⟩
  | some cs =>
    obtain ⟨c, hcr⟩ := run_createColumnsLoop_ok h src cs hc (cs.map Prod.fst) A acc
    exact ⟨c, by simp only [createAllColumnFromSourceTable, run_bind, run_getTable,
      except_bind_ok, hc]; exact hcr⟩

theorem run_createAllColumnsFromSourceTableList_ok (h : Heap) :
    ∀ (ps : List Nat) (A : List String) (acc : OrderedMap ColumnCell),
      ∃ c, (createAllColumnsFromSourceTableList ps A acc).run h = .ok (c, h)
  | [], A, acc => ⟨acc, by simp [createAllColumnsFromSourceTableList, run_pure]⟩
  | p :: rest, A, acc => by
      cases hc : (h.table p).Columns with
      | none =>
        obtain ⟨c, hcr⟩ := run_createAllColumnsFromSourceTableList_ok h rest A acc
        exact ⟨c, by simp only [createAllColumnsFromSourceTableList, run_bind, run_getTable,
          except_bind_ok, hc]; exact hcr⟩
      | some cs =>
        obtain ⟨c1, hc1⟩ := run_createAllColumnFromSourceTable_ok h p (A.take cs.length) acc
        obtain ⟨c, hcr⟩ := run_createAllColumnsFromSourceTableList_ok h rest
          (A.drop cs.length) c1
        exact ⟨c, by simp only [createAllColumnsFromSourceTableList, run_bind, run_getTable,
          except_bind_ok, hc, hc1]; exact hcr⟩

theorem run_collectUnauthorized (h : Heap) : ∀ (cur acc : OrderedMap Nat),
    ∃ r, (collectUnauthorized cur acc).run h = .ok (r, h)
  | [], acc => ⟨acc, rfl⟩
  | (a, p) :: rest, acc => by
      obtain ⟨r, hr⟩ := run_collectUnauthorized h rest
        (if !(h.table p).Authorized then omSet acc a p else acc)
      exact ⟨r, by simp only [collectUnauthorized, run_bind, run_getTable, except_bind_ok]
                   exact hr⟩

theorem run_collectNestedUnauthorized (h : Heap) : ∀ (cur acc : OrderedMap Nat),
    (∀ e ∈ cur, (h.table e.2).UnAuthorizedTables.isSome = true) →
    ∃ r, (collectNestedUnauthorized cur acc).run h = .ok (r, h)
  | [], acc, _ => ⟨acc, rfl⟩
  | (a, p) :: rest, acc, hall => by
      have hp := hall (a, p) (List.mem_cons_self _ _)
      cases hu : (h.table p).UnAuthorizedTables with
      | none => simp [hu] at hp
      | some un =>
        obtain ⟨r, hr⟩ := run_collectNestedUnauthorized h rest
          (un.foldl (fun x e => omSet x e.1 e.2) acc)
          (fun e he => hall e (List.mem_cons_of_mem _ he))
        exact ⟨r, by simp only [collectNestedUnauthorized, run_bind, run_getTable,
          except_bind_ok, hu]; exact hr⟩
theorem run_createColumnFromSourceTable_ok (h : Heap) (columns : OrderedMap ColumnCell)
    (colName : String) (src : Nat) (newColAlias : Option String)
    (hc : (h.table src).Columns.isSome = true) :
    ∃ c, (createColumnFromSourceTable columns colName src newColAlias).run h = .ok (c, h) := by
  cases hcs : (h.table src).Columns with
  | none => simp [hcs] at hc
  | some cs => exact ⟨_, run_createColumnFromSourceTable h columns colName src newColAlias cs hcs⟩

theorem run_addTargetColumns_ok (h : Heap) (cur : OrderedMap Nat) (allColCnt : Nat)
    (colNode : Node) (state : OrderedMap ColumnCell × List String)
    (hres : targetResolvable colNode = true)
    (hcur : ∀ e ∈ cur, (h.table e.2).Columns.isSome = true) :
    ∃ st, (addTargetColumns cur allColCnt colNode state).run h = .ok (st, h) := by
  obtain ⟨columns, A⟩ := state
  unfold addTargetColumns
  simp only
  split
  · rename_i resName fields
    cases fields with
    | nil => exact ⟨_, rfl⟩
    | cons f0 more =>
      simp only
      by_cases hstar : f0.isAStar = true
      · simp only [hstar, if_true]
        obtain ⟨c, hc⟩ := run_createAllColumnsFromSourceTableList_ok h (cur.map Prod.snd)
          (A.take allColCnt) columns
        exact ⟨_, by rw [run_bind, hc]; rfl⟩
      · simp only [hstar, Bool.false_eq_true, if_false]
        cases hs : f0.GetString_ with
        | none => exact ⟨_, rfl⟩
        | some name =>
          simp only
          split
          · cases hg : omGet cur name with
            | none => exact ⟨_, rfl⟩
            | some p =>
              simp only
              have hp := hcur (name, p) (omGet_mem cur name p hg)
              cases hcs : (h.table p).Columns with
              | none => simp [hcs] at hp
              | some cs =>
                obtain ⟨c, hc⟩ := run_createAllColumnFromSourceTable_ok h p
                  (A.take cs.length) columns
                exact ⟨_, by simp only [run_bind, run_getTable, except_bind_ok, hcs, hc]; rfl⟩
          · cases more with
            | nil =>
              simp [targetResolvable, hstar, hs] at hres
            | cons f1 rest =>
              simp only
              cases hg : omGet cur name with
              | none => exact ⟨_, rfl⟩
              | some p =>
                simp only
                have hp := hcur (name, p) (omGet_mem cur name p hg)
                cases A with
                | nil =>
                  obtain ⟨c, hc⟩ := run_createColumnFromSourceTable_ok h columns
                    ((f1.GetString_).getD "") p
                    (some (if resName ≠ "" then resName else (f1.GetString_).getD "")) hp
                  exact ⟨_, by simp only [run_bind, hc, except_bind_ok]; rfl⟩
                | cons a restA =>
                  simp only
                  by_cases ha : a ≠ ""
                  · rw [if_pos ha]
                    obtain ⟨c, hc⟩ := run_createColumnFromSourceTable_ok h columns
                      ((f1.GetString_).getD "") p (some a) hp
                    exact ⟨_, by simp only [run_bind, hc, except_bind_ok]; rfl⟩
                  · rw [if_neg ha]
                    obtain ⟨c, hc⟩ := run_createColumnFromSourceTable_ok h columns
                      ((f1.GetString_).getD "") p
                      (some (if resName ≠ "" then resName else (f1.GetString_).getD "")) hp
                    exact ⟨_, by simp only [run_bind, hc, except_bind_ok]; rfl⟩
  · exact ⟨_, rfl⟩

theorem run_addTargetListColumns_ok (h : Heap) (cur : OrderedMap Nat) (allColCnt : Nat)
    (hcur : ∀ e ∈ cur, (h.table e.2).Columns.isSome = true) :
    ∀ (targets : List Node) (state : OrderedMap ColumnCell × List String),
      targets.all targetResolvable = true →
      ∃ st, (addTargetListColumns cur allColCnt targets state).run h = .ok (st, h)
  | [], state, _ => ⟨state, rfl⟩
  | t :: rest, state, hall => by
      simp only [List.all_cons, Bool.and_eq_true] at hall
      obtain ⟨st1, h1⟩ := run_addTargetColumns_ok h cur allColCnt t state hall.1 hcur
      obtain ⟨st, h2⟩ := run_addTargetListColumns_ok h cur allColCnt hcur rest st1 hall.2
      exact ⟨st, by simp only [addTargetListColumns, run_bind, h1, except_bind_ok]; exact h2⟩

/-- After the target list is processed, `createVirtualTableForAlias` collects
the unauthorized components and allocates the virtual relation and its map. -/
theorem createVirtual_finish (h : Heap) (a : Alias) (m : Nat) (columns : OrderedMap ColumnCell)
    (hu : h.usable (h.map m)) :
    ∃ h', ((do
        let unAuth1 ← collectUnauthorized (h.map m) []
        let unAuth ← collectNestedUnauthorized (h.map m) unAuth1
        let virtualTable ← newTable (fun _ =>
          TableObj.mk a.Aliasname (some columns) a.Aliasname false (some unAuth)
            (decide (unAuth.length = 0)) false)
        let m ← newMap [(a.Aliasname, virtualTable)]
        pure (some m) : HeapM (Option Nat))).run h = .ok (some h.maps.length, h') ∧
      h.continuedBy h' ∧ h.maps.length < h'.maps.length ∧
      h'.usable (h'.map h.maps.length) := by
  obtain ⟨un1, hun1⟩ := run_collectUnauthorized h (h.map m) []
  obtain ⟨un, hun⟩ := run_collectNestedUnauthorized h (h.map m) un1
    (fun e he => (hu e he).2.2)
  let V : TableObj := TableObj.mk a.Aliasname (some columns) a.Aliasname false
    (some un) (decide (un.length = 0)) false
  refine ⟨Heap.mk (h.tables ++ [V]) (h.maps ++ [[(a.Aliasname, h.tables.length)]]),
    ?_, ?_, ?_, ?_⟩
  · simp only [run_bind, except_bind_ok, hun1, hun, run_newTable, run_newMap, run_pure]
  · exact continuedBy_trans _ _ _ (continuedBy_newTable h V)
      (continuedBy_newMap (Heap.mk (h.tables ++ [V]) h.maps) _)
  · simp
  · have hmap : Heap.map (Heap.mk (h.tables ++ [V])
        (h.maps ++ [[(a.Aliasname, h.tables.length)]])) h.maps.length
        = [(a.Aliasname, h.tables.length)] :=
      map_append_new (Heap.mk (h.tables ++ [V]) h.maps) _
    rw [hmap]
    intro e he
    simp only [List.mem_singleton] at he
    subst he
    have htab : Heap.table (Heap.mk (h.tables ++ [V])
        (h.maps ++ [[(a.Aliasname, h.tables.length)]])) h.tables.length = V :=
      table_append_new (Heap.mk h.tables (h.maps ++ [[(a.Aliasname, h.tables.length)]])) V
    simp only [htab]
    simp [V]

/-- `createVirtualTableForAlias` on a map of usable relations, with targets
it can process: it returns a new map holding one new virtual relation, which
is usable, and the store is continued. -/
theorem createVirtual_usable (h : Heap) (a : Alias) (tl : Option (List Node)) (m : Nat)
    (hu : h.usable (h.map m)) (htl : targetsResolvable tl = true) :
    ∃ h', (createVirtualTableForAlias a tl (some m)).run h = .ok (some h.maps.length, h') ∧
      h.continuedBy h' ∧ h.maps.length < h'.maps.length ∧
      h'.usable (h'.map h.maps.length) := by
  have hcols : ∀ e ∈ h.map m, (h.table e.2).Columns.isSome = true := fun e he => (hu e he).2.1
  obtain ⟨n, hn⟩ := run_countAllColumns h ((h.map m).map Prod.snd) (by
    intro p hp
    obtain ⟨e, he, rfl⟩ := List.mem_map.mp hp
    exact hcols e he)
  cases tl with
  | none =>
    obtain ⟨columns, hcolumns⟩ := run_createAllColumnsFromSourceTableList_ok h
      ((h.map m).map Prod.snd) (a.Colnames.filterMap Node.GetString_) []
    obtain ⟨h', hrun, hrest⟩ := createVirtual_finish h a m columns hu
    refine ⟨h', ?_, hrest⟩
    rw [← hrun]
    simp only [createVirtualTableForAlias, entriesOf, run_bind, run_getMap, except_bind_ok, hn,
      hcolumns]
  | some targets =>
    obtain ⟨st, hst⟩ := run_addTargetListColumns_ok h (h.map m) n hcols targets
      ([], a.Colnames.filterMap Node.GetString_) (by simpa [targetsResolvable] using htl)
    obtain ⟨h', hrun, hrest⟩ := createVirtual_finish h a m st.1 hu
    refine ⟨h', ?_, hrest⟩
    rw [← hrun]
    simp only [createVirtualTableForAlias, entriesOf, run_bind, run_getMap, except_bind_ok, hn,
      hst, run_pure]
/-! ## The update functions on an empty map of the store -/

theorem run_unionRef_empty (h : Heap) (d : Nat) (l : List (Option Nat)) (hd : h.map d = []) :
    (UpdateUnauthorizedTablesByUnionRef (some d) l).run h = .ok ((), h) := by
  have h1 : shallowMap h (some d) = some [] := by simp [shallowMap, hd]
  have h2 : UpdateUnauthorizedTablesByUnion (some []) (l.map (shallowMap h)) = .ok (some []) := by
    unfold UpdateUnauthorizedTablesByUnion
    split <;> rfl
  unfold UpdateUnauthorizedTablesByUnionRef
  simp only [run_bind, run_get, except_bind_ok, h1, h2]
  change StateT.run (writeUpdated (h.map d) []) h = _
  rw [hd]
  rfl

theorem run_intersectionRef_empty (h : Heap) (d : Nat) (l : List (Option Nat))
    (hd : h.map d = []) :
    (UpdateUnauthorizedTablesByIntersectionRef (some d) l).run h = .ok ((), h) := by
  have h1 : shallowMap h (some d) = some [] := by simp [shallowMap, hd]
  have h2 : UpdateUnauthorizedTablesByIntersection (some []) (l.map (shallowMap h))
      = .ok (some []) := by
    unfold UpdateUnauthorizedTablesByIntersection
    split <;> rfl
  unfold UpdateUnauthorizedTablesByIntersectionRef
  simp only [run_bind, run_get, except_bind_ok, h1, h2]
  change StateT.run (writeUpdated (h.map d) []) h = _
  rw [hd]
  rfl

/-! ## Claims about the walker on concrete statements -/

/-- C21. Unqualified column targets under an alias, at the input of the
claim.  For the student 123,
`SELECT * FROM (SELECT id, name FROM student WHERE id = 123) AS v` ends in a
panic, from a nil relation map as well as from an empty one:
`createVirtualTableForAlias` reads `fields[1]` of the one-field column
reference `id`.  With the targets written `student.id, student.name` the same
statement is authorized. -/
theorem single_name_target_panics :
    faultOf (validateStatement mockService selectOwnRowAsV (studentCaller 123 0 0 []))
      = some (.runtimePanic "index out of range [1] with length 1") ∧
    faultOf (runOnClone (AuthorizeNode mockService (some selectOwnRowAsV)) (some []) false
        (studentCaller 123 0 0 []))
      = some (.runtimePanic "index out of range [1] with length 1") ∧
    faultOf ((createVirtualTableForAlias { Aliasname := "v", Colnames := [] }
        (some [singleNameTarget "id"]) (some 0)).run twoTableHeap)
      = some (.runtimePanic "index out of range [1] with length 1") ∧
    verdictOf (validateStatement mockService selectOwnRowQualifiedAsV (studentCaller 123 0 0 []))
      = some (some true) := by
  decide!

/-- C22. Subselect scoping, at an input where the incoming map is not empty.
For the student 123 the FROM item `(SELECT * FROM course) AS v`, walked from
the empty map, returns the authorized virtual relation `v` with the columns of
`course`.  Walked from the map that holds the unauthorized relation
`professor` under `x`, it returns `authorized = true` with a relation `v` that
is not authorized, has the columns of `professor` before those of `course`
and has `x` as unauthorized component; the incoming map has `course` added. -/
theorem subselect_takes_in_incoming_relations :
    walkFrom (AuthorizeNode mockService (some courseAsV)) (some []) false
        (studentCaller 123 0 0 [])
      = some (WalkView.mk true
          (some [⟨"v", "v", true, MockSchemaService.GetColumns "course", []⟩])
          (some [⟨"course", "course", true, MockSchemaService.GetColumns "course", []⟩])) ∧
    walkFrom (AuthorizeNode mockService (some courseAsV))
        (some [("x", unauthorizedBase mockService "professor")]) false (studentCaller 123 0 0 [])
      = some (WalkView.mk true
          (some [⟨"v", "v", false,
            ["id", "name", "email", "academic_rank", "degree", "department_id", "code",
              "english_name", "credits", "practice_hours", "theory_hours", "self_learn_hours",
              "prerequisite"], ["x"]⟩])
          (some [⟨"x", "professor", false, MockSchemaService.GetColumns "professor", []⟩,
             ⟨"course", "course", true, MockSchemaService.GetColumns "course", []⟩])) := by
  decide!

/-- C23. UNION, at an input where both sides leave a relation unauthorized.
For the student 123, `SELECT * FROM student UNION SELECT * FROM professor`
returns `authorized = false` and an empty relation map: neither `student` nor
`professor` is in it.  The enclosing
`SELECT * FROM (... UNION ...) AS v WHERE 1 = 1` builds `v` without
unauthorized components and returns `authorized = true`. -/
theorem union_returns_empty_map :
    walkFrom (AuthorizeNode mockService (some studentUnionProfessor)) none false
        (studentCaller 123 0 0 [])
      = some (WalkView.mk false (some []) none) ∧
    walkFrom (AuthorizeNode mockService (some unionAsVWhereTrue)) none false
        (studentCaller 123 0 0 [])
      = some (WalkView.mk true (some [⟨"v", "v", true, [], []⟩]) none) ∧
    verdictOf (validateStatement mockService unionAsVWhereTrue (studentCaller 123 0 0 []))
      = some (some true) := by
  decide!

/-- C25. Inner join without a restrictive ON, from a nil map and from an empty
map.  For the student 1, the join
`student JOIN course_class_enrollment AS cce ON ...` walked from an empty map
is denied for the three ON predicates of the tests (`cce` alone is authorized
by `cce.student_id = 1`).  Walked from a nil map, as `validateQuery` does, the
same join returns `authorized = true` with both relations authorized for each
of the three predicates, and `SELECT * FROM student JOIN ... ON student.id =
cce.course_class_id` validates. -/
theorem inner_join_from_nil_map_is_authorized :
    (walkFrom (AuthorizeNode mockService
        (some (joinStudentEnrollment .JOIN_INNER false (some onColumnEqualsColumn))))
        (some []) false (studentCaller 1 0 0 [])).map
        (fun r => (r.authorized, RelationView.flags r.tables))
      = some (false, some [("student", false), ("cce", false)]) ∧
    (walkFrom (AuthorizeNode mockService
        (some (joinStudentEnrollment .JOIN_INNER false (some (onEnrollmentStudent 1)))))
        (some []) false (studentCaller 1 0 0 [])).map
        (fun r => (r.authorized, RelationView.flags r.tables))
      = some (false, some [("student", false), ("cce", true)]) ∧
    (walkFrom (AuthorizeNode mockService
        (some (joinStudentEnrollment .JOIN_INNER false (some onColumnEqualsColumn))))
        none false (studentCaller 1 0 0 [])).map
        (fun r => (r.authorized, RelationView.flags r.tables))
      = some (true, some [("student", true), ("cce", true)]) ∧
    (walkFrom (AuthorizeNode mockService
        (some (joinStudentEnrollment .JOIN_INNER false (some (onEnrollmentStudent 1)))))
        none false (studentCaller 1 0 0 [])).map
        (fun r => (r.authorized, RelationView.flags r.tables))
      = some (true, some [("student", true), ("cce", true)]) ∧
    (walkFrom (AuthorizeNode mockService
        (some (joinStudentEnrollment .JOIN_INNER false (some (onEnrollmentStudent 2)))))
        none false (studentCaller 1 0 0 [])).map
        (fun r => (r.authorized, RelationView.flags r.tables))
      = some (true, some [("student", true), ("cce", true)]) ∧
    verdictOf (validateStatement mockService
        (selectStarFrom [joinStudentEnrollment .JOIN_INNER false (some onColumnEqualsColumn)]
          none) (studentCaller 1 0 0 []))
      = some (some true) := by
  refine ⟨?_, ?_, ?_, ?_, ?_, ?_⟩ <;> decide!

/-- C30. Single-statement requirement, at a text with two statements.  For
`SELECT 1; DROP TABLE student` the parser returns two statements;
`validateQuery` looks at the first one only and returns `true` (for a student
and for an admin).  An empty list of statements and the single statement
`DROP TABLE student` are refused. -/
theorem second_statement_is_not_validated :
    (validateQuery mockService emptyDirectory "student" 123
        (.ok [selectOne, dropTableStudent])).toOption
      = some { isValid := true, errMsg := permissionMessage, err := none } ∧
    (validateQuery mockService emptyDirectory "admin" 1
        (.ok [selectOne, dropTableStudent])).toOption
      = some { isValid := true, errMsg := permissionMessage, err := none } ∧
    (validateQuery mockService emptyDirectory "admin" 1 (.ok [])).toOption
      = some { isValid := false, errMsg := "Empty query", err := none } ∧
    (validateQuery mockService emptyDirectory "admin" 1 (.ok [dropTableStudent])).toOption
      = some { isValid := false, errMsg := "Only SELECT queries are allowed", err := none } := by
  decide!

/-! ## The default of `AuthorizeNode` and the arity of NOT -/

/-- C29. Fail-closed default: for every node whose kind has no case of its
own in `AuthorizeNode`, every relation map, every flag `neg` and every caller
(admin included), `AuthorizeNode` returns without error `Authorized = false`
and the incoming map itself, and leaves the store as it is; walked on a map
of copies given by value, the result holds that very map, unchanged. -/
theorem default_node_fails_closed (s : AuthorizationServiceImpl) (n : Node)
    (hn : n.hasCase = false) (neg : Bool) (u : UserContext) :
    (∀ (tables : Option Nat) (h : Heap),
      (AuthorizeNode s (some n) tables neg u).run h
        = .ok ({ Authorized := false, Tables := tables, TargetList := none }, h)) ∧
    (∀ (M : Option TableMap),
      (nodeSem s n).onClone M neg u
        = .ok { result := { Authorized := false, Tables := M, TargetList := none },
                incoming := M, aliased := true }) := by
  cases n <;> simp [Node.hasCase] at hn <;> exact ⟨fun _ _ => rfl, fun _ => rfl⟩

theorem default_node_fails_closed_witness :
    (Node.other "FuncCall").hasCase = false ∧
    (AuthorizeNode mockService (some (.other "FuncCall")) (some 0) false (adminCaller 1)).run
        twoTableHeap
      = .ok ({ Authorized := false, Tables := some 0, TargetList := none }, twoTableHeap) :=
  ⟨rfl, (default_node_fails_closed mockService (.other "FuncCall") rfl false
    (adminCaller 1)).1 (some 0) twoTableHeap⟩

theorem foldAuthorized_fault : ∀ (ts : TableMap) (a : Bool) (e : Fault),
    foldAuthorized a ts = .error e → e = .runtimePanic "nil map"
  | [], a, e, h => by simp [foldAuthorized] at h
  | (k, t) :: rest, a, e, h => by
      simp only [foldAuthorized] at h
      split at h
      · exact foldAuthorized_fault rest _ e h
      · split at h
        · split at h
          · simp at h; exact h.symm
          · exact foldAuthorized_fault rest _ e h
        · exact foldAuthorized_fault rest _ e h

theorem foldAuthorizedMap_fault (T : Option TableMap) (a : Bool) (e : Fault)
    (h : foldAuthorizedMap a T = .error e) : e = .runtimePanic "nil map" := by
  cases T with
  | none => simp [foldAuthorizedMap] at h; exact h.symm
  | some ts => exact foldAuthorized_fault ts a e h

/-- C28. NOT arity: for every relation map whose relations `Clone` can copy,
every flag `neg` and every caller, `authorizeBoolExpr` on a NOT with a number
of operands other than one returns the error
"NOT expression must have exactly one argument".  With exactly one operand,
whatever fault the call ends in is the fault of the copy of the map, the
fault of the walk of the operand (with the flag negated), or the panic of the
closing loop on the map the operand returned: no arity error is raised by
the NOT itself, and when the copy and the operand return and the closing loop
does not panic, so does the call. -/
theorem not_arity (s : AuthorizationServiceImpl) (args : List Node) (tables : Option TableMap)
    (neg : Bool) (u : UserContext) :
    (args.length ≠ 1 → acyclicTablesOpt tables = true →
      authorizeBoolExpr s .NOT_EXPR args tables neg u
        = .error (.error "NOT expression must have exactly one argument")) ∧
    (∀ a, args = [a] →
      (∀ e, authorizeBoolExpr s .NOT_EXPR args tables neg u = .error e →
        CloneUnAuthorizedTables tables = .error e ∨
        ∃ c, CloneUnAuthorizedTables tables = .ok c ∧
          ((nodeSem s a).onClone c (!neg) u = .error e ∨
            ∃ r, (nodeSem s a).onClone c (!neg) u = .ok r ∧ e = .runtimePanic "nil map")) ∧
      (∀ c r b, CloneUnAuthorizedTables tables = .ok c →
        (nodeSem s a).onClone c (!neg) u = .ok r →
        foldAuthorizedMap r.result.Authorized (if r.aliased then r.incoming else r.result.Tables)
          = .ok b →
        ∃ res, authorizeBoolExpr s .NOT_EXPR args tables neg u = .ok res ∧
          res.Authorized = b)) := by
  refine ⟨?_, ?_⟩
  · intro hlen hac
    obtain ⟨c, hc⟩ := cloneTablesOpt_total tables hac
    simp only [authorizeBoolExpr, authorizeBoolExprOn, CloneUnAuthorizedTables, hc, except_bind_ok,
      authorizeBoolExprAfterClone]
    cases args with
    | nil => rfl
    | cons a rest =>
      cases rest with
      | nil => simp at hlen
      | cons b more => rfl
  · intro a ha
    subst ha
    refine ⟨?_, ?_⟩
    · intro e he
      simp only [authorizeBoolExpr, authorizeBoolExprOn, nodeSemList, List.map_cons, List.map_nil]
        at he
      cases hc : CloneUnAuthorizedTables tables with
      | error e' =>
        rw [hc] at he
        simp only [except_bind_error] at he
        left
        injection he with he
        rw [he]
      | ok c =>
        rw [hc] at he
        simp only [except_bind_ok, authorizeBoolExprAfterClone] at he
        right
        refine ⟨c, rfl, ?_⟩
        cases hw : (nodeSem s a).onClone c (!neg) u with
        | error e' =>
          rw [hw] at he
          simp only [except_bind_error] at he
          left
          injection he with he
          rw [he]
        | ok r =>
          rw [hw] at he
          simp only [except_bind_ok] at he
          right
          refine ⟨r, rfl, ?_⟩
          cases hf : foldAuthorizedMap r.result.Authorized
              (if r.aliased then r.incoming else r.result.Tables) with
          | error e' =>
            rw [hf] at he
            simp only [except_bind_error] at he
            injection he with he
            rw [← he]
            exact foldAuthorizedMap_fault _ _ _ hf
          | ok b =>
            rw [hf] at he
            simp at he
    · intro c r b hc hw hf
      refine ⟨{ Authorized := b, Tables := if r.aliased then r.incoming else r.result.Tables }, ?_,
        rfl⟩
      simp only [authorizeBoolExpr, authorizeBoolExprOn, nodeSemList, List.map_cons, List.map_nil,
        hc, except_bind_ok, authorizeBoolExprAfterClone, hw, hf]
      rfl

theorem not_arity_witness :
    ([columnOpConst "student" "id" "=" 1 |>.node, columnOpConst "student" "id" "=" 2 |>.node]
      : List Node).length ≠ 1 ∧
    acyclicTablesOpt (some [("student", studentTbl false)]) = true ∧
    authorizeBoolExpr mockService .NOT_EXPR
        [(columnOpConst "student" "id" "=" 1).node, (columnOpConst "student" "id" "=" 2).node]
        (some [("student", studentTbl false)]) false (studentCaller 1 0 0 [])
      = .error (.error "NOT expression must have exactly one argument") :=
  ⟨by decide, by decide, (not_arity mockService _ _ false (studentCaller 1 0 0 [])).1
    (by decide) (by decide)⟩
/-! ## `authorizeJoinExpr`: the opaque joins and the join types -/

/-- The two `MergeMaps` calls of `authorizeJoinExpr` return the new map
`curTables`; when both side maps are maps of the store with usable relations,
so is `curTables`. -/
theorem joinOn_merged (h2 : Heap) (ml mr : Nat) :
    ∃ h3 h4, (MergeMaps none (some ml)).run h2 = .ok (some h2.maps.length, h3) ∧
      (MergeMaps (some h2.maps.length) (some mr)).run h3 = .ok (some h2.maps.length, h4) ∧
      (h2.holds ml → h2.holds mr → h4.holds h2.maps.length) := by
  refine ⟨_, _, run_MergeMaps_none h2 ml, run_MergeMaps_some _ _ mr, ?_⟩
  intro hl hr
  obtain ⟨h3, hmerge3, hc3, _, hlen3, hu3⟩ := mergeMaps_fresh h2 ml hl.2
  have huR : h3.usable (h3.map mr) := by
    rw [hc3.2.2.2 mr hr.1]
    exact usable_continued h2 h3 _ hr.2 hc3
  obtain ⟨h4, hmerge4, _, _, hlen4, hu4, _⟩ := mergeMaps_owned h2 h3 h2.maps.length mr hc3
    (Nat.le_refl _) (by rw [hlen3]; exact Nat.lt_succ_self _) hu3 huR
  have e3 := (run_MergeMaps_none h2 ml).symm.trans hmerge3
  injection e3 with e3
  injection e3 with _ e3
  rw [e3]
  have e4 := (run_MergeMaps_some h3 h2.maps.length mr).symm.trans hmerge4
  injection e4 with e4
  injection e4 with _ e4
  rw [e4]
  exact ⟨by rw [hlen4, hlen3]; exact Nat.lt_succ_self _, hu4⟩

/-- A NATURAL or USING join whose sides are not both authorized: the verdict
is the admin test, whatever the ON walk is. -/
theorem joinOn_natus (larg rarg : Walk) (jointype : JoinType) (isNatural : Bool)
    (usingClause : List Node) (joinAlias : Option Alias) (tables : Option Nat) (neg : Bool)
    (u : UserContext) (h h1 h2 : Heap) (resL resR : AuthorizationResultRef) (ml mr : Nat)
    (hL : (larg tables neg u).run h = .ok (resL, h1))
    (hR : (rarg tables neg u).run h1 = .ok (resR, h2))
    (hml : resL.Tables = some ml) (hmr : resR.Tables = some mr)
    (hnot : (resL.Authorized && resR.Authorized) = false)
    (hnatus : (!usingClause.isEmpty || isNatural) = true)
    (hu : joinAlias.isSome = true → h2.holds ml ∧ h2.holds mr) :
    ∃ res h', res.Authorized = (u.GetRole == "admin") ∧
      ∀ quals : Walk, (authorizeJoinExprOn larg rarg quals false false jointype isNatural
        usingClause joinAlias tables neg u).run h = .ok (res, h') := by
  obtain ⟨h3, h4, hm3, hm4, hholds⟩ := joinOn_merged h2 ml mr
  cases joinAlias with
  | none =>
    refine ⟨AuthorizationResultRef.mk (u.GetRole == "admin") (some h2.maps.length) none, h4, rfl,
      fun quals => ?_⟩
    simp only [authorizeJoinExprOn, run_bind, Bool.false_eq_true, if_false, run_pure,
      except_bind_ok, hL, hR, hml, hmr, hm3, hm4, hnot, hnatus, if_true, wrapJoinAlias]
  | some a =>
    obtain ⟨hl, hr⟩ := hu rfl
    obtain ⟨h5, hrun5, _⟩ := createVirtual_usable h4 a none h2.maps.length
      ((hholds hl hr).2) rfl
    refine ⟨AuthorizationResultRef.mk (u.GetRole == "admin") (some h4.maps.length) none, h5, rfl,
      fun quals => ?_⟩
    simp only [authorizeJoinExprOn, run_bind, Bool.false_eq_true, if_false, run_pure,
      except_bind_ok, hL, hR, hml, hmr, hm3, hm4, hnot, hnatus, if_true, wrapJoinAlias, hrun5]

/-- A join that is neither NATURAL nor USING, whose sides are not both
authorized and whose type has no case in the switch. -/
theorem joinOn_unsupported (larg rarg quals : Walk) (jointype : JoinType)
    (joinAlias : Option Alias) (tables : Option Nat) (neg : Bool)
    (u : UserContext) (h h1 h2 : Heap) (resL resR : AuthorizationResultRef) (ml mr : Nat)
    (hL : (larg tables neg u).run h = .ok (resL, h1))
    (hR : (rarg tables neg u).run h1 = .ok (resR, h2))
    (hml : resL.Tables = some ml) (hmr : resR.Tables = some mr)
    (hnot : (resL.Authorized && resR.Authorized) = false)
    (hjt : jointype.supported = false) :
    (authorizeJoinExprOn larg rarg quals false false jointype false [] joinAlias tables neg
      u).run h = .error (.error ("unsupported join type: " ++ jointype.String)) := by
  obtain ⟨h3, h4, hm3, hm4, _⟩ := joinOn_merged h2 ml mr
  cases jointype <;> simp [JoinType.supported] at hjt <;>
    simp only [authorizeJoinExprOn, run_bind, Bool.false_eq_true, if_false, run_pure,
      except_bind_ok, hL, hR, hml, hmr, hm3, hm4, hnot, List.isEmpty_nil, Bool.not_true,
      Bool.or_self, run_throw, except_bind_error]

/-- A NATURAL or USING join whose sides return relation maps.  Let the join be
NATURAL or have a USING clause, let the walks of its two sides (the left one first) return
results that hold a relation map, not both authorized, and, when the join has
an alias, let these be maps of the store whose relations have a column map and
a component map.  Then `authorizeJoinExpr` returns, without error,
`Authorized = true` if the role of the caller is admin and `Authorized =
false` for every other caller, and it returns the same result and the same
store whatever the ON predicate is (none included): the ON predicate is not
walked. -/
theorem natural_or_using_join_skips_quals (s : AuthorizationServiceImpl) (j : JoinExpr)
    (l r : Node) (tables : Option Nat) (neg : Bool) (u : UserContext) (h h1 h2 : Heap)
    (resL resR : AuthorizationResultRef) (ml mr : Nat)
    (hl : j.Larg = some l) (hr : j.Rarg = some r)
    (hL : (AuthorizeNode s (some l) tables neg u).run h = .ok (resL, h1))
    (hR : (AuthorizeNode s (some r) tables neg u).run h1 = .ok (resR, h2))
    (hml : resL.Tables = some ml) (hmr : resR.Tables = some mr)
    (hnot : (resL.Authorized && resR.Authorized) = false)
    (hnatus : j.IsNatural = true ∨ j.UsingClause ≠ [])
    (hu : j.Alias.isSome = true → h2.holds ml ∧ h2.holds mr) :
    ∃ res h', res.Authorized = (u.GetRole == "admin") ∧
      ∀ quals : Option Node,
        (authorizeJoinExprPtr s (some { j with Quals := quals }) tables neg u).run h
          = .ok (res, h') := by
  have hop : (!j.UsingClause.isEmpty || j.IsNatural) = true := by
    rcases hnatus with hn | hn
    · simp [hn]
    · cases hus : j.UsingClause with
      | nil => exact absurd hus hn
      | cons a rest => simp
  obtain ⟨res, h', hauth, hrun⟩ := joinOn_natus (AuthorizeNode s (some l))
    (AuthorizeNode s (some r)) j.Jointype j.IsNatural j.UsingClause j.Alias tables neg u h h1 h2
    resL resR ml mr hL hR hml hmr hnot hop hu
  refine ⟨res, h', hauth, fun quals => ?_⟩
  simp only [authorizeJoinExprPtr, authorizeJoinExpr, hl, hr, Option.isNone_some]
  exact hrun (AuthorizeNode s quals)

theorem natural_or_using_join_skips_quals_witness :
    ∃ res h', res.Authorized = (professorTwo.GetRole == "admin") ∧
      ∀ quals : Option Node,
        (authorizeJoinExprPtr mockService
          (some { naturalJoinStudentEnrollment with Quals := quals }) none false
          professorTwo).run {} = .ok (res, h') :=
  natural_or_using_join_skips_quals mockService naturalJoinStudentEnrollment _ _ none false
    professorTwo {} _ _ _ _ 0 1 rfl rfl rfl rfl rfl rfl rfl (Or.inl rfl)
    (fun hal => by cases hal)

/-- C26. NATURAL / USING joins, at a join with a function item as a side.
Walked from a nil relation map, as `validateQuery` does,
`student NATURAL JOIN generate_series(1, 3)` ends in a panic (the range over a
nil map in `MergeMaps`) for a student and for an admin, and so does
`generate_series(1, 3) AS id JOIN student USING (id)`;
`SELECT * FROM student NATURAL JOIN generate_series(1, 3)` does not validate
and does not return for either caller.  Walked from an empty map, the same
join returns `authorized = false` for the student and `authorized = true` for
the admin; and the NATURAL join of the tests, `student NATURAL JOIN
course_class_enrollment AS cce`, returns `authorized = false` for a professor
from a nil map. -/
theorem natural_join_with_function_side_panics :
    faultOf ((authorizeJoinExprPtr mockService (some naturalJoinStudentSeries) none false
        (studentCaller 1 0 0 [])).run {}) = some (.runtimePanic "nil map") ∧
    faultOf ((authorizeJoinExprPtr mockService (some naturalJoinStudentSeries) none false
        (adminCaller 1)).run {}) = some (.runtimePanic "nil map") ∧
    faultOf ((authorizeJoinExprPtr mockService (some usingJoinSeriesStudent) none false
        (studentCaller 1 0 0 [])).run {}) = some (.runtimePanic "nil map") ∧
    faultOf ((authorizeJoinExprPtr mockService (some usingJoinSeriesStudent) none false
        (adminCaller 1)).run {}) = some (.runtimePanic "nil map") ∧
    verdictOf (validateStatement mockService
        (selectStarFrom [naturalJoinStudentSeries.node] none) (studentCaller 1 0 0 [])) = none ∧
    verdictOf (validateStatement mockService
        (selectStarFrom [naturalJoinStudentSeries.node] none) (adminCaller 1)) = none ∧
    (walkFrom (authorizeJoinExprPtr mockService (some naturalJoinStudentSeries)) (some []) false
        (studentCaller 1 0 0 [])).map (fun r => r.authorized) = some false ∧
    (walkFrom (authorizeJoinExprPtr mockService (some naturalJoinStudentSeries)) (some []) false
        (adminCaller 1)).map (fun r => r.authorized) = some true ∧
    (walkFrom (authorizeJoinExprPtr mockService (some naturalJoinStudentEnrollment)) none false
        professorTwo).map (fun r => r.authorized) = some false := by
  refine ⟨?_, ?_, ?_, ?_, ?_, ?_, ?_, ?_, ?_⟩ <;> decide!

/-- Counterexample to C27: the SEMI join of the two public tables `course` and
`faculty` returns, for a student, `authorized = true` and no error; so does
the SEMI join of `student` and `course_class_enrollment` for an admin. -/
theorem semi_join_of_authorized_sides_returns :
    outcomeOf AuthorizationResult.Authorized
        (runWalk (authorizeJoinExprPtr mockService (some (semiJoin "course" "faculty"))) false
          (studentCaller 1 0 0 [])) = some (some true) ∧
    outcomeOf AuthorizationResult.Authorized
        (runWalk (authorizeJoinExprPtr mockService
          (some (semiJoin "student" "course_class_enrollment"))) false (adminCaller 1))
      = some (some true) := by
  constructor <;> decide!

/-- C27 (amended). Unknown join type is an error.  Let the join type be none
of INNER, UNIQUE-INNER, LEFT, RIGHT, FULL, UNIQUE-OUTER, let the join be
neither NATURAL nor have a USING clause, and let the walks of its two sides
(the left one first) return results that hold a relation map, not both
authorized.  Then `authorizeJoinExpr` returns the error
"unsupported join type: <type>".  A nil join expression, a join whose left
side is absent and a join whose right side is absent return an error, for
every relation map, flag and caller. -/
theorem unknown_join_type_is_error (s : AuthorizationServiceImpl) (j : JoinExpr)
    (l r : Node) (tables : Option Nat) (neg : Bool) (u : UserContext) (h h1 h2 : Heap)
    (resL resR : AuthorizationResultRef) (ml mr : Nat)
    (hl : j.Larg = some l) (hr : j.Rarg = some r)
    (hL : (AuthorizeNode s (some l) tables neg u).run h = .ok (resL, h1))
    (hR : (AuthorizeNode s (some r) tables neg u).run h1 = .ok (resR, h2))
    (hml : resL.Tables = some ml) (hmr : resR.Tables = some mr)
    (hnot : (resL.Authorized && resR.Authorized) = false)
    (hplain : j.IsNatural = false ∧ j.UsingClause = [])
    (hjt : j.Jointype.supported = false) :
    (authorizeJoinExprPtr s (some j) tables neg u).run h
      = .error (.error ("unsupported join type: " ++ j.Jointype.String)) ∧
    (authorizeJoinExprPtr s none tables neg u).run h = .error (.error "joinExpr is nil") ∧
    (authorizeJoinExprPtr s (some { j with Larg := none }) tables neg u).run h
      = .error (.error "left side of join is nil") ∧
    (authorizeJoinExprPtr s (some { j with Rarg := none }) tables neg u).run h
      = .error (.error "right side of join is nil") := by
  refine ⟨?_, rfl, rfl, ?_⟩
  · have := joinOn_unsupported (AuthorizeNode s (some l)) (AuthorizeNode s (some r))
      (AuthorizeNode s j.Quals) j.Jointype j.Alias tables neg u h h1 h2 resL resR ml mr hL hR hml
      hmr hnot hjt
    simp only [authorizeJoinExprPtr, authorizeJoinExpr, hl, hr, Option.isNone_some, hplain.1,
      hplain.2]
    exact this
  · simp only [authorizeJoinExprPtr, authorizeJoinExpr, hl, Option.isNone_some,
      Option.isNone_none]
    rfl

theorem unknown_join_type_is_error_witness :
    (authorizeJoinExprPtr mockService (some (semiJoin "student" "course")) none false
        (studentCaller 1 0 0 [])).run {}
      = .error (.error ("unsupported join type: " ++ JoinType.JOIN_SEMI.String)) :=
  (unknown_join_type_is_error mockService (semiJoin "student" "course") _ _ none false
    (studentCaller 1 0 0 []) {} _ _ _ _ 0 1 rfl rfl rfl rfl rfl rfl rfl ⟨rfl, rfl⟩ rfl).1

/-! ## The walker does not touch a map it has no reference to -/

theorem keeps_pure {α : Type} (f : Nat) (a : α) (post : α → Prop) (ha : post a) :
    keepsEmpty f (pure a) post := by
  intro h b h' hE hrun
  rw [run_pure] at hrun
  injection hrun with hrun
  injection hrun with h1 h2
  subst h1; subst h2
  exact ⟨hE, ha⟩

theorem keeps_throw {α : Type} (f : Nat) (e : Fault) (post : α → Prop) :
    keepsEmpty f (throw e : HeapM α) post := by
  intro h b h' _ hrun
  rw [run_throw] at hrun
  cases hrun

theorem keeps_bind {α β : Type} {f : Nat} {x : HeapM α} {g : α → HeapM β} {p : α → Prop}
    {q : β → Prop} (hx : keepsEmpty f x p) (hg : ∀ a, p a → keepsEmpty f (g a) q) :
    keepsEmpty f (x >>= g) q := by
  intro h b h' hE hrun
  rw [run_bind] at hrun
  cases hx' : x.run h with
  | error e => rw [hx'] at hrun; cases hrun
  | ok pr =>
    obtain ⟨a, h1⟩ := pr
    rw [hx'] at hrun
    have h2 := hx h a h1 hE hx'
    exact hg a h2.2 h1 b h' h2.1 hrun

theorem keeps_weaken {α : Type} {f : Nat} {x : HeapM α} {p q : α → Prop}
    (hx : keepsEmpty f x p) (hpq : ∀ a, p a → q a) : keepsEmpty f x q := by
  intro h a h' hE hrun
  have h2 := hx h a h' hE hrun
  exact ⟨h2.1, hpq a h2.2⟩

theorem keeps_lift {α : Type} (f : Nat) (e : Except Fault α) :
    keepsEmpty f (liftM e : HeapM α) (fun _ => True) := by
  intro h a h' hE hrun
  cases e with
  | error e => cases hrun
  | ok v =>
    injection hrun with hrun
    injection hrun with h1 h2
    subst h2
    exact ⟨hE, trivial⟩

theorem keeps_get (f : Nat) : keepsEmpty f (get : HeapM Heap) (fun _ => True) := by
  intro h a h' hE hrun
  rw [run_get] at hrun
  injection hrun with hrun
  injection hrun with h1 h2
  subst h2
  exact ⟨hE, trivial⟩

theorem keeps_getTable (f p : Nat) : keepsEmpty f (getTable p) (fun _ => True) := by
  intro h a h' hE hrun
  rw [run_getTable] at hrun
  injection hrun with hrun
  injection hrun with h1 h2
  subst h2
  exact ⟨hE, trivial⟩

theorem keeps_getMap (f m : Nat) : keepsEmpty f (getMap m) (fun _ => True) := by
  intro h a h' hE hrun
  rw [run_getMap] at hrun
  injection hrun with hrun
  injection hrun with h1 h2
  subst h2
  exact ⟨hE, trivial⟩

theorem emptyAt_newMap (h : Heap) (f : Nat) (es : OrderedMap Nat) (hE : h.emptyAt f) :
    Heap.emptyAt { h with maps := h.maps ++ [es] } f :=
  ⟨by simp; exact Nat.lt_succ_of_lt hE.1, by rw [map_append_old h es f hE.1]; exact hE.2⟩

theorem keeps_newMap (f : Nat) (es : OrderedMap Nat) :
    keepsEmpty f (newMap es) (fun m => m ≠ f) := by
  intro h a h' hE hrun
  rw [run_newMap] at hrun
  injection hrun with hrun
  injection hrun with h1 h2
  subst h1; subst h2
  exact ⟨emptyAt_newMap h f es hE, Nat.ne_of_gt hE.1⟩

theorem keeps_setMap (f d : Nat) (es : OrderedMap Nat) (hd : d ≠ f) :
    keepsEmpty f (setMap d es) (fun _ => True) := by
  intro h a h' hE hrun
  rw [run_setMap] at hrun
  injection hrun with hrun
  injection hrun with h1 h2
  subst h2
  refine ⟨⟨by simp; exact hE.1, ?_⟩, trivial⟩
  rw [map_set_other h es d f (Ne.symm hd)]
  exact hE.2

theorem keeps_newTable (f : Nat) (mk : Nat → TableObj) :
    keepsEmpty f (newTable mk) (fun _ => True) := by
  intro h a h' hE hrun
  rw [run_newTable] at hrun
  injection hrun with hrun
  injection hrun with h1 h2
  subst h2
  exact ⟨hE, trivial⟩

theorem keeps_setTable (f p : Nat) (obj : TableObj) :
    keepsEmpty f (setTable p obj) (fun _ => True) := by
  intro h a h' hE hrun
  rw [run_setTable] at hrun
  injection hrun with hrun
  injection hrun with h1 h2
  subst h2
  exact ⟨hE, trivial⟩

theorem keeps_entriesOf (f : Nat) (m : Option Nat) :
    keepsEmpty f (entriesOf m) (fun _ => True) := by
  cases m with
  | none => exact keeps_throw f _ _
  | some mp => exact keeps_getMap f mp

theorem keeps_mergeEntries (f : Nat) (dst : Option Nat) (es : OrderedMap Nat)
    (hd : dst ≠ some f) : keepsEmpty f (mergeEntries dst es) (fun d => d ≠ f) := by
  have hrest : ∀ d, d ≠ f → keepsEmpty f (do
      let cur ← getMap d
      setMap d (es.foldl (fun acc e => omSet acc e.1 e.2) cur)
      pure d : HeapM Nat) (fun d => d ≠ f) := by
    intro d hdf
    refine keeps_bind (keeps_getMap f d) ?_
    intro cur _
    refine keeps_bind (keeps_setMap f d _ hdf) ?_
    intro _ _
    exact keeps_pure f d _ hdf
  unfold mergeEntries
  cases dst with
  | none =>
    dsimp only
    refine keeps_bind (keeps_newMap f []) ?_
    intro d hdf
    exact hrest d hdf
  | some d =>
    dsimp only
    refine keeps_bind (keeps_pure f d (fun d => d ≠ f) (fun hdf => hd (by rw [hdf]))) ?_
    intro d' hdf
    exact hrest d' hdf

theorem keeps_MergeMaps (f : Nat) (dst src : Option Nat) (hd : dst ≠ some f) :
    keepsEmpty f (MergeMaps dst src) (fun r => r ≠ some f) := by
  unfold MergeMaps
  cases src with
  | none => exact keeps_throw f _ _
  | some sp =>
    refine keeps_bind (keeps_getMap f sp) ?_
    intro es _
    refine keeps_bind (keeps_mergeEntries f dst es hd) ?_
    intro d hdf
    exact keeps_pure f (some d) _ (fun hc => hdf (by injection hc))
theorem keeps_tbind {α β : Type} {f : Nat} {x : HeapM α} {g : α → HeapM β} {q : β → Prop}
    (hx : keepsEmpty f x (fun _ => True)) (hg : ∀ a, keepsEmpty f (g a) q) :
    keepsEmpty f (x >>= g) q :=
  keeps_bind hx (fun a _ => hg a)

theorem keeps_true {α : Type} {f : Nat} {x : HeapM α} {p : α → Prop}
    (hx : keepsEmpty f x p) : keepsEmpty f x (fun _ => True) :=
  keeps_weaken hx (fun _ _ => trivial)

theorem keeps_createColumnFromSourceTable (f : Nat) (columns : OrderedMap ColumnCell)
    (colName : String) (src : Nat) (newColAlias : Option String) :
    keepsEmpty f (createColumnFromSourceTable columns colName src newColAlias)
      (fun _ => True) := by
  unfold createColumnFromSourceTable
  refine keeps_tbind (keeps_getTable f src) ?_
  intro obj
  split
  · exact keeps_throw f _ _
  · split
    · exact keeps_pure f _ _ trivial
    · exact keeps_pure f _ _ trivial

theorem keeps_createColumnsLoop (f src : Nat) : ∀ (cs A : List String)
    (columns : OrderedMap ColumnCell),
    keepsEmpty f (createColumnsLoop src cs A columns) (fun _ => True)
  | [], _, columns => by
      unfold createColumnsLoop
      exact keeps_pure f _ _ trivial
  | c :: rest, [], columns => by
      unfold createColumnsLoop
      exact keeps_tbind (keeps_createColumnFromSourceTable f _ _ _ _)
        (fun columns' => keeps_createColumnsLoop f src rest [] columns')
  | c :: rest, a :: more, columns => by
      unfold createColumnsLoop
      exact keeps_tbind (keeps_createColumnFromSourceTable f _ _ _ _)
        (fun columns' => keeps_createColumnsLoop f src rest more columns')

theorem keeps_createAllColumnFromSourceTable (f : Nat) (columns : OrderedMap ColumnCell)
    (src : Nat) (A : List String) :
    keepsEmpty f (createAllColumnFromSourceTable columns src A) (fun _ => True) := by
  unfold createAllColumnFromSourceTable
  refine keeps_tbind (keeps_getTable f src) ?_
  intro obj
  split
  · exact keeps_pure f _ _ trivial
  · exact keeps_createColumnsLoop f src _ _ _

theorem keeps_createAllColumnsFromSourceTableList (f : Nat) : ∀ (ps : List Nat)
    (A : List String) (columns : OrderedMap ColumnCell),
    keepsEmpty f (createAllColumnsFromSourceTableList ps A columns) (fun _ => True)
  | [], _, columns => by
      unfold createAllColumnsFromSourceTableList
      exact keeps_pure f _ _ trivial
  | p :: rest, A, columns => by
      unfold createAllColumnsFromSourceTableList
      refine keeps_tbind (keeps_getTable f p) ?_
      intro obj
      split
      · exact keeps_createAllColumnsFromSourceTableList f rest A columns
      · exact keeps_tbind (keeps_createAllColumnFromSourceTable f _ _ _)
          (fun columns' => keeps_createAllColumnsFromSourceTableList f rest _ columns')

theorem keeps_countAllColumns (f : Nat) : ∀ (ps : List Nat),
    keepsEmpty f (countAllColumns ps) (fun _ => True)
  | [] => by
      unfold countAllColumns
      exact keeps_pure f _ _ trivial
  | p :: rest => by
      unfold countAllColumns
      refine keeps_tbind (keeps_getTable f p) ?_
      intro obj
      split
      · exact keeps_throw f _ _
      · exact keeps_tbind (keeps_countAllColumns f rest) (fun n => keeps_pure f _ _ trivial)

theorem keeps_addTargetColumns (f : Nat) (cur : OrderedMap Nat) (allColCnt : Nat)
    (colNode : Node) (state : OrderedMap ColumnCell × List String) :
    keepsEmpty f (addTargetColumns cur allColCnt colNode state) (fun _ => True) := by
  obtain ⟨columns, A⟩ := state
  unfold addTargetColumns
  dsimp only
  repeat' (first
    | exact keeps_pure f _ _ trivial
    | exact keeps_throw f _ _
    | exact keeps_getTable f _
    | exact keeps_createColumnFromSourceTable f _ _ _ _
    | exact keeps_createAllColumnFromSourceTable f _ _ _
    | exact keeps_createAllColumnsFromSourceTableList f _ _ _
    | refine keeps_tbind ?_ (fun _ => ?_)
    | split)

theorem keeps_addTargetListColumns (f : Nat) (cur : OrderedMap Nat) (allColCnt : Nat) :
    ∀ (targets : List Node) (state : OrderedMap ColumnCell × List String),
    keepsEmpty f (addTargetListColumns cur allColCnt targets state) (fun _ => True)
  | [], state => by
      unfold addTargetListColumns
      exact keeps_pure f _ _ trivial
  | t :: rest, state => by
      unfold addTargetListColumns
      exact keeps_tbind (keeps_addTargetColumns f cur allColCnt t state)
        (fun st => keeps_addTargetListColumns f cur allColCnt rest st)

theorem keeps_collectUnauthorized (f : Nat) : ∀ (cur acc : OrderedMap Nat),
    keepsEmpty f (collectUnauthorized cur acc) (fun _ => True)
  | [], acc => by
      unfold collectUnauthorized
      exact keeps_pure f _ _ trivial
  | (k, p) :: rest, acc => by
      unfold collectUnauthorized
      exact keeps_tbind (keeps_getTable f p) (fun obj => keeps_collectUnauthorized f rest _)

theorem keeps_collectNestedUnauthorized (f : Nat) : ∀ (cur acc : OrderedMap Nat),
    keepsEmpty f (collectNestedUnauthorized cur acc) (fun _ => True)
  | [], acc => by
      unfold collectNestedUnauthorized
      exact keeps_pure f _ _ trivial
  | (k, p) :: rest, acc => by
      unfold collectNestedUnauthorized
      refine keeps_tbind (keeps_getTable f p) ?_
      intro obj
      split
      · exact keeps_throw f _ _
      · exact keeps_collectNestedUnauthorized f rest _

theorem keeps_createVirtualTableForAlias (f : Nat) (a : Alias) (tl : Option (List Node))
    (cur : Option Nat) :
    keepsEmpty f (createVirtualTableForAlias a tl cur) (fun r => r ≠ some f) := by
  have hrest : ∀ (es : OrderedMap Nat) (columns : OrderedMap ColumnCell), keepsEmpty f (do
      let unAuth1 ← collectUnauthorized es []
      let unAuth ← collectNestedUnauthorized es unAuth1
      let virtualTable ← newTable (fun _ =>
        { Name := a.Aliasname, Columns := some columns, Alias := a.Aliasname,
          UnAuthorizedTables := some unAuth, Authorized := unAuth.length = 0,
          IsDatabase := false })
      let m ← newMap [(a.Aliasname, virtualTable)]
      pure (some m) : HeapM (Option Nat)) (fun r => r ≠ some f) := by
    intro es columns
    refine keeps_tbind (keeps_collectUnauthorized f es []) ?_
    intro un1
    refine keeps_tbind (keeps_collectNestedUnauthorized f es un1) ?_
    intro un
    refine keeps_tbind (keeps_newTable f _) ?_
    intro v
    refine keeps_bind (keeps_newMap f _) ?_
    intro m hm
    exact keeps_pure f _ _ (fun hc => hm (by injection hc))
  unfold createVirtualTableForAlias
  refine keeps_tbind (keeps_entriesOf f cur) ?_
  intro es
  refine keeps_tbind (keeps_countAllColumns f _) ?_
  intro n
  cases tl with
  | none =>
    dsimp only
    refine keeps_tbind (keeps_createAllColumnsFromSourceTableList f _ _ _) ?_
    intro columns
    exact hrest es columns
  | some targets =>
    dsimp only
    refine keeps_tbind (keeps_addTargetListColumns f es n targets _) ?_
    intro st
    refine keeps_tbind (keeps_pure f _ _ trivial) ?_
    intro columns
    exact hrest es columns
theorem keeps_newMap_some (f : Nat) (es : OrderedMap Nat) :
    keepsEmpty f (newMap es) (fun m => some m ≠ some f) :=
  keeps_weaken (keeps_newMap f es) (fun _ hm hc => hm (by injection hc))

mutual
theorem keeps_storeTable (f : Nat) : ∀ (t : TableInfoV2),
    keepsEmpty f (storeTable t) (fun _ => True)
  | .mk name cols als hs un au db => by
      unfold storeTable
      refine keeps_tbind (keeps_newTable f _) (fun p => ?_)
      refine keeps_tbind (keeps_storeColumnsOpt f p cols) (fun cols' => ?_)
      refine keeps_tbind (keeps_storeTablesOpt f un) (fun un' => ?_)
      refine keeps_tbind (keeps_setTable f _ _) (fun _ => ?_)
      exact keeps_pure f _ _ trivial
theorem keeps_storeColumnsOpt (f owner : Nat) : ∀ (cols : Option (List (String × ColumnInfo))),
    keepsEmpty f (storeColumnsOpt owner cols) (fun _ => True)
  | none => by
      unfold storeColumnsOpt
      exact keeps_pure f _ _ trivial
  | some cs => by
      unfold storeColumnsOpt
      exact keeps_tbind (keeps_storeColumns f owner cs) (fun _ => keeps_pure f _ _ trivial)
theorem keeps_storeColumns (f owner : Nat) : ∀ (cs : List (String × ColumnInfo)),
    keepsEmpty f (storeColumns owner cs) (fun _ => True)
  | [] => by
      unfold storeColumns
      exact keeps_pure f _ _ trivial
  | (a, .mk name src) :: rest => by
      unfold storeColumns
      refine keeps_tbind (keeps_storeSource f owner src) (fun _ => ?_)
      exact keeps_tbind (keeps_storeColumns f owner rest) (fun _ => keeps_pure f _ _ trivial)
theorem keeps_storeSource (f owner : Nat) : ∀ (src : SourceRef),
    keepsEmpty f (storeSource owner src) (fun _ => True)
  | .nil => by
      unfold storeSource
      exact keeps_pure f _ _ trivial
  | .self => by
      unfold storeSource
      exact keeps_pure f _ _ trivial
  | .table t => by
      unfold storeSource
      exact keeps_tbind (keeps_storeTable f t) (fun _ => keeps_pure f _ _ trivial)
theorem keeps_storeTablesOpt (f : Nat) : ∀ (un : Option (List (String × TableInfoV2))),
    keepsEmpty f (storeTablesOpt un) (fun _ => True)
  | none => by
      unfold storeTablesOpt
      exact keeps_pure f _ _ trivial
  | some ts => by
      unfold storeTablesOpt
      exact keeps_tbind (keeps_storeTables f ts) (fun _ => keeps_pure f _ _ trivial)
theorem keeps_storeTables (f : Nat) : ∀ (ts : List (String × TableInfoV2)),
    keepsEmpty f (storeTables ts) (fun _ => True)
  | [] => by
      unfold storeTables
      exact keeps_pure f _ _ trivial
  | (k, t) :: rest => by
      unfold storeTables
      refine keeps_tbind (keeps_storeTable f t) (fun _ => ?_)
      exact keeps_tbind (keeps_storeTables f rest) (fun _ => keeps_pure f _ _ trivial)
end

theorem keeps_storeMap (f : Nat) (T : Option TableMap) :
    keepsEmpty f (storeMap T) (fun r => r ≠ some f) := by
  unfold storeMap
  cases T with
  | none => exact keeps_pure f _ _ (fun hc => by cases hc)
  | some ts =>
    refine keeps_tbind (keeps_storeTables f ts) (fun es => ?_)
    refine keeps_bind (keeps_newMap_some f es) (fun m hm => ?_)
    exact keeps_pure f _ _ hm

theorem keeps_writeUpdated (f : Nat) : ∀ (es : OrderedMap Nat) (ts : TableMap),
    keepsEmpty f (writeUpdated es ts) (fun _ => True)
  | [], _ => by
      unfold writeUpdated
      exact keeps_pure f _ _ trivial
  | (_, p) :: rest, [] => by
      unfold writeUpdated
      exact keeps_pure f _ _ trivial
  | (_, p) :: rest, (_, t) :: rest' => by
      unfold writeUpdated
      refine keeps_tbind (keeps_getTable f p) (fun obj => ?_)
      refine keeps_tbind (keeps_setTable f _ _) (fun _ => ?_)
      exact keeps_writeUpdated f rest rest'

theorem keeps_UnionRef (f : Nat) (dst : Option Nat) (l : List (Option Nat)) :
    keepsEmpty f (UpdateUnauthorizedTablesByUnionRef dst l) (fun _ => True) := by
  unfold UpdateUnauthorizedTablesByUnionRef
  refine keeps_tbind (keeps_get f) (fun h => ?_)
  refine keeps_tbind (keeps_lift f _) (fun updated => ?_)
  split
  · exact keeps_writeUpdated f _ _
  · exact keeps_pure f _ _ trivial

theorem keeps_IntersectionRef (f : Nat) (dst : Option Nat) (l : List (Option Nat)) :
    keepsEmpty f (UpdateUnauthorizedTablesByIntersectionRef dst l) (fun _ => True) := by
  unfold UpdateUnauthorizedTablesByIntersectionRef
  refine keeps_tbind (keeps_get f) (fun h => ?_)
  refine keeps_tbind (keeps_lift f _) (fun updated => ?_)
  split
  · exact keeps_writeUpdated f _ _
  · exact keeps_pure f _ _ trivial

theorem keeps_clearUnAuthorizedTables (f : Nat) : ∀ (es : OrderedMap Nat),
    keepsEmpty f (clearUnAuthorizedTables es) (fun _ => True)
  | [] => by
      unfold clearUnAuthorizedTables
      exact keeps_pure f _ _ trivial
  | (_, p) :: rest => by
      unfold clearUnAuthorizedTables
      refine keeps_tbind (keeps_getTable f p) (fun obj => ?_)
      refine keeps_tbind (keeps_setTable f _ _) (fun _ => ?_)
      exact keeps_clearUnAuthorizedTables f rest

theorem keeps_wrapJoinAlias (f : Nat) (al : Option Alias) (cur : Option Nat)
    (hc : cur ≠ some f) : keepsEmpty f (wrapJoinAlias al cur) (fun r => r ≠ some f) := by
  unfold wrapJoinAlias
  cases al with
  | none => exact keeps_pure f _ _ hc
  | some a => exact keeps_createVirtualTableForAlias f a none cur

/-! ### The walks, node kind by node kind -/

theorem avoids_default (f : Nat) : defaultNodeSem.onHeap.avoids f := by
  intro tables neg u ht
  exact keeps_pure f _ _ ht

theorem avoids_nil (f : Nat) : nilNodeSem.onHeap.avoids f := by
  intro tables neg u _
  exact keeps_throw f _ _

theorem avoids_runOnHeap (f : Nat)
    (g : Option TableMap → Bool → UserContext → Except Fault AuthorizationResult) :
    (runOnHeap g).avoids f := by
  intro tables neg u _
  unfold runOnHeap
  refine keeps_tbind (keeps_get f) (fun h => ?_)
  refine keeps_tbind (keeps_lift f _) (fun copy => ?_)
  refine keeps_tbind (keeps_lift f _) (fun r => ?_)
  refine keeps_bind (keeps_storeMap f r.Tables) (fun m hm => ?_)
  exact keeps_pure f _ _ hm

theorem avoids_rangeVar (f : Nat) (s : AuthorizationServiceImpl) (relname : String)
    (aliasNode : Option Alias) :
    (nodeSem s (.rangeVar relname aliasNode)).onHeap.avoids f := by
  intro tables neg u ht
  simp only [nodeSem, heapNodeSem, authorizeRangeVar]
  refine keeps_bind (p := fun r => r.2 ≠ some f) ?_ (fun r hr => ?_)
  · refine keeps_tbind (keeps_newTable f _) (fun p => ?_)
    refine keeps_bind (keeps_mergeEntries f tables _ ht) (fun d hd => ?_)
    exact keeps_pure f _ _ (fun hc => hd (by injection hc))
  · exact keeps_pure f _ _ hr

theorem keeps_walkCtes (f : Nat) (tables : Option Nat) (neg : Bool) (u : UserContext)
    (ht : tables ≠ some f) : ∀ (cs : List Walk), (∀ w ∈ cs, w.avoids f) →
    ∀ (acc : Bool × Option Nat), acc.2 ≠ some f →
      keepsEmpty f (walkCtes tables neg u cs acc) (fun r => r.2 ≠ some f)
  | [], _, acc, hacc => by
      unfold walkCtes
      exact keeps_pure f _ _ hacc
  | c :: rest, hcs, (a, rt), hacc => by
      unfold walkCtes
      refine keeps_bind (hcs c (List.mem_cons_self _ _) tables neg u ht) (fun res hres => ?_)
      refine keeps_bind (keeps_MergeMaps f res.Tables rt hres) (fun merged hm => ?_)
      exact keeps_walkCtes f tables neg u ht rest
        (fun w hw => hcs w (List.mem_cons_of_mem _ hw)) _ hm

theorem keeps_walkFromItems (f : Nat) (tables : Option Nat) (neg : Bool) (u : UserContext)
    (ht : tables ≠ some f) : ∀ (items : List Walk), (∀ w ∈ items, w.avoids f) →
    ∀ (acc : Bool × Option Nat), acc.2 ≠ some f →
      keepsEmpty f (walkFromItems tables neg u items acc) (fun r => r.2 ≠ some f)
  | [], _, acc, hacc => by
      unfold walkFromItems
      exact keeps_pure f _ _ hacc
  | c :: rest, hcs, (a, rt), hacc => by
      unfold walkFromItems
      refine keeps_bind (hcs c (List.mem_cons_self _ _) tables neg u ht) (fun res hres => ?_)
      refine keeps_bind (keeps_MergeMaps f rt res.Tables hacc) (fun merged hm => ?_)
      exact keeps_walkFromItems f tables neg u ht rest
        (fun w hw => hcs w (List.mem_cons_of_mem _ hw)) _ hm

theorem keeps_walkFromlist (f : Nat) (tables : Option Nat) (neg : Bool) (u : UserContext)
    (ht : tables ≠ some f) : ∀ (items : List Walk), (∀ w ∈ items, w.avoids f) →
    ∀ (acc : Option Nat), acc ≠ some f →
      keepsEmpty f (walkFromlist tables neg u items acc) (fun r => r ≠ some f)
  | [], _, acc, hacc => by
      unfold walkFromlist
      exact keeps_pure f _ _ hacc
  | c :: rest, hcs, acc, hacc => by
      unfold walkFromlist
      refine keeps_bind (hcs c (List.mem_cons_self _ _) tables neg u ht) (fun res hres => ?_)
      refine keeps_bind (keeps_MergeMaps f acc res.Tables hacc) (fun merged hm => ?_)
      exact keeps_walkFromlist f tables neg u ht rest
        (fun w hw => hcs w (List.mem_cons_of_mem _ hw)) _ hm

theorem avoids_selectOn (f : Nat) (into : Bool) (ctes : Option (List Walk)) (op : SetOperation)
    (larg rarg : Walk) (items : List Walk) (w hv : Option Walk) (tl : List Node)
    (hctes : ∀ cs, ctes = some cs → ∀ c ∈ cs, c.avoids f) (hl : larg.avoids f)
    (hr : rarg.avoids f) (hitems : ∀ i ∈ items, i.avoids f)
    (hw : ∀ x, w = some x → x.avoids f) (hhv : ∀ x, hv = some x → x.avoids f) :
    (authorizeSelectStmtOn into ctes op larg rarg items w hv tl).avoids f := by
  intro tables neg u ht
  unfold authorizeSelectStmtOn
  simp only [pure_bind]
  simp only [Walk.avoids] at hl hr hw hhv
  repeat' (first
    | with_reducible (first
        | exact keeps_newMap_some f _
        | (refine keeps_MergeMaps f _ _ ?_; assumption)
        | exact keeps_UnionRef f _ _
        | exact keeps_IntersectionRef f _ _
        | (refine keeps_walkCtes f tables neg u ht _ (hctes _ rfl) _ ?_; assumption)
        | (refine keeps_walkFromItems f tables neg u ht _ hitems _ ?_; assumption)
        | exact hl tables neg u ht
        | exact hr tables neg u ht
        | (refine hw _ rfl _ neg u ?_; assumption)
        | (refine hhv _ rfl _ neg u ?_; assumption)
        | refine keeps_bind (p := ?_) ?_ (fun _ _ => ?_)
        | (refine keeps_pure f _ _ ?_; assumption)
        | exact keeps_throw f _ _)
    | split)

theorem avoids_joinOn (f : Nat) (larg rarg quals : Walk) (largNil rargNil : Bool)
    (jointype : JoinType) (isNatural : Bool) (usingClause : List Node)
    (joinAlias : Option Alias) (hl : larg.avoids f) (hr : rarg.avoids f)
    (hq : quals.avoids f) :
    (authorizeJoinExprOn larg rarg quals largNil rargNil jointype isNatural usingClause
      joinAlias).avoids f := by
  intro tables neg u ht
  unfold authorizeJoinExprOn
  simp only [pure_bind]
  simp only [Walk.avoids] at hl hr hq
  repeat' (first
    | with_reducible (first
        | (refine keeps_MergeMaps f _ _ ?_; assumption)
        | exact keeps_MergeMaps f none _ (fun hc => by cases hc)
        | exact keeps_IntersectionRef f _ _
        | exact keeps_entriesOf f _
        | exact keeps_clearUnAuthorizedTables f _
        | (refine keeps_wrapJoinAlias f _ _ ?_; assumption)
        | exact hl tables neg u ht
        | exact hr tables neg u ht
        | (refine hq _ neg u ?_; assumption)
        | refine keeps_bind (p := ?_) ?_ (fun _ _ => ?_)
        | (refine keeps_pure f _ _ ?_; assumption)
        | exact keeps_throw f _ _)
    | split)

theorem avoids_fromExprOn (f : Nat) (fromlist : List Walk) (quals : Walk)
    (hitems : ∀ i ∈ fromlist, i.avoids f) (hq : quals.avoids f) :
    (authorizeFromExprOn fromlist quals).avoids f := by
  intro tables neg u ht
  unfold authorizeFromExprOn
  refine keeps_bind (keeps_walkFromlist f tables neg u ht fromlist hitems none
    (fun hc => by cases hc)) (fun cur hcur => ?_)
  exact hq cur neg u hcur

theorem avoids_rangeSubselectOn (f : Nat) (sub : Walk) (lateral : Bool)
    (aliasNode : Option Alias) (hs : sub.avoids f) :
    (authorizeRangeSubselectOn sub lateral aliasNode).avoids f := by
  intro tables neg u ht
  unfold authorizeRangeSubselectOn
  cases lateral with
  | true =>
    intro h a h' _ hrun
    cases hrun
  | false =>
    simp only [pure_bind, Bool.false_eq_true, if_false]
    refine keeps_bind (hs tables false u ht) (fun res hres => ?_)
    cases aliasNode with
    | none => exact keeps_pure f _ _ hres
    | some al =>
      refine keeps_bind (keeps_createVirtualTableForAlias f al _ _) (fun wrapped hwr => ?_)
      exact keeps_pure f _ _ hwr

theorem avoids_withClauseOn (f : Nat) (ctes : List Walk) (hctes : ∀ c ∈ ctes, c.avoids f) :
    (authorizeWithClauseOn ctes).avoids f := by
  intro tables neg u ht
  unfold authorizeWithClauseOn
  refine keeps_bind (keeps_newMap_some f []) (fun fresh hfresh => ?_)
  refine keeps_bind (keeps_walkCtes f tables neg u ht ctes hctes (true, some fresh) hfresh)
    (fun r hr => ?_)
  exact keeps_pure f _ _ hr
mutual
theorem nodeSem_avoids (s : AuthorizationServiceImpl) (f : Nat) :
    ∀ (n : Node), (nodeSem s n).onHeap.avoids f
  | .selectStmt stmt => by
      simp only [nodeSem, heapNodeSem]
      exact selectSem_avoids s f stmt
  | .boolExpr op args => by
      simp only [nodeSem, cloneNodeSem]
      exact avoids_runOnHeap f _
  | .aExpr kind name lexpr rexpr => by
      simp only [nodeSem, cloneNodeSem]
      exact avoids_runOnHeap f _
  | .subLink sub => by
      simp only [nodeSem]
      exact nodeSemOpt_avoids s f sub
  | .joinExpr jt nat l r us al q => by
      simp only [nodeSem, heapNodeSem]
      exact avoids_joinOn f _ _ _ _ _ jt nat us al (nodeSemOpt_avoids s f l)
        (nodeSemOpt_avoids s f r) (nodeSemOpt_avoids s f q)
  | .fromExpr fl q => by
      simp only [nodeSem, heapNodeSem]
      exact avoids_fromExprOn f _ _ (nodeSemList_avoids s f fl) (nodeSemOpt_avoids s f q)
  | .rangeVar r a => avoids_rangeVar f s r a
  | .rangeSubselect lat sub al => by
      simp only [nodeSem, heapNodeSem]
      exact avoids_rangeSubselectOn f _ lat al (nodeSemOpt_avoids s f sub)
  | .withClause ctes => by
      simp only [nodeSem, heapNodeSem]
      exact avoids_withClauseOn f _ (nodeSemList_avoids s f ctes)
  | .commonTableExpr _ _ => by
      simp only [nodeSem]
      exact avoids_default f
  | .columnRef _ => by
      simp only [nodeSem]
      exact avoids_default f
  | .aConst _ => by
      simp only [nodeSem]
      exact avoids_default f
  | .string _ => by
      simp only [nodeSem]
      exact avoids_default f
  | .integer _ => by
      simp only [nodeSem]
      exact avoids_default f
  | .float _ => by
      simp only [nodeSem]
      exact avoids_default f
  | .aStar => by
      simp only [nodeSem]
      exact avoids_default f
  | .rowExpr _ => by
      simp only [nodeSem]
      exact avoids_default f
  | .list _ => by
      simp only [nodeSem]
      exact avoids_default f
  | .resTarget _ _ => by
      simp only [nodeSem]
      exact avoids_default f
  | .other _ => by
      simp only [nodeSem]
      exact avoids_default f
theorem nodeSemOpt_avoids (s : AuthorizationServiceImpl) (f : Nat) :
    ∀ (n : Option Node), (nodeSemOpt s n).onHeap.avoids f
  | none => by
      simp only [nodeSemOpt]
      exact avoids_nil f
  | some n => by
      simp only [nodeSemOpt]
      exact nodeSem_avoids s f n
theorem nodeSemList_avoids (s : AuthorizationServiceImpl) (f : Nat) :
    ∀ (l : List Node), ∀ w ∈ (nodeSemList s l).map NodeSem.onHeap, w.avoids f
  | [] => by simp [nodeSemList]
  | n :: rest => by
      intro w hw
      simp only [nodeSemList, List.map_cons, List.mem_cons] at hw
      rcases hw with hw | hw
      · subst hw; exact nodeSem_avoids s f n
      · exact nodeSemList_avoids s f rest w hw
theorem selectSem_avoids (s : AuthorizationServiceImpl) (f : Nat) :
    ∀ (stmt : SelectStmt), (selectSem s stmt).avoids f
  | .mk into wc op l r items wh hv tl => by
      simp only [selectSem]
      exact avoids_selectOn f into _ op _ _ _ _ _ tl (nodeSemListOpt_avoids s f wc)
        (selectSemOpt_avoids s f l) (selectSemOpt_avoids s f r) (nodeSemList_avoids s f items)
        (whereSem_avoids s f wh) (whereSem_avoids s f hv)
theorem selectSemOpt_avoids (s : AuthorizationServiceImpl) (f : Nat) :
    ∀ (stmt : Option SelectStmt), (selectSemOpt s stmt).avoids f
  | none => by
      intro tables neg u _
      simp only [selectSemOpt]
      refine keeps_bind (keeps_newMap_some f []) (fun fresh hfresh => ?_)
      exact keeps_pure f _ _ hfresh
  | some stmt => by
      simp only [selectSemOpt]
      exact selectSem_avoids s f stmt
theorem nodeSemListOpt_avoids (s : AuthorizationServiceImpl) (f : Nat) :
    ∀ (wc : Option (List Node)) (cs : List Walk), nodeSemListOpt s wc = some cs →
      ∀ c ∈ cs, c.avoids f
  | none, cs, h => by simp [nodeSemListOpt] at h
  | some ctes, cs, h => by
      simp only [nodeSemListOpt, Option.some.injEq] at h
      subst h
      exact nodeSemList_avoids s f ctes
theorem whereSem_avoids (s : AuthorizationServiceImpl) (f : Nat) :
    ∀ (wh : Option Node) (x : Walk), whereSem s wh = some x → x.avoids f
  | none, x, h => by simp [whereSem] at h
  | some n, x, h => by
      simp only [whereSem, Option.some.injEq] at h
      subst h
      exact nodeSem_avoids s f n
end

theorem run_MergeMaps_ok (h : Heap) (dst : Option Nat) (sp : Nat) :
    ∃ r h', (MergeMaps dst (some sp)).run h = .ok (r, h') := by
  cases dst with
  | none => exact ⟨_, _, run_MergeMaps_none h sp⟩
  | some d => exact ⟨_, _, run_MergeMaps_some h d sp⟩

/-- C24. INTERSECT and EXCEPT.  The statement `L INTERSECT R` allocates its own
relation map and walks `L`, then `R`, with the incoming map (a map of the
store, or nil).  When both walks return and the result of `R` holds a relation
map, the walk of the statement returns, without error,
`Authorized = (L authorized ∨ R authorized)`.  The walk of `L EXCEPT R` is the
walk of `L` from the store in which the statement has allocated its own
(unused) map: the same fault, or the same result (authorized bit, relation
map, target list) and the same store, whatever `R` is. -/
theorem intersect_either_except_left (s : AuthorizationServiceImpl) (L R : Option SelectStmt)
    (fromClause : List Node) (whereClause havingClause : Option Node) (targetList : List Node)
    (tables : Option Nat) (neg : Bool) (u : UserContext) (h h1 h2 : Heap)
    (resL resR : AuthorizationResultRef) (mr : Nat)
    (ht : ∀ t, tables = some t → t < h.maps.length)
    (hL : (authorizeSelectStmt s L tables neg u).run (Heap.mk h.tables (h.maps ++ [[]]))
      = .ok (resL, h1))
    (hR : (authorizeSelectStmt s R tables neg u).run h1 = .ok (resR, h2))
    (hmr : resR.Tables = some mr) :
    (∃ res h', (authorizeSelectStmt s (some (.mk false none .SETOP_INTERSECT L R fromClause
        whereClause havingClause targetList)) tables neg u).run h = .ok (res, h') ∧
      res.Authorized = (resL.Authorized || resR.Authorized)) ∧
    (∀ R' : Option SelectStmt,
      (authorizeSelectStmt s (some (.mk false none .SETOP_EXCEPT L R' fromClause whereClause
        havingClause targetList)) tables neg u).run h
      = (authorizeSelectStmt s L tables neg u).run (Heap.mk h.tables (h.maps ++ [[]]))) := by
  refine ⟨?_, fun R' => ?_⟩
  · have hfresh : tables ≠ some h.maps.length := by
      intro hc
      exact Nat.lt_irrefl _ (ht _ hc)
    have hE0 : Heap.emptyAt (Heap.mk h.tables (h.maps ++ [[]])) h.maps.length :=
      ⟨by simp, map_append_new h []⟩
    obtain ⟨hE1, hl1⟩ := selectSemOpt_avoids s h.maps.length L tables neg u hfresh _ _ _ hE0 hL
    obtain ⟨hE2, _⟩ := selectSemOpt_avoids s h.maps.length R tables neg u hfresh _ _ _ hE1 hR
    obtain ⟨merged, h3, hm⟩ := run_MergeMaps_ok h2 resL.Tables mr
    obtain ⟨hE3, _⟩ := keeps_MergeMaps h.maps.length resL.Tables (some mr) hl1 _ _ _ hE2 hm
    refine ⟨AuthorizationResultRef.mk (resL.Authorized || resR.Authorized) (some h.maps.length)
      (if resL.TargetList.isSome && resR.TargetList.isSome then resL.TargetList else none),
      h3, ?_, rfl⟩
    simp only [authorizeSelectStmt, selectSemOpt, selectSem, nodeSemListOpt,
      authorizeSelectStmtOn, run_bind, run_newMap, except_bind_ok, Bool.false_eq_true, if_false,
      run_pure] at hL hR ⊢
    simp only [hL, hR, except_bind_ok, hmr, hm, run_intersectionRef_empty h3 h.maps.length _ hE3.2]
  · rfl

theorem intersect_either_except_left_witness :
    ∃ res h', (authorizeSelectStmt mockService (some (.mk false none .SETOP_INTERSECT
        (some (.mk false none .SETOP_NONE none none [.rangeVar "student" none] none none []))
        (some (.mk false none .SETOP_NONE none none [.rangeVar "course" none] none none []))
        [] none none [])) none false (studentCaller 1 0 0 [])).run {} = .ok (res, h') ∧
      res.Authorized = (false || true) :=
  (intersect_either_except_left mockService
    (some (.mk false none .SETOP_NONE none none [.rangeVar "student" none] none none []))
    (some (.mk false none .SETOP_NONE none none [.rangeVar "course" none] none none []))
    [] none none [] none false (studentCaller 1 0 0 []) {} _ _ _ _ 3
    (fun _ ht => by cases ht) rfl rfl rfl).1

/-! ## Claims about validation, predicates and aliases on concrete inputs -/

/-- C33. Row-and-sublink crediting, at the input of the claim.  For a student,
against the map that holds the unauthorized base relation `student` under
`s`, `(s.name, s.code) = (SELECT c.name, c.code FROM course c)` returns
`authorized = true` with `s` marked authorized, although neither `name` nor
`code` is an authorizing column of `student`; the row `(s.id)` alone, made of
the authorizing column, leaves `s` unauthorized. -/
theorem row_of_plain_columns_authorizes_relation :
    (studentRowEqualsCourseRow.walk mockService (some studentAsS) false
        (studentCaller 1 0 0 [])).toOption.map
        (fun r => (r.Authorized, authorizedAt r.Tables "s"))
      = some (true, some true) ∧
    ContainsString (getAuthorizationColumn "student" (studentCaller 1 0 0 [])).AuthorizeColumns
        "name" = false ∧
    ContainsString (getAuthorizationColumn "student" (studentCaller 1 0 0 [])).AuthorizeColumns
        "code" = false ∧
    (Comparison.walk mockService
        { studentRowEqualsCourseRow with Lexpr := some (.rowExpr [columnRefNode "s" "id"]) }
        (some studentAsS) false (studentCaller 1 0 0 [])).toOption.map
        (fun r => (r.Authorized, authorizedAt r.Tables "s"))
      = some (false, some false) := by
  refine ⟨?_, ?_, ?_, ?_⟩ <;> decide!

/-- C34. Negated conjunction, at the input of the claim.  For the student 123,
against the map that holds the unauthorized relation `student`,
`NOT (student.id <> 123 AND student.name <> 'x')` returns `authorized = true`
with `student` authorized, while `NOT (student.id <> 123) OR NOT (student.name
<> 'x')` and `student.id = 123 OR student.name = 'x'` return
`authorized = false` with `student` unauthorized. -/
theorem negated_conjunction_authorizes_beyond_disjunction :
    (walkFrom (AuthorizeNode mockService (some (notBothDiffer 123 "x")))
        (some [("student", unauthorizedBase mockService "student")]) false
        (studentCaller 123 0 0 [])).map (fun r => (r.authorized, RelationView.flags r.tables))
      = some (true, some [("student", true)]) ∧
    (walkFrom (AuthorizeNode mockService (some (eitherNotDiffers 123 "x")))
        (some [("student", unauthorizedBase mockService "student")]) false
        (studentCaller 123 0 0 [])).map (fun r => (r.authorized, RelationView.flags r.tables))
      = some (false, some [("student", false)]) ∧
    (walkFrom (AuthorizeNode mockService (some (eitherEquals 123 "x")))
        (some [("student", unauthorizedBase mockService "student")]) false
        (studentCaller 123 0 0 [])).map (fun r => (r.authorized, RelationView.flags r.tables))
      = some (false, some [("student", false)]) := by
  refine ⟨?_, ?_, ?_⟩ <;> decide!

/-- C35. Caller-context construction, at a database whose queries fail.
`FetchStudentInfo` and `FetchProfessorInfo` return a nil error whatever the
queries return.  When the query for the administrative class fails, the
student 7 is walked with `AdministrativeClassID = 0`, and
`SELECT * FROM administrative_class WHERE administrative_class.id = 0`
validates; when every query fails, `SELECT * FROM student WHERE student.id = 7`
validates for the student 7 and `SELECT * FROM professor WHERE professor.id = 7`
for the professor 7. -/
theorem failed_catalog_query_is_not_an_error :
    (∀ (q : CatalogQueries) (id : Int), (FetchStudentInfoResult q id).2 = none) ∧
    (∀ (q : CatalogQueries) (id : Int), (FetchProfessorInfoResult q id).2 = none) ∧
    (FetchStudentInfoResult classQueryFails 7).1.AdministrativeClassID = 0 ∧
    (validateQueryOver mockService classQueryFails "student" 7
        (.ok [selectStarWhereEquals "administrative_class" "id" 0])).toOption
      = some { isValid := true, errMsg := permissionMessage, err := none } ∧
    (validateQueryOver mockService everyQueryFails "student" 7
        (.ok [selectStarWhereEquals "student" "id" 7])).toOption
      = some { isValid := true, errMsg := permissionMessage, err := none } ∧
    (validateQueryOver mockService everyQueryFails "professor" 7
        (.ok [selectStarWhereEquals "professor" "id" 7])).toOption
      = some { isValid := true, errMsg := permissionMessage, err := none } := by
  refine ⟨fun _ _ => rfl, fun _ _ => rfl, ?_, ?_, ?_, ?_⟩ <;> decide!

/-- C36. Top-level soundness, at the input of the claim.  For the student 123,
`SELECT * FROM student WHERE EXISTS (SELECT 1 FROM course)` walked from a nil
map returns `authorized = true`, and the returned map holds `student` with
`Authorized = false` next to `course`; the statement validates. -/
theorem sublink_over_public_table_authorizes_statement :
    (walkFrom (AuthorizeNode mockService (some selectStudentWhereExistsCourse)) none false
        (studentCaller 123 0 0 [])).map (fun r => (r.authorized, RelationView.flags r.tables))
      = some (true, some [("student", false), ("course", true)]) ∧
    verdictOf (validateStatement mockService selectStudentWhereExistsCourse
        (studentCaller 123 0 0 []))
      = some (some true) ∧
    verdictOf (validateStatement mockService (selectStarFrom [.rangeVar "student" none] none)
        (studentCaller 123 0 0 []))
      = some (some false) := by
  refine ⟨?_, ?_, ?_⟩ <;> decide!

/-- C37. Predicate on a virtual relation, at the relation of the test "Nested
AND with virtual table from authorized subquery".  For the student 1 of the
administrative class 1, `subquery.id = 1`, whose column `id` is bound to
`student.id`, removes both components of `subquery`, `student` and
`admin_class` (the relation `administrative_class`), and returns
`authorized = true`.  For the student 1 of the class 2 it removes `student`
only.  At the input of the test "Column name conflict - student accessing
student_id in wrong table" (`student.student_id = 1` checked for
`course_class_enrollment`, expected `false`) `isAuthorizedExpression` returns
`true`. -/
theorem virtual_column_credits_foreign_component :
    (isAuthorizedExpression [.string "student", .string "student_id"] (some (.ival 1))
        studentWithStudentIdColumn enrollmentWithoutColumns (studentCaller 1 0 0 [])).toOption
      = some true ∧
    (subqueryOverStudentAndClass.getRealColumnInfoFromAlias "id").toOption.map
        (fun c => c.map (fun r => (r.Name, r.SourceTable.map TableInfoV2.Name)))
      = some (some ("id", some "student")) ∧
    componentsAt (some [("subquery", subqueryOverStudentAndClass)]) "subquery"
      = some [("student", "student"), ("admin_class", "administrative_class")] ∧
    ((columnOpConst "subquery" "id" "=" 1).walk mockService
        (some [("subquery", subqueryOverStudentAndClass)]) false
        (studentCaller 1 1 0 [])).toOption.map
        (fun r => (r.Authorized, componentsAt r.Tables "subquery"))
      = some (true, some []) ∧
    ((columnOpConst "subquery" "id" "=" 1).walk mockService
        (some [("subquery", subqueryOverStudentAndClass)]) false
        (studentCaller 1 2 0 [])).toOption.map
        (fun r => (r.Authorized, componentsAt r.Tables "subquery"))
      = some (false, some [("admin_class", "administrative_class")]) := by
  refine ⟨?_, ?_, ?_, ?_, ?_⟩ <;> decide!

/-- C38. Constants that are not integers, at the input of the claim.  For the
student 1, against the map that holds the unauthorized relation `student`,
`student.id = 'abc'` ends in a panic (nil pointer dereference), and so do
`student.id = NULL`, `student.id = 1.5`, `student.id = TRUE` and
`student.id IN (student.name)`; `isAuthorizedExpression` itself panics on the
string constant.  On the column `name`, which is not an authorizing column,
`student.name = 'abc'` returns `authorized = false`. -/
theorem non_integer_constant_on_authorizing_column_panics :
    faultOf ((columnOpString "student" "id" "=" "abc").walk mockService
        (some [("student", unauthorizedBase mockService "student")]) false
        (studentCaller 1 0 0 []))
      = some (.runtimePanic "nil pointer dereference") ∧
    [A_Const.isnull, .fval "1.5", .boolval true].map (fun c =>
        faultOf (authorizeAExpr mockService .AEXPR_OP [.string "="]
          (some (columnRefNode "student" "id")) (some (.aConst c))
          (some [("student", unauthorizedBase mockService "student")]) false
          (studentCaller 1 0 0 [])))
      = [some (.runtimePanic "nil pointer dereference"),
         some (.runtimePanic "nil pointer dereference"),
         some (.runtimePanic "nil pointer dereference")] ∧
    faultOf (authorizeAExpr mockService .AEXPR_IN [.string "="]
        (some (columnRefNode "student" "id")) (some (.list [columnRefNode "student" "name"]))
        (some [("student", unauthorizedBase mockService "student")]) false
        (studentCaller 1 0 0 []))
      = some (.runtimePanic "nil pointer dereference") ∧
    faultOf (isAuthorizedExpression [.string "student", .string "id"] (some (.sval "abc"))
        (unauthorizedBase mockService "student") (unauthorizedBase mockService "student")
        (studentCaller 1 0 0 []))
      = some (.runtimePanic "nil pointer dereference") ∧
    ((columnOpString "student" "name" "=" "abc").walk mockService
        (some [("student", unauthorizedBase mockService "student")]) false
        (studentCaller 1 0 0 [])).toOption.map
        (fun r => (r.Authorized, authorizedAt r.Tables "student"))
      = some (false, some false) := by
  refine ⟨?_, ?_, ?_, ?_, ?_⟩ <;> decide!

/-- C39. Positional aliases, at the input of the claim.  For
`(SELECT e.grade + 0, e.student_id FROM course_class_enrollment e) AS v(x, y)`
the relation `v` has one column: `x`, bound to the column `student_id` of
`course_class_enrollment`, the second target; there is no column `y`.  For the
student 7, `SELECT * FROM (...) AS v(x, y) WHERE v.x = 7` validates and the
same statement with `v.y = 7` does not. -/
theorem alias_of_expression_target_binds_next_column :
    columnBindingsAt (tablesOf (runWalk (AuthorizeNode mockService (some gradeAndStudentAsV))
        false (studentCaller 7 0 0 []))) "v"
      = some [("x", "student_id", "course_class_enrollment")] ∧
    verdictOf (validateStatement mockService
        (selectStarFrom [gradeAndStudentAsV] (some (columnOpConst "v" "x" "=" 7).node))
        (studentCaller 7 0 0 []))
      = some (some true) ∧
    verdictOf (validateStatement mockService
        (selectStarFrom [gradeAndStudentAsV] (some (columnOpConst "v" "y" "=" 7).node))
        (studentCaller 7 0 0 []))
      = some (some false) := by
  refine ⟨?_, ?_, ?_⟩ <;> decide!

/-! ## The message of `validateQuery` -/

theorem ok_of_toOption {ε α : Type} (r : Except ε α) (a : α) (h : r.toOption = some a) :
    r = .ok a := by
  cases r with
  | error e => cases h
  | ok b =>
    injection h with h
    rw [h]

theorem fetchUserInfo_known (q : CatalogQueries) (userRole : String) (specificId : Int)
    (hr : knownRole userRole = true) :
    ∃ userInfo, fetchUserInfo q userRole specificId = .ok userInfo := by
  simp only [knownRole, Bool.or_eq_true, decide_eq_true_eq] at hr
  unfold fetchUserInfo
  rcases hr with (hr | hr) | hr
  · exact ⟨_, by rw [if_pos hr]; rfl⟩
  · by_cases h1 : userRole = "student"
    · exact ⟨_, by rw [if_pos h1]; rfl⟩
    · exact ⟨_, by rw [if_neg h1, if_pos hr]; rfl⟩
  · by_cases h1 : userRole = "student"
    · exact ⟨_, by rw [if_pos h1]; rfl⟩
    · by_cases h2 : userRole = "professor"
      · exact ⟨_, by rw [if_neg h1, if_pos h2]; rfl⟩
      · exact ⟨_, by rw [if_neg h1, if_neg h2, if_pos hr]; rfl⟩

theorem unknownRole_message (userRole : String) : "Unknown role: " ++ userRole ≠ "" := by
  intro h
  have hl := congrArg String.length h
  rw [String.length_append] at hl
  have h14 : "Unknown role: ".length = 14 := by decide
  have h0 : "".length = 0 := by decide
  omega

theorem fetchUserInfo_refused (q : CatalogQueries) (userRole : String) (specificId : Int)
    (refused : Validation) (h : fetchUserInfo q userRole specificId = .error refused) :
    refused.isValid = false ∧ refused.errMsg = "Unknown role: " ++ userRole := by
  unfold fetchUserInfo at h
  by_cases h1 : userRole = "student"
  · rw [if_pos h1] at h; cases h
  · by_cases h2 : userRole = "professor"
    · rw [if_neg h1, if_pos h2] at h; cases h
    · by_cases h3 : userRole = "admin"
      · rw [if_neg h1, if_neg h2, if_pos h3] at h; cases h
      · rw [if_neg h1, if_neg h2, if_neg h3] at h
        injection h with h
        subst h
        exact ⟨rfl, rfl⟩

/-- What `validateQuery` returns once the statement is walked: the message is
`permissionMessage` in each of the three cases. -/
theorem validateQueryOver_walked (s : AuthorizationServiceImpl) (q : CatalogQueries)
    (userRole : String) (specificId : Int) (st : SelectStmt) (rest : List Node)
    (userInfo : UserContext) (v : Validation) (hrole : userRole ≠ "") (hid : specificId ≠ 0)
    (hf : fetchUserInfo q userRole specificId = .ok userInfo)
    (hv : validateQueryOver s q userRole specificId (.ok (.selectStmt st :: rest)) = .ok v) :
    v.errMsg = permissionMessage ∧ (v.isValid = true → v.err = none) := by
  simp only [validateQueryOver, if_neg hrole, if_neg hid, hf] at hv
  split at hv
  · injection hv with hv; subst hv; exact ⟨rfl, fun hc => by cases hc⟩
  · cases hv
  · injection hv with hv; subst hv; exact ⟨rfl, fun _ => rfl⟩

/-- C31, at an authorized query.  For the student 123, `SELECT * FROM course`
validates, and what `validateQuery` returns with `true` is the same non-empty
message it returns with a denial (`SELECT * FROM student`). -/
theorem authorized_query_carries_message :
    (validateQueryOver mockService noRowsCatalog "student" 123
        (.ok [selectStarFrom [.rangeVar "course" none] none])).toOption
      = some { isValid := true, errMsg := permissionMessage, err := none } ∧
    (validateQueryOver mockService noRowsCatalog "student" 123
        (.ok [selectStarFrom [.rangeVar "student" none] none])).toOption
      = some { isValid := false, errMsg := permissionMessage, err := none } ∧
    permissionMessage ≠ "" := by
  refine ⟨?_, ?_, ?_⟩ <;> decide!

/-- C31, amended.  Whenever `validateQuery` returns, for every SQL text and
caller, the message it returns is not empty, whether the authorized bit is
false or true; with the bit true the message is `permissionMessage` and the
error is nil. -/
theorem validation_message_is_never_empty (s : AuthorizationServiceImpl) (q : CatalogQueries)
    (userRole : String) (specificId : Int) (parsed : Except String (List Node)) (v : Validation)
    (hv : validateQueryOver s q userRole specificId parsed = .ok v) :
    v.errMsg ≠ "" ∧ (v.isValid = false → v.errMsg ≠ "") ∧
    (v.isValid = true → v.errMsg = permissionMessage ∧ v.err = none) := by
  have hpm : permissionMessage ≠ "" := by decide
  have key : v.errMsg ≠ "" ∧ (v.isValid = true → v.errMsg = permissionMessage ∧ v.err = none) := by
    cases parsed with
    | error e =>
      injection hv with hv; subst hv
      exact ⟨show ("Failed to parse SQL query" : String) ≠ "" by decide, fun hc => by cases hc⟩
    | ok stmts =>
      cases stmts with
      | nil =>
        injection hv with hv; subst hv
        exact ⟨by decide, fun hc => by cases hc⟩
      | cons stmt rest =>
        cases stmt with
        | selectStmt st =>
          by_cases hrole : userRole = ""
          · simp only [validateQueryOver, if_pos hrole] at hv
            injection hv with hv; subst hv
            exact ⟨by decide, fun hc => by cases hc⟩
          · by_cases hid : specificId = 0
            · simp only [validateQueryOver, if_neg hrole, if_pos hid] at hv
              injection hv with hv; subst hv
              exact ⟨by decide, fun hc => by cases hc⟩
            · cases hf : fetchUserInfo q userRole specificId with
              | error refused =>
                simp only [validateQueryOver, if_neg hrole, if_neg hid, hf] at hv
                injection hv with hv; subst hv
                obtain ⟨h1, h2⟩ := fetchUserInfo_refused q userRole specificId refused hf
                exact ⟨by rw [h2]; exact unknownRole_message userRole,
                  fun hc => by rw [h1] at hc; cases hc⟩
              | ok userInfo =>
                obtain ⟨h1, h2⟩ := validateQueryOver_walked s q userRole specificId st rest
                  userInfo v hrole hid hf hv
                exact ⟨by rw [h1]; exact hpm, fun hc => ⟨h1, h2 hc⟩⟩
        | _ =>
          injection hv with hv; subst hv
          exact ⟨by decide, fun hc => by cases hc⟩
  exact ⟨key.1, fun _ => key.1, key.2⟩

theorem validation_message_is_never_empty_witness :
    (validateQueryOver mockService noRowsCatalog "student" 123
        (.ok [selectStarFrom [.rangeVar "course" none] none])).toOption
      = some (Validation.mk true permissionMessage none) ∧
    (Validation.mk true permissionMessage none).errMsg ≠ "" ∧
    ((Validation.mk true permissionMessage none).isValid = false →
      (Validation.mk true permissionMessage none).errMsg ≠ "") ∧
    ((Validation.mk true permissionMessage none).isValid = true →
      (Validation.mk true permissionMessage none).errMsg = permissionMessage ∧
      (Validation.mk true permissionMessage none).err = none) :=
  ⟨by decide!, validation_message_is_never_empty mockService noRowsCatalog "student" 123
    (.ok [selectStarFrom [.rangeVar "course" none] none])
    (Validation.mk true permissionMessage none) (ok_of_toOption _ _ (by decide!))⟩

/-- C32, at denials of different kinds.  A parse error, an empty text, a
statement that is not a SELECT, a missing role, a missing user id, an unknown
role, an error of the walk (LATERAL) and a completed walk that denies return
seven different messages; only the last two share one.  What `ExecuteQuery`
reports differs for those two as well: the text of the error for the walk
error, the message for the denial. -/
theorem denials_carry_different_messages :
    [validateQueryOver mockService noRowsCatalog "student" 123 (.error "syntax error"),
     validateQueryOver mockService noRowsCatalog "student" 123 (.ok []),
     validateQueryOver mockService noRowsCatalog "student" 123 (.ok [dropTableStudent]),
     validateQueryOver mockService noRowsCatalog "" 123 (.ok [selectOne]),
     validateQueryOver mockService noRowsCatalog "student" 0 (.ok [selectOne]),
     validateQueryOver mockService noRowsCatalog "guest" 123 (.ok [selectOne]),
     validateQueryOver mockService noRowsCatalog "student" 123 (.ok [selectFromLateral]),
     validateQueryOver mockService noRowsCatalog "student" 123
       (.ok [selectStarFrom [.rangeVar "student" none] none])].map
        (fun r => r.toOption.map (fun v => (v.isValid, v.errMsg)))
      = [some (false, "Failed to parse SQL query"), some (false, "Empty query"),
         some (false, "Only SELECT queries are allowed"), some (false, "Role not found"),
         some (false, "User ID not found"), some (false, "Unknown role: guest"),
         some (false, permissionMessage), some (false, permissionMessage)] ∧
    (validateQueryOver mockService noRowsCatalog "student" 123
        (.ok [selectFromLateral])).toOption.map executeQueryRefusal
      = some (some "error validating query: lateral is not supported") ∧
    (validateQueryOver mockService noRowsCatalog "student" 123
        (.ok [selectStarFrom [.rangeVar "student" none] none])).toOption.map executeQueryRefusal
      = some (some permissionMessage) := by
  refine ⟨?_, ?_, ?_⟩ <;> decide!

/-- C32, amended.  For every two inputs whose text parses to statements that
start with a SELECT statement and whose caller has one of the roles `student`,
`professor`, `admin` and a user id other than 0, if `validateQuery` returns on
both without authorizing (an error of the walk, or a completed walk with
`authorized = false`), the message is the same string on both,
`permissionMessage`; for a completed walk that string is what `ExecuteQuery`
reports. -/
theorem walk_denials_carry_one_message (s : AuthorizationServiceImpl) (q1 q2 : CatalogQueries)
    (role1 role2 : String) (id1 id2 : Int) (parsed1 parsed2 : Except String (List Node))
    (v1 v2 : Validation)
    (hs1 : startsWithSelect parsed1 = true) (hs2 : startsWithSelect parsed2 = true)
    (hr1 : knownRole role1 = true) (hr2 : knownRole role2 = true)
    (hi1 : id1 ≠ 0) (hi2 : id2 ≠ 0)
    (hv1 : validateQueryOver s q1 role1 id1 parsed1 = .ok v1)
    (hv2 : validateQueryOver s q2 role2 id2 parsed2 = .ok v2)
    (hd1 : v1.isValid = false) (hd2 : v2.isValid = false) :
    v1.errMsg = v2.errMsg ∧ v1.errMsg = permissionMessage ∧
    (v1.err = none → executeQueryRefusal v1 = some permissionMessage) ∧
    (v2.err = none → executeQueryRefusal v2 = some permissionMessage) := by
  have key : ∀ (qq : CatalogQueries) (role : String) (id : Int)
      (parsed : Except String (List Node)) (v : Validation),
      startsWithSelect parsed = true → knownRole role = true → id ≠ 0 →
      validateQueryOver s qq role id parsed = .ok v → v.errMsg = permissionMessage := by
    intro qq role id parsed v hs hr hi hv
    have hrole : role ≠ "" := by
      intro hc
      rw [hc] at hr
      exact absurd hr (by decide)
    obtain ⟨userInfo, hf⟩ := fetchUserInfo_known qq role id hr
    cases parsed with
    | error e => simp [startsWithSelect] at hs
    | ok stmts =>
      cases stmts with
      | nil => simp [startsWithSelect] at hs
      | cons stmt rest =>
        cases stmt with
        | selectStmt st =>
          exact (validateQueryOver_walked s qq role id st rest userInfo v hrole hi hf hv).1
        | _ => simp [startsWithSelect] at hs
  have h1 := key q1 role1 id1 parsed1 v1 hs1 hr1 hi1 hv1
  have h2 := key q2 role2 id2 parsed2 v2 hs2 hr2 hi2 hv2
  refine ⟨h1.trans h2.symm, h1, ?_, ?_⟩
  · intro he
    simp [executeQueryRefusal, he, hd1, h1]
  · intro he
    simp [executeQueryRefusal, he, hd2, h2]

theorem walk_denials_carry_one_message_witness :
    (validateQueryOver mockService noRowsCatalog "student" 123 (.ok [selectFromLateral])).toOption
      = some (Validation.mk false permissionMessage (some "lateral is not supported")) ∧
    (validateQueryOver mockService noRowsCatalog "professor" 5
        (.ok [selectStarFrom [.rangeVar "student" none] none])).toOption
      = some (Validation.mk false permissionMessage none) ∧
    (Validation.mk false permissionMessage (some "lateral is not supported")).errMsg
      = (Validation.mk false permissionMessage none).errMsg ∧
    (Validation.mk false permissionMessage (some "lateral is not supported")).errMsg
      = permissionMessage ∧
    ((Validation.mk false permissionMessage (some "lateral is not supported")).err = none →
      executeQueryRefusal (Validation.mk false permissionMessage (some "lateral is not supported"))
        = some permissionMessage) ∧
    ((Validation.mk false permissionMessage none).err = none →
      executeQueryRefusal (Validation.mk false permissionMessage none)
        = some permissionMessage) :=
  ⟨by decide!, by decide!,
    walk_denials_carry_one_message mockService noRowsCatalog noRowsCatalog "student" "professor"
      123 5 (.ok [selectFromLateral]) (.ok [selectStarFrom [.rangeVar "student" none] none])
      (Validation.mk false permissionMessage (some "lateral is not supported"))
      (Validation.mk false permissionMessage none)
      (by decide) (by decide) (by decide) (by decide) (by decide) (by decide)
      (ok_of_toOption _ _ (by decide!)) (ok_of_toOption _ _ (by decide!)) rfl rfl⟩

/-- The fetches never return an error, so `validateQuery` over queries that
may fail is `validateQuery` on what the queries leave in the fields. -/
theorem validateQueryOver_directory (s : AuthorizationServiceImpl) (q : CatalogQueries)
    (userRole : String) (specificId : Int) (parsed : Except String (List Node)) :
    validateQueryOver s q userRole specificId parsed
      = validateQuery s q.directory userRole specificId parsed := by
  cases parsed with
  | error e => rfl
  | ok stmts =>
    cases stmts with
    | nil => rfl
    | cons stmt rest =>
      cases stmt with
      | selectStmt st =>
        simp only [validateQueryOver, validateQuery, fetchUserInfo, FetchStudentInfoResult,
          FetchProfessorInfoResult, FetchAdminInfoResult]
        by_cases hrole : userRole = ""
        · rw [if_pos hrole, if_pos hrole]
        · rw [if_neg hrole, if_neg hrole]
          by_cases hid : specificId = 0
          · rw [if_pos hid, if_pos hid]
          · rw [if_neg hid, if_neg hid]
            by_cases h1 : userRole = "student"
            · simp only [if_pos h1]
            · by_cases h2 : userRole = "professor"
              · simp only [if_neg h1, if_pos h2]
              · by_cases h3 : userRole = "admin"
                · simp only [if_neg h1, if_neg h2, if_pos h3]
                · simp only [if_neg h1, if_neg h2, if_neg h3]
      | _ => rfl

/-! ## Predicates are walked on a copy: the store of the caller -/

theorem table_set_other (h : Heap) (obj : TableObj) (p q : Nat) (hne : q ≠ p) :
    ({ h with tables := h.tables.set p obj } : Heap).table q = h.table q := by
  simp [Heap.table, List.getD_eq_getElem?_getD, List.getElem?_set_ne (Ne.symm hne)]


theorem table_set_same (h : Heap) (obj : TableObj) (p : Nat) :
    ({ h with tables := h.tables.set p obj } : Heap).table p = obj ∨
    ({ h with tables := h.tables.set p obj } : Heap).table p = h.table p := by
  by_cases hp : p < h.tables.length
  · left
    simp [Heap.table, List.getD_eq_getElem?_getD, List.getElem?_set_self, hp]
  · right
    have h1 : (h.tables.set p obj)[p]? = none :=
      List.getElem?_eq_none (by simp; omega)
    have h2 : h.tables[p]? = none := List.getElem?_eq_none (by omega)
    simp [Heap.table, List.getD_eq_getElem?_getD, h1, h2]

theorem map_set_cases (h : Heap) (es : OrderedMap Nat) (d : Nat) :
    ({ h with maps := h.maps.set d es } : Heap).map d = es ∨
    ({ h with maps := h.maps.set d es } : Heap).map d = h.map d := by
  by_cases hd : d < h.maps.length
  · exact Or.inl (map_set_same h es d hd)
  · right
    have h1 : (h.maps.set d es)[d]? = none :=
      List.getElem?_eq_none (by simp; omega)
    have h2 : h.maps[d]? = none := List.getElem?_eq_none (by omega)
    simp [Heap.map, List.getD_eq_getElem?_getD, h1, h2]

theorem table_beyond (h : Heap) (p : Nat) (hp : h.tables.length ≤ p) : h.table p = default := by
  simp [Heap.table, List.getD_eq_getElem?_getD, List.getElem?_eq_none hp]

theorem map_beyond (h : Heap) (m : Nat) (hm : h.maps.length ≤ m) : h.map m = [] := by
  simp [Heap.map, List.getD_eq_getElem?_getD, List.getElem?_eq_none hm]

theorem refersFrom_default (n : Nat) : (default : TableObj).refersFrom n := by
  constructor
  · intro us hus
    cases hus
  · intro cs hcs
    cases hcs

/-- Every store is apart from itself: nothing has been allocated yet. -/
theorem apart_refl (h : Heap) : h.apart h := by
  refine ⟨continuedBy_refl h, ?_, ?_⟩
  · intro m hm e he
    rw [map_beyond h m hm] at he
    cases he
  · intro p hp
    rw [table_beyond h p hp]
    exact refersFrom_default _

theorem ap_pure {α : Type} (base : Heap) (a : α) (post : α → Prop) (ha : post a) :
    keepsApart base (pure a) post := by
  intro h b h' hb hrun
  rw [run_pure] at hrun
  injection hrun with hrun
  injection hrun with h1 h2
  subst h1; subst h2
  exact ⟨hb, ha⟩

theorem ap_throw {α : Type} (base : Heap) (e : Fault) (post : α → Prop) :
    keepsApart base (throw e : HeapM α) post := by
  intro h b h' _ hrun
  rw [run_throw] at hrun
  cases hrun

theorem ap_bind {α β : Type} {base : Heap} {x : HeapM α} {g : α → HeapM β} {p : α → Prop}
    {q : β → Prop} (hx : keepsApart base x p) (hg : ∀ a, p a → keepsApart base (g a) q) :
    keepsApart base (x >>= g) q := by
  intro h b h' hb hrun
  rw [run_bind] at hrun
  cases hx' : x.run h with
  | error e => rw [hx'] at hrun; cases hrun
  | ok pr =>
    obtain ⟨a, h1⟩ := pr
    rw [hx'] at hrun
    have h2 := hx h a h1 hb hx'
    exact hg a h2.2 h1 b h' h2.1 hrun

theorem ap_weaken {α : Type} {base : Heap} {x : HeapM α} {p q : α → Prop}
    (hx : keepsApart base x p) (hpq : ∀ a, p a → q a) : keepsApart base x q := by
  intro h a h' hb hrun
  have h2 := hx h a h' hb hrun
  exact ⟨h2.1, hpq a h2.2⟩

theorem ap_tbind {α β : Type} {base : Heap} {x : HeapM α} {g : α → HeapM β} {p : α → Prop}
    {q : β → Prop} (hx : keepsApart base x p) (hg : ∀ a, keepsApart base (g a) q) :
    keepsApart base (x >>= g) q :=
  ap_bind hx (fun a _ => hg a)

theorem ap_lift {α : Type} (base : Heap) (e : Except Fault α) :
    keepsApart base (liftM e : HeapM α) (fun _ => True) := by
  intro h a h' hb hrun
  cases e with
  | error e => cases hrun
  | ok v =>
    injection hrun with hrun
    injection hrun with h1 h2
    subst h2
    exact ⟨hb, trivial⟩

theorem ap_get (base : Heap) : keepsApart base (get : HeapM Heap) (fun h => base.apart h) := by
  intro h a h' hb hrun
  rw [run_get] at hrun
  injection hrun with hrun
  injection hrun with h1 h2
  subst h1; subst h2
  exact ⟨hb, hb⟩

theorem ap_getTable (base : Heap) (p : Nat) (hp : base.tables.length ≤ p) :
    keepsApart base (getTable p) (fun obj => obj.refersFrom base.tables.length) := by
  intro h a h' hb hrun
  rw [run_getTable] at hrun
  injection hrun with hrun
  injection hrun with h1 h2
  subst h1; subst h2
  exact ⟨hb, hb.2.2 p hp⟩

theorem ap_readTable (base : Heap) (p : Nat) :
    keepsApart base (getTable p) (fun _ => True) := by
  intro h a h' hb hrun
  rw [run_getTable] at hrun
  injection hrun with hrun
  injection hrun with h1 h2
  subst h2
  exact ⟨hb, trivial⟩

theorem ap_getMap (base : Heap) (m : Nat) (hm : base.maps.length ≤ m) :
    keepsApart base (getMap m) (fun es => ∀ e ∈ es, base.tables.length ≤ e.2) := by
  intro h a h' hb hrun
  rw [run_getMap] at hrun
  injection hrun with hrun
  injection hrun with h1 h2
  subst h1; subst h2
  exact ⟨hb, hb.2.1 m hm⟩

theorem ap_newMap (base : Heap) (es : OrderedMap Nat)
    (hes : ∀ e ∈ es, base.tables.length ≤ e.2) :
    keepsApart base (newMap es) (fun m => base.maps.length ≤ m) := by
  intro h a h' hb hrun
  rw [run_newMap] at hrun
  injection hrun with hrun
  injection hrun with h1 h2
  subst h1; subst h2
  refine ⟨⟨continuedBy_trans _ _ _ hb.1 (continuedBy_newMap h _), ?_, hb.2.2⟩, hb.1.2.1⟩
  intro m hm e he
  rcases Nat.lt_trichotomy m h.maps.length with hlt | heq | hgt
  · rw [map_append_old h es m hlt] at he
    exact hb.2.1 m hm e he
  · rw [heq, map_append_new h es] at he
    exact hes e he
  · rw [map_beyond _ m (by simp; omega)] at he
    cases he

theorem ap_setMap (base : Heap) (d : Nat) (es : OrderedMap Nat)
    (hd : base.maps.length ≤ d) (hes : ∀ e ∈ es, base.tables.length ≤ e.2) :
    keepsApart base (setMap d es) (fun _ => True) := by
  intro h a h' hb hrun
  rw [run_setMap] at hrun
  injection hrun with hrun
  injection hrun with h1 h2
  subst h2
  refine ⟨⟨setMap_keeps base h d es hb.1 hd, ?_, hb.2.2⟩, trivial⟩
  intro m hm e he
  by_cases hmd : m = d
  · subst hmd
    rcases map_set_cases h es m with hc | hc
    · rw [hc] at he
      exact hes e he
    · rw [hc] at he
      exact hb.2.1 m hm e he
  · rw [map_set_other h es d m hmd] at he
    exact hb.2.1 m hm e he

theorem ap_newTable (base : Heap) (mk : Nat → TableObj)
    (hmk : ∀ p, base.tables.length ≤ p → (mk p).refersFrom base.tables.length) :
    keepsApart base (newTable mk) (fun p => base.tables.length ≤ p) := by
  intro h a h' hb hrun
  rw [run_newTable] at hrun
  injection hrun with hrun
  injection hrun with h1 h2
  subst h1; subst h2
  refine ⟨⟨continuedBy_trans _ _ _ hb.1 (continuedBy_newTable h _), hb.2.1, ?_⟩, hb.1.1⟩
  intro p hp
  rcases Nat.lt_trichotomy p h.tables.length with hlt | heq | hgt
  · rw [table_append_old h _ p hlt]
    exact hb.2.2 p hp
  · rw [heq, table_append_new h _]
    exact hmk _ hb.1.1
  · rw [table_beyond _ p (by simp; omega)]
    exact refersFrom_default _

theorem ap_setTable (base : Heap) (p : Nat) (obj : TableObj)
    (hp : base.tables.length ≤ p) (hobj : obj.refersFrom base.tables.length) :
    keepsApart base (setTable p obj) (fun _ => True) := by
  intro h a h' hb hrun
  rw [run_setTable] at hrun
  injection hrun with hrun
  injection hrun with h1 h2
  subst h2
  refine ⟨⟨⟨by simpa using hb.1.1, hb.1.2.1, ?_, hb.1.2.2.2⟩, hb.2.1, ?_⟩, trivial⟩
  · intro q hq
    rw [table_set_other h obj p q (by omega)]
    exact hb.1.2.2.1 q hq
  · intro q hq
    by_cases hqp : q = p
    · subst hqp
      rcases table_set_same h obj q with hc | hc
      · rw [hc]; exact hobj
      · rw [hc]; exact hb.2.2 q hq
    · rw [table_set_other h obj p q hqp]
      exact hb.2.2 q hq

theorem ap_entriesOf (base : Heap) (m : Option Nat) (hm : base.newerMap m) :
    keepsApart base (entriesOf m) (fun es => ∀ e ∈ es, base.tables.length ≤ e.2) := by
  cases m with
  | none => exact ap_throw base _ _
  | some mp => exact ap_getMap base mp (hm mp rfl)

theorem newer_foldl_omSet (n : Nat) : ∀ (es cur : OrderedMap Nat),
    (∀ e ∈ es, n ≤ e.2) → (∀ e ∈ cur, n ≤ e.2) →
    ∀ e ∈ es.foldl (fun acc e => omSet acc e.1 e.2) cur, n ≤ e.2
  | [], cur, _, hcur => by simpa using hcur
  | x :: rest, cur, hes, hcur => by
      simp only [List.foldl_cons]
      refine newer_foldl_omSet n rest _ (fun e he => hes e (List.mem_cons_of_mem _ he)) ?_
      intro e he
      have hx := hes x (List.mem_cons_self _ _)
      clear hes
      induction cur with
      | nil =>
        simp only [omSet, List.mem_singleton] at he
        subst he
        exact hx
      | cons c cs ih =>
        simp only [omSet] at he
        split at he
        · simp only [List.mem_cons] at he
          rcases he with he | he
          · subst he; exact hx
          · exact hcur e (List.mem_cons_of_mem _ he)
        · simp only [List.mem_cons] at he
          rcases he with he | he
          · subst he; exact hcur _ (List.mem_cons_self _ _)
          · exact ih (fun e he => hcur e (List.mem_cons_of_mem _ he)) he

theorem omSet_all {V : Type} (P : V → Prop) (m : OrderedMap V) (k : String) (v : V)
    (hm : ∀ e ∈ m, P e.2) (hv : P v) : ∀ e ∈ omSet m k v, P e.2 := by
  intro e he
  rcases omSet_mem m k v e he with h | h
  · exact hm e h
  · subst h; exact hv

theorem foldl_omSet_all {V : Type} (P : V → Prop) : ∀ (es cur : OrderedMap V),
    (∀ e ∈ es, P e.2) → (∀ e ∈ cur, P e.2) →
    ∀ e ∈ es.foldl (fun acc e => omSet acc e.1 e.2) cur, P e.2
  | [], cur, _, hcur => by simpa using hcur
  | x :: rest, cur, hes, hcur => by
      simp only [List.foldl_cons]
      exact foldl_omSet_all P rest _ (fun e he => hes e (List.mem_cons_of_mem _ he))
        (omSet_all P cur x.1 x.2 hcur (hes x (List.mem_cons_self _ _)))

theorem ap_mergeEntries (base : Heap) (dst : Option Nat) (es : OrderedMap Nat)
    (hd : base.newerMap dst) (hes : ∀ e ∈ es, base.tables.length ≤ e.2) :
    keepsApart base (mergeEntries dst es) (fun d => base.maps.length ≤ d) := by
  have hrest : ∀ d, base.maps.length ≤ d → keepsApart base (do
      let cur ← getMap d
      setMap d (es.foldl (fun acc e => omSet acc e.1 e.2) cur)
      pure d : HeapM Nat) (fun d => base.maps.length ≤ d) := by
    intro d hdf
    refine ap_bind (ap_getMap base d hdf) ?_
    intro cur hcur
    refine ap_tbind (ap_setMap base d _ hdf
      (foldl_omSet_all (fun p => base.tables.length ≤ p) es cur hes hcur)) ?_
    intro _
    exact ap_pure base d _ hdf
  unfold mergeEntries
  cases dst with
  | none =>
    dsimp only
    refine ap_bind (ap_newMap base [] (fun e he => by cases he)) ?_
    intro d hdf
    exact hrest d hdf
  | some d =>
    dsimp only
    refine ap_bind (ap_pure base d (fun d => base.maps.length ≤ d) (hd d rfl)) ?_
    intro d' hdf
    exact hrest d' hdf

theorem newerMap_none (base : Heap) : base.newerMap none := fun _ hx => by cases hx

theorem newerMap_some (base : Heap) (m : Nat) (hm : base.maps.length ≤ m) :
    base.newerMap (some m) := fun x hx => by
  injection hx with hx
  rw [← hx]; exact hm

theorem ap_MergeMaps (base : Heap) (dst src : Option Nat) (hd : base.newerMap dst)
    (hs : base.newerMap src) :
    keepsApart base (MergeMaps dst src) (fun r => base.newerMap r) := by
  unfold MergeMaps
  cases src with
  | none => exact ap_throw base _ _
  | some sp =>
    refine ap_bind (ap_getMap base sp (hs sp rfl)) ?_
    intro es hes
    refine ap_bind (ap_mergeEntries base dst es hd hes) ?_
    intro d hdf
    exact ap_pure base (some d) _ (newerMap_some base d hdf)

/-- Setting a column bound to `src` keeps a property of the sources of the
columns that `src` has. -/
theorem sources_omSet (P : Nat → Prop) (cs : OrderedMap ColumnCell) (k name : String)
    (src : Nat) (hcs : ∀ e ∈ cs, ∀ q, e.2.SourceTable = some q → P q) (hsrc : P src) :
    ∀ e ∈ omSet cs k { Name := name, SourceTable := some src },
      ∀ q, e.2.SourceTable = some q → P q :=
  omSet_all (fun c => ∀ q, c.SourceTable = some q → P q) cs k _ hcs
    (fun q hq => by injection hq with hq; rw [← hq]; exact hsrc)

theorem ap_createColumnFromSourceTable (base : Heap) (P : Nat → Prop)
    (columns : OrderedMap ColumnCell) (colName : String) (src : Nat)
    (newColAlias : Option String)
    (hcs : ∀ e ∈ columns, ∀ q, e.2.SourceTable = some q → P q) (hsrc : P src) :
    keepsApart base (createColumnFromSourceTable columns colName src newColAlias)
      (fun cs => ∀ e ∈ cs, ∀ q, e.2.SourceTable = some q → P q) := by
  unfold createColumnFromSourceTable
  refine ap_tbind (ap_readTable base src) ?_
  intro obj
  split
  · exact ap_throw base _ _
  · split
    · exact ap_pure base _ _ (sources_omSet P columns _ _ src hcs hsrc)
    · exact ap_pure base _ _ hcs

theorem ap_createColumnsLoop (base : Heap) (P : Nat → Prop) (src : Nat) (hsrc : P src) :
    ∀ (cs A : List String) (columns : OrderedMap ColumnCell),
    (∀ e ∈ columns, ∀ q, e.2.SourceTable = some q → P q) →
    keepsApart base (createColumnsLoop src cs A columns)
      (fun cs => ∀ e ∈ cs, ∀ q, e.2.SourceTable = some q → P q)
  | [], _, columns, hcs => by
      unfold createColumnsLoop
      exact ap_pure base _ _ hcs
  | c :: rest, [], columns, hcs => by
      unfold createColumnsLoop
      exact ap_bind (ap_createColumnFromSourceTable base P _ _ _ _ hcs hsrc)
        (fun columns' h' => ap_createColumnsLoop base P src hsrc rest [] columns' h')
  | c :: rest, a :: more, columns, hcs => by
      unfold createColumnsLoop
      exact ap_bind (ap_createColumnFromSourceTable base P _ _ _ _ hcs hsrc)
        (fun columns' h' => ap_createColumnsLoop base P src hsrc rest more columns' h')

theorem ap_createAllColumnFromSourceTable (base : Heap) (P : Nat → Prop)
    (columns : OrderedMap ColumnCell) (src : Nat) (A : List String)
    (hcs : ∀ e ∈ columns, ∀ q, e.2.SourceTable = some q → P q) (hsrc : P src) :
    keepsApart base (createAllColumnFromSourceTable columns src A)
      (fun cs => ∀ e ∈ cs, ∀ q, e.2.SourceTable = some q → P q) := by
  unfold createAllColumnFromSourceTable
  refine ap_tbind (ap_readTable base src) ?_
  intro obj
  split
  · exact ap_pure base _ _ hcs
  · exact ap_createColumnsLoop base P src hsrc _ _ _ hcs

theorem ap_createAllColumnsFromSourceTableList (base : Heap) (P : Nat → Prop) :
    ∀ (ps : List Nat) (A : List String) (columns : OrderedMap ColumnCell),
    (∀ p ∈ ps, P p) → (∀ e ∈ columns, ∀ q, e.2.SourceTable = some q → P q) →
    keepsApart base (createAllColumnsFromSourceTableList ps A columns)
      (fun cs => ∀ e ∈ cs, ∀ q, e.2.SourceTable = some q → P q)
  | [], _, columns, _, hcs => by
      unfold createAllColumnsFromSourceTableList
      exact ap_pure base _ _ hcs
  | p :: rest, A, columns, hps, hcs => by
      unfold createAllColumnsFromSourceTableList
      refine ap_tbind (ap_readTable base p) ?_
      intro obj
      split
      · exact ap_createAllColumnsFromSourceTableList base P rest A columns
          (fun q hq => hps q (List.mem_cons_of_mem _ hq)) hcs
      · exact ap_bind (ap_createAllColumnFromSourceTable base P _ _ _ hcs
            (hps p (List.mem_cons_self _ _)))
          (fun columns' h' => ap_createAllColumnsFromSourceTableList base P rest _ columns'
            (fun q hq => hps q (List.mem_cons_of_mem _ hq)) h')

theorem ap_countAllColumns (base : Heap) : ∀ (ps : List Nat),
    keepsApart base (countAllColumns ps) (fun _ => True)
  | [] => by
      unfold countAllColumns
      exact ap_pure base _ _ trivial
  | p :: rest => by
      unfold countAllColumns
      refine ap_tbind (ap_readTable base p) ?_
      intro obj
      split
      · exact ap_throw base _ _
      · exact ap_tbind (ap_countAllColumns base rest) (fun n => ap_pure base _ _ trivial)

theorem values_all (P : Nat → Prop) (es : OrderedMap Nat) (hes : ∀ e ∈ es, P e.2) :
    ∀ p ∈ es.map Prod.snd, P p := by
  intro p hp
  obtain ⟨e, he, hep⟩ := List.mem_map.mp hp
  rw [← hep]; exact hes e he

theorem omGet_all (P : Nat → Prop) (es : OrderedMap Nat) (hes : ∀ e ∈ es, P e.2) (k : String)
    (p : Nat) (h : omGet es k = some p) : P p :=
  hes (k, p) (omGet_mem es k p h)

theorem ap_addTargetColumns (base : Heap) (P : Nat → Prop) (cur : OrderedMap Nat)
    (allColCnt : Nat) (colNode : Node) (state : OrderedMap ColumnCell × List String)
    (hcur : ∀ e ∈ cur, P e.2)
    (hst : ∀ e ∈ state.1, ∀ q, e.2.SourceTable = some q → P q) :
    keepsApart base (addTargetColumns cur allColCnt colNode state)
      (fun st => ∀ e ∈ st.1, ∀ q, e.2.SourceTable = some q → P q) := by
  obtain ⟨columns, A⟩ := state
  unfold addTargetColumns
  dsimp only at hst ⊢
  repeat' (first
    | (refine ap_pure base _ _ ?_; assumption)
    | exact ap_throw base _ _
    | exact ap_readTable base _
    | (refine ap_createColumnFromSourceTable base P _ _ _ _ (by assumption)
        (omGet_all P _ hcur _ _ (by assumption)))
    | (refine ap_createAllColumnFromSourceTable base P _ _ _ (by assumption)
        (omGet_all P _ hcur _ _ (by assumption)))
    | (refine ap_createAllColumnsFromSourceTableList base P _ _ _ (values_all P _ hcur)
        (by assumption))
    | refine ap_bind (p := ?_) ?_ (fun _ _ => ?_)
    | split)

theorem ap_addTargetListColumns (base : Heap) (P : Nat → Prop) (cur : OrderedMap Nat)
    (allColCnt : Nat) (hcur : ∀ e ∈ cur, P e.2) :
    ∀ (targets : List Node) (state : OrderedMap ColumnCell × List String),
    (∀ e ∈ state.1, ∀ q, e.2.SourceTable = some q → P q) →
    keepsApart base (addTargetListColumns cur allColCnt targets state)
      (fun st => ∀ e ∈ st.1, ∀ q, e.2.SourceTable = some q → P q)
  | [], state, hst => by
      unfold addTargetListColumns
      exact ap_pure base _ _ hst
  | t :: rest, state, hst => by
      unfold addTargetListColumns
      exact ap_bind (ap_addTargetColumns base P cur allColCnt t state hcur hst)
        (fun st h' => ap_addTargetListColumns base P cur allColCnt hcur rest st h')

theorem ap_collectUnauthorized (base : Heap) : ∀ (cur acc : OrderedMap Nat),
    (∀ e ∈ cur, base.tables.length ≤ e.2) → (∀ e ∈ acc, base.tables.length ≤ e.2) →
    keepsApart base (collectUnauthorized cur acc) (fun r => ∀ e ∈ r, base.tables.length ≤ e.2)
  | [], acc, _, hacc => by
      unfold collectUnauthorized
      exact ap_pure base _ _ hacc
  | (k, p) :: rest, acc, hcur, hacc => by
      unfold collectUnauthorized
      refine ap_tbind (ap_readTable base p) (fun obj => ?_)
      refine ap_collectUnauthorized base rest _
        (fun e he => hcur e (List.mem_cons_of_mem _ he)) ?_
      split
      · exact omSet_all (fun q => base.tables.length ≤ q) acc k p hacc
          (hcur (k, p) (List.mem_cons_self _ _))
      · exact hacc

theorem ap_collectNestedUnauthorized (base : Heap) : ∀ (cur acc : OrderedMap Nat),
    (∀ e ∈ cur, base.tables.length ≤ e.2) → (∀ e ∈ acc, base.tables.length ≤ e.2) →
    keepsApart base (collectNestedUnauthorized cur acc)
      (fun r => ∀ e ∈ r, base.tables.length ≤ e.2)
  | [], acc, _, hacc => by
      unfold collectNestedUnauthorized
      exact ap_pure base _ _ hacc
  | (k, p) :: rest, acc, hcur, hacc => by
      unfold collectNestedUnauthorized
      refine ap_bind (ap_getTable base p (hcur (k, p) (List.mem_cons_self _ _))) ?_
      intro obj hobj
      split
      · exact ap_throw base _ _
      · rename_i unAuth hun
        exact ap_collectNestedUnauthorized base rest _
          (fun e he => hcur e (List.mem_cons_of_mem _ he))
          (foldl_omSet_all (fun q => base.tables.length ≤ q) unAuth acc (hobj.1 unAuth hun) hacc)

theorem ap_createVirtualTableForAlias (base : Heap) (a : Alias) (tl : Option (List Node))
    (cur : Option Nat) (hcur : base.newerMap cur) :
    keepsApart base (createVirtualTableForAlias a tl cur) (fun r => base.newerMap r) := by
  have hrest : ∀ (es : OrderedMap Nat) (columns : OrderedMap ColumnCell),
      (∀ e ∈ es, base.tables.length ≤ e.2) →
      (∀ e ∈ columns, ∀ q, e.2.SourceTable = some q → base.tables.length ≤ q) →
      keepsApart base (do
      let unAuth1 ← collectUnauthorized es []
      let unAuth ← collectNestedUnauthorized es unAuth1
      let virtualTable ← newTable (fun _ =>
        { Name := a.Aliasname, Columns := some columns, Alias := a.Aliasname,
          UnAuthorizedTables := some unAuth, Authorized := unAuth.length = 0,
          IsDatabase := false })
      let m ← newMap [(a.Aliasname, virtualTable)]
      pure (some m) : HeapM (Option Nat)) (fun r => base.newerMap r) := by
    intro es columns hes hcols
    refine ap_bind (ap_collectUnauthorized base es [] hes (fun e he => by cases he)) ?_
    intro un1 hun1
    refine ap_bind (ap_collectNestedUnauthorized base es un1 hes hun1) ?_
    intro un hun
    refine ap_bind (ap_newTable base _ (fun p _ => ?_)) ?_
    · constructor
      · intro us hus
        injection hus with hus
        rw [← hus]; exact hun
      · intro cs hcs
        injection hcs with hcs
        rw [← hcs]; exact hcols
    intro v hv
    refine ap_bind (ap_newMap base _ ?_) ?_
    · intro e he
      simp only [List.mem_singleton] at he
      rw [he]; exact hv
    intro m hm
    exact ap_pure base _ _ (newerMap_some base m hm)
  unfold createVirtualTableForAlias
  refine ap_bind (ap_entriesOf base cur hcur) ?_
  intro es hes
  refine ap_tbind (ap_countAllColumns base _) ?_
  intro n
  cases tl with
  | none =>
    dsimp only
    refine ap_bind (ap_createAllColumnsFromSourceTableList base
      (fun q => base.tables.length ≤ q) _ _ _
      (values_all (fun q => base.tables.length ≤ q) _ hes) (fun e he => by cases he)) ?_
    intro columns hcols
    exact hrest es columns hes hcols
  | some targets =>
    dsimp only
    refine ap_bind (ap_addTargetListColumns base (fun q => base.tables.length ≤ q) es n hes
      targets _ (fun e he => by cases he)) ?_
    intro st hst
    refine ap_bind (ap_pure base st.1
      (fun cs => ∀ e ∈ cs, ∀ q, e.2.SourceTable = some q → base.tables.length ≤ q) hst) ?_
    intro columns hcols
    exact hrest es columns hes hcols

mutual
theorem ap_storeTable (base : Heap) : ∀ (t : TableInfoV2),
    keepsApart base (storeTable t) (fun p => base.tables.length ≤ p)
  | .mk name cols als hs un au db => by
      unfold storeTable
      refine ap_bind (ap_newTable base _ (fun _ _ => refersFrom_default _)) (fun p hp => ?_)
      refine ap_bind (ap_storeColumnsOpt base p hp cols) (fun cols' hcols => ?_)
      refine ap_bind (ap_storeTablesOpt base un) (fun un' hun => ?_)
      refine ap_tbind (ap_setTable base p _ hp ⟨hun, hcols⟩) (fun _ => ?_)
      exact ap_pure base _ _ hp
theorem ap_storeColumnsOpt (base : Heap) (owner : Nat) (ho : base.tables.length ≤ owner) :
    ∀ (cols : Option (List (String × ColumnInfo))),
    keepsApart base (storeColumnsOpt owner cols)
      (fun r => ∀ cs, r = some cs →
        ∀ e ∈ cs, ∀ q, e.2.SourceTable = some q → base.tables.length ≤ q)
  | none => by
      unfold storeColumnsOpt
      exact ap_pure base _ _ (fun cs hcs => by cases hcs)
  | some cs => by
      unfold storeColumnsOpt
      refine ap_bind (ap_storeColumns base owner ho cs) (fun cs' hcs' => ?_)
      exact ap_pure base _ _ (fun x hx => by injection hx with hx; rw [← hx]; exact hcs')
theorem ap_storeColumns (base : Heap) (owner : Nat) (ho : base.tables.length ≤ owner) :
    ∀ (cs : List (String × ColumnInfo)),
    keepsApart base (storeColumns owner cs)
      (fun r => ∀ e ∈ r, ∀ q, e.2.SourceTable = some q → base.tables.length ≤ q)
  | [] => by
      unfold storeColumns
      exact ap_pure base _ _ (fun e he => by cases he)
  | (a, .mk name src) :: rest => by
      unfold storeColumns
      refine ap_bind (ap_storeSource base owner ho src) (fun src' hsrc => ?_)
      refine ap_bind (ap_storeColumns base owner ho rest) (fun rest' hrest => ?_)
      refine ap_pure base _ _ ?_
      intro e he
      simp only [List.mem_cons] at he
      rcases he with he | he
      · subst he; exact hsrc
      · exact hrest e he
theorem ap_storeSource (base : Heap) (owner : Nat) (ho : base.tables.length ≤ owner) :
    ∀ (src : SourceRef),
    keepsApart base (storeSource owner src) (fun r => ∀ q, r = some q → base.tables.length ≤ q)
  | .nil => by
      unfold storeSource
      exact ap_pure base _ _ (fun q hq => by cases hq)
  | .self => by
      unfold storeSource
      exact ap_pure base _ _ (fun q hq => by injection hq with hq; rw [← hq]; exact ho)
  | .table t => by
      unfold storeSource
      refine ap_bind (ap_storeTable base t) (fun p hp => ?_)
      exact ap_pure base _ _ (fun q hq => by injection hq with hq; rw [← hq]; exact hp)
theorem ap_storeTablesOpt (base : Heap) : ∀ (un : Option (List (String × TableInfoV2))),
    keepsApart base (storeTablesOpt un)
      (fun r => ∀ us, r = some us → ∀ e ∈ us, base.tables.length ≤ e.2)
  | none => by
      unfold storeTablesOpt
      exact ap_pure base _ _ (fun us hus => by cases hus)
  | some ts => by
      unfold storeTablesOpt
      refine ap_bind (ap_storeTables base ts) (fun ts' hts => ?_)
      exact ap_pure base _ _ (fun x hx => by injection hx with hx; rw [← hx]; exact hts)
theorem ap_storeTables (base : Heap) : ∀ (ts : List (String × TableInfoV2)),
    keepsApart base (storeTables ts) (fun r => ∀ e ∈ r, base.tables.length ≤ e.2)
  | [] => by
      unfold storeTables
      exact ap_pure base _ _ (fun e he => by cases he)
  | (k, t) :: rest => by
      unfold storeTables
      refine ap_bind (ap_storeTable base t) (fun p hp => ?_)
      refine ap_bind (ap_storeTables base rest) (fun rest' hrest => ?_)
      refine ap_pure base _ _ ?_
      intro e he
      simp only [List.mem_cons] at he
      rcases he with he | he
      · subst he; exact hp
      · exact hrest e he
end

theorem ap_storeMap (base : Heap) (T : Option TableMap) :
    keepsApart base (storeMap T) (fun r => base.newerMap r) := by
  unfold storeMap
  cases T with
  | none => exact ap_pure base _ _ (newerMap_none base)
  | some ts =>
    refine ap_bind (ap_storeTables base ts) (fun es hes => ?_)
    refine ap_bind (ap_newMap base es hes) (fun m hm => ?_)
    exact ap_pure base _ _ (newerMap_some base m hm)

/-- The copy `CloneUnAuthorizedTables` makes is allocated after `base`,
whatever map it is made of. -/
theorem ap_CloneUnAuthorizedTablesRef (base : Heap) (src : Option Nat) :
    keepsApart base (CloneUnAuthorizedTablesRef src) (fun r => base.newerMap r) := by
  unfold CloneUnAuthorizedTablesRef
  refine ap_tbind (ap_get base) (fun h => ?_)
  refine ap_tbind (ap_lift base _) (fun copy => ?_)
  exact ap_storeMap base copy

theorem ap_writeUpdated (base : Heap) : ∀ (es : OrderedMap Nat) (ts : TableMap),
    (∀ e ∈ es, base.tables.length ≤ e.2) →
    keepsApart base (writeUpdated es ts) (fun _ => True)
  | [], _, _ => by
      unfold writeUpdated
      exact ap_pure base _ _ trivial
  | (_, p) :: rest, [], _ => by
      unfold writeUpdated
      exact ap_pure base _ _ trivial
  | (k, p) :: rest, (_, t) :: rest', hes => by
      unfold writeUpdated
      have hp := hes (k, p) (List.mem_cons_self _ _)
      refine ap_bind (ap_getTable base p hp) (fun obj hobj => ?_)
      refine ap_tbind (ap_setTable base p _ hp ?_) (fun _ => ?_)
      · constructor
        · intro us hus
          dsimp only at hus
          split at hus
          · rename_i us0 ts0 h1 h2
            injection hus with hus
            rw [← hus]
            intro e he
            exact hobj.1 us0 h1 e (List.mem_filter.mp he).1
          · exact hobj.1 us hus
        · exact hobj.2
      · exact ap_writeUpdated base rest rest' (fun e he => hes e (List.mem_cons_of_mem _ he))

theorem ap_UnionRef (base : Heap) (dst : Option Nat) (l : List (Option Nat))
    (hd : base.newerMap dst) :
    keepsApart base (UpdateUnauthorizedTablesByUnionRef dst l) (fun _ => True) := by
  unfold UpdateUnauthorizedTablesByUnionRef
  refine ap_bind (ap_get base) (fun h hh => ?_)
  refine ap_tbind (ap_lift base _) (fun updated => ?_)
  split
  · rename_i d ts
    exact ap_writeUpdated base _ _ (hh.2.1 d (hd d rfl))
  · exact ap_pure base _ _ trivial

theorem ap_IntersectionRef (base : Heap) (dst : Option Nat) (l : List (Option Nat))
    (hd : base.newerMap dst) :
    keepsApart base (UpdateUnauthorizedTablesByIntersectionRef dst l) (fun _ => True) := by
  unfold UpdateUnauthorizedTablesByIntersectionRef
  refine ap_bind (ap_get base) (fun h hh => ?_)
  refine ap_tbind (ap_lift base _) (fun updated => ?_)
  split
  · rename_i d ts
    exact ap_writeUpdated base _ _ (hh.2.1 d (hd d rfl))
  · exact ap_pure base _ _ trivial

theorem ap_clearUnAuthorizedTables (base : Heap) : ∀ (es : OrderedMap Nat),
    (∀ e ∈ es, base.tables.length ≤ e.2) →
    keepsApart base (clearUnAuthorizedTables es) (fun _ => True)
  | [], _ => by
      unfold clearUnAuthorizedTables
      exact ap_pure base _ _ trivial
  | (k, p) :: rest, hes => by
      unfold clearUnAuthorizedTables
      have hp := hes (k, p) (List.mem_cons_self _ _)
      refine ap_bind (ap_getTable base p hp) (fun obj hobj => ?_)
      refine ap_tbind (ap_setTable base p _ hp ?_) (fun _ => ?_)
      · constructor
        · intro us hus
          injection hus with hus
          rw [← hus]
          intro e he
          cases he
        · exact hobj.2
      · exact ap_clearUnAuthorizedTables base rest
          (fun e he => hes e (List.mem_cons_of_mem _ he))

theorem ap_wrapJoinAlias (base : Heap) (al : Option Alias) (cur : Option Nat)
    (hc : base.newerMap cur) :
    keepsApart base (wrapJoinAlias al cur) (fun r => base.newerMap r) := by
  unfold wrapJoinAlias
  cases al with
  | none => exact ap_pure base _ _ hc
  | some a => exact ap_createVirtualTableForAlias base a none cur hc

/-! ### The walks, node kind by node kind -/

theorem ap_newMap_some (base : Heap) (es : OrderedMap Nat)
    (hes : ∀ e ∈ es, base.tables.length ≤ e.2) :
    keepsApart base (newMap es) (fun m => base.newerMap (some m)) :=
  ap_weaken (ap_newMap base es hes) (fun m hm => newerMap_some base m hm)

theorem ap_newMap_nil (base : Heap) :
    keepsApart base (newMap []) (fun m => base.newerMap (some m)) :=
  ap_newMap_some base [] (fun e he => by cases he)

theorem staysApart_default (base : Heap) : defaultNodeSem.onHeap.staysApart base := by
  intro tables neg u ht
  exact ap_pure base _ _ ht

theorem staysApart_nil (base : Heap) : nilNodeSem.onHeap.staysApart base := by
  intro tables neg u _
  exact ap_throw base _ _

theorem newerColumns_foldl (n self : Nat) (hself : n ≤ self) : ∀ (names : List String)
    (acc : OrderedMap ColumnCell),
    (∀ e ∈ acc, ∀ q, e.2.SourceTable = some q → n ≤ q) →
    ∀ e ∈ names.foldl
      (fun acc colName => omSet acc colName { Name := colName, SourceTable := some self }) acc,
      ∀ q, e.2.SourceTable = some q → n ≤ q
  | [], acc, hacc => by simpa using hacc
  | c :: rest, acc, hacc => by
      simp only [List.foldl_cons]
      exact newerColumns_foldl n self hself rest _ (sources_omSet (fun q => n ≤ q) acc c c self hacc hself)

theorem ap_authorizeRangeVar (base : Heap) (s : AuthorizationServiceImpl) (relname : String)
    (aliasNode : Option Alias) (tables : Option Nat) (u : UserContext)
    (ht : base.newerMap tables) :
    keepsApart base (authorizeRangeVar s relname aliasNode tables u)
      (fun r => base.newerMap r.2) := by
  unfold authorizeRangeVar
  refine ap_bind (ap_newTable base _ (fun p hp => ?_)) (fun p hp => ?_)
  · constructor
    · intro us hus
      injection hus with hus
      rw [← hus]
      intro e he
      cases he
    · intro cs hcs
      injection hcs with hcs
      rw [← hcs]
      exact newerColumns_foldl _ p hp _ [] (fun e he => by cases he)
  · refine ap_bind (ap_mergeEntries base tables _ ht ?_) (fun d hd => ?_)
    · intro e he
      simp only [List.mem_singleton] at he
      rw [he]; exact hp
    · exact ap_pure base _ _ (newerMap_some base d hd)

theorem ap_walkCtes (base : Heap) (tables : Option Nat) (neg : Bool) (u : UserContext)
    (ht : base.newerMap tables) : ∀ (cs : List Walk), (∀ w ∈ cs, w.staysApart base) →
    ∀ (acc : Bool × Option Nat), base.newerMap acc.2 →
      keepsApart base (walkCtes tables neg u cs acc) (fun r => base.newerMap r.2)
  | [], _, acc, hacc => by
      unfold walkCtes
      exact ap_pure base _ _ hacc
  | c :: rest, hcs, (a, rt), hacc => by
      unfold walkCtes
      refine ap_bind (hcs c (List.mem_cons_self _ _) tables neg u ht) (fun res hres => ?_)
      refine ap_bind (ap_MergeMaps base res.Tables rt hres hacc) (fun merged hm => ?_)
      exact ap_walkCtes base tables neg u ht rest
        (fun w hw => hcs w (List.mem_cons_of_mem _ hw)) _ hm

theorem ap_walkFromItems (base : Heap) (tables : Option Nat) (neg : Bool) (u : UserContext)
    (ht : base.newerMap tables) : ∀ (items : List Walk), (∀ w ∈ items, w.staysApart base) →
    ∀ (acc : Bool × Option Nat), base.newerMap acc.2 →
      keepsApart base (walkFromItems tables neg u items acc) (fun r => base.newerMap r.2)
  | [], _, acc, hacc => by
      unfold walkFromItems
      exact ap_pure base _ _ hacc
  | c :: rest, hcs, (a, rt), hacc => by
      unfold walkFromItems
      refine ap_bind (hcs c (List.mem_cons_self _ _) tables neg u ht) (fun res hres => ?_)
      refine ap_bind (ap_MergeMaps base rt res.Tables hacc hres) (fun merged hm => ?_)
      exact ap_walkFromItems base tables neg u ht rest
        (fun w hw => hcs w (List.mem_cons_of_mem _ hw)) _ hm

theorem ap_walkFromlist (base : Heap) (tables : Option Nat) (neg : Bool) (u : UserContext)
    (ht : base.newerMap tables) : ∀ (items : List Walk), (∀ w ∈ items, w.staysApart base) →
    ∀ (acc : Option Nat), base.newerMap acc →
      keepsApart base (walkFromlist tables neg u items acc) (fun r => base.newerMap r)
  | [], _, acc, hacc => by
      unfold walkFromlist
      exact ap_pure base _ _ hacc
  | c :: rest, hcs, acc, hacc => by
      unfold walkFromlist
      refine ap_bind (hcs c (List.mem_cons_self _ _) tables neg u ht) (fun res hres => ?_)
      refine ap_bind (ap_MergeMaps base acc res.Tables hacc hres) (fun merged hm => ?_)
      exact ap_walkFromlist base tables neg u ht rest
        (fun w hw => hcs w (List.mem_cons_of_mem _ hw)) _ hm

theorem staysApart_selectOn (base : Heap) (into : Bool) (ctes : Option (List Walk))
    (op : SetOperation) (larg rarg : Walk) (items : List Walk) (w hv : Option Walk)
    (tl : List Node)
    (hctes : ∀ cs, ctes = some cs → ∀ c ∈ cs, c.staysApart base) (hl : larg.staysApart base)
    (hr : rarg.staysApart base) (hitems : ∀ i ∈ items, i.staysApart base)
    (hw : ∀ x, w = some x → x.staysApart base) (hhv : ∀ x, hv = some x → x.staysApart base) :
    (authorizeSelectStmtOn into ctes op larg rarg items w hv tl).staysApart base := by
  intro tables neg u ht
  unfold authorizeSelectStmtOn
  simp only [pure_bind]
  simp only [Walk.staysApart] at hl hr hw hhv
  repeat' (first
    | with_reducible (first
        | exact ap_newMap_nil base
        | (refine ap_MergeMaps base _ _ ?_ ?_ <;> assumption)
        | (refine ap_UnionRef base _ _ ?_; assumption)
        | (refine ap_IntersectionRef base _ _ ?_; assumption)
        | (refine ap_walkCtes base tables neg u ht _ (hctes _ rfl) _ ?_; assumption)
        | (refine ap_walkFromItems base tables neg u ht _ hitems _ ?_; assumption)
        | exact hl tables neg u ht
        | exact hr tables neg u ht
        | (refine hw _ rfl _ neg u ?_; assumption)
        | (refine hhv _ rfl _ neg u ?_; assumption)
        | refine ap_bind (p := ?_) ?_ (fun _ _ => ?_)
        | (refine ap_pure base _ _ ?_; assumption)
        | exact ap_throw base _ _)
    | split)

theorem staysApart_joinOn (base : Heap) (larg rarg quals : Walk) (largNil rargNil : Bool)
    (jointype : JoinType) (isNatural : Bool) (usingClause : List Node)
    (joinAlias : Option Alias) (hl : larg.staysApart base) (hr : rarg.staysApart base)
    (hq : quals.staysApart base) :
    (authorizeJoinExprOn larg rarg quals largNil rargNil jointype isNatural usingClause
      joinAlias).staysApart base := by
  intro tables neg u ht
  unfold authorizeJoinExprOn
  simp only [pure_bind]
  simp only [Walk.staysApart] at hl hr hq
  repeat' (first
    | with_reducible (first
        | (refine ap_MergeMaps base _ _ ?_ ?_ <;> assumption)
        | (refine ap_MergeMaps base none _ (newerMap_none base) ?_; assumption)
        | (refine ap_IntersectionRef base _ _ ?_; assumption)
        | (refine ap_entriesOf base _ ?_; assumption)
        | (refine ap_clearUnAuthorizedTables base _ ?_; assumption)
        | (refine ap_wrapJoinAlias base _ _ ?_; assumption)
        | exact hl tables neg u ht
        | exact hr tables neg u ht
        | (refine hq _ neg u ?_; assumption)
        | refine ap_bind (p := ?_) ?_ (fun _ _ => ?_)
        | (refine ap_pure base _ _ ?_; assumption)
        | exact ap_throw base _ _)
    | split)

theorem staysApart_fromExprOn (base : Heap) (fromlist : List Walk) (quals : Walk)
    (hitems : ∀ i ∈ fromlist, i.staysApart base) (hq : quals.staysApart base) :
    (authorizeFromExprOn fromlist quals).staysApart base := by
  intro tables neg u ht
  unfold authorizeFromExprOn
  refine ap_bind (ap_walkFromlist base tables neg u ht fromlist hitems none
    (newerMap_none base)) (fun cur hcur => ?_)
  exact hq cur neg u hcur

theorem staysApart_rangeSubselectOn (base : Heap) (sub : Walk) (lateral : Bool)
    (aliasNode : Option Alias) (hs : sub.staysApart base) :
    (authorizeRangeSubselectOn sub lateral aliasNode).staysApart base := by
  intro tables neg u ht
  unfold authorizeRangeSubselectOn
  cases lateral with
  | true =>
    intro h a h' _ hrun
    cases hrun
  | false =>
    simp only [pure_bind, Bool.false_eq_true, if_false]
    refine ap_bind (hs tables false u ht) (fun res hres => ?_)
    cases aliasNode with
    | none => exact ap_pure base _ _ hres
    | some al =>
      refine ap_bind (ap_createVirtualTableForAlias base al _ _ hres) (fun wrapped hwr => ?_)
      exact ap_pure base _ _ hwr

theorem staysApart_withClauseOn (base : Heap) (ctes : List Walk)
    (hctes : ∀ c ∈ ctes, c.staysApart base) :
    (authorizeWithClauseOn ctes).staysApart base := by
  intro tables neg u ht
  unfold authorizeWithClauseOn
  refine ap_bind (ap_newMap_nil base) (fun fresh hfresh => ?_)
  refine ap_bind (ap_walkCtes base tables neg u ht ctes hctes (true, some fresh) hfresh)
    (fun r hr => ?_)
  exact ap_pure base _ _ hr

/-! ### The predicates on the cells of the store -/

theorem ap_readMap (base : Heap) (m : Nat) :
    keepsApart base (getMap m) (fun _ => True) := by
  intro h a h' hb hrun
  rw [run_getMap] at hrun
  injection hrun with hrun
  injection hrun with h1 h2
  subst h2
  exact ⟨hb, trivial⟩

theorem ap_readEntries (base : Heap) (m : Option Nat) :
    keepsApart base (entriesOf m) (fun _ => True) := by
  cases m with
  | none => exact ap_throw base _ _
  | some mp => exact ap_readMap base mp

/-- From a relation allocated after `base`, the bindings lead only to
relations allocated after `base`. -/
theorem resolve_newer (base h : Heap) (hh : base.apart h) : ∀ (fuel : Nat) (t : Option Nat)
    (a : String) (c : ColumnCell), (∀ p, t = some p → base.tables.length ≤ p) →
    getRealColumnInfoFromAliasRef h fuel t a = some (.ok (some c)) →
    ∀ q, c.SourceTable = some q → base.tables.length ≤ q := by
  intro fuel
  induction fuel with
  | zero =>
    intro t a c ht hres
    cases t with
    | none => simp [getRealColumnInfoFromAliasRef] at hres
    | some p =>
      simp only [getRealColumnInfoFromAliasRef] at hres
      split at hres
      · split at hres
        · simp at hres
        · rename_i cs hcs
          simp only [Option.some.injEq, Except.ok.injEq] at hres
          exact (hh.2.2 p (ht p rfl)).2 cs hcs (a, c) (omGet_mem cs a c hres)
      · simp at hres
  | succ n ih =>
    intro t a c ht hres
    cases t with
    | none => simp [getRealColumnInfoFromAliasRef] at hres
    | some p =>
      simp only [getRealColumnInfoFromAliasRef] at hres
      split at hres
      · split at hres
        · simp at hres
        · rename_i cs hcs
          simp only [Option.some.injEq, Except.ok.injEq] at hres
          exact (hh.2.2 p (ht p rfl)).2 cs hcs (a, c) (omGet_mem cs a c hres)
      · split at hres
        · simp at hres
        · rename_i cs hcs
          split at hres
          · simp at hres
          · rename_i col hcol
            exact ih col.SourceTable col.Name c
              (fun q hq => (hh.2.2 p (ht p rfl)).2 cs hcs (a, col) (omGet_mem cs a col hcol) q hq)
              hres

theorem ap_resolveColumn (base : Heap) (p : Nat) (colAlias : String)
    (hp : base.tables.length ≤ p) :
    keepsApart base (resolveColumn p colAlias)
      (fun r => ∀ c, r = some c → ∀ q, c.SourceTable = some q → base.tables.length ≤ q) := by
  intro h r h' hb hrun
  unfold resolveColumn at hrun
  simp only [run_bind, run_get, except_bind_ok] at hrun
  cases hres : getRealColumnInfoFromAliasRef h (h.bindingCount + 1) (some p) colAlias with
  | none =>
    rw [hres] at hrun
    cases hrun
  | some e =>
    rw [hres] at hrun
    cases e with
    | error err => cases hrun
    | ok v =>
      injection hrun with hrun
      injection hrun with h1 h2
      subst h1; subst h2
      refine ⟨hb, ?_⟩
      intro c hc q hq
      subst hc
      exact resolve_newer base h hb _ (some p) colAlias c
        (fun p' hp' => by injection hp' with hp'; rw [← hp']; exact hp) hres q hq

theorem ap_readColumn (base : Heap) (p : Nat) (colAlias : String) :
    keepsApart base (resolveColumn p colAlias) (fun _ => True) := by
  intro h r h' hb hrun
  unfold resolveColumn at hrun
  simp only [run_bind, run_get, except_bind_ok] at hrun
  cases hres : getRealColumnInfoFromAliasRef h (h.bindingCount + 1) (some p) colAlias with
  | none =>
    rw [hres] at hrun
    cases hrun
  | some e =>
    rw [hres] at hrun
    cases e with
    | error err => cases hrun
    | ok v =>
      injection hrun with hrun
      injection hrun with h1 h2
      subst h2
      exact ⟨hb, trivial⟩

theorem ap_isAuthorizedExpressionRef (base : Heap) (fields : List Node) (aConst : Option A_Const)
    (target real : Nat) (u : UserContext) :
    keepsApart base (isAuthorizedExpressionRef fields aConst target real u) (fun _ => True) := by
  unfold isAuthorizedExpressionRef
  refine ap_tbind (ap_readTable base target) (fun tobj => ?_)
  refine ap_tbind (ap_readTable base real) (fun robj => ?_)
  dsimp only
  refine ap_tbind (ap_readColumn base target _) (fun r => ?_)
  repeat' (first
    | exact ap_pure base _ _ trivial
    | exact ap_throw base _ _
    | split)

theorem refersFrom_setAuthorized (obj : TableObj) (n : Nat) (b : Bool)
    (h : obj.refersFrom n) : TableObj.refersFrom { obj with Authorized := b } n := h

theorem foldl_omDelete_mem {V : Type} : ∀ (removed : List String) (us : OrderedMap V),
    ∀ e ∈ removed.foldl omDelete us, e ∈ us
  | [], us, e, he => by simpa using he
  | k :: rest, us, e, he => by
      simp only [List.foldl_cons] at he
      have := foldl_omDelete_mem rest _ e he
      simp only [omDelete] at this
      exact (List.mem_filter.mp this).1

theorem ap_collectTablesToRemoveRef (base : Heap) (fields : List Node) (aConst : Option A_Const)
    (table : Nat) (u : UserContext) : ∀ (unAuth : OrderedMap Nat),
    (∀ e ∈ unAuth, base.tables.length ≤ e.2) →
    keepsApart base (collectTablesToRemoveRef fields aConst table u unAuth) (fun _ => True)
  | [], _ => by
      unfold collectTablesToRemoveRef
      exact ap_pure base _ _ trivial
  | (k, q) :: rest, hun => by
      unfold collectTablesToRemoveRef
      have hq := hun (k, q) (List.mem_cons_self _ _)
      have hrest := ap_collectTablesToRemoveRef base fields aConst table u rest
        (fun e he => hun e (List.mem_cons_of_mem _ he))
      refine ap_tbind (ap_isAuthorizedExpressionRef base fields aConst table q u) (fun ok => ?_)
      split
      · refine ap_bind (ap_getTable base q hq) (fun obj hobj => ?_)
        refine ap_tbind (ap_setTable base q _ hq (refersFrom_setAuthorized obj _ true hobj))
          (fun _ => ?_)
        exact ap_tbind hrest (fun more => ap_pure base _ _ trivial)
      · exact hrest

theorem ap_authorizeTableByPredicateRef (base : Heap) (fields : List Node)
    (aConst : Option A_Const) (u : UserContext) (table : Nat)
    (ht : base.tables.length ≤ table) :
    keepsApart base (authorizeTableByPredicateRef fields aConst u table) (fun _ => True) := by
  unfold authorizeTableByPredicateRef
  refine ap_bind (ap_getTable base table ht) (fun obj hobj => ?_)
  split
  · split
    · exact ap_pure base _ _ trivial
    · refine ap_tbind (ap_isAuthorizedExpressionRef base fields aConst table table u)
        (fun ok => ?_)
      split
      · exact ap_setTable base table _ ht (refersFrom_setAuthorized obj _ true hobj)
      · exact ap_pure base _ _ trivial
  · split
    · exact ap_throw base _ _
    · rename_i unAuth hun
      refine ap_tbind (ap_collectTablesToRemoveRef base fields aConst table u unAuth
        (hobj.1 unAuth hun)) (fun removed => ?_)
      refine ap_bind (ap_getTable base table ht) (fun cur hcur => ?_)
      refine ap_setTable base table _ ht ?_
      constructor
      · intro us hus
        injection hus with hus
        rw [← hus]
        intro e he
        exact hobj.1 unAuth hun e (foldl_omDelete_mem removed unAuth e he)
      · exact hcur.2

theorem ap_authorizeTablesByPredicateRef (base : Heap) (fields : List Node)
    (aConst : Option A_Const) (u : UserContext) : ∀ (es : OrderedMap Nat),
    (∀ e ∈ es, base.tables.length ≤ e.2) →
    keepsApart base (authorizeTablesByPredicateRef fields aConst u es) (fun _ => True)
  | [], _ => by
      unfold authorizeTablesByPredicateRef
      exact ap_pure base _ _ trivial
  | (k, p) :: rest, hes => by
      unfold authorizeTablesByPredicateRef
      refine ap_tbind (ap_authorizeTableByPredicateRef base fields aConst u p
        (hes (k, p) (List.mem_cons_self _ _))) (fun _ => ?_)
      exact ap_authorizeTablesByPredicateRef base fields aConst u rest
        (fun e he => hes e (List.mem_cons_of_mem _ he))

theorem ap_authorizeMapByPredicateRef (base : Heap) (fields : List Node)
    (aConst : Option A_Const) (u : UserContext) (resultTables : Option Nat)
    (hr : base.newerMap resultTables) :
    keepsApart base (authorizeMapByPredicateRef fields aConst u resultTables)
      (fun _ => True) := by
  unfold authorizeMapByPredicateRef
  refine ap_bind (ap_entriesOf base resultTables hr) (fun es hes => ?_)
  exact ap_authorizeTablesByPredicateRef base fields aConst u es hes

theorem ap_discardError {α : Type} (base : Heap) (x : HeapM α) (post : α → Prop)
    (hx : keepsApart base x post) : keepsApart base (discardError x) post := by
  intro h a h' hb hrun
  have hrun' : x.run h = .ok (a, h') := by
    have : (discardError x).run h = (match x.run h with
      | .error (.error _) => .error (.runtimePanic "nil pointer dereference")
      | r => r) := rfl
    rw [this] at hrun
    split at hrun
    · cases hrun
    · exact hrun
  exact hx h a h' hb hrun'

theorem ap_creditFromSubselectRef (base : Heap) (table : Nat) (resolvedCol : ColumnCell)
    (ht : base.tables.length ≤ table)
    (hc : ∀ q, resolvedCol.SourceTable = some q → base.tables.length ≤ q) :
    ∀ (found : OrderedMap Nat),
    keepsApart base (creditFromSubselectRef table resolvedCol found) (fun _ => True)
  | [] => by
      unfold creditFromSubselectRef
      exact ap_pure base _ _ trivial
  | (k, p) :: rest => by
      unfold creditFromSubselectRef
      have hrest := ap_creditFromSubselectRef base table resolvedCol ht hc rest
      refine ap_tbind (ap_readTable base p) (fun fobj => ?_)
      split
      · exact hrest
      · split
        · exact ap_throw base _ _
        · rename_i src hsrc
          have hs := hc src hsrc
          refine ap_bind (ap_getTable base src hs) (fun sobj hsobj => ?_)
          split
          · refine ap_tbind (ap_setTable base src _ hs
              (refersFrom_setAuthorized sobj _ true hsobj)) (fun _ => ?_)
            refine ap_bind (ap_getTable base table ht) (fun obj hobj => ?_)
            split
            · exact ap_throw base _ _
            · rename_i unAuth hun
              refine ap_setTable base table _ ht ?_
              constructor
              · intro us hus
                injection hus with hus
                rw [← hus]
                intro e he
                simp only [omDelete] at he
                exact hobj.1 unAuth hun e (List.mem_filter.mp he).1
              · exact hobj.2
          · exact hrest

theorem ap_rowExprStepRef (base : Heap) (rexprWalk : Walk) (neg : Bool) (u : UserContext)
    (resultTables : Option Nat) (arg : Node) (hw : rexprWalk.staysApart base)
    (hr : base.newerMap resultTables) :
    keepsApart base (rowExprStepRef rexprWalk neg u resultTables arg) (fun _ => True) := by
  unfold rowExprStepRef
  split
  · split
    · refine ap_bind (ap_entriesOf base resultTables hr) (fun es hes => ?_)
      split
      · exact ap_pure base _ _ trivial
      · rename_i table htable
        have ht := omGet_all (fun q => base.tables.length ≤ q) es hes _ table htable
        refine ap_bind (ap_getTable base table ht) (fun obj hobj => ?_)
        split
        · exact ap_pure base _ _ trivial
        · split
          · refine ap_tbind (ap_readColumn base table _) (fun resolved => ?_)
            cases resolved <;> dsimp only <;> split
            all_goals first
              | exact ap_pure base _ _ trivial
              | (refine ap_bind (ap_newMap_some base _ (fun e he => by
                    simp only [List.mem_singleton] at he
                    rw [he]; exact ht)) (fun element helement => ?_)
                 refine ap_tbind (ap_discardError base _ _ (hw (some element) neg u helement))
                   (fun authResult => ?_)
                 split
                 · refine ap_bind (ap_getTable base table ht) (fun cur hcur => ?_)
                   exact ap_setTable base table _ ht (refersFrom_setAuthorized cur _ true hcur)
                 · exact ap_pure base _ _ trivial)
          · refine ap_bind (ap_resolveColumn base table _ ht) (fun resolved hresolved => ?_)
            split
            · exact ap_pure base _ _ trivial
            · rename_i resolvedCol
              refine ap_tbind (ap_discardError base _ _ (hw none neg u (newerMap_none base)))
                (fun authResult => ?_)
              refine ap_tbind (ap_readEntries base _) (fun found => ?_)
              exact ap_creditFromSubselectRef base table resolvedCol ht
                (hresolved resolvedCol rfl) found
    · exact ap_pure base _ _ trivial
  · exact ap_pure base _ _ trivial

theorem ap_rowExprLoopRef (base : Heap) (rexprWalk : Walk) (neg : Bool) (u : UserContext)
    (resultTables : Option Nat) (hw : rexprWalk.staysApart base)
    (hr : base.newerMap resultTables) : ∀ (args : List Node),
    keepsApart base (rowExprLoopRef rexprWalk neg u resultTables args) (fun _ => True)
  | [] => by
      unfold rowExprLoopRef
      exact ap_pure base _ _ trivial
  | arg :: rest => by
      unfold rowExprLoopRef
      exact ap_tbind (ap_rowExprStepRef base rexprWalk neg u resultTables arg hw hr)
        (fun _ => ap_rowExprLoopRef base rexprWalk neg u resultTables hw hr rest)

theorem ap_authorizeColumnConstRef (base : Heap) (lexpr rexpr : Node)
    (resultTables : Option Nat) (u : UserContext) (hr : base.newerMap resultTables) :
    keepsApart base (authorizeColumnConstRef lexpr rexpr resultTables u) (fun _ => True) := by
  unfold authorizeColumnConstRef
  split
  · exact ap_authorizeMapByPredicateRef base _ _ u resultTables hr
  · exact ap_pure base _ _ trivial

theorem ap_authorizeAExprKindRef (base : Heap) (rexprWalk : Walk) (kind : A_Expr_Kind)
    (lexpr rexpr : Node) (resultTables : Option Nat) (neg : Bool) (u : UserContext)
    (hw : rexprWalk.staysApart base) (hr : base.newerMap resultTables) :
    keepsApart base (authorizeAExprKindRef rexprWalk kind lexpr rexpr resultTables neg u)
      (fun _ => True) := by
  unfold authorizeAExprKindRef
  split
  · refine ap_tbind (ap_authorizeColumnConstRef base _ _ resultTables u hr) (fun _ => ?_)
    split
    · exact ap_rowExprLoopRef base rexprWalk neg u resultTables hw hr _
    · exact ap_pure base _ _ trivial
  · split
    · exact ap_authorizeMapByPredicateRef base _ _ u resultTables hr
    · exact ap_pure base _ _ trivial
  · exact ap_pure base _ _ trivial

theorem ap_foldAuthorizedRef (base : Heap) : ∀ (es : OrderedMap Nat) (authorized : Bool),
    keepsApart base (foldAuthorizedRef authorized es) (fun _ => True)
  | [], authorized => by
      unfold foldAuthorizedRef
      exact ap_pure base _ _ trivial
  | (k, p) :: rest, authorized => by
      unfold foldAuthorizedRef
      refine ap_tbind (ap_readTable base p) (fun obj => ?_)
      split
      · exact ap_foldAuthorizedRef base rest _
      · split
        · split
          · exact ap_throw base _ _
          · exact ap_foldAuthorizedRef base rest _
        · exact ap_foldAuthorizedRef base rest _

theorem ap_foldAuthorizedMapRef (base : Heap) (authorized : Bool) (tables : Option Nat) :
    keepsApart base (foldAuthorizedMapRef authorized tables) (fun _ => True) := by
  unfold foldAuthorizedMapRef
  exact ap_tbind (ap_readEntries base tables) (fun es => ap_foldAuthorizedRef base es authorized)

/-- `authorizeAExpr` writes only to cells of the copy it has made. -/
theorem leavesCaller_authorizeAExprRef (base : Heap) (rexprWalk : Walk) (kind : A_Expr_Kind)
    (name : List Node) (lexpr rexpr : Option Node) (hw : rexprWalk.staysApart base) :
    (authorizeAExprRef rexprWalk kind name lexpr rexpr).leavesCaller base := by
  intro tables neg u
  unfold authorizeAExprRef
  refine ap_bind (ap_CloneUnAuthorizedTablesRef base tables) (fun resultTables hr => ?_)
  split
  · split
    · exact ap_throw base _ _
    · split
      · exact ap_pure base _ _ hr
      · refine ap_tbind (ap_authorizeAExprKindRef base rexprWalk kind _ _ resultTables neg u
          hw hr) (fun _ => ?_)
        refine ap_tbind (ap_foldAuthorizedMapRef base true resultTables) (fun authorized => ?_)
        exact ap_pure base _ _ hr
  · exact ap_pure base _ _ hr

theorem ap_walkOperandsRef (base : Heap) (resultTables : Option Nat) (neg : Bool)
    (u : UserContext) (hr : base.newerMap resultTables) : ∀ (operands : List Walk),
    (∀ w ∈ operands, w.staysApart base) →
    keepsApart base (walkOperandsRef resultTables neg u operands) (fun _ => True)
  | [], _ => by
      unfold walkOperandsRef
      exact ap_pure base _ _ trivial
  | w :: rest, hws => by
      unfold walkOperandsRef
      refine ap_tbind (hws w (List.mem_cons_self _ _) resultTables neg u hr) (fun res => ?_)
      refine ap_tbind (ap_walkOperandsRef base resultTables neg u hr rest
        (fun w' hw' => hws w' (List.mem_cons_of_mem _ hw'))) (fun more => ?_)
      exact ap_pure base _ _ trivial

/-- `authorizeBoolExpr` writes only to cells of the copy it has made, and so
do the walks of its operands, which are given that copy. -/
theorem leavesCaller_authorizeBoolExprRef (base : Heap) (operands : List Walk)
    (boolop : BoolExprType) (hws : ∀ w ∈ operands, w.staysApart base) :
    (authorizeBoolExprRef operands boolop).leavesCaller base := by
  intro tables neg u
  unfold authorizeBoolExprRef
  refine ap_bind (ap_CloneUnAuthorizedTablesRef base tables) (fun resultTables hr => ?_)
  split
  · refine ap_tbind (ap_walkOperandsRef base resultTables neg u hr operands hws) (fun l => ?_)
    refine ap_tbind (ap_UnionRef base resultTables l hr) (fun _ => ?_)
    refine ap_tbind (ap_foldAuthorizedMapRef base true resultTables) (fun authorized => ?_)
    exact ap_pure base _ _ hr
  · refine ap_tbind (ap_walkOperandsRef base resultTables neg u hr operands hws) (fun l => ?_)
    refine ap_tbind (ap_IntersectionRef base resultTables l hr) (fun _ => ?_)
    refine ap_tbind (ap_foldAuthorizedMapRef base true resultTables) (fun authorized => ?_)
    exact ap_pure base _ _ hr
  · split
    · rename_i arg
      refine ap_bind (hws arg (List.mem_singleton.mpr rfl) resultTables (!neg) u hr)
        (fun res hres => ?_)
      refine ap_tbind (ap_foldAuthorizedMapRef base res.Authorized res.Tables)
        (fun authorized => ?_)
      exact ap_pure base _ _ hres
    · exact ap_throw base _ _
  · refine ap_tbind (ap_foldAuthorizedMapRef base true resultTables) (fun authorized => ?_)
    exact ap_pure base _ _ hr

theorem leavesCaller_staysApart (base : Heap) (w : Walk) (h : w.leavesCaller base) :
    w.staysApart base := fun tables neg u _ => h tables neg u

mutual
theorem nodeWalk_staysApart (s : AuthorizationServiceImpl) (base : Heap) :
    ∀ (n : Node), (nodeWalk s n).staysApart base
  | .selectStmt stmt => by
      simp only [nodeWalk]
      exact selectWalk_staysApart s base stmt
  | .boolExpr op args => by
      simp only [nodeWalk]
      exact leavesCaller_staysApart base _
        (leavesCaller_authorizeBoolExprRef base _ op (nodeWalkList_staysApart s base args))
  | .aExpr kind name lexpr rexpr => by
      simp only [nodeWalk]
      exact leavesCaller_staysApart base _
        (leavesCaller_authorizeAExprRef base _ kind name lexpr rexpr
          (nodeWalkOpt_staysApart s base rexpr))
  | .subLink sub => by
      simp only [nodeWalk]
      exact nodeWalkOpt_staysApart s base sub
  | .joinExpr jt nat l r us al q => by
      simp only [nodeWalk]
      exact staysApart_joinOn base _ _ _ _ _ jt nat us al (nodeWalkOpt_staysApart s base l)
        (nodeWalkOpt_staysApart s base r) (nodeWalkOpt_staysApart s base q)
  | .fromExpr fl q => by
      simp only [nodeWalk]
      exact staysApart_fromExprOn base _ _ (nodeWalkList_staysApart s base fl)
        (nodeWalkOpt_staysApart s base q)
  | .rangeVar r a => by
      intro tables neg u ht
      simp only [nodeWalk]
      refine ap_bind (ap_authorizeRangeVar base s r a tables u ht) (fun res hres => ?_)
      exact ap_pure base _ _ hres
  | .rangeSubselect lat sub al => by
      simp only [nodeWalk]
      exact staysApart_rangeSubselectOn base _ lat al (nodeWalkOpt_staysApart s base sub)
  | .withClause ctes => by
      simp only [nodeWalk]
      exact staysApart_withClauseOn base _ (nodeWalkList_staysApart s base ctes)
  | .commonTableExpr _ _ => by
      simp only [nodeWalk]
      exact staysApart_default base
  | .columnRef _ => by
      simp only [nodeWalk]
      exact staysApart_default base
  | .aConst _ => by
      simp only [nodeWalk]
      exact staysApart_default base
  | .string _ => by
      simp only [nodeWalk]
      exact staysApart_default base
  | .integer _ => by
      simp only [nodeWalk]
      exact staysApart_default base
  | .float _ => by
      simp only [nodeWalk]
      exact staysApart_default base
  | .aStar => by
      simp only [nodeWalk]
      exact staysApart_default base
  | .rowExpr _ => by
      simp only [nodeWalk]
      exact staysApart_default base
  | .list _ => by
      simp only [nodeWalk]
      exact staysApart_default base
  | .resTarget _ _ => by
      simp only [nodeWalk]
      exact staysApart_default base
  | .other _ => by
      simp only [nodeWalk]
      exact staysApart_default base
theorem nodeWalkOpt_staysApart (s : AuthorizationServiceImpl) (base : Heap) :
    ∀ (n : Option Node), (nodeWalkOpt s n).staysApart base
  | none => by
      simp only [nodeWalkOpt]
      exact staysApart_nil base
  | some n => by
      simp only [nodeWalkOpt]
      exact nodeWalk_staysApart s base n
theorem nodeWalkList_staysApart (s : AuthorizationServiceImpl) (base : Heap) :
    ∀ (l : List Node), ∀ w ∈ nodeWalkList s l, w.staysApart base
  | [] => by simp [nodeWalkList]
  | n :: rest => by
      intro w hw
      simp only [nodeWalkList, List.mem_cons] at hw
      rcases hw with hw | hw
      · subst hw; exact nodeWalk_staysApart s base n
      · exact nodeWalkList_staysApart s base rest w hw
theorem selectWalk_staysApart (s : AuthorizationServiceImpl) (base : Heap) :
    ∀ (stmt : SelectStmt), (selectWalk s stmt).staysApart base
  | .mk into wc op l r items wh hv tl => by
      simp only [selectWalk]
      exact staysApart_selectOn base into _ op _ _ _ _ _ tl (nodeWalkListOpt_staysApart s base wc)
        (selectWalkOpt_staysApart s base l) (selectWalkOpt_staysApart s base r)
        (nodeWalkList_staysApart s base items) (whereWalk_staysApart s base wh)
        (whereWalk_staysApart s base hv)
theorem selectWalkOpt_staysApart (s : AuthorizationServiceImpl) (base : Heap) :
    ∀ (stmt : Option SelectStmt), (selectWalkOpt s stmt).staysApart base
  | none => by
      intro tables neg u _
      simp only [selectWalkOpt]
      refine ap_bind (ap_newMap_nil base) (fun fresh hfresh => ?_)
      exact ap_pure base _ _ hfresh
  | some stmt => by
      simp only [selectWalkOpt]
      exact selectWalk_staysApart s base stmt
theorem nodeWalkListOpt_staysApart (s : AuthorizationServiceImpl) (base : Heap) :
    ∀ (wc : Option (List Node)) (cs : List Walk), nodeWalkListOpt s wc = some cs →
      ∀ c ∈ cs, c.staysApart base
  | none, cs, h => by simp [nodeWalkListOpt] at h
  | some ctes, cs, h => by
      simp only [nodeWalkListOpt, Option.some.injEq] at h
      subst h
      exact nodeWalkList_staysApart s base ctes
theorem whereWalk_staysApart (s : AuthorizationServiceImpl) (base : Heap) :
    ∀ (wh : Option Node) (x : Walk), whereWalk s wh = some x → x.staysApart base
  | none, x, h => by simp [whereWalk] at h
  | some n, x, h => by
      simp only [whereWalk, Option.some.injEq] at h
      subst h
      exact nodeWalk_staysApart s base n
end

/-- A boolean tree over comparison expressions is walked by `authorizeAExpr`
or `authorizeBoolExpr`, which write only to the copy they make: whatever map
the walk is given, the store it started from is left as it is. -/
theorem booleanTree_leavesCaller (s : AuthorizationServiceImpl) (base : Heap) (n : Node)
    (hn : n.isBooleanTree = true) : (nodeWalk s n).leavesCaller base := by
  cases n <;> simp [Node.isBooleanTree] at hn
  · simp only [nodeWalk]
    exact leavesCaller_authorizeBoolExprRef base _ _ (nodeWalkList_staysApart s base _)
  · simp only [nodeWalk]
    exact leavesCaller_authorizeAExprRef base _ _ _ _ _ (nodeWalkOpt_staysApart s base _)

/-- The loop over the operands of AND and OR when they are boolean trees over
comparison expressions: every operand is walked from a store in which the
relations and maps the loop started with are as they were. -/
theorem walkOperandsRef_booleanTrees (s : AuthorizationServiceImpl) (base : Heap)
    (rt : Option Nat) (neg : Bool) (u : UserContext) :
    ∀ (args : List Node) (h : Heap) (collected : List (Option Nat)) (h' : Heap),
      allBooleanTrees args = true → base.apart h →
      (walkOperandsRef rt neg u (nodeWalkList s args)).run h = .ok (collected, h') →
      base.apart h' ∧ List.Forall₂ (fun a c => ∃ h1 h2 r, base.continuedBy h1 ∧
        (nodeWalk s a rt neg u).run h1 = .ok (r, h2) ∧ c = r.Tables) args collected
  | [], h, collected, h', _, hb, hrun => by
      simp only [nodeWalkList, walkOperandsRef, run_pure] at hrun
      injection hrun with hrun
      injection hrun with h1 h2
      subst h1; subst h2
      exact ⟨hb, List.Forall₂.nil⟩
  | a :: rest, h, collected, h', hargs, hb, hrun => by
      simp only [allBooleanTrees, Bool.and_eq_true] at hargs
      simp only [nodeWalkList, walkOperandsRef, run_bind] at hrun
      cases ha : (nodeWalk s a rt neg u).run h with
      | error e => rw [ha] at hrun; cases hrun
      | ok pr =>
        obtain ⟨r, h1⟩ := pr
        rw [ha] at hrun
        simp only [except_bind_ok] at hrun
        have hb1 := (booleanTree_leavesCaller s base a hargs.1 rt neg u h r h1 hb ha).1
        cases hr : (walkOperandsRef rt neg u (nodeWalkList s rest)).run h1 with
        | error e => rw [hr] at hrun; cases hrun
        | ok pr2 =>
          obtain ⟨more, h2⟩ := pr2
          rw [hr] at hrun
          simp only [except_bind_ok, run_pure] at hrun
          injection hrun with hrun
          injection hrun with e1 e2
          subst e1; subst e2
          obtain ⟨hb2, hall⟩ := walkOperandsRef_booleanTrees s base rt neg u rest h1 more h2
            hargs.2 hb1 hr
          exact ⟨hb2, List.Forall₂.cons ⟨h, h1, r, hb.1, ha, rfl⟩ hall⟩

/-- C40. Walking a predicate does not modify the map of the caller.  The
predicates are performed on the store, where every assignment to a relation
is a write to a cell.  For every boolean tree `n` over comparison expressions
(`authorizeAExpr`, `authorizeBoolExpr`), every store, incoming map, flag `neg`
and caller: when the walk returns, every relation cell and every relation map
the store held before the call is as it was (the flag `Authorized`, the
columns and the unauthorized components of every relation included), and the
map of the result is a map allocated by the call, not one the caller holds:
all writes went to the copy.  So in the loop over the operands of an AND or
OR every operand is walked from a store in which the map the loop started
with, and every relation it leads to, is as it was at the start. -/
theorem predicate_walk_leaves_caller_map (s : AuthorizationServiceImpl) (n : Node)
    (hn : n.isBooleanTree = true) (tables : Option Nat) (neg : Bool) (u : UserContext)
    (h h' : Heap) (res : AuthorizationResultRef)
    (hrun : (AuthorizeNodeRef s (some n) tables neg u).run h = .ok (res, h')) :
    h.continuedBy h' ∧ (∀ m, res.Tables = some m → h.maps.length ≤ m) ∧
    (∀ (op : BoolExprType) (args : List Node) (rt : Option Nat) (h0 h1 : Heap)
        (collected : List (Option Nat)),
      n = .boolExpr op args →
      (walkOperandsRef rt neg u (nodeWalkList s args)).run h0 = .ok (collected, h1) →
      h0.continuedBy h1 ∧ List.Forall₂ (fun a c => ∃ h2 h3 r, h0.continuedBy h2 ∧
        (nodeWalk s a rt neg u).run h2 = .ok (r, h3) ∧ c = r.Tables) args collected) := by
  have hf := booleanTree_leavesCaller s h n hn tables neg u h res h' (apart_refl h)
    (by simpa [AuthorizeNodeRef, nodeWalkOpt] using hrun)
  refine ⟨hf.1.1, hf.2, ?_⟩
  intro op args rt h0 h1 collected hop hw
  subst hop
  obtain ⟨hb, hall⟩ := walkOperandsRef_booleanTrees s h0 rt neg u args h0 collected h1
    (by simpa [Node.isBooleanTree] using hn) (apart_refl h0) hw
  exact ⟨hb.1, hall⟩

theorem predicate_walk_leaves_caller_map_witness :
    ∃ res h', (AuthorizeNodeRef mockService (some (notBothDiffer 123 "x")) (some 0) false
        (studentCaller 123 0 0 [])).run twoTableHeap = .ok (res, h') ∧
      twoTableHeap.continuedBy h' ∧ (∀ m, res.Tables = some m → twoTableHeap.maps.length ≤ m) := by
  have hok : faultOf ((AuthorizeNodeRef mockService (some (notBothDiffer 123 "x")) (some 0) false
      (studentCaller 123 0 0 [])).run twoTableHeap) = none := by decide!
  cases hr : (AuthorizeNodeRef mockService (some (notBothDiffer 123 "x")) (some 0) false
      (studentCaller 123 0 0 [])).run twoTableHeap with
  | error e =>
    rw [hr] at hok
    cases hok
  | ok p =>
    exact ⟨p.1, p.2, rfl,
      (predicate_walk_leaves_caller_map mockService (notBothDiffer 123 "x") rfl (some 0) false
        (studentCaller 123 0 0 []) twoTableHeap p.2 p.1 hr).1,
      (predicate_walk_leaves_caller_map mockService (notBothDiffer 123 "x") rfl (some 0) false
        (studentCaller 123 0 0 []) twoTableHeap p.2 p.1 hr).2.1⟩

/-- The walk of `NOT (student.id <> 123 AND student.name <> 'x')` for the
student 123, given the map at 0 of `twoTableHeap`: the result is authorized
and the relation `student` of the returned map is authorized, while the
relation `student` of the map of the caller (the cell at 0) is not
authorized, as before, and that map holds the cells it held. -/
theorem predicate_walk_writes_to_copy :
    ((AuthorizeNodeRef mockService (some (notBothDiffer 123 "x")) (some 0) false
        (studentCaller 123 0 0 [])).run twoTableHeap).toOption.map
      (fun p => p.1.Authorized) = some true ∧
    ((AuthorizeNodeRef mockService (some (notBothDiffer 123 "x")) (some 0) false
        (studentCaller 123 0 0 [])).run twoTableHeap).toOption.map
      (fun p => (shallowMap p.2 p.1.Tables).map
        (fun ts => ts.map (fun e => (e.1, e.2.Authorized))))
      = some (some [("student", true), ("course", true)]) ∧
    ((AuthorizeNodeRef mockService (some (notBothDiffer 123 "x")) (some 0) false
        (studentCaller 123 0 0 [])).run twoTableHeap).toOption.map
      (fun p => (p.2.table 0).Authorized) = some false ∧
    ((AuthorizeNodeRef mockService (some (notBothDiffer 123 "x")) (some 0) false
        (studentCaller 123 0 0 [])).run twoTableHeap).toOption.map
      (fun p => p.2.map 0) = some [("student", 0), ("course", 1)] := by
  refine ⟨?_, ?_, ?_, ?_⟩ <;> decide!

/-- On the predicates of the tests, the walk on the store and the walk on a
copy given by value return the same: the same verdict, the same relations in
the returned map, and the same incoming map. -/
theorem walk_on_store_agrees_on_predicates :
    walkFrom (nodeWalk mockService (notBothDiffer 123 "x")) (some studentAsS) false
        (studentCaller 123 0 0 [])
      = walkFrom (nodeSem mockService (notBothDiffer 123 "x")).onHeap (some studentAsS) false
        (studentCaller 123 0 0 []) ∧
    walkFrom (nodeWalk mockService studentRowEqualsCourseRow.node) (some studentAsS) false
        (studentCaller 1 0 0 [])
      = walkFrom (nodeSem mockService studentRowEqualsCourseRow.node).onHeap (some studentAsS)
        false (studentCaller 1 0 0 []) ∧
    walkFrom (nodeWalk mockService (eitherEquals 1 "x"))
        (some [("student", unauthorizedBase mockService "student")]) false
        (studentCaller 1 0 0 [])
      = walkFrom (nodeSem mockService (eitherEquals 1 "x")).onHeap
        (some [("student", unauthorizedBase mockService "student")]) false
        (studentCaller 1 0 0 []) ∧
    walkFrom (nodeWalk mockService (columnOpConst "v" "id" "=" 1).node)
        (some [("v", virtualOverStudent mockService
          [("student", unauthorizedBase mockService "student")] false)]) false
        (studentCaller 1 0 0 [])
      = walkFrom (nodeSem mockService (columnOpConst "v" "id" "=" 1).node).onHeap
        (some [("v", virtualOverStudent mockService
          [("student", unauthorizedBase mockService "student")] false)]) false
        (studentCaller 1 0 0 []) := by
  refine ⟨?_, ?_, ?_, ?_⟩ <;> decide!

/-! ## Statements the walker supports: relations authorized throughout -/

theorem credited_succ (h : Heap) (lo : Nat) : ∀ (d p : Nat),
    h.credited lo d p → h.credited lo (d + 1) p
  | 0, _, hc => by cases hc
  | d + 1, p, hc => by
      obtain ⟨h1, h2, h3, h4, cs, h5, h6⟩ := hc
      refine ⟨h1, h2, h3, h4, cs, h5, ?_⟩
      rcases h6 with h6 | h6
      · exact Or.inl h6
      · exact Or.inr (fun e he q hq => credited_succ h lo d q (h6 e he q hq))

theorem credited_le (h : Heap) (lo : Nat) (d d' p : Nat) (hd : d ≤ d')
    (hc : h.credited lo d p) : h.credited lo d' p := by
  induction hd with
  | refl => exact hc
  | step _ ih => exact credited_succ h lo _ p ih

theorem credited_lo (h : Heap) (lo lo' : Nat) (hlo : lo' ≤ lo) : ∀ (d p : Nat),
    h.credited lo d p → h.credited lo' d p
  | 0, _, hc => by cases hc
  | d + 1, p, hc => by
      obtain ⟨h1, h2, h3, h4, cs, h5, h6⟩ := hc
      refine ⟨Nat.le_trans hlo h1, h2, h3, h4, cs, h5, ?_⟩
      rcases h6 with h6 | h6
      · exact Or.inl h6
      · exact Or.inr (fun e he q hq => credited_lo h lo lo' hlo d q (h6 e he q hq))

theorem credited_agrees (h h' : Heap) (lo : Nat) (ha : h.agreesFrom h' lo) : ∀ (d p : Nat),
    h.credited lo d p → h'.credited lo d p
  | 0, _, hc => by cases hc
  | d + 1, p, hc => by
      obtain ⟨h1, h2, h3, h4, cs, h5, h6⟩ := hc
      have hp := ha.2 p h1 h2
      refine ⟨h1, Nat.lt_of_lt_of_le h2 ha.1, by rw [hp]; exact h3, by rw [hp]; exact h4, cs,
        by rw [hp]; exact h5, ?_⟩
      rcases h6 with h6 | h6
      · exact Or.inl (by rw [hp]; exact h6)
      · exact Or.inr (fun e he q hq => credited_agrees h h' lo ha d q (h6 e he q hq))

theorem agreesFrom_continued (h h' : Heap) (lo : Nat) (hc : h.continuedBy h') :
    h.agreesFrom h' lo :=
  ⟨hc.1, fun x _ hx => hc.2.2.1 x hx⟩

theorem settled_continued (h h' : Heap) (es : OrderedMap Nat) (hs : h.settled es)
    (hc : h.continuedBy h') : h'.settled es := by
  intro e he
  exact credited_le h' 0 _ _ _ hc.1
    (credited_agrees h h' 0 (agreesFrom_continued h h' 0 hc) _ _ (hs e he))

theorem settled_tables (h h' : Heap) (es : OrderedMap Nat) (ht : h'.tables = h.tables)
    (hs : h.settled es) : h'.settled es := by
  have ha : h.agreesFrom h' 0 :=
    ⟨by rw [ht], fun x _ _ => by simp only [Heap.table, ht]⟩
  intro e he
  have := credited_agrees h h' 0 ha _ _ (hs e he)
  rw [ht]
  exact this

theorem settled_nil (h : Heap) : h.settled [] := fun _ he => by cases he

theorem credited_usable (h : Heap) (lo d p : Nat) (hc : h.credited lo d p) :
    p < h.tables.length ∧ (h.table p).Columns.isSome = true ∧
      (h.table p).UnAuthorizedTables.isSome = true := by
  cases d with
  | zero => cases hc
  | succ d =>
    obtain ⟨_, h2, _, h4, cs, h5, _⟩ := hc
    exact ⟨h2, by rw [h5]; rfl, by rw [h4]; rfl⟩

theorem settled_usable (h : Heap) (es : OrderedMap Nat) (hs : h.settled es) : h.usable es :=
  fun e he => credited_usable h 0 _ e.2 (hs e he)

theorem credited_flags (h : Heap) (lo d p : Nat) (hc : h.credited lo d p) :
    (h.table p).Authorized = true ∧ (h.table p).UnAuthorizedTables = some [] := by
  cases d with
  | zero => cases hc
  | succ d =>
    obtain ⟨_, _, h3, h4, _⟩ := hc
    exact ⟨h3, h4⟩

/-- Merging a settled map into a map that the walk owns: the stores before
the walk are continued, and the merged map is settled. -/
theorem mergeMaps_settled (base h : Heap) (d sp : Nat) (hb : base.continuedBy h)
    (hd : base.maps.length ≤ d) (hdlt : d < h.maps.length) (hud : h.settled (h.map d))
    (hus : h.settled (h.map sp)) :
    ∃ h', (MergeMaps (some d) (some sp)).run h = .ok (some d, h') ∧ base.continuedBy h' ∧
      h'.tables = h.tables ∧ h'.maps.length = h.maps.length ∧ h'.settled (h'.map d) ∧
      (∀ m, m ≠ d → h'.map m = h.map m) := by
  refine ⟨_, run_MergeMaps_some h d sp, setMap_keeps base h d _ hb hd, rfl, by simp, ?_,
    fun m hm => map_set_other h _ d m hm⟩
  rw [map_set_same h _ d hdlt]
  refine settled_tables h _ _ rfl ?_
  intro e he
  rcases foldl_omSet_mem _ _ e he with h1 | h1
  · exact hud e h1
  · exact hus e h1

theorem mergeMaps_fresh_settled (h : Heap) (sp : Nat) (hus : h.settled (h.map sp)) :
    ∃ h', (MergeMaps none (some sp)).run h = .ok (some h.maps.length, h') ∧ h.continuedBy h' ∧
      h'.tables = h.tables ∧ h'.maps.length = h.maps.length + 1 ∧
      h'.settled (h'.map h.maps.length) := by
  refine ⟨_, run_MergeMaps_none h sp, continuedBy_newMap h _, rfl, by simp, ?_⟩
  rw [map_append_new]
  refine settled_tables h _ _ rfl ?_
  intro e he
  rcases foldl_omSet_mem _ _ e he with h1 | h1
  · simp at h1
  · exact hus e h1

theorem run_authorizeRangeVar_base (s : AuthorizationServiceImpl) (relname : String)
    (aliasNode : Option Alias) (u : UserContext) (h : Heap) :
    ∃ obj tableAlias, (authorizeRangeVar s relname aliasNode none u).run h
      = .ok ((relationOpen u relname, some h.maps.length),
          { tables := h.tables ++ [obj], maps := h.maps ++ [[(tableAlias, h.tables.length)]] }) ∧
      obj.Columns.isSome = true ∧ obj.UnAuthorizedTables = some [] ∧
      obj.Authorized = relationOpen u relname ∧ obj.IsDatabase = true := by
  have h1 : ∃ obj tableAlias, (authorizeRangeVar s relname aliasNode none u).run h
      = .ok ((relationOpen u relname, some h.maps.length),
        { tables := h.tables ++ [obj],
          maps := List.set (h.maps ++ [[]]) h.maps.length
            (List.foldl (fun acc e => omSet acc e.1 e.2)
              (Heap.map { tables := h.tables ++ [obj], maps := h.maps ++ [[]] } h.maps.length)
              [(tableAlias, h.tables.length)]) }) ∧
      obj.Columns.isSome = true ∧ obj.UnAuthorizedTables = some [] ∧
      obj.Authorized = relationOpen u relname ∧ obj.IsDatabase = true :=
    ⟨_, _, rfl, rfl, rfl, rfl, rfl⟩
  obtain ⟨obj, tableAlias, hrun, hc, hu, ha, hd⟩ := h1
  refine ⟨obj, tableAlias, ?_, hc, hu, ha, hd⟩
  rw [hrun, set_append_last]
  have h2 : Heap.map { tables := h.tables ++ [obj], maps := h.maps ++ [[]] } h.maps.length
      = [] := map_append_new { h with tables := h.tables ++ [obj] } []
  rw [h2]
  rfl

theorem rangeVar_settles (s : AuthorizationServiceImpl) (relname : String)
    (aliasNode : Option Alias) (u : UserContext) (hopen : relationOpen u relname = true) :
    (nodeSem s (.rangeVar relname aliasNode)).onHeap.settles u := by
  intro h
  obtain ⟨obj, tableAlias, hrun, hc, hu, ha, hd⟩ :=
    run_authorizeRangeVar_base s relname aliasNode u h
  refine ⟨none, AuthorizationResultRef.mk true (some h.maps.length) none,
    Heap.mk (h.tables ++ [obj]) (h.maps ++ [[(tableAlias, h.tables.length)]]), h.maps.length,
    ?_, rfl, rfl, rfl, Nat.le_refl _, by simp, ?_, ?_⟩
  · simp only [nodeSem, heapNodeSem, run_bind, hrun, except_bind_ok, hopen]
    rfl
  · exact continuedBy_trans _ _ _ (continuedBy_newTable h obj)
      (continuedBy_newMap (Heap.mk (h.tables ++ [obj]) h.maps) _)
  · have hmap : Heap.map (Heap.mk (h.tables ++ [obj])
        (h.maps ++ [[(tableAlias, h.tables.length)]])) h.maps.length
        = [(tableAlias, h.tables.length)] :=
      map_append_new (Heap.mk (h.tables ++ [obj]) h.maps) _
    rw [hmap]
    intro e he
    simp only [List.mem_singleton] at he
    subst he
    have htab : Heap.table (Heap.mk (h.tables ++ [obj])
        (h.maps ++ [[(tableAlias, h.tables.length)]])) h.tables.length = obj :=
      table_append_new (Heap.mk h.tables (h.maps ++ [[(tableAlias, h.tables.length)]])) obj
    have hlen : (Heap.mk (h.tables ++ [obj])
        (h.maps ++ [[(tableAlias, h.tables.length)]])).tables.length = h.tables.length + 1 := by
      simp
    rw [hlen]
    cases hcs : obj.Columns with
    | none => rw [hcs] at hc; cases hc
    | some cs =>
      refine ⟨Nat.zero_le _, by rw [hlen]; exact Nat.lt_succ_self _, ?_, ?_, cs, ?_, Or.inl ?_⟩
      · rw [htab, ha, hopen]
      · rw [htab, hu]
      · rw [htab, hcs]
      · rw [htab, hd]

theorem run_collectUnauthorized_settled (h : Heap) : ∀ (cur acc : OrderedMap Nat),
    (∀ e ∈ cur, (h.table e.2).Authorized = true) →
    (collectUnauthorized cur acc).run h = .ok (acc, h)
  | [], acc, _ => rfl
  | (a, p) :: rest, acc, hall => by
      have hp := hall (a, p) (List.mem_cons_self _ _)
      simp only [collectUnauthorized, run_bind, run_getTable, except_bind_ok]
      simp only at hp
      rw [hp]
      exact run_collectUnauthorized_settled h rest acc
        (fun e he => hall e (List.mem_cons_of_mem _ he))

theorem run_collectNestedUnauthorized_settled (h : Heap) : ∀ (cur acc : OrderedMap Nat),
    (∀ e ∈ cur, (h.table e.2).UnAuthorizedTables = some []) →
    (collectNestedUnauthorized cur acc).run h = .ok (acc, h)
  | [], acc, _ => rfl
  | (a, p) :: rest, acc, hall => by
      have hp := hall (a, p) (List.mem_cons_self _ _)
      simp only at hp
      simp only [collectNestedUnauthorized, run_bind, run_getTable, except_bind_ok, hp,
        List.foldl_nil]
      exact run_collectNestedUnauthorized_settled h rest acc
        (fun e he => hall e (List.mem_cons_of_mem _ he))

/-- After the target list is processed, `createVirtualTableForAlias` over a
settled map allocates a virtual relation that is authorized throughout. -/
theorem createVirtual_finish_settled (h : Heap) (a : Alias) (m : Nat)
    (columns : OrderedMap ColumnCell) (hs : h.settled (h.map m))
    (hcols : ∀ e ∈ columns, ∀ q, e.2.SourceTable = some q → h.credited 0 h.tables.length q) :
    ∃ h', ((do
        let unAuth1 ← collectUnauthorized (h.map m) []
        let unAuth ← collectNestedUnauthorized (h.map m) unAuth1
        let virtualTable ← newTable (fun _ =>
          TableObj.mk a.Aliasname (some columns) a.Aliasname false (some unAuth)
            (decide (unAuth.length = 0)) false)
        let m ← newMap [(a.Aliasname, virtualTable)]
        pure (some m) : HeapM (Option Nat))).run h = .ok (some h.maps.length, h') ∧
      h.continuedBy h' ∧ h.maps.length < h'.maps.length ∧
      h'.settled (h'.map h.maps.length) := by
  have hun1 := run_collectUnauthorized_settled h (h.map m) []
    (fun e he => (credited_flags h 0 _ e.2 (hs e he)).1)
  have hun := run_collectNestedUnauthorized_settled h (h.map m) []
    (fun e he => (credited_flags h 0 _ e.2 (hs e he)).2)
  let V : TableObj := TableObj.mk a.Aliasname (some columns) a.Aliasname false
    (some []) (decide (([] : OrderedMap Nat).length = 0)) false
  have hcont : h.continuedBy (Heap.mk (h.tables ++ [V])
      (h.maps ++ [[(a.Aliasname, h.tables.length)]])) :=
    continuedBy_trans _ _ _ (continuedBy_newTable h V)
      (continuedBy_newMap (Heap.mk (h.tables ++ [V]) h.maps) _)
  refine ⟨Heap.mk (h.tables ++ [V]) (h.maps ++ [[(a.Aliasname, h.tables.length)]]),
    ?_, hcont, ?_, ?_⟩
  · simp only [run_bind, except_bind_ok, hun1, hun, run_newTable, run_newMap, run_pure]
  · simp
  · have hmap : Heap.map (Heap.mk (h.tables ++ [V])
        (h.maps ++ [[(a.Aliasname, h.tables.length)]])) h.maps.length
        = [(a.Aliasname, h.tables.length)] :=
      map_append_new (Heap.mk (h.tables ++ [V]) h.maps) _
    rw [hmap]
    intro e he
    simp only [List.mem_singleton] at he
    subst he
    have htab : Heap.table (Heap.mk (h.tables ++ [V])
        (h.maps ++ [[(a.Aliasname, h.tables.length)]])) h.tables.length = V :=
      table_append_new (Heap.mk h.tables (h.maps ++ [[(a.Aliasname, h.tables.length)]])) V
    have hlen : (Heap.mk (h.tables ++ [V])
        (h.maps ++ [[(a.Aliasname, h.tables.length)]])).tables.length = h.tables.length + 1 := by
      simp
    rw [hlen]
    refine ⟨Nat.zero_le _, by rw [hlen]; exact Nat.lt_succ_self _, by rw [htab]; rfl,
      by rw [htab], columns, by rw [htab], Or.inr ?_⟩
    intro e he q hq
    exact credited_agrees h _ 0 (agreesFrom_continued h _ 0 hcont) _ q (hcols e he q hq)

/-- `createVirtualTableForAlias` on a settled map, with targets it can
process: it returns a new map holding one new virtual relation, which is
authorized throughout, and the store is continued. -/
theorem createVirtual_settled (h : Heap) (a : Alias) (tl : Option (List Node)) (m : Nat)
    (hs : h.settled (h.map m)) (htl : targetsResolvable tl = true) :
    ∃ h', (createVirtualTableForAlias a tl (some m)).run h = .ok (some h.maps.length, h') ∧
      h.continuedBy h' ∧ h.maps.length < h'.maps.length ∧
      h'.settled (h'.map h.maps.length) := by
  have hu := settled_usable h _ hs
  have hcols : ∀ e ∈ h.map m, (h.table e.2).Columns.isSome = true := fun e he => (hu e he).2.1
  obtain ⟨n, hn⟩ := run_countAllColumns h ((h.map m).map Prod.snd) (by
    intro p hp
    obtain ⟨e, he, rfl⟩ := List.mem_map.mp hp
    exact hcols e he)
  cases tl with
  | none =>
    obtain ⟨columns, hcolumns⟩ := run_createAllColumnsFromSourceTableList_ok h
      ((h.map m).map Prod.snd) (a.Colnames.filterMap Node.GetString_) []
    have hP := (ap_createAllColumnsFromSourceTableList h
      (fun q => h.credited 0 h.tables.length q) ((h.map m).map Prod.snd)
      (a.Colnames.filterMap Node.GetString_) []
      (values_all (fun q => h.credited 0 h.tables.length q) _ hs) (fun e he => by cases he)
      h columns h (apart_refl h) hcolumns).2
    obtain ⟨h', hrun, hrest⟩ := createVirtual_finish_settled h a m columns hs hP
    refine ⟨h', ?_, hrest⟩
    rw [← hrun]
    simp only [createVirtualTableForAlias, entriesOf, run_bind, run_getMap, except_bind_ok, hn,
      hcolumns]
  | some targets =>
    obtain ⟨st, hst⟩ := run_addTargetListColumns_ok h (h.map m) n hcols targets
      ([], a.Colnames.filterMap Node.GetString_) (by simpa [targetsResolvable] using htl)
    have hP := (ap_addTargetListColumns h (fun q => h.credited 0 h.tables.length q) (h.map m) n
      hs targets ([], a.Colnames.filterMap Node.GetString_) (fun e he => by cases he)
      h st h (apart_refl h) hst).2
    obtain ⟨h', hrun, hrest⟩ := createVirtual_finish_settled h a m st.1 hs hP
    refine ⟨h', ?_, hrest⟩
    rw [← hrun]
    simp only [createVirtualTableForAlias, entriesOf, run_bind, run_getMap, except_bind_ok, hn,
      hst, run_pure]

/-! ### A comparison walked on relations that are authorized throughout -/

mutual
theorem clone_settled : ∀ (t : TableInfoV2), t.settled = true →
    ∃ t', t.Clone = .ok t' ∧ t'.settled = true
  | .mk name cols als hs un au db, h => by
      simp only [TableInfoV2.settled, Bool.and_eq_true] at h
      obtain ⟨⟨ha, hu⟩, hc⟩ := h
      have hun : un = some [] := by
        cases un with
        | none => simp [emptyComponents] at hu
        | some l =>
          cases l with
          | nil => rfl
          | cons x rest => simp [emptyComponents] at hu
      subst hun
      cases cols with
      | none => simp [settledColumnsOpt] at hc
      | some cs =>
        simp only [settledColumnsOpt, Bool.or_eq_true] at hc
        obtain ⟨cs', hcs, hset⟩ := cloneColumns_settled db cs hc
        refine ⟨.mk name (some cs') als hs (some []) au db, ?_, ?_⟩
        · simp [TableInfoV2.Clone, cloneColumnsOpt, hcs, cloneTablesOpt, cloneTables]
        · simp only [TableInfoV2.settled, ha, emptyComponents, Bool.and_self, Bool.true_and,
            settledColumnsOpt, Bool.or_eq_true]
          exact hset
theorem cloneColumns_settled : ∀ (db : Bool) (cs : List (String × ColumnInfo)),
    (db = true ∨ settledColumns cs = true) →
    ∃ cs', cloneColumns db cs = .ok cs' ∧ (db = true ∨ settledColumns cs' = true)
  | db, [], h => ⟨[], by simp [cloneColumns], by
      rcases h with h | h
      · exact Or.inl h
      · exact Or.inr (by simp [settledColumns])⟩
  | db, (a, .mk name src) :: rest, h => by
      have h2 : db = true ∨ settledColumns rest = true := by
        rcases h with h | h
        · exact Or.inl h
        · simp only [settledColumns, Bool.and_eq_true] at h; exact Or.inr h.2
      obtain ⟨rest', hr, hrs⟩ := cloneColumns_settled db rest h2
      cases db with
      | true =>
        exact ⟨(a, .mk name .self) :: rest', by simp [cloneColumns, cloneColumn, hr], Or.inl rfl⟩
      | false =>
        have h1 : settledSource src = true := by
          rcases h with h | h
          · cases h
          · simp only [settledColumns, Bool.and_eq_true] at h; exact h.1
        have hrs' : settledColumns rest' = true := by
          rcases hrs with hrs | hrs
          · cases hrs
          · exact hrs
        obtain ⟨src', hs, hss⟩ := cloneSource_settled src h1
        exact ⟨(a, .mk name src') :: rest', by simp [cloneColumns, cloneColumn, hs, hr],
          Or.inr (by simp [settledColumns, hss, hrs'])⟩
theorem cloneSource_settled : ∀ (src : SourceRef), settledSource src = true →
    ∃ src', cloneSource src = .ok src' ∧ settledSource src' = true
  | .nil, _ => ⟨.nil, by simp [cloneSource], by simp [settledSource]⟩
  | .self, h => by simp [settledSource] at h
  | .table t, h => by
      obtain ⟨t', ht, hts⟩ := clone_settled t (by simpa [settledSource] using h)
      exact ⟨.table t', by simp [cloneSource, ht], by simpa [settledSource] using hts⟩
end

theorem cloneTables_settled : ∀ (ts : List (String × TableInfoV2)),
    (∀ e ∈ ts, e.2.settled = true) →
    ∃ ts', cloneTables ts = .ok ts' ∧ (∀ e ∈ ts', e.2.settled = true)
  | [], _ => ⟨[], by simp [cloneTables], fun e he => by cases he⟩
  | (k, t) :: rest, h => by
      obtain ⟨t', ht, hts⟩ := clone_settled t (h (k, t) (List.mem_cons_self _ _))
      obtain ⟨rest', hr, hrs⟩ := cloneTables_settled rest
        (fun e he => h e (List.mem_cons_of_mem _ he))
      refine ⟨(k, t') :: rest', by simp [cloneTables, ht, hr], ?_⟩
      intro e he
      simp only [List.mem_cons] at he
      rcases he with he | he
      · subst he; exact hts
      · exact hrs e he

theorem settled_fields (t : TableInfoV2) (h : t.settled = true) :
    t.Authorized = true ∧ t.UnAuthorizedTables = some [] := by
  obtain ⟨name, cols, als, hs, un, au, db⟩ := t
  simp only [TableInfoV2.settled, Bool.and_eq_true] at h
  obtain ⟨⟨ha, hu⟩, _⟩ := h
  refine ⟨ha, ?_⟩
  cases un with
  | none => simp [emptyComponents] at hu
  | some l =>
    cases l with
    | nil => rfl
    | cons x rest => simp [emptyComponents] at hu

theorem authorizeTableByPredicate_settled (fields : List Node) (aConst : Option A_Const)
    (u : UserContext) (t : TableInfoV2) (h : t.settled = true) :
    authorizeTableByPredicate fields aConst u t = .ok t := by
  obtain ⟨ha, hu⟩ := settled_fields t h
  obtain ⟨name, cols, als, hs, un, au, db⟩ := t
  simp only [TableInfoV2.Authorized] at ha
  simp only [TableInfoV2.UnAuthorizedTables] at hu
  subst ha; subst hu
  cases db <;>
    simp [authorizeTableByPredicate, TableInfoV2.IsDatabase, TableInfoV2.Authorized,
      TableInfoV2.UnAuthorizedTables, collectTablesToRemove, TableInfoV2.setUnAuthorizedTables,
      TableInfoV2.setAuthorized]

theorem mapTables_fixed (f : TableInfoV2 → Except Fault TableInfoV2) :
    ∀ (ts : TableMap), (∀ e ∈ ts, f e.2 = .ok e.2) → mapTables f ts = .ok ts
  | [], _ => rfl
  | (k, t) :: rest, h => by
      have h1 := h (k, t) (List.mem_cons_self _ _)
      simp only at h1
      simp only [mapTables, h1, except_bind_ok,
        mapTables_fixed f rest (fun e he => h e (List.mem_cons_of_mem _ he))]
      rfl

theorem authorizeMapByPredicate_settled (fields : List Node) (aConst : Option A_Const)
    (u : UserContext) (ts : TableMap) (h : ∀ e ∈ ts, e.2.settled = true) :
    authorizeMapByPredicate fields aConst u (some ts) = .ok (some ts) := by
  simp only [authorizeMapByPredicate, authorizeTablesByPredicate,
    mapTables_fixed _ ts (fun e he => authorizeTableByPredicate_settled fields aConst u e.2
      (h e he)), except_bind_ok]
  rfl

theorem rowExprStep_settled (w : Walk) (neg : Bool) (u : UserContext) (arg : Node)
    (ts : TableMap) (h : ∀ e ∈ ts, e.2.settled = true) :
    rowExprStep w neg u arg (some ts) = .ok (some ts) := by
  unfold rowExprStep
  split
  · split
    · simp only
      split
      · rfl
      · rename_i table htable
        have := (settled_fields table (h _ (omGet_mem ts _ table htable))).1
        simp only [this, if_true]
        rfl
    · rfl
  · rfl

theorem rowExprLoop_settled (w : Walk) (neg : Bool) (u : UserContext) (ts : TableMap)
    (h : ∀ e ∈ ts, e.2.settled = true) : ∀ (args : List Node),
    rowExprLoop w neg u args (some ts) = .ok (some ts)
  | [] => rfl
  | arg :: rest => by
      simp only [rowExprLoop, rowExprStep_settled w neg u arg ts h, except_bind_ok]
      exact rowExprLoop_settled w neg u ts h rest

theorem authorizeAExprKind_settled (w : Walk) (kind : A_Expr_Kind) (l r : Node) (neg : Bool)
    (u : UserContext) (ts : TableMap) (h : ∀ e ∈ ts, e.2.settled = true) :
    authorizeAExprKind w kind l r (some ts) neg u = .ok (some ts) := by
  have hcc : authorizeColumnConst l r (some ts) u = .ok (some ts) := by
    unfold authorizeColumnConst
    split
    · exact authorizeMapByPredicate_settled _ _ u ts h
    · rfl
  unfold authorizeAExprKind
  split
  · simp only [hcc, except_bind_ok]
    split
    · exact rowExprLoop_settled w neg u ts h _
    · rfl
  · split
    · exact authorizeMapByPredicate_settled _ _ u ts h
    · rfl
  · rfl

theorem foldAuthorized_settled : ∀ (ts : TableMap), (∀ e ∈ ts, e.2.settled = true) →
    foldAuthorized true ts = .ok true
  | [], _ => rfl
  | (k, t) :: rest, h => by
      obtain ⟨ha, hu⟩ := settled_fields t (h (k, t) (List.mem_cons_self _ _))
      have hrest := foldAuthorized_settled rest (fun e he => h e (List.mem_cons_of_mem _ he))
      unfold foldAuthorized
      split
      · simp only [ha, Bool.and_self]
        exact hrest
      · simp only [if_true, hu, List.length_nil, decide_True]
        exact hrest

/-- On relations that are authorized throughout, a comparison with the
operator `=` (when `neg = false`) returns `Authorized = true` and the map as
it is. -/
theorem aexprOn_settled (w : Walk) (kind : A_Expr_Kind) (op : Node) (more : List Node)
    (l r : Node) (u : UserContext) (ts : TableMap)
    (hop : getStringValueFromNode (some op) = "=") (h : ∀ e ∈ ts, e.2.settled = true) :
    ∃ ts', authorizeAExprOn w kind (op :: more) (some l) (some r) (some ts) false u
        = .ok { Authorized := true, Tables := some ts' } ∧ (∀ e ∈ ts', e.2.settled = true) := by
  obtain ⟨ts', hc, hs⟩ := cloneTables_settled ts h
  refine ⟨ts', ?_, hs⟩
  have h1 : CloneUnAuthorizedTables (some ts) = .ok (some ts') := by
    simp [CloneUnAuthorizedTables, cloneTablesOpt, hc]
  have h2 : authorizeAExprAfterClone w kind (op :: more) (some l) (some r) (some ts') false u
      = .ok { Authorized := true, Tables := some ts' } := by
    simp only [authorizeAExprAfterClone, hop, wantOperator, Bool.false_eq_true, if_false,
      bne_self_eq_false]
    rw [authorizeAExprKind_settled w kind l r false u ts' hs]
    simp only [except_bind_ok, foldAuthorizedMap, foldAuthorized_settled ts' hs]
    rfl
  simp only [authorizeAExprOn, h1, except_bind_ok, h2]

/-! ### Reading and storing relations that are authorized throughout -/

theorem run_liftOk {α : Type} (a : α) (h : Heap) :
    (liftM (Except.ok a : Except Fault α) : HeapM α).run h = .ok (a, h) := rfl

theorem mapM_ok {α β : Type} (P : β → Prop) (g : α → Except Fault β) : ∀ (l : List α),
    (∀ a ∈ l, ∃ b, g a = .ok b ∧ P b) → ∃ l', l.mapM g = .ok l' ∧ ∀ b ∈ l', P b
  | [], _ => ⟨[], rfl, fun b hb => by cases hb⟩
  | a :: rest, h => by
      obtain ⟨b, hb, hP⟩ := h a (List.mem_cons_self _ _)
      obtain ⟨rest', hr, hPs⟩ := mapM_ok P g rest (fun x hx => h x (List.mem_cons_of_mem _ hx))
      refine ⟨b :: rest', ?_, ?_⟩
      · simp only [List.mapM_cons, hb, hr]
        rfl
      · intro x hx
        simp only [List.mem_cons] at hx
        rcases hx with hx | hx
        · subst hx; exact hP
        · exact hPs x hx

theorem settledColumns_all : ∀ (cs : List (String × ColumnInfo)),
    (∀ c ∈ cs, settledSource c.2.SourceTable = true) → settledColumns cs = true
  | [], _ => by simp [settledColumns]
  | (a, .mk name src) :: rest, h => by
      have h1 := h (a, .mk name src) (List.mem_cons_self _ _)
      simp only [ColumnInfo.SourceTable] at h1
      simp only [settledColumns, h1, Bool.true_and]
      exact settledColumns_all rest (fun c hc => h c (List.mem_cons_of_mem _ hc))

/-- `Clone` of a relation of the store that is authorized throughout returns,
and the copy is authorized throughout. -/
theorem cloneFromHeap_credited (h : Heap) (lo : Nat) : ∀ (d fuel p : Nat), d ≤ fuel →
    h.credited lo d p → ∃ t, cloneFromHeap h fuel p = .ok t ∧ t.settled = true
  | 0, _, _, _, hc => by cases hc
  | d + 1, 0, _, hd, _ => by omega
  | d + 1, fuel + 1, p, hd, hc => by
      obtain ⟨_, _, ha, hu, cs, hcs, hsrc⟩ := hc
      cases hdb : (h.table p).IsDatabase with
      | true =>
        refine ⟨TableInfoV2.mk (h.table p).Name
          (some (cs.map (fun e => (e.1, ColumnInfo.mk e.2.Name SourceRef.self))))
          (h.table p).Alias (h.table p).HasStar (some []) (h.table p).Authorized
          (h.table p).IsDatabase, ?_, ?_⟩
        · simp only [cloneFromHeap, hcs, hdb, if_true, hu, List.mapM_nil]
          rfl
        · simp [TableInfoV2.settled, ha, hdb, emptyComponents, settledColumnsOpt]
      | false =>
        have hsrc' : ∀ e ∈ cs, ∀ q, e.2.SourceTable = some q → h.credited lo d q := by
          rcases hsrc with hsrc | hsrc
          · rw [hdb] at hsrc; cases hsrc
          · exact hsrc
        obtain ⟨cs', hm, hP⟩ := mapM_ok
          (fun (c : String × ColumnInfo) => settledSource c.2.SourceTable = true)
          (fun (e : String × ColumnCell) =>
            match e.2.SourceTable with
            | none => pure (e.1, ColumnInfo.mk e.2.Name SourceRef.nil)
            | some q => do
              let t ← cloneFromHeap h fuel q
              pure (e.1, ColumnInfo.mk e.2.Name (SourceRef.table t))) cs (by
            intro e he
            cases hq : e.2.SourceTable with
            | none =>
              refine ⟨(e.1, ColumnInfo.mk e.2.Name SourceRef.nil), ?_, ?_⟩
              · simp only [hq]
                rfl
              · simp [ColumnInfo.SourceTable, settledSource]
            | some q =>
              obtain ⟨t, ht, hts⟩ := cloneFromHeap_credited h lo d fuel q (by omega)
                (hsrc' e he q hq)
              refine ⟨(e.1, ColumnInfo.mk e.2.Name (SourceRef.table t)), ?_, ?_⟩
              · simp only [hq, ht, except_bind_ok]
                rfl
              · simpa [ColumnInfo.SourceTable, settledSource] using hts)
        refine ⟨TableInfoV2.mk (h.table p).Name (some cs') (h.table p).Alias (h.table p).HasStar
          (some []) (h.table p).Authorized (h.table p).IsDatabase, ?_, ?_⟩
        · have hunf : cloneFromHeap h (fuel + 1) p = (do
              let cs' ← cs.mapM (fun (e : String × ColumnCell) =>
                match e.2.SourceTable with
                | none => pure (e.1, ColumnInfo.mk e.2.Name SourceRef.nil)
                | some q => do
                  let t ← cloneFromHeap h fuel q
                  pure (e.1, ColumnInfo.mk e.2.Name (SourceRef.table t)))
              pure (TableInfoV2.mk (h.table p).Name (some cs') (h.table p).Alias
                (h.table p).HasStar (some []) (h.table p).Authorized
                (h.table p).IsDatabase)) := by
            simp only [cloneFromHeap, hcs, hdb, Bool.false_eq_true, if_false, hu, List.mapM_nil]
            rfl
          rw [hunf, hm]
          rfl
        · simp [TableInfoV2.settled, ha, emptyComponents, settledColumnsOpt,
            settledColumns_all cs' hP]

/-- `CloneUnAuthorizedTables` of a settled map of the store returns, and every
relation of the copy is authorized throughout. -/
theorem cloneMap_settled (h : Heap) (m : Nat) (hs : h.settled (h.map m)) :
    ∃ ts, cloneMapFromHeap h (some m) = .ok (some ts) ∧ ∀ e ∈ ts, e.2.settled = true := by
  obtain ⟨ts, hm, hP⟩ := mapM_ok (fun (e : String × TableInfoV2) => e.2.settled = true)
    (fun (e : String × Nat) => do
      let t ← cloneCell h e.2
      pure (e.1, t)) (h.map m) (by
      intro e he
      obtain ⟨t, ht, hts⟩ := cloneFromHeap_credited h 0 h.tables.length (h.tables.length + 1) e.2
        (Nat.le_succ _) (hs e he)
      refine ⟨(e.1, t), ?_, hts⟩
      simp only [cloneCell, ht, except_bind_ok]
      rfl)
  refine ⟨ts, ?_, hP⟩
  simp only [cloneMapFromHeap, hm, except_bind_ok]
  rfl

theorem table_set_at (h : Heap) (obj : TableObj) (p : Nat) (hp : p < h.tables.length) :
    ({ h with tables := h.tables.set p obj } : Heap).table p = obj := by
  simp [Heap.table, List.getD_eq_getElem?_getD, List.getElem?_set_self, hp]

theorem map_of_maps (h h' : Heap) (hm : h'.maps = h.maps) (m : Nat) : h'.map m = h.map m := by
  simp only [Heap.map, hm]

mutual
/-- Storing a relation value allocates its cells after the cells of the
store; a value that is authorized throughout is stored as a relation that is
authorized throughout. -/
theorem storeTable_credited : ∀ (t : TableInfoV2) (h : Heap),
    ∃ h', (storeTable t).run h = .ok (h.tables.length, h') ∧ h'.maps = h.maps ∧
      h.continuedBy h' ∧ h.tables.length < h'.tables.length ∧
      (t.settled = true →
        h'.credited h.tables.length (h'.tables.length - h.tables.length) h.tables.length)
  | .mk name cols als hs un au db, h => by
      obtain ⟨cols', h2, hc, hcm, hcc, hcs⟩ := storeColumnsOpt_credited h.tables.length cols
        (Heap.mk (h.tables ++ [default]) h.maps)
      obtain ⟨un', h3, hu, hum, huc, hus⟩ := storeTablesOpt_credited un h2
      have hlen1 : (Heap.mk (h.tables ++ [default]) h.maps).tables.length
          = h.tables.length + 1 := by simp
      have hl2 := hcc.1
      rw [hlen1] at hl2
      have hl3 := huc.1
      refine ⟨Heap.mk (h3.tables.set h.tables.length (TableObj.mk name cols' als hs un' au db))
        h3.maps, ?_, ?_, ?_, ?_, ?_⟩
      · simp only [storeTable, run_bind, run_newTable, except_bind_ok, hc, hu, run_setTable,
          run_pure]
      · show h3.maps = h.maps
        rw [hum, hcm]
      · refine ⟨by simp; omega, ?_, ?_, ?_⟩
        · show h.maps.length ≤ h3.maps.length
          rw [hum, hcm]
        · intro x hx
          rw [table_set_other h3 _ h.tables.length x (by omega),
            huc.2.2.1 x (by omega), hcc.2.2.1 x (by rw [hlen1]; omega)]
          exact table_append_old h default x hx
        · intro m _
          exact map_of_maps h _ (by show h3.maps = h.maps; rw [hum, hcm]) m
      · simp; omega
      · intro hset
        simp only [TableInfoV2.settled, Bool.and_eq_true] at hset
        obtain ⟨⟨ha, hue⟩, hce⟩ := hset
        obtain ⟨hun', h32⟩ := hus hue
        obtain ⟨cs', hcols', hsrc⟩ := hcs db hce
        subst h32
        subst hun'
        subst hcols'
        have hk : (Heap.mk (h3.tables.set h.tables.length
            (TableObj.mk name (some cs') als hs (some []) au db)) h3.maps).tables.length
              - h.tables.length
            = (h3.tables.length - (h.tables.length + 1)) + 1 := by
          simp; omega
        rw [hk]
        have htab := table_set_at h3 (TableObj.mk name (some cs') als hs (some []) au db)
          h.tables.length (by omega)
        refine ⟨Nat.le_refl _, by simp; omega, by rw [htab]; exact ha, by rw [htab], cs',
          by rw [htab], ?_⟩
        rcases hsrc with hdb | hsrc
        · exact Or.inl (by rw [htab]; exact hdb)
        · right
          intro e he q hq
          have hq' := hsrc e he q hq
          rw [hlen1] at hq'
          refine credited_lo _ (h.tables.length + 1) h.tables.length (Nat.le_succ _) _ q ?_
          refine credited_agrees h3 _ (h.tables.length + 1) ⟨by simp, ?_⟩ _ q hq'
          intro x hx _
          exact table_set_other h3 _ h.tables.length x (by omega)
theorem storeColumnsOpt_credited (owner : Nat) :
    ∀ (cols : Option (List (String × ColumnInfo))) (h : Heap),
    ∃ cols' h', (storeColumnsOpt owner cols).run h = .ok (cols', h') ∧ h'.maps = h.maps ∧
      h.continuedBy h' ∧
      (∀ db, settledColumnsOpt db cols = true → ∃ cs', cols' = some cs' ∧
        (db = true ∨ ∀ e ∈ cs', ∀ q, e.2.SourceTable = some q →
          h'.credited h.tables.length (h'.tables.length - h.tables.length) q))
  | none, h => ⟨none, h, rfl, rfl, continuedBy_refl h, fun db hdb => by
      simp [settledColumnsOpt] at hdb⟩
  | some cs, h => by
      obtain ⟨cs', h', hr, hm, hc, hs⟩ := storeColumns_credited owner cs h
      refine ⟨some cs', h', ?_, hm, hc, ?_⟩
      · simp only [storeColumnsOpt, run_bind, hr, except_bind_ok, run_pure]
      · intro db hdb
        simp only [settledColumnsOpt, Bool.or_eq_true] at hdb
        refine ⟨cs', rfl, ?_⟩
        rcases hdb with hdb | hdb
        · exact Or.inl hdb
        · exact Or.inr (hs hdb)
theorem storeColumns_credited (owner : Nat) :
    ∀ (cs : List (String × ColumnInfo)) (h : Heap),
    ∃ cs' h', (storeColumns owner cs).run h = .ok (cs', h') ∧ h'.maps = h.maps ∧
      h.continuedBy h' ∧
      (settledColumns cs = true → ∀ e ∈ cs', ∀ q, e.2.SourceTable = some q →
        h'.credited h.tables.length (h'.tables.length - h.tables.length) q)
  | [], h => ⟨[], h, rfl, rfl, continuedBy_refl h, fun _ e he => by cases he⟩
  | (a, .mk name src) :: rest, h => by
      obtain ⟨src', h1, hr1, hm1, hc1, hs1⟩ := storeSource_credited owner src h
      obtain ⟨rest', h2, hr2, hm2, hc2, hs2⟩ := storeColumns_credited owner rest h1
      refine ⟨(a, { Name := name, SourceTable := src' }) :: rest', h2, ?_, by rw [hm2, hm1],
        continuedBy_trans _ _ _ hc1 hc2, ?_⟩
      · simp only [storeColumns, run_bind, hr1, except_bind_ok, hr2, run_pure]
      · intro hset e he q hq
        simp only [settledColumns, Bool.and_eq_true] at hset
        have hl1 := hc1.1
        have hl2 := hc2.1
        simp only [List.mem_cons] at he
        rcases he with he | he
        · subst he
          have := hs1 hset.1 q hq
          exact credited_le _ _ _ _ _ (by omega)
            (credited_agrees h1 h2 _ (agreesFrom_continued h1 h2 _ hc2) _ q this)
        · have := hs2 hset.2 e he q hq
          exact credited_le _ _ _ _ _ (by omega)
            (credited_lo h2 _ _ hl1 _ q this)
theorem storeSource_credited (owner : Nat) : ∀ (src : SourceRef) (h : Heap),
    ∃ src' h', (storeSource owner src).run h = .ok (src', h') ∧ h'.maps = h.maps ∧
      h.continuedBy h' ∧
      (settledSource src = true → ∀ q, src' = some q →
        h'.credited h.tables.length (h'.tables.length - h.tables.length) q)
  | .nil, h => ⟨none, h, rfl, rfl, continuedBy_refl h, fun _ q hq => by cases hq⟩
  | .self, h => ⟨some owner, h, rfl, rfl, continuedBy_refl h, fun hs => by
      simp [settledSource] at hs⟩
  | .table t, h => by
      obtain ⟨h', hr, hm, hc, _, hs⟩ := storeTable_credited t h
      refine ⟨some h.tables.length, h', ?_, hm, hc, ?_⟩
      · simp only [storeSource, run_bind, hr, except_bind_ok, run_pure]
      · intro hset q hq
        injection hq with hq
        rw [← hq]
        exact hs (by simpa [settledSource] using hset)
theorem storeTablesOpt_credited : ∀ (un : Option (List (String × TableInfoV2))) (h : Heap),
    ∃ un' h', (storeTablesOpt un).run h = .ok (un', h') ∧ h'.maps = h.maps ∧
      h.continuedBy h' ∧ (emptyComponents un = true → un' = some [] ∧ h' = h)
  | none, h => ⟨none, h, rfl, rfl, continuedBy_refl h, fun he => by
      simp [emptyComponents] at he⟩
  | some ts, h => by
      obtain ⟨es, h', hr, hm, hc, _⟩ := storeTables_credited ts h
      refine ⟨some es, h', ?_, hm, hc, ?_⟩
      · simp only [storeTablesOpt, run_bind, hr, except_bind_ok, run_pure]
      · intro he
        cases ts with
        | nil =>
          simp only [storeTables, run_pure] at hr
          injection hr with hr
          injection hr with e1 e2
          subst e1; subst e2
          exact ⟨rfl, rfl⟩
        | cons x rest => simp [emptyComponents] at he
theorem storeTables_credited : ∀ (ts : List (String × TableInfoV2)) (h : Heap),
    ∃ es h', (storeTables ts).run h = .ok (es, h') ∧ h'.maps = h.maps ∧ h.continuedBy h' ∧
      ((∀ e ∈ ts, e.2.settled = true) → ∀ e ∈ es,
        h'.credited h.tables.length (h'.tables.length - h.tables.length) e.2)
  | [], h => ⟨[], h, rfl, rfl, continuedBy_refl h, fun _ e he => by cases he⟩
  | (k, t) :: rest, h => by
      obtain ⟨h1, hr1, hm1, hc1, hlt1, hs1⟩ := storeTable_credited t h
      obtain ⟨rest', h2, hr2, hm2, hc2, hs2⟩ := storeTables_credited rest h1
      refine ⟨(k, h.tables.length) :: rest', h2, ?_, by rw [hm2, hm1],
        continuedBy_trans _ _ _ hc1 hc2, ?_⟩
      · simp only [storeTables, run_bind, hr1, except_bind_ok, hr2, run_pure]
      · intro hset e he
        have hl1 := hc1.1
        have hl2 := hc2.1
        simp only [List.mem_cons] at he
        rcases he with he | he
        · subst he
          have := hs1 (hset (k, t) (List.mem_cons_self _ _))
          exact credited_le _ _ _ _ _ (by omega)
            (credited_agrees h1 h2 _ (agreesFrom_continued h1 h2 _ hc2) _ _ this)
        · have := hs2 (fun e he => hset e (List.mem_cons_of_mem _ he)) e he
          exact credited_le _ _ _ _ _ (by omega)
            (credited_lo h2 _ _ hl1 _ _ this)
end

/-- Storing a map of relation values that are authorized throughout gives a
new, settled map; the store is continued. -/
theorem storeMap_settled (ts : TableMap) (h : Heap) (hs : ∀ e ∈ ts, e.2.settled = true) :
    ∃ h', (storeMap (some ts)).run h = .ok (some h.maps.length, h') ∧ h.continuedBy h' ∧
      h.maps.length < h'.maps.length ∧ h'.settled (h'.map h.maps.length) := by
  obtain ⟨es, h1, hr, hm, hc, hcr⟩ := storeTables_credited ts h
  refine ⟨{ h1 with maps := h1.maps ++ [es] }, ?_,
    continuedBy_trans _ _ _ hc (continuedBy_newMap h1 es), by simp [hm], ?_⟩
  · simp only [storeMap, run_bind, hr, except_bind_ok, run_newMap, run_pure, hm]
  · have hmap : ({ h1 with maps := h1.maps ++ [es] } : Heap).map h.maps.length = es := by
      rw [← hm]
      exact map_append_new h1 es
    rw [hmap]
    refine settled_tables h1 _ es rfl ?_
    intro e he
    exact credited_le _ _ _ _ _ (Nat.sub_le _ _)
      (credited_lo h1 _ 0 (Nat.zero_le _) _ _ (hcr hs e he))

/-- A comparison with the operator `=` walked on a settled map of the store:
it returns `Authorized = true` and a new, settled map, and the store is
continued. -/
theorem comparison_settles (w : Walk) (kind : A_Expr_Kind) (op : Node) (more : List Node)
    (l r : Node) (u : UserContext) (h : Heap) (m : Nat)
    (hop : getStringValueFromNode (some op) = "=") (hs : h.settled (h.map m)) :
    ∃ h', (runOnHeap (authorizeAExprOn w kind (op :: more) (some l) (some r)) (some m) false
        u).run h = .ok ({ Authorized := true, Tables := some h.maps.length }, h') ∧
      h.continuedBy h' ∧ h.maps.length < h'.maps.length ∧
      h'.settled (h'.map h.maps.length) := by
  obtain ⟨ts, hclone, hts⟩ := cloneMap_settled h m hs
  obtain ⟨ts', hrun, hts'⟩ := aexprOn_settled w kind op more l r u ts hop hts
  obtain ⟨h', hstore, hrest⟩ := storeMap_settled ts' h hts'
  refine ⟨h', ?_, hrest⟩
  unfold runOnHeap
  simp only [run_bind, run_get, except_bind_ok, hclone, run_liftOk, hrun, hstore, run_pure]

/-! ### The statement, node kind by node kind -/

theorem walkFromItems_settles (u : UserContext) (base : Heap) (t0 : Nat)
    (ht0 : base.maps.length ≤ t0) (a0 : Bool) :
    ∀ (items : List Walk), (∀ w ∈ items, w.settles u) →
    ∀ (h : Heap), base.continuedBy h → t0 < h.maps.length → h.settled (h.map t0) →
    ∃ h', (walkFromItems none false u items (a0, some t0)).run h = .ok ((a0, some t0), h') ∧
      base.continuedBy h' ∧ t0 < h'.maps.length ∧ h'.settled (h'.map t0)
  | [], _, h, hb, hlt, hu => ⟨h, rfl, hb, hlt, hu⟩
  | w :: rest, hw, h, hb, hlt, hu => by
      obtain ⟨tl, res, h1, m, hrun, hauth, htab, _, _, _, hc, hum⟩ :=
        hw w (List.mem_cons_self _ _) h
      have hu1 : h1.settled (h1.map t0) := by
        rw [hc.2.2.2 t0 hlt]
        exact settled_continued h h1 _ hu hc
      obtain ⟨h2, hmerge, hb2, _, hlen, hu2, _⟩ := mergeMaps_settled base h1 t0 m
        (continuedBy_trans _ _ _ hb hc) ht0 (Nat.lt_of_lt_of_le hlt hc.2.1) hu1 hum
      obtain ⟨h', hrest, hb', hlt', hu'⟩ := walkFromItems_settles u base t0 ht0 a0 rest
        (fun w' hw' => hw w' (List.mem_cons_of_mem _ hw')) h2 hb2
        (by rw [hlen]; exact Nat.lt_of_lt_of_le hlt hc.2.1) hu2
      refine ⟨h', ?_, hb', hlt', hu'⟩
      simp only [walkFromItems, run_bind, hrun, except_bind_ok, htab, hmerge, hauth,
        Bool.and_true]
      exact hrest

/-- Every CTE entry falls to the default result of `AuthorizeNode`
(`Authorized = false`, the incoming map): after the loop over the CTEs the
statement is not authorized unless the list is empty, and its map is a new,
empty map. -/
theorem walkCtes_default (s : AuthorizationServiceImpl) (u : UserContext) :
    ∀ (ctes : List Node), ctes.all Node.isCommonTableExpr = true →
    ∀ (a : Bool) (h : Heap) (m : Nat), m < h.maps.length → h.map m = [] →
    ∃ h' m', (walkCtes none false u ((nodeSemList s ctes).map NodeSem.onHeap)
        (a, some m)).run h = .ok ((a && ctes.isEmpty, some m'), h') ∧
      h.continuedBy h' ∧ m ≤ m' ∧ m' < h'.maps.length ∧ h'.map m' = []
  | [], _, a, h, m, hm, hmap => ⟨h, m, by simp [nodeSemList, walkCtes, run_pure],
      continuedBy_refl h, Nat.le_refl _, hm, hmap⟩
  | n :: rest, hall, a, h, m, hm, hmap => by
      simp only [List.all_cons, Bool.and_eq_true] at hall
      have hn : (nodeSem s n).onHeap = defaultNodeSem.onHeap := by
        cases n <;> simp [Node.isCommonTableExpr] at hall
        simp only [nodeSem]
      obtain ⟨h', m', hrun, hc, hle, hlt, hmap'⟩ := walkCtes_default s u rest hall.2
        (a && false) (Heap.mk h.tables (h.maps ++ [[]])) h.maps.length (by simp)
        (map_append_new h [])
      refine ⟨h', m', ?_, continuedBy_trans _ _ _ (continuedBy_newMap h []) hc,
        Nat.le_trans (Nat.le_of_lt hm) hle, hlt, hmap'⟩
      have hmerge : (MergeMaps none (some m)).run h
          = .ok (some h.maps.length, Heap.mk h.tables (h.maps ++ [[]])) := by
        rw [run_MergeMaps_none, hmap]
        rfl
      simp only [nodeSemList, List.map_cons, walkCtes, hn, defaultNodeSem, run_bind, run_pure,
        except_bind_ok, hmerge]
      simpa using hrun

theorem ctes_default (s : AuthorizationServiceImpl) (u : UserContext) (ctes : List Node)
    (hall : ctes.all Node.isCommonTableExpr = true) :
    ctesLeave ((nodeSemList s ctes).map NodeSem.onHeap) u ctes.isEmpty := by
  intro h m hm hmap
  obtain ⟨h', m', hrun, hrest⟩ := walkCtes_default s u ctes hall true h m hm hmap
  exact ⟨h', m', by simpa using hrun, hrest⟩

theorem ctes_none (u : UserContext) : ctesLeave [] u true :=
  fun h m hm hmap => ⟨h, m, rfl, continuedBy_refl h, Nat.le_refl _, hm, hmap⟩

/-- A statement without a WITH clause is walked as one whose WITH clause
lists no CTE. -/
theorem selectOn_no_with (into : Bool) (op : SetOperation) (larg rarg : Walk)
    (items : List Walk) (w hv : Option Walk) (targetList : List Node) :
    authorizeSelectStmtOn into none op larg rarg items w hv targetList
      = authorizeSelectStmtOn into (some []) op larg rarg items w hv targetList := by
  funext tables neg u
  simp only [authorizeSelectStmtOn, walkCtes]

theorem selectOn_into_settles (u : UserContext) (ctes : Option (List Walk)) (op : SetOperation)
    (larg rarg : Walk) (items : List Walk) (w hv : Option Walk) (targetList : List Node) :
    (authorizeSelectStmtOn true ctes op larg rarg items w hv targetList).settlesWith u none := by
  intro h
  refine ⟨AuthorizationResultRef.mk true (some h.maps.length) none,
    Heap.mk h.tables (h.maps ++ [[]]), h.maps.length, rfl, rfl, rfl, rfl, Nat.le_refl _,
    by simp, continuedBy_newMap h [], ?_⟩
  have hmap : Heap.map (Heap.mk h.tables (h.maps ++ [[]])) h.maps.length = [] :=
    map_append_new h []
  rw [hmap]
  exact settled_nil _

theorem selectOpt_none_settles (s : AuthorizationServiceImpl) (u : UserContext) :
    (selectSemOpt s none).settlesWith u none := by
  intro h
  refine ⟨AuthorizationResultRef.mk true (some h.maps.length) none,
    Heap.mk h.tables (h.maps ++ [[]]), h.maps.length, rfl, rfl, rfl, rfl, Nat.le_refl _,
    by simp, continuedBy_newMap h [], ?_⟩
  have hmap : Heap.map (Heap.mk h.tables (h.maps ++ [[]])) h.maps.length = [] :=
    map_append_new h []
  rw [hmap]
  exact settled_nil _

/-- The walk of the CTE list and of the FROM items of a plain SELECT. -/
theorem select_from_walk (u : UserContext) (cs : List Walk) (a0 : Bool) (items : List Walk)
    (hcs : ctesLeave cs u a0) (hitems : ∀ w ∈ items, w.settles u) (h : Heap) :
    ∃ h1 h2 m1, (walkCtes none false u cs (true, some h.maps.length)).run
        (Heap.mk h.tables (h.maps ++ [[]])) = .ok ((a0, some m1), h1) ∧
      (walkFromItems none false u items (a0, some m1)).run h1 = .ok ((a0, some m1), h2) ∧
      h.continuedBy h2 ∧ h.maps.length ≤ m1 ∧ m1 < h2.maps.length ∧ h2.settled (h2.map m1) := by
  obtain ⟨h1, m1, hrun1, hc1, hle1, hlt1, hmap1⟩ := hcs (Heap.mk h.tables (h.maps ++ [[]]))
    h.maps.length (by simp) (map_append_new h [])
  have hc01 : h.continuedBy h1 := continuedBy_trans _ _ _ (continuedBy_newMap h []) hc1
  obtain ⟨h2, hrun2, hb2, hlt2, hs2⟩ := walkFromItems_settles u h m1 hle1 a0 items hitems h1
    hc01 hlt1 (by rw [hmap1]; exact settled_nil _)
  exact ⟨h1, h2, m1, hrun1, hrun2, hb2, hle1, hlt2, hs2⟩

theorem selectOn_plain_settles (u : UserContext) (cs : List Walk) (op : SetOperation)
    (larg rarg : Walk) (items : List Walk) (w hv : Option Walk) (targetList : List Node)
    (h1 : op ≠ .SETOP_UNION) (h2 : op ≠ .SETOP_INTERSECT) (h3 : op ≠ .SETOP_EXCEPT)
    (hcs : ctesLeave cs u true) (hitems : ∀ w ∈ items, w.settles u) :
    (authorizeSelectStmtOn false (some cs) op larg rarg items w hv targetList).settlesWith u
      (if targetList.isEmpty then none else some targetList) := by
  intro h
  obtain ⟨hA, hB, m1, hrun1, hrun2, hc, hle, hlt, hs⟩ := select_from_walk u cs true items hcs
    hitems h
  refine ⟨AuthorizationResultRef.mk true (some m1)
      (if targetList.isEmpty then none else some targetList),
    hB, m1, ?_, rfl, rfl, rfl, hle, hlt, hc, hs⟩
  cases op
  · simp only [authorizeSelectStmtOn, run_bind, run_newMap, except_bind_ok, Bool.false_eq_true,
      if_false, run_pure, hrun1, hrun2]
  · simp only [authorizeSelectStmtOn, run_bind, run_newMap, except_bind_ok, Bool.false_eq_true,
      if_false, run_pure, hrun1, hrun2]
  · exact absurd rfl h1
  · exact absurd rfl h2
  · exact absurd rfl h3

/-- A plain SELECT whose CTEs left `Authorized = false`: the clause that is
walked first (WHERE, or HAVING when there is no WHERE clause) decides. -/
theorem selectOn_plain_credits (u : UserContext) (cs : List Walk) (op : SetOperation)
    (larg rarg : Walk) (items : List Walk) (w hv : Option Walk) (targetList : List Node)
    (h1 : op ≠ .SETOP_UNION) (h2 : op ≠ .SETOP_INTERSECT) (h3 : op ≠ .SETOP_EXCEPT)
    (hcs : ctesLeave cs u false) (hitems : ∀ w ∈ items, w.settles u)
    (hw : (∃ x, w = some x ∧ x.credits u) ∨ (w = none ∧ ∃ x, hv = some x ∧ x.credits u)) :
    (authorizeSelectStmtOn false (some cs) op larg rarg items w hv targetList).settlesWith u
      (if targetList.isEmpty then none else some targetList) := by
  intro h
  obtain ⟨hA, hB, m1, hrun1, hrun2, hc, hle, hlt, hs⟩ := select_from_walk u cs false items hcs
    hitems h
  have hx : ∃ x, x.credits u ∧ ((w = some x) ∨ (w = none ∧ hv = some x)) := by
    rcases hw with ⟨x, hx1, hx2⟩ | ⟨hx0, x, hx1, hx2⟩
    · exact ⟨x, hx2, Or.inl hx1⟩
    · exact ⟨x, hx2, Or.inr ⟨hx0, hx1⟩⟩
  obtain ⟨x, hcred, hwhich⟩ := hx
  obtain ⟨hC, hrun3, hc3, hlt3, hs3⟩ := hcred hB m1 hlt hs
  refine ⟨AuthorizationResultRef.mk true (some hB.maps.length)
      (if targetList.isEmpty then none else some targetList),
    hC, hB.maps.length, ?_, rfl, rfl, rfl, hc.2.1, hlt3, continuedBy_trans _ _ _ hc hc3, hs3⟩
  rcases hwhich with hwx | ⟨hw0, hvx⟩
  · subst hwx
    cases op
    · simp only [authorizeSelectStmtOn, run_bind, run_newMap, except_bind_ok,
        Bool.false_eq_true, if_false, run_pure, hrun1, hrun2, hrun3]
    · simp only [authorizeSelectStmtOn, run_bind, run_newMap, except_bind_ok,
        Bool.false_eq_true, if_false, run_pure, hrun1, hrun2, hrun3]
    · exact absurd rfl h1
    · exact absurd rfl h2
    · exact absurd rfl h3
  · subst hw0
    subst hvx
    cases op
    · simp only [authorizeSelectStmtOn, run_bind, run_newMap, except_bind_ok,
        Bool.false_eq_true, if_false, run_pure, hrun1, hrun2, hrun3]
    · simp only [authorizeSelectStmtOn, run_bind, run_newMap, except_bind_ok,
        Bool.false_eq_true, if_false, run_pure, hrun1, hrun2, hrun3]
    · exact absurd rfl h1
    · exact absurd rfl h2
    · exact absurd rfl h3

/-- The two operands of a set operation are walked and their maps merged; the
map the CTEs left is not touched. -/
theorem setOperands_settle (u : UserContext) (cs : List Walk) (a0 : Bool) (larg rarg : Walk)
    (tlL tlR : Option (List Node)) (hcs : ctesLeave cs u a0) (hl : larg.settlesWith u tlL)
    (hr : rarg.settlesWith u tlR) (h : Heap) :
    ∃ h1 m1 resL h2 resR h3 h4 merged,
      (walkCtes none false u cs (true, some h.maps.length)).run
        (Heap.mk h.tables (h.maps ++ [[]])) = .ok ((a0, some m1), h1) ∧
      (larg none false u).run h1 = .ok (resL, h2) ∧
      (rarg none false u).run h2 = .ok (resR, h3) ∧
      (MergeMaps resL.Tables resR.Tables).run h3 = .ok (merged, h4) ∧
      resL.Authorized = true ∧ resR.Authorized = true ∧ resL.TargetList = tlL ∧
      resR.TargetList = tlR ∧ h.continuedBy h4 ∧ h.maps.length ≤ m1 ∧ m1 < h4.maps.length ∧
      h4.map m1 = [] := by
  obtain ⟨h1, m1, hrun1, hc1, hle1, hlt1, hmap1⟩ := hcs (Heap.mk h.tables (h.maps ++ [[]]))
    h.maps.length (by simp) (map_append_new h [])
  obtain ⟨resL, h2, ml, hrunL, hauthL, htabL, htlL, hml0, hml1, hc2, hu2⟩ := hl h1
  obtain ⟨resR, h3, mr, hrunR, hauthR, htabR, htlR, hmr0, hmr1, hc3, hu3⟩ := hr h2
  have huL : h3.settled (h3.map ml) := by
    rw [hc3.2.2.2 ml hml1]
    exact settled_continued h2 h3 _ hu2 hc3
  obtain ⟨h4, hmerge, hb4, _, hlen4, _, _⟩ := mergeMaps_settled h1 h3 ml mr
    (continuedBy_trans _ _ _ hc2 hc3) hml0 (Nat.lt_of_lt_of_le hml1 hc3.2.1) huL hu3
  refine ⟨h1, m1, resL, h2, resR, h3, h4, some ml, hrun1, hrunL, hrunR, ?_, hauthL, hauthR,
    htlL, htlR, continuedBy_trans _ _ _ (continuedBy_newMap h [])
      (continuedBy_trans _ _ _ hc1 hb4), hle1, Nat.lt_of_lt_of_le hlt1 hb4.2.1, ?_⟩
  · rw [htabL, htabR]
    exact hmerge
  · rw [hb4.2.2.2 m1 hlt1]
    exact hmap1

theorem selectOn_union_settles (u : UserContext) (cs : List Walk) (a0 : Bool) (larg rarg : Walk)
    (items : List Walk) (w hv : Option Walk) (targetList : List Node)
    (tlL tlR : Option (List Node)) (hcs : ctesLeave cs u a0) (hl : larg.settlesWith u tlL)
    (hr : rarg.settlesWith u tlR) :
    (authorizeSelectStmtOn false (some cs) .SETOP_UNION larg rarg items w hv
      targetList).settlesWith u (if tlL.isSome && tlR.isSome then tlL else none) := by
  intro h
  obtain ⟨h1, m1, resL, h2, resR, h3, h4, merged, hrun1, hrunL, hrunR, hmerge, hauthL, hauthR,
    htlL, htlR, hc, hle, hlt, hmap⟩ := setOperands_settle u cs a0 larg rarg tlL tlR hcs hl hr h
  refine ⟨AuthorizationResultRef.mk true (some m1)
      (if tlL.isSome && tlR.isSome then tlL else none),
    h4, m1, ?_, rfl, rfl, rfl, hle, hlt, hc, ?_⟩
  · simp only [authorizeSelectStmtOn, run_bind, run_newMap, except_bind_ok, Bool.false_eq_true,
      if_false, run_pure, hrun1, hrunL, hrunR, hmerge, run_unionRef_empty h4 m1 _ hmap, hauthL,
      hauthR, htlL, htlR, Bool.and_self]
  · rw [hmap]
    exact settled_nil _

theorem selectOn_intersect_settles (u : UserContext) (cs : List Walk) (a0 : Bool)
    (larg rarg : Walk) (items : List Walk) (w hv : Option Walk) (targetList : List Node)
    (tlL tlR : Option (List Node)) (hcs : ctesLeave cs u a0) (hl : larg.settlesWith u tlL)
    (hr : rarg.settlesWith u tlR) :
    (authorizeSelectStmtOn false (some cs) .SETOP_INTERSECT larg rarg items w hv
      targetList).settlesWith u (if tlL.isSome && tlR.isSome then tlL else none) := by
  intro h
  obtain ⟨h1, m1, resL, h2, resR, h3, h4, merged, hrun1, hrunL, hrunR, hmerge, hauthL, hauthR,
    htlL, htlR, hc, hle, hlt, hmap⟩ := setOperands_settle u cs a0 larg rarg tlL tlR hcs hl hr h
  refine ⟨AuthorizationResultRef.mk true (some m1)
      (if tlL.isSome && tlR.isSome then tlL else none),
    h4, m1, ?_, rfl, rfl, rfl, hle, hlt, hc, ?_⟩
  · simp only [authorizeSelectStmtOn, run_bind, run_newMap, except_bind_ok, Bool.false_eq_true,
      if_false, run_pure, hrun1, hrunL, hrunR, hmerge, run_intersectionRef_empty h4 m1 _ hmap,
      hauthL, hauthR, htlL, htlR, Bool.or_self]
  · rw [hmap]
    exact settled_nil _

theorem selectOn_except_settles (u : UserContext) (cs : List Walk) (a0 : Bool)
    (larg rarg : Walk) (items : List Walk) (w hv : Option Walk) (targetList : List Node)
    (tlL : Option (List Node)) (hcs : ctesLeave cs u a0) (hl : larg.settlesWith u tlL) :
    (authorizeSelectStmtOn false (some cs) .SETOP_EXCEPT larg rarg items w hv
      targetList).settlesWith u tlL := by
  intro h
  obtain ⟨h1, m1, hrun1, hc1, hle1, hlt1, hmap1⟩ := hcs (Heap.mk h.tables (h.maps ++ [[]]))
    h.maps.length (by simp) (map_append_new h [])
  obtain ⟨resL, h2, ml, hrunL, hauthL, htabL, htlL, hml0, hml1, hc2, hu2⟩ := hl h1
  have hc01 : h.continuedBy h1 := continuedBy_trans _ _ _ (continuedBy_newMap h []) hc1
  refine ⟨resL, h2, ml, ?_, hauthL, htabL, htlL, Nat.le_trans hc01.2.1 hml0, hml1,
    continuedBy_trans _ _ _ hc01 hc2, hu2⟩
  simp only [authorizeSelectStmtOn, run_bind, run_newMap, except_bind_ok, Bool.false_eq_true,
    if_false, run_pure, hrun1, hrunL]

theorem joinOn_settles (u : UserContext) (larg rarg quals : Walk) (jointype : JoinType)
    (isNatural : Bool) (usingClause : List Node) (joinAlias : Option Alias)
    (hl : larg.settles u) (hr : rarg.settles u) :
    (authorizeJoinExprOn larg rarg quals false false jointype isNatural usingClause
      joinAlias).settles u := by
  intro h
  obtain ⟨tlL, resL, h1, ml, hrunL, hauthL, htabL, _, hml0, hml1, hc1, hu1⟩ := hl h
  obtain ⟨tlR, resR, h2, mr, hrunR, hauthR, htabR, _, hmr0, hmr1, hc2, hu2⟩ := hr h1
  have huL : h2.settled (h2.map ml) := by
    rw [hc2.2.2.2 ml hml1]
    exact settled_continued h1 h2 _ hu1 hc2
  obtain ⟨h3, hmerge3, hc3, _, hlen3, hu3⟩ := mergeMaps_fresh_settled h2 ml huL
  have huR : h3.settled (h3.map mr) := by
    rw [hc3.2.2.2 mr hmr1]
    exact settled_continued h2 h3 _ hu2 hc3
  obtain ⟨h4, hmerge4, hc4, _, hlen4, hu4, _⟩ := mergeMaps_settled h2 h3 h2.maps.length mr hc3
    (Nat.le_refl _) (by rw [hlen3]; exact Nat.lt_succ_self _) hu3 huR
  have hc04 : h.continuedBy h4 :=
    continuedBy_trans _ _ _ hc1 (continuedBy_trans _ _ _ hc2 hc4)
  have hle : h.maps.length ≤ h2.maps.length := Nat.le_trans hc1.2.1 hc2.2.1
  have hstart : (authorizeJoinExprOn larg rarg quals false false jointype isNatural usingClause
      joinAlias none false u).run h
      = ((wrapJoinAlias joinAlias (some h2.maps.length)).run h4 >>= fun p =>
          .ok (AuthorizationResultRef.mk true p.1 none, p.2)) := by
    simp only [authorizeJoinExprOn, run_bind, Bool.false_eq_true, if_false, run_pure,
      except_bind_ok, hrunL, hrunR, htabL, htabR, hmerge3, hmerge4, hauthL, hauthR,
      Bool.and_self, if_true]
  cases joinAlias with
  | none =>
    refine ⟨none, AuthorizationResultRef.mk true (some h2.maps.length) none, h4,
      h2.maps.length, ?_, rfl, rfl, rfl, hle, ?_, hc04, hu4⟩
    · rw [hstart]; rfl
    · rw [hlen4, hlen3]; exact Nat.lt_succ_self _
  | some a =>
    obtain ⟨h5, hrun5, hc5, hlt5, hu5⟩ := createVirtual_settled h4 a none h2.maps.length hu4 rfl
    refine ⟨none, AuthorizationResultRef.mk true (some h4.maps.length) none, h5,
      h4.maps.length, ?_, rfl, rfl, rfl, hc04.2.1, hlt5, continuedBy_trans _ _ _ hc04 hc5, hu5⟩
    rw [hstart]
    simp only [wrapJoinAlias, hrun5, except_bind_ok]

theorem subselectOn_settles (u : UserContext) (sub : Walk) (aliasNode : Option Alias)
    (tl : Option (List Node)) (hs : sub.settlesWith u tl)
    (htl : aliasNode.isSome = true → targetsResolvable tl = true) :
    (authorizeRangeSubselectOn sub false aliasNode).settles u := by
  intro h
  obtain ⟨res, h1, m, hrun, hauth, htab, htl1, hm0, hm1, hc1, hu1⟩ := hs h
  cases aliasNode with
  | none =>
    refine ⟨tl, res, h1, m, ?_, hauth, htab, htl1, hm0, hm1, hc1, hu1⟩
    simp only [authorizeRangeSubselectOn, run_bind, Bool.false_eq_true, if_false, run_pure,
      except_bind_ok, hrun]
  | some a =>
    obtain ⟨h2, hrun2, hc2, hlt2, hu2⟩ := createVirtual_settled h1 a tl m hu1 (htl rfl)
    refine ⟨none, AuthorizationResultRef.mk true (some h1.maps.length) none, h2,
      h1.maps.length, ?_, rfl, rfl, rfl, hc1.2.1, hlt2, continuedBy_trans _ _ _ hc1 hc2, hu2⟩
    simp only [authorizeRangeSubselectOn, run_bind, Bool.false_eq_true, if_false, run_pure,
      except_bind_ok, hrun, htab, htl1, hrun2, hauth]

/-- The CTE list of a supported statement, walked. -/
theorem withClause_leaves (s : AuthorizationServiceImpl) (u : UserContext) :
    ∀ (wc : Option (List Node)), cteEntries wc = true →
    ∃ cs, ctesLeave cs u (!hasCte wc) ∧
      ∀ (into : Bool) (op : SetOperation) (larg rarg : Walk) (items : List Walk)
        (w hv : Option Walk) (targetList : List Node),
        authorizeSelectStmtOn into (nodeSemListOpt s wc) op larg rarg items w hv targetList
          = authorizeSelectStmtOn into (some cs) op larg rarg items w hv targetList
  | none, _ => ⟨[], ctes_none u, fun into op larg rarg items w hv targetList => by
      simp only [nodeSemListOpt]
      exact selectOn_no_with into op larg rarg items w hv targetList⟩
  | some [], _ => ⟨[], ctes_none u, fun _ _ _ _ _ _ _ _ => by
      simp only [nodeSemListOpt, nodeSemList, List.map_nil]⟩
  | some (n :: rest), hall => ⟨(nodeSemList s (n :: rest)).map NodeSem.onHeap, by
      have := ctes_default s u (n :: rest) (by simpa [cteEntries] using hall)
      simpa [hasCte] using this, fun _ _ _ _ _ _ _ _ => by simp only [nodeSemListOpt]⟩

/-- The clause a supported statement with a CTE is credited by. -/
theorem clause_credits (s : AuthorizationServiceImpl) (u : UserContext)
    (wh hv : Option Node) (hcl : creditingClause wh hv = true) :
    (∃ x, whereSem s wh = some x ∧ x.credits u) ∨
      (whereSem s wh = none ∧ ∃ x, whereSem s hv = some x ∧ x.credits u) := by
  have hnode : ∀ n : Node, n.isEqualsComparison = true → (nodeSem s n).onHeap.credits u := by
    intro n hn
    cases n with
    | aExpr kind name l r =>
      cases name with
      | nil => simp [Node.isEqualsComparison] at hn
      | cons op more =>
        cases l with
        | none => simp [Node.isEqualsComparison] at hn
        | some l =>
          cases r with
          | none => simp [Node.isEqualsComparison] at hn
          | some r =>
            have hop : getStringValueFromNode (some op) = "=" := by
              simpa [Node.isEqualsComparison] using hn
            intro h m _ hs
            simp only [nodeSem, cloneNodeSem]
            exact comparison_settles _ kind op more l r u h m hop hs
    | _ => simp [Node.isEqualsComparison] at hn
  cases wh with
  | some w =>
    exact Or.inl ⟨_, rfl, hnode w (by simpa [creditingClause] using hcl)⟩
  | none =>
    cases hv with
    | some x => exact Or.inr ⟨rfl, _, rfl, hnode x (by simpa [creditingClause] using hcl)⟩
    | none => simp [creditingClause] at hcl

mutual
theorem fromItem_settles (s : AuthorizationServiceImpl) (u : UserContext)
    (isOpen : String → Bool) (hopen : ∀ r, isOpen r = true → relationOpen u r = true) :
    ∀ (n : Node), n.supportedFromItem isOpen = true → (nodeSem s n).onHeap.settles u
  | .rangeVar relname a, h =>
      rangeVar_settles s relname a u (hopen relname (by simpa [Node.supportedFromItem] using h))
  | .joinExpr jt nat larg rarg us al quals, h => by
      simp only [Node.supportedFromItem, Bool.and_eq_true] at h
      obtain ⟨hl, hln⟩ := side_settles s u isOpen hopen larg h.1
      obtain ⟨hr, hrn⟩ := side_settles s u isOpen hopen rarg h.2
      simp only [nodeSem, heapNodeSem, hln, hrn]
      exact joinOn_settles u _ _ _ jt nat us al hl hr
  | .rangeSubselect lateral sub al, h => by
      simp only [Node.supportedFromItem, Bool.and_eq_true, Bool.not_eq_true'] at h
      obtain ⟨tl, hs, htl⟩ := subquery_settles s u isOpen hopen sub al.isSome h.2
      simp only [nodeSem, heapNodeSem, h.1]
      exact subselectOn_settles u _ al tl hs htl
  | .selectStmt _, h => by simp [Node.supportedFromItem] at h
  | .boolExpr _ _, h => by simp [Node.supportedFromItem] at h
  | .aExpr _ _ _ _, h => by simp [Node.supportedFromItem] at h
  | .subLink _, h => by simp [Node.supportedFromItem] at h
  | .fromExpr _ _, h => by simp [Node.supportedFromItem] at h
  | .withClause _, h => by simp [Node.supportedFromItem] at h
  | .commonTableExpr _ _, h => by simp [Node.supportedFromItem] at h
  | .columnRef _, h => by simp [Node.supportedFromItem] at h
  | .aConst _, h => by simp [Node.supportedFromItem] at h
  | .string _, h => by simp [Node.supportedFromItem] at h
  | .integer _, h => by simp [Node.supportedFromItem] at h
  | .float _, h => by simp [Node.supportedFromItem] at h
  | .aStar, h => by simp [Node.supportedFromItem] at h
  | .rowExpr _, h => by simp [Node.supportedFromItem] at h
  | .list _, h => by simp [Node.supportedFromItem] at h
  | .resTarget _ _, h => by simp [Node.supportedFromItem] at h
  | .other _, h => by simp [Node.supportedFromItem] at h
theorem side_settles (s : AuthorizationServiceImpl) (u : UserContext) (isOpen : String → Bool)
    (hopen : ∀ r, isOpen r = true → relationOpen u r = true) :
    ∀ (n : Option Node), supportedSide isOpen n = true →
      (nodeSemOpt s n).onHeap.settles u ∧ n.isNone = false
  | some node, h => by
      refine ⟨?_, rfl⟩
      simp only [nodeSemOpt]
      exact fromItem_settles s u isOpen hopen node (by simpa [supportedSide] using h)
  | none, h => by simp [supportedSide] at h
theorem subquery_settles (s : AuthorizationServiceImpl) (u : UserContext)
    (isOpen : String → Bool) (hopen : ∀ r, isOpen r = true → relationOpen u r = true) :
    ∀ (sub : Option Node) (aliased : Bool), supportedSubquery isOpen aliased sub = true →
      ∃ tl, (nodeSemOpt s sub).onHeap.settlesWith u tl ∧
        (aliased = true → targetsResolvable tl = true)
  | some (.selectStmt stmt), aliased, h => by
      simp only [supportedSubquery, Bool.and_eq_true, Bool.or_eq_true, Bool.not_eq_true'] at h
      refine ⟨stmt.resultTargetList, ?_, ?_⟩
      · simp only [nodeSemOpt, nodeSem, heapNodeSem]
        exact select_settlesWith s u isOpen hopen stmt h.1
      · intro ha
        rcases h.2 with h2 | h2
        · rw [ha] at h2; cases h2
        · exact h2
  | none, _, h => by simp [supportedSubquery] at h
  | some (.boolExpr _ _), _, h => by simp [supportedSubquery] at h
  | some (.aExpr _ _ _ _), _, h => by simp [supportedSubquery] at h
  | some (.subLink _), _, h => by simp [supportedSubquery] at h
  | some (.joinExpr _ _ _ _ _ _ _), _, h => by simp [supportedSubquery] at h
  | some (.fromExpr _ _), _, h => by simp [supportedSubquery] at h
  | some (.rangeVar _ _), _, h => by simp [supportedSubquery] at h
  | some (.rangeSubselect _ _ _), _, h => by simp [supportedSubquery] at h
  | some (.withClause _), _, h => by simp [supportedSubquery] at h
  | some (.commonTableExpr _ _), _, h => by simp [supportedSubquery] at h
  | some (.columnRef _), _, h => by simp [supportedSubquery] at h
  | some (.aConst _), _, h => by simp [supportedSubquery] at h
  | some (.string _), _, h => by simp [supportedSubquery] at h
  | some (.integer _), _, h => by simp [supportedSubquery] at h
  | some (.float _), _, h => by simp [supportedSubquery] at h
  | some (.aStar), _, h => by simp [supportedSubquery] at h
  | some (.rowExpr _), _, h => by simp [supportedSubquery] at h
  | some (.list _), _, h => by simp [supportedSubquery] at h
  | some (.resTarget _ _), _, h => by simp [supportedSubquery] at h
  | some (.other _), _, h => by simp [supportedSubquery] at h
theorem select_settlesWith (s : AuthorizationServiceImpl) (u : UserContext)
    (isOpen : String → Bool) (hopen : ∀ r, isOpen r = true → relationOpen u r = true) :
    ∀ (stmt : SelectStmt), stmt.supported isOpen = true →
      (selectSem s stmt).settlesWith u stmt.resultTargetList
  | .mk true wc op larg rarg items wh hv tl, _ => by
      simp only [selectSem, SelectStmt.resultTargetList, if_true]
      exact selectOn_into_settles u _ op _ _ _ _ _ tl
  | .mk false wc .SETOP_UNION larg rarg items wh hv tl, h => by
      simp only [SelectStmt.supported, Bool.false_or, Bool.and_eq_true] at h
      obtain ⟨cs, hcs, heq⟩ := withClause_leaves s u wc h.1
      simp only [selectSem, SelectStmt.resultTargetList, Bool.false_eq_true, if_false, heq]
      exact selectOn_union_settles u cs _ _ _ _ _ _ tl _ _ hcs
        (selectOpt_settlesWith s u isOpen hopen larg h.2.1)
        (selectOpt_settlesWith s u isOpen hopen rarg h.2.2)
  | .mk false wc .SETOP_INTERSECT larg rarg items wh hv tl, h => by
      simp only [SelectStmt.supported, Bool.false_or, Bool.and_eq_true] at h
      obtain ⟨cs, hcs, heq⟩ := withClause_leaves s u wc h.1
      simp only [selectSem, SelectStmt.resultTargetList, Bool.false_eq_true, if_false, heq]
      exact selectOn_intersect_settles u cs _ _ _ _ _ _ tl _ _ hcs
        (selectOpt_settlesWith s u isOpen hopen larg h.2.1)
        (selectOpt_settlesWith s u isOpen hopen rarg h.2.2)
  | .mk false wc .SETOP_EXCEPT larg rarg items wh hv tl, h => by
      simp only [SelectStmt.supported, Bool.false_or, Bool.and_eq_true] at h
      obtain ⟨cs, hcs, heq⟩ := withClause_leaves s u wc h.1
      simp only [selectSem, SelectStmt.resultTargetList, Bool.false_eq_true, if_false, heq]
      exact selectOn_except_settles u cs _ _ _ _ _ _ tl _ hcs
        (selectOpt_settlesWith s u isOpen hopen larg h.2)
  | .mk false wc .SETOP_NONE larg rarg items wh hv tl, h => by
      simp only [SelectStmt.supported, Bool.false_or, Bool.and_eq_true, Bool.or_eq_true,
        Bool.not_eq_true'] at h
      obtain ⟨cs, hcs, heq⟩ := withClause_leaves s u wc h.1
      simp only [selectSem, SelectStmt.resultTargetList, Bool.false_eq_true, if_false, heq]
      rcases h.2.2 with hno | hcl
      · rw [hno] at hcs
        exact selectOn_plain_settles u cs _ _ _ _ _ _ tl (by decide) (by decide) (by decide)
          hcs (fromItems_settle s u isOpen hopen items h.2.1)
      · cases hwc : hasCte wc with
        | false =>
          rw [hwc] at hcs
          exact selectOn_plain_settles u cs _ _ _ _ _ _ tl (by decide) (by decide) (by decide)
            hcs (fromItems_settle s u isOpen hopen items h.2.1)
        | true =>
          rw [hwc] at hcs
          exact selectOn_plain_credits u cs _ _ _ _ _ _ tl (by decide) (by decide) (by decide)
            hcs (fromItems_settle s u isOpen hopen items h.2.1) (clause_credits s u wh hv hcl)
  | .mk false wc .SET_OPERATION_UNDEFINED larg rarg items wh hv tl, h => by
      simp only [SelectStmt.supported, Bool.false_or, Bool.and_eq_true, Bool.or_eq_true,
        Bool.not_eq_true'] at h
      obtain ⟨cs, hcs, heq⟩ := withClause_leaves s u wc h.1
      simp only [selectSem, SelectStmt.resultTargetList, Bool.false_eq_true, if_false, heq]
      rcases h.2.2 with hno | hcl
      · rw [hno] at hcs
        exact selectOn_plain_settles u cs _ _ _ _ _ _ tl (by decide) (by decide) (by decide)
          hcs (fromItems_settle s u isOpen hopen items h.2.1)
      · cases hwc : hasCte wc with
        | false =>
          rw [hwc] at hcs
          exact selectOn_plain_settles u cs _ _ _ _ _ _ tl (by decide) (by decide) (by decide)
            hcs (fromItems_settle s u isOpen hopen items h.2.1)
        | true =>
          rw [hwc] at hcs
          exact selectOn_plain_credits u cs _ _ _ _ _ _ tl (by decide) (by decide) (by decide)
            hcs (fromItems_settle s u isOpen hopen items h.2.1) (clause_credits s u wh hv hcl)
theorem selectOpt_settlesWith (s : AuthorizationServiceImpl) (u : UserContext)
    (isOpen : String → Bool) (hopen : ∀ r, isOpen r = true → relationOpen u r = true) :
    ∀ (stmt : Option SelectStmt), supportedOpt isOpen stmt = true →
      (selectSemOpt s stmt).settlesWith u (resultTargetListOpt stmt)
  | none, _ => by
      simp only [resultTargetListOpt]
      exact selectOpt_none_settles s u
  | some stmt, h => by
      simp only [resultTargetListOpt, selectSemOpt]
      exact select_settlesWith s u isOpen hopen stmt (by simpa [supportedOpt] using h)
theorem fromItems_settle (s : AuthorizationServiceImpl) (u : UserContext)
    (isOpen : String → Bool) (hopen : ∀ r, isOpen r = true → relationOpen u r = true) :
    ∀ (items : List Node), supportedFromItems isOpen items = true →
      ∀ w ∈ (nodeSemList s items).map NodeSem.onHeap, w.settles u
  | [], _ => by simp [nodeSemList]
  | n :: rest, h => by
      simp only [supportedFromItems, Bool.and_eq_true] at h
      intro w hw
      simp only [nodeSemList, List.map_cons, List.mem_cons] at hw
      rcases hw with hw | hw
      · subst hw; exact fromItem_settles s u isOpen hopen n h.1
      · exact fromItems_settle s u isOpen hopen rest h.2 w hw
end

/-- Counterexample to C3: for an admin caller, the statement
`WITH x AS (SELECT * FROM student) SELECT * FROM x` is walked without error
and comes back not authorized, a statement with a LATERAL item comes back as
an error, and a statement with a function item in FROM ends in a panic
(`MergeMaps` ranges over the nil map of the result). -/
theorem admin_refused_outside_supported_statements :
    verdictOf (validateStatement mockService selectFromCte (adminCaller 1)) = some (some false) ∧
    verdictOf (validateStatement mockService selectFromLateral (adminCaller 1)) = some none ∧
    verdictOf (validateStatement mockService selectFromFunction (adminCaller 1)) = none := by
  decide!

/-- C3 (amended): for every admin caller and every SELECT statement that has
an INTO clause, or whose WITH clause (if any) lists CTEs and that is a UNION
or INTERSECT of such statements (or nil operands), an EXCEPT whose left
operand is such a statement, or a plain SELECT whose FROM items are only
relation references, joins of such items and non-LATERAL subselects over such
statements (whose targets, when the subselect has an alias, are not
single-name column references) and which, when its WITH clause lists a CTE,
has as its WHERE clause (or, when it has no WHERE clause, as its HAVING
clause) a comparison with the operator `=` and both operands,
`AuthorizeNode` from a nil relation map with `neg = false` returns without
error and with `Authorized = true`. -/
theorem admin_open_select_authorized (s : AuthorizationServiceImpl) (u : UserContext)
    (stmt : SelectStmt) (hadmin : u.GetRole = "admin")
    (hsup : stmt.supported (fun _ => true) = true) :
    validateStatement s (.selectStmt stmt) u = .ok true := by
  obtain ⟨res, h', m, hrun, hauth, _⟩ := select_settlesWith s u (fun _ => true)
    (fun r _ => by simp [relationOpen, hadmin]) stmt hsup {}
  have hnode : AuthorizeNode s (some (.selectStmt stmt)) = selectSem s stmt := by
    simp only [AuthorizeNode, nodeSemOpt, nodeSem, heapNodeSem]
  simp only [validateStatement, hnode, hrun, hauth]

theorem admin_open_select_authorized_witness :
    (adminCaller 1).GetRole = "admin" ∧
    selectFromCteWhereTrue.supported (fun _ => true) = true ∧
    validateStatement mockService (.selectStmt selectFromCteWhereTrue) (adminCaller 1)
      = .ok true :=
  ⟨rfl, by decide, admin_open_select_authorized mockService (adminCaller 1)
    selectFromCteWhereTrue rfl (by decide)⟩

/-- The statement of `admin_open_select_authorized` at a statement without a
WITH clause: a UNION over a join and a subselect. -/
theorem admin_join_union_authorized :
    selectJoinUnion.supported (fun _ => true) = true ∧
    verdictOf (validateStatement mockService (.selectStmt selectJoinUnion) (adminCaller 1))
      = some (some true) := by
  refine ⟨?_, ?_⟩ <;> decide!

/-- A statement with a CTE is decided, for an admin caller, by the clause that
is walked after the FROM items: `WITH x AS (SELECT * FROM student) SELECT *
FROM x` comes back not authorized, with `WHERE 1 = 2` or `HAVING 1 = 2` it
comes back authorized, and with `WHERE 1 < 2` not authorized. -/
theorem with_statement_decided_by_clause :
    verdictOf (validateStatement mockService (selectFromCteWith none none) (adminCaller 1))
      = some (some false) ∧
    verdictOf (validateStatement mockService
      (selectFromCteWith (some (intComparison "=" 1 2)) none) (adminCaller 1))
      = some (some true) ∧
    verdictOf (validateStatement mockService
      (selectFromCteWith none (some (intComparison "=" 1 2))) (adminCaller 1))
      = some (some true) ∧
    verdictOf (validateStatement mockService
      (selectFromCteWith (some (intComparison "<" 1 2)) none) (adminCaller 1))
      = some (some false) := by
  refine ⟨?_, ?_, ?_, ?_⟩ <;> decide!

end Db
